import Mathlib

/-! Runtime values of the Gno virtual machine (`gnovm/pkg/gnolang/values.go`).

A shallow embedding of the value layer: typed value slots, the primitive byte
encoding, the canonical map-key encoding, the insertion-ordered map, the
copy rule of value slots, indexing and slicing of arrays and slices, the
loading of placeholders, blocks and selectors, the setters and the sign of a
slot, and the image of a map list.

Conventions of the embedding.

* A byte string (`[]byte`, `string`, `MapKey`) is a `List Nat` of byte values.
* The inline numeric buffer `TypedValue.N` (`[8]byte`) is the 64-bit word the
  `unsafe` casts of the accessors read on a little-endian host; an accessor of
  width `w` reads the low `w` bits.
* A Go `panic` is the `Except.error` result.
* In the by-value model values are hydrated: `fillValueTV` finds no
  `RefValue` placeholder and returns its argument. The object-heap model
  (`Gno.Heap`) has the placeholders and `fillValueTV` itself.
* `types.go` is not part of the sources read here. The shape of a type
  (`baseOf`, `Kind`, element and field types) is embedded as a datatype, and
  the bytes of a type identity, of a machine address and of a quoted package
  path are parameters (`Externals`).
-/

namespace Gno

/-- Byte strings. -/
abbrev Bytes := List Nat

/-- The kinds a type can have (`Type.Kind()`). -/
inductive Kind where
  | InvalidKind | BoolKind | StringKind
  | IntKind | Int8Kind | Int16Kind | Int32Kind | Int64Kind
  | UintKind | Uint8Kind | Uint16Kind | Uint32Kind | Uint64Kind
  | Float32Kind | Float64Kind | BigintKind | BigdecKind
  | ArrayKind | SliceKind | PointerKind | StructKind | PackageKind
  | InterfaceKind | ChanKind | FuncKind | MapKind | TypeKind | HeapItemKind
  deriving DecidableEq

/-- The primitive types named in `values.go` (`BoolType`, `StringType`, ...). -/
inductive PrimitiveType where
  | InvalidType | UntypedBoolType | BoolType | UntypedStringType | StringType
  | IntType | Int8Type | Int16Type | UntypedRuneType | Int32Type | Int64Type
  | UintType | Uint8Type | DataByteType | Uint16Type | Uint32Type | Uint64Type
  | Float32Type | Float64Type
  | UntypedBigintType | BigintType | UntypedBigdecType | BigdecType
  deriving DecidableEq

mutual
/-- Types, as far as `values.go` inspects them: the base-type switch of
`ComputeMapKey`, element and field types, declared types over a base, and the
type `heapItemType` of a slot that holds a heap item. -/
inductive GType where
  | PrimitiveType (pt : PrimitiveType)
  | PointerType (Elt : GType)
  | FieldType (ft : FieldType)
  | ArrayType (Len : Nat) (Elt : GType)
  | SliceType (Elt : GType)
  | StructType (Fields : List FieldType)
  | FuncType
  | MapType (Key : GType) (Value : GType)
  | InterfaceType
  | TypeType
  | DeclaredType (Name : Bytes) (Base : GType)
  | PackageType
  | ChanType (Elt : GType)
  | heapItemType
/-- A struct field declaration: its name and its declared (static) type. -/
inductive FieldType where
  | mk (Name : Bytes) (Typ : GType)
end

/-- The declared type of a field. -/
def FieldType.type : FieldType → GType
  | .mk _ t => t

/-- The function `baseOf`: a declared type is replaced by its base. -/
def baseOf : GType → GType
  | .DeclaredType _ base => base
  | t => t

/-- The kind of a primitive type. -/
def PrimitiveType.Kind : PrimitiveType → Kind
  | .InvalidType => .InvalidKind
  | .UntypedBoolType => .BoolKind
  | .BoolType => .BoolKind
  | .UntypedStringType => .StringKind
  | .StringType => .StringKind
  | .IntType => .IntKind
  | .Int8Type => .Int8Kind
  | .Int16Type => .Int16Kind
  | .UntypedRuneType => .Int32Kind
  | .Int32Type => .Int32Kind
  | .Int64Type => .Int64Kind
  | .UintType => .UintKind
  | .Uint8Type => .Uint8Kind
  | .DataByteType => .Uint8Kind
  | .Uint16Type => .Uint16Kind
  | .Uint32Type => .Uint32Kind
  | .Uint64Type => .Uint64Kind
  | .Float32Type => .Float32Kind
  | .Float64Type => .Float64Kind
  | .UntypedBigintType => .BigintKind
  | .BigintType => .BigintKind
  | .UntypedBigdecType => .BigdecKind
  | .BigdecType => .BigdecKind

mutual
/-- The method `Type.Kind()`: a declared type has the kind of its base, a
field pseudo-type the kind of the field's type. -/
def GType.Kind : GType → Kind
  | .PrimitiveType pt => pt.Kind
  | .PointerType _ => .PointerKind
  | .FieldType ft => FieldType.Kind ft
  | .ArrayType _ _ => .ArrayKind
  | .SliceType _ => .SliceKind
  | .StructType _ => .StructKind
  | .FuncType => .FuncKind
  | .MapType _ _ => .MapKind
  | .InterfaceType => .InterfaceKind
  | .TypeType => .TypeKind
  | .DeclaredType _ base => GType.Kind base
  | .PackageType => .PackageKind
  | .ChanType _ => .ChanKind
  | .heapItemType => .HeapItemKind
/-- The kind of a field pseudo-type. -/
def FieldType.Kind : FieldType → Kind
  | .mk _ t => GType.Kind t
end

mutual
/-- The payload `V` of a value slot. A pointer payload is the machine address
of the slot it points to; slices, maps and funcs are handles. -/
inductive Value where
  | StringValue (s : Bytes)
  | BigintValue (V : Int)
  | BigdecValue (V : Int)
  | PointerValue (TV : Nat)
  | ArrayValue (Elems : List TypedValue) (Data : Option Bytes)
  | SliceValue (Base : Nat) (Offset : Int) (Length : Int) (Maxcap : Int)
  | StructValue (Fields : List TypedValue)
  | FuncValue (id : Nat)
  | MapValue (id : Nat)
  | TypeValue (Typ : GType)
  | PackageValue (PkgPath : Bytes)
/-- The value slot `TypedValue{T, V, N}`; `T = none` and `V = none` are the
Go `nil`. -/
inductive TypedValue where
  | mk (T : Option GType) (V : Option Value) (N : Nat)
end

/-- The field `T` of a slot. -/
def TypedValue.T : TypedValue → Option GType
  | .mk t _ _ => t

/-- The field `V` of a slot. -/
def TypedValue.V : TypedValue → Option Value
  | .mk _ v _ => v

/-- The field `N` of a slot, as a 64-bit word. -/
def TypedValue.N : TypedValue → Nat
  | .mk _ _ n => n

/-- What `values.go` takes from outside: the bytes of a type identity
(`Type.TypeID().Bytes()`), of a machine address (`uintptrToBytes`) and of a
quoted package path (`strconv.Quote`). -/
structure Externals where
  typeID : GType → Bytes
  uintptrToBytes : Nat → Bytes
  quote : Bytes → Bytes

/-- The constant `nilStr`, the bytes of "nil". -/
def nilStr : Bytes := [110, 105, 108]

/-- Two's-complement reading of the low `w` bits of a word. -/
def toSigned (w : Nat) (u : Nat) : Int :=
  if u % 2 ^ w < 2 ^ (w - 1) then ((u % 2 ^ w : Nat) : Int)
  else ((u % 2 ^ w : Nat) : Int) - 2 ^ w

/-- The Go conversion of a signed integer to the unsigned type of width `w`. -/
def toUnsigned (w : Nat) (x : Int) : Nat := (x % 2 ^ w).toNat

/-- The functions `binary.LittleEndian.PutUint16/32/64`: `n` bytes of `v`,
least significant first. -/
def putUintLE : Nat → Nat → Bytes
  | 0, _ => []
  | n + 1, v => v % 256 :: putUintLE n (v / 256)

/-- Reading `n` little-endian bytes back. -/
def getUintLE : Bytes → Nat
  | [] => 0
  | b :: bs => b + 256 * getUintLE bs

/-- The accessor `GetBool`: the first byte of `N` read as a bool. -/
def TypedValue.GetBool (tv : TypedValue) : Bool := tv.N % 256 != 0

/-- The accessor `GetString`. -/
def TypedValue.GetString (tv : TypedValue) : Except String Bytes :=
  match tv.V with
  | none => .ok []
  | some (.StringValue s) => .ok s
  | some _ => .error "interface conversion: Value is not StringValue"

/-- The accessor `GetInt8`. -/
def TypedValue.GetInt8 (tv : TypedValue) : Int := toSigned 8 tv.N

/-- The accessor `GetInt16`. -/
def TypedValue.GetInt16 (tv : TypedValue) : Int := toSigned 16 tv.N

/-- The accessor `GetInt32`. -/
def TypedValue.GetInt32 (tv : TypedValue) : Int := toSigned 32 tv.N

/-- The accessor `GetInt` (an `int64`). -/
def TypedValue.GetInt (tv : TypedValue) : Int := toSigned 64 tv.N

/-- The accessor `GetInt64`. -/
def TypedValue.GetInt64 (tv : TypedValue) : Int := toSigned 64 tv.N

/-- The accessor `GetUint8`. -/
def TypedValue.GetUint8 (tv : TypedValue) : Nat := tv.N % 2 ^ 8

/-- The accessor `GetUint16`. -/
def TypedValue.GetUint16 (tv : TypedValue) : Nat := tv.N % 2 ^ 16

/-- The accessor `GetUint32`. -/
def TypedValue.GetUint32 (tv : TypedValue) : Nat := tv.N % 2 ^ 32

/-- The accessor `GetUint` (a `uint64`). -/
def TypedValue.GetUint (tv : TypedValue) : Nat := tv.N % 2 ^ 64

/-- The accessor `GetUint64`. -/
def TypedValue.GetUint64 (tv : TypedValue) : Nat := tv.N % 2 ^ 64

/-- The accessor `GetFloat32`: the bit pattern, a `uint32`. -/
def TypedValue.GetFloat32 (tv : TypedValue) : Nat := tv.N % 2 ^ 32

/-- The accessor `GetFloat64`: the bit pattern, a `uint64`. -/
def TypedValue.GetFloat64 (tv : TypedValue) : Nat := tv.N % 2 ^ 64

/-- The method `TypedValue.PrimitiveBytes`: a switch on `baseOf(tv.T)`. -/
def TypedValue.PrimitiveBytes (tv : TypedValue) : Except String Bytes :=
  match tv.T.map baseOf with
  | some (.PrimitiveType .BoolType) =>
    if tv.GetBool then .ok [1] else .ok [0]
  | some (.PrimitiveType .StringType) => tv.GetString
  | some (.PrimitiveType .Int8Type) => .ok [toUnsigned 8 tv.GetInt8]
  | some (.PrimitiveType .Int16Type) => .ok (putUintLE 2 (toUnsigned 16 tv.GetInt16))
  | some (.PrimitiveType .Int32Type) => .ok (putUintLE 4 (toUnsigned 32 tv.GetInt32))
  | some (.PrimitiveType .IntType) => .ok (putUintLE 8 (toUnsigned 64 tv.GetInt))
  | some (.PrimitiveType .Int64Type) => .ok (putUintLE 8 (toUnsigned 64 tv.GetInt))
  | some (.PrimitiveType .Uint8Type) => .ok [tv.GetUint8]
  | some (.PrimitiveType .Uint16Type) => .ok (putUintLE 2 tv.GetUint16)
  | some (.PrimitiveType .Uint32Type) => .ok (putUintLE 4 tv.GetUint32)
  | some (.PrimitiveType .UintType) => .ok (putUintLE 8 tv.GetUint)
  | some (.PrimitiveType .Uint64Type) => .ok (putUintLE 8 tv.GetUint)
  | some (.PrimitiveType .Float32Type) => .ok (putUintLE 4 tv.GetFloat32)
  | some (.PrimitiveType .Float64Type) => .ok (putUintLE 8 tv.GetFloat64)
  | _ => .error "unexpected primitive value type"

/-- The body of `TypedValue.ComputeMapKey` for a slot with a type: the optional
type prefix, then the switch on `baseOf(tv.T)`. The two loops of the array and
struct cases are passed in as `elemKeys` (given `omitTypes`) and `fieldKeys`
(given `bt.Fields`); `ComputeMapKey` below supplies them. -/
def computeMapKeyCases (ext : Externals) (t : GType) (v : Option Value) (n : Nat)
    (omitType : Bool) (elemKeys : Bool → Except String Bytes)
    (fieldKeys : List FieldType → Except String Bytes) : Except String Bytes :=
  let bz : Bytes := if omitType then [] else ext.typeID t ++ [58]
  match baseOf t with
  | .PrimitiveType _ =>
    match (TypedValue.mk (some t) v n).PrimitiveBytes with
    | .ok pbz => .ok (bz ++ pbz)
    | .error e => .error e
  | .PointerType _ =>
    match v with
    | some (.PointerValue p) => .ok (bz ++ ext.uintptrToBytes p)
    | _ => .error "interface conversion: Value is not PointerValue"
  | .FieldType _ => .error "field (pseudo)type cannot be used as map key"
  | .ArrayType _ elt =>
    match v with
    | some (.ArrayValue _ none) =>
      match elemKeys (elt.Kind != Kind.InterfaceKind) with
      | .ok body => .ok (bz ++ [91] ++ body ++ [93])
      | .error e => .error e
    | some (.ArrayValue _ (some data)) => .ok (bz ++ [91] ++ data ++ [93])
    | _ => .error "interface conversion: Value is not *ArrayValue"
  | .SliceType _ => .error "slice type cannot be used as map key"
  | .StructType fts =>
    match v with
    | some (.StructValue _) =>
      match fieldKeys fts with
      | .ok body => .ok (bz ++ [123] ++ body ++ [125])
      | .error e => .error e
    | _ => .error "interface conversion: Value is not *StructValue"
  | .FuncType => .error "func type cannot be used as map key"
  | .MapType _ _ => .error "map type cannot be used as map key"
  | .InterfaceType => .error "should not happen"
  | .PackageType =>
    match v with
    | some (.PackageValue path) => .ok (bz ++ ext.quote path)
    | _ => .error "interface conversion: Value is not *PackageValue"
  | .ChanType _ => .error "not yet implemented"
  | _ => .error "unexpected map key type"

mutual
/-- The method `TypedValue.ComputeMapKey(store, omitType)`: "nil" for a slot
without a type, else `computeMapKeyCases` with the loops over `av.List` and
`sv.Fields`. -/
def TypedValue.ComputeMapKey (ext : Externals) : TypedValue → Bool → Except String Bytes
  | .mk none _ _, _ => .ok nilStr
  | .mk (some t) (some (.ArrayValue l d)) n, omitType =>
    computeMapKeyCases ext t (some (.ArrayValue l d)) n omitType
      (fun omitTypes => arrayElemKeys ext omitTypes l) (fun _ => .ok [])
  | .mk (some t) (some (.StructValue fs)) n, omitType =>
    computeMapKeyCases ext t (some (.StructValue fs)) n omitType
      (fun _ => .ok []) (fun fts => structFieldKeys ext fts fs)
  | .mk (some t) v n, omitType =>
    computeMapKeyCases ext t v n omitType (fun _ => .ok []) (fun _ => .ok [])
/-- The element loop of the array case: the keys of the elements, computed
with the same `omitTypes`, with a ',' after every element but the last. -/
def arrayElemKeys (ext : Externals) (omitTypes : Bool) : List TypedValue → Except String Bytes
  | [] => .ok []
  | [ev] => TypedValue.ComputeMapKey ext ev omitTypes
  | ev :: e2 :: rest =>
    match TypedValue.ComputeMapKey ext ev omitTypes with
    | .ok k =>
      match arrayElemKeys ext omitTypes (e2 :: rest) with
      | .ok ks => .ok (k ++ [44] ++ ks)
      | .error e => .error e
    | .error e => .error e
/-- The field loop of the struct case: field `i` is keyed with `omitTypes`
taken from the declared type `bt.Fields[i].Type`, with a ',' after every field
but the last. -/
def structFieldKeys (ext : Externals) : List FieldType → List TypedValue → Except String Bytes
  | _, [] => .ok []
  | [], _ :: _ => .error "index out of range"
  | ft :: _, [fv] => TypedValue.ComputeMapKey ext fv (ft.type.Kind != Kind.InterfaceKind)
  | ft :: fts, fv :: f2 :: rest =>
    match TypedValue.ComputeMapKey ext fv (ft.type.Kind != Kind.InterfaceKind) with
    | .ok k =>
      match structFieldKeys ext fts (f2 :: rest) with
      | .ok ks => .ok (k ++ [44] ++ ks)
      | .error e => .error e
    | .error e => .error e
end

/-- The width in bytes the specification gives for a primitive base type:
1 for bool, int8 and uint8, 2 for the 16-bit types, 4 for the 32-bit types and
float32, 8 for int, int64, uint, uint64 and float64. -/
def PrimitiveType.encWidth : PrimitiveType → Option Nat
  | .BoolType => some 1
  | .Int8Type => some 1
  | .Uint8Type => some 1
  | .Int16Type => some 2
  | .Uint16Type => some 2
  | .Int32Type => some 4
  | .Uint32Type => some 4
  | .Float32Type => some 4
  | .IntType => some 8
  | .Int64Type => some 8
  | .UintType => some 8
  | .Uint64Type => some 8
  | .Float64Type => some 8
  | _ => none

/-- The signed integer types. -/
def PrimitiveType.isSigned : PrimitiveType → Bool
  | .Int8Type => true
  | .Int16Type => true
  | .Int32Type => true
  | .IntType => true
  | .Int64Type => true
  | _ => false

/-- The value of a slot of a fixed-width primitive type, as its typed accessor
reads it (a bool as 0 or 1, a float as its bit pattern). -/
def TypedValue.scalar (pt : PrimitiveType) (tv : TypedValue) : Int :=
  match pt with
  | .BoolType => if tv.GetBool then 1 else 0
  | .Int8Type => tv.GetInt8
  | .Int16Type => tv.GetInt16
  | .Int32Type => tv.GetInt32
  | .IntType => tv.GetInt
  | .Int64Type => tv.GetInt64
  | .Uint8Type => tv.GetUint8
  | .Uint16Type => tv.GetUint16
  | .Uint32Type => tv.GetUint32
  | .UintType => tv.GetUint
  | .Uint64Type => tv.GetUint64
  | .Float32Type => tv.GetFloat32
  | .Float64Type => tv.GetFloat64
  | _ => 0

/-- Decoding little-endian bytes at their width: the unsigned number, or its
two's-complement reading for a signed type. -/
def decodeLE (signed : Bool) (bs : Bytes) : Int :=
  if signed then toSigned (8 * bs.length) (getUintLE bs) else (getUintLE bs : Int)

/-- The element loop of a payload: the loop over `av.List` for an array
payload. -/
def elemKeysOf (ext : Externals) (v : Option Value) (omitTypes : Bool) : Except String Bytes :=
  match v with
  | some (.ArrayValue l _) => arrayElemKeys ext omitTypes l
  | _ => .ok []

/-- The field loop of a payload: the loop over `sv.Fields` for a struct
payload. -/
def fieldKeysOf (ext : Externals) (v : Option Value) (fts : List FieldType) :
    Except String Bytes :=
  match v with
  | some (.StructValue fs) => structFieldKeys ext fts fs
  | _ => .ok []

/-- The base types `ComputeMapKey` refuses: slice, map, func and channel. -/
def GType.isUnkeyable : GType → Bool
  | .SliceType _ => true
  | .MapType _ _ => true
  | .FuncType => true
  | .ChanType _ => true
  | _ => false

/-- Whether a type is an array type. -/
def GType.isArrayType : GType → Bool
  | .ArrayType _ _ => true
  | _ => false

/-- Whether a type is a struct type. -/
def GType.isStructType : GType → Bool
  | .StructType _ => true
  | _ => false

mutual
/-- A slot whose base type is a slice, map, func or channel type, or a
list-represented array or a struct that holds such a slot as an element or
field at any depth. -/
def TypedValue.containsUnkeyable : TypedValue → Bool
  | .mk none _ _ => false
  | .mk (some t) (some (.ArrayValue l d)) _ =>
    (baseOf t).isUnkeyable || ((baseOf t).isArrayType && d.isNone && anyUnkeyable l)
  | .mk (some t) (some (.StructValue fs)) _ =>
    (baseOf t).isUnkeyable || ((baseOf t).isStructType && anyUnkeyable fs)
  | .mk (some t) _ _ => (baseOf t).isUnkeyable
/-- Some slot of the list contains an unkeyable slot. -/
def anyUnkeyable : List TypedValue → Bool
  | [] => false
  | x :: xs => x.containsUnkeyable || anyUnkeyable xs
end

/-- The keyable leaves and composites of `isKeyable`, given the results for
the elements (`elems`) and fields (`fields`) of the payload: a primitive of a
type `PrimitiveBytes` encodes (a string with a string payload or none), a
pointer with a pointer payload, a package with a package payload, an array
payload under an array type, a struct payload with no more fields than the
struct type declares. -/
def isKeyableCases (t : GType) (v : Option Value) (elems fields : Bool) : Bool :=
  match baseOf t with
  | .PrimitiveType .StringType =>
    match v with
    | none => true
    | some (.StringValue _) => true
    | _ => false
  | .PrimitiveType pt => pt.encWidth.isSome
  | .PointerType _ =>
    match v with
    | some (.PointerValue _) => true
    | _ => false
  | .PackageType =>
    match v with
    | some (.PackageValue _) => true
    | _ => false
  | .ArrayType _ _ =>
    match v with
    | some (.ArrayValue _ none) => elems
    | some (.ArrayValue _ (some _)) => true
    | _ => false
  | .StructType fts =>
    match v with
    | some (.StructValue fs) => decide (fs.length ≤ fts.length) && fields
    | _ => false
  | _ => false

mutual
/-- A slot built only from encodable primitives, non-nil pointers, packages,
arrays and structs (or without a type: the nil interface value). -/
def TypedValue.isKeyable : TypedValue → Bool
  | .mk none _ _ => true
  | .mk (some t) (some (.ArrayValue l d)) _ =>
    isKeyableCases t (some (.ArrayValue l d)) (allKeyable l) true
  | .mk (some t) (some (.StructValue fs)) _ =>
    isKeyableCases t (some (.StructValue fs)) true (allKeyable fs)
  | .mk (some t) v _ => isKeyableCases t v true true
/-- Every slot of the list is keyable. -/
def allKeyable : List TypedValue → Bool
  | [] => true
  | x :: xs => x.isKeyable && allKeyable xs
end

/-- The method `ArrayValue.GetReadonlyBytes`: the raw buffer, or the bytes of
the elements of a list-represented byte array. -/
def GetReadonlyBytes : List TypedValue → Option Bytes → Except String Bytes
  | _, some data => .ok data
  | [], none => .ok []
  | tv :: rest, none =>
    match tv.T with
    | none => .error "nil pointer dereference"
    | some t =>
      if t.Kind != Kind.Uint8Kind then .error "expected byte kind"
      else
        match GetReadonlyBytes rest none with
        | .ok bz => .ok (tv.GetUint8 :: bz)
        | .error e => .error e

/-- Equality of two slots of one primitive type: equal strings, equal scalar
values at the encoded types, equal payload and buffer otherwise. -/
def samePrimitive (pt : PrimitiveType) (a b : TypedValue) : Prop :=
  match pt with
  | .StringType => a.GetString = b.GetString
  | pt => if pt.encWidth.isSome then a.scalar pt = b.scalar pt else a.V = b.V ∧ a.N = b.N

/-- Structural equality of a slot `a` of type `t` with a slot `b`, given the
comparison of the array payloads (`elems`) and of the struct payloads
(`fields`): the same type, and equal primitives, equal elements, equal fields,
or the same payload handle. -/
def sameValueCases (t : GType) (a b : TypedValue) (elems fields : Prop) : Prop :=
  b.T = some t ∧
  match baseOf t with
  | .PrimitiveType pt => samePrimitive pt a b
  | .ArrayType _ _ => elems
  | .StructType _ => fields
  | _ => a.V = b.V

mutual
/-- Structural equality of two slots. Two arrays are compared element by
element or buffer against buffer; with `cross` set, a list-represented byte
array also equals the raw byte buffer holding the same bytes. -/
def sameValue (cross : Bool) : TypedValue → TypedValue → Prop
  | .mk none _ _, b => b.T = none
  | .mk (some t) (some (.ArrayValue l1 d1)) n1, b =>
    sameValueCases t (.mk (some t) (some (.ArrayValue l1 d1)) n1) b
      (match d1, b.V with
        | none, some (.ArrayValue l2 none) => sameValues cross l1 l2
        | some x, some (.ArrayValue _ (some y)) => x = y
        | none, some (.ArrayValue _ (some y)) =>
          cross = true ∧ GetReadonlyBytes l1 none = .ok y
        | some x, some (.ArrayValue l2 none) =>
          cross = true ∧ GetReadonlyBytes l2 none = .ok x
        | _, _ => False)
      False
  | .mk (some t) (some (.StructValue fs1)) n1, b =>
    sameValueCases t (.mk (some t) (some (.StructValue fs1)) n1) b False
      (match b.V with
        | some (.StructValue fs2) => sameValues cross fs1 fs2
        | _ => False)
  | .mk (some t) v n, b => sameValueCases t (.mk (some t) v n) b False False
/-- Structural equality of two lists of slots, position by position. -/
def sameValues (cross : Bool) : List TypedValue → List TypedValue → Prop
  | [], [] => True
  | x :: xs, y :: ys => sameValue cross x y ∧ sameValues cross xs ys
  | _, _ => False
end

/-- The cases of `fixedKey` for a slot `{T, v}` against the static type `t`:
the slot has type `t`, and its base type is a fixed-width primitive, a pointer
type with a non-nil pointer payload, an array type (`elems`, given length and
element type), or a struct type (`fields`, given the field declarations). -/
def fixedKeyCases (t : GType) (T : Option GType) (v : Option Value)
    (elems : Nat → GType → Prop) (fields : List FieldType → Prop) : Prop :=
  T = some t ∧
  match baseOf t with
  | .PrimitiveType pt => pt.encWidth.isSome = true
  | .PointerType _ => ∃ p, v = some (.PointerValue p) ∧ p < 2 ^ 64
  | .ArrayType len elt => elt.Kind ≠ Kind.InterfaceKind ∧ elems len elt
  | .StructType fts => fields fts
  | _ => False

mutual
/-- A key of static type `t` built from fixed-width parts only: fixed-width
primitives, non-nil pointers, arrays and structs of such keys with no element
or field of interface kind, a byte array being held as a raw byte buffer and
every other array as an element list. -/
def fixedKey : TypedValue → GType → Prop
  | .mk T (some (.ArrayValue l d)) _, t =>
    fixedKeyCases t T (some (.ArrayValue l d))
      (fun len elt =>
        match d with
        | none => elt.Kind ≠ Kind.Uint8Kind ∧ l.length = len ∧ fixedKeys l elt
        | some data => elt.Kind = Kind.Uint8Kind ∧ data.length = len)
      (fun _ => False)
  | .mk T (some (.StructValue fs)) _, t =>
    fixedKeyCases t T (some (.StructValue fs)) (fun _ _ => False)
      (fun fts => fixedFields fs fts)
  | .mk T v _, t => fixedKeyCases t T v (fun _ _ => False) (fun _ => False)
/-- Every slot of the list is a fixed key of type `t`. -/
def fixedKeys : List TypedValue → GType → Prop
  | [], _ => True
  | x :: xs, t => fixedKey x t ∧ fixedKeys xs t
/-- Field by field, the slots are fixed keys of the declared field types, none
of interface kind. -/
def fixedFields : List TypedValue → List FieldType → Prop
  | [], [] => True
  | f :: fs, ft :: fts =>
    ft.type.Kind ≠ Kind.InterfaceKind ∧ fixedKey f ft.type ∧ fixedFields fs fts
  | _, _ => False
end

mutual
/-- The length of the key, type omitted, of a fixed key of type `t`. -/
def keyLen : GType → Nat
  | .PrimitiveType pt => pt.encWidth.getD 0
  | .PointerType _ => 8
  | .ArrayType len elt =>
    (if elt.Kind = Kind.Uint8Kind then len else len * keyLen elt + (len - 1)) + 2
  | .StructType fts => fieldsKeyLen fts + 2
  | .DeclaredType _ base => keyLen base
  | _ => 0
/-- The length of the joined keys of the fields. -/
def fieldsKeyLen : List FieldType → Nat
  | [] => 0
  | [ft] => fieldKeyLen ft
  | ft :: ft2 :: fts => fieldKeyLen ft + 1 + fieldsKeyLen (ft2 :: fts)
/-- The length of the key of one field. -/
def fieldKeyLen : FieldType → Nat
  | .mk _ t => keyLen t
end

/-! ### The ordered map

`MapListItem` objects live in a heap owned by the map: `items`, in which the
address of an item is its index and `nil` is `none`. A dereference of an
address that holds no item is the error result. -/

/-- The type `MapKey`: the bytes of a canonical key. -/
abbrev MapKey := Bytes

/-- The struct `MapListItem`. -/
structure MapListItem where
  Prev : Option Nat
  Next : Option Nat
  Key : TypedValue
  Value : TypedValue

/-- The struct `MapList`. -/
structure MapList where
  Head : Option Nat
  Tail : Option Nat
  Size : Int

/-- The struct `MapValue`: the list (field `List`), the index `vmap`, and the
heap of the items allocated for this map. -/
structure MapValue where
  items : List MapListItem
  vmap : MapKey → Option Nat
  MList : MapList

/-- The pointer `GetPointerForKey` returns: `TV` is the address of the item
whose `Value` slot it aliases, `Key` the copy of the lookup key, `Index` the
constant `PointerIndexMap`; its base is the map. -/
structure MapPointer where
  TV : Nat
  Key : TypedValue
  Index : Int

/-- The constant `PointerIndexMap`. -/
def PointerIndexMap : Int := -2

/-- The item `&MapListItem{Prev: prev, Next: nil, Key: key}` of `Append`; its
value is undefined. -/
def MapListItem.new (prev : Option Nat) (key : TypedValue) : MapListItem :=
  { Prev := prev, Next := none, Key := key, Value := TypedValue.mk none none 0 }

/-- The assignment `item.Next = next`. -/
def MapListItem.setNext (next : Option Nat) (it : MapListItem) : MapListItem :=
  { it with Next := next }

/-- The assignment `item.Prev = prev`. -/
def MapListItem.setPrev (prev : Option Nat) (it : MapListItem) : MapListItem :=
  { it with Prev := prev }

/-- The assignment `item.Value = value`. -/
def MapListItem.setValue (value : TypedValue) (it : MapListItem) : MapListItem :=
  { it with Value := value }

/-- A write to one item through its address. -/
def setItem (items : List MapListItem) (a : Nat) (f : MapListItem → MapListItem) :
    Except String (List MapListItem) :=
  match items[a]? with
  | some it => .ok (items.set a (f it))
  | none => .error "nil pointer dereference"

/-- The method `MapList.Append`: the new item, its value undefined, is linked
after the tail. Returns the heap, the list and the address of the item. -/
def MapList.Append (items : List MapListItem) (ml : MapList) (key : TypedValue) :
    Except String (List MapListItem × MapList × Nat) :=
  let item := items.length
  let items1 := items ++ [MapListItem.new ml.Tail key]
  let head := match ml.Head with
    | none => some item
    | some h => some h
  match ml.Tail with
  | some t =>
    match setItem items1 t (MapListItem.setNext (some item)) with
    | .ok items2 => .ok (items2, { Head := head, Tail := some item, Size := ml.Size + 1 }, item)
    | .error e => .error e
  | none => .ok (items1, { Head := head, Tail := some item, Size := ml.Size + 1 }, item)

/-- The first statement of `MapList.Remove`:
`if prev == nil { ml.Head = next } else { prev.Next = next }`.
Returns the heap and the head. -/
def MapList.unlinkPrev (items : List MapListItem) (head prev next : Option Nat) :
    Except String (List MapListItem × Option Nat) :=
  match prev with
  | none => .ok (items, next)
  | some p =>
    match setItem items p (MapListItem.setNext next) with
    | .ok items1 => .ok (items1, head)
    | .error e => .error e

/-- The second statement of `MapList.Remove`:
`if next == nil { ml.Tail = prev } else { next.Prev = prev }`.
Returns the heap and the tail. -/
def MapList.unlinkNext (items : List MapListItem) (tail prev next : Option Nat) :
    Except String (List MapListItem × Option Nat) :=
  match next with
  | none => .ok (items, prev)
  | some nx =>
    match setItem items nx (MapListItem.setPrev prev) with
    | .ok items1 => .ok (items1, tail)
    | .error e => .error e

/-- The method `MapList.Remove`: with `prev, next := mli.Prev, mli.Next`, the
two unlinking statements, then `ml.Size--`. -/
def MapList.Remove (items : List MapListItem) (ml : MapList) (mli : Nat) :
    Except String (List MapListItem × MapList) :=
  match items[mli]? with
  | none => .error "nil pointer dereference"
  | some it =>
    match MapList.unlinkPrev items ml.Head it.Prev it.Next with
    | .error e => .error e
    | .ok (items1, head) =>
      match MapList.unlinkNext items1 ml.Tail it.Prev it.Next with
      | .error e => .error e
      | .ok (items2, tail) => .ok (items2, { Head := head, Tail := tail, Size := ml.Size - 1 })

/-- The method `MapValue.MakeMap`: an empty list and an empty index. -/
def MapValue.MakeMap (_c : Int) : MapValue :=
  { items := [], vmap := fun _ => none, MList := { Head := none, Tail := none, Size := 0 } }

/-- The method `MapValue.GetLength`. -/
def MapValue.GetLength (mv : MapValue) : Int := mv.MList.Size

/-- The method `MapValue.GetPointerForKey`. -/
def MapValue.GetPointerForKey (ext : Externals) (mv : MapValue) (key : TypedValue) :
    Except String (MapValue × MapPointer) :=
  match key.ComputeMapKey ext false with
  | .error e => .error e
  | .ok kmk =>
    match mv.vmap kmk with
    | some mli => .ok (mv, { TV := mli, Key := key, Index := PointerIndexMap })
    | none =>
      match MapList.Append mv.items mv.MList key with
      | .error e => .error e
      | .ok (items, ml, mli) =>
        .ok ({ items := items, vmap := fun k => if k = kmk then some mli else mv.vmap k,
               MList := ml },
             { TV := mli, Key := key, Index := PointerIndexMap })

/-- The method `MapValue.GetValueForKey`: the value and `true`, or the
undefined value and `false`; the map is not changed. -/
def MapValue.GetValueForKey (ext : Externals) (mv : MapValue) (key : TypedValue) :
    Except String (TypedValue × Bool) :=
  match key.ComputeMapKey ext false with
  | .error e => .error e
  | .ok kmk =>
    match mv.vmap kmk with
    | some mli =>
      match mv.items[mli]? with
      | some it => .ok (it.Value, true)
      | none => .error "nil pointer dereference"
    | none => .ok (TypedValue.mk none none 0, false)

/-- The method `MapValue.DeleteForKey`. -/
def MapValue.DeleteForKey (ext : Externals) (mv : MapValue) (key : TypedValue) :
    Except String MapValue :=
  match key.ComputeMapKey ext false with
  | .error e => .error e
  | .ok kmk =>
    match mv.vmap kmk with
    | some mli =>
      match MapList.Remove mv.items mv.MList mli with
      | .error e => .error e
      | .ok (items, ml) =>
        .ok { items := items, vmap := fun k => if k = kmk then none else mv.vmap k,
              MList := ml }
    | none => .ok mv

/-- A write through the pointer returned by `GetPointerForKey`
(`PointerValue.Assign2`, which overwrites the slot `*pv.TV`). -/
def MapValue.Assign2 (mv : MapValue) (pv : MapPointer) (tv2 : TypedValue) :
    Except String MapValue :=
  match setItem mv.items pv.TV (MapListItem.setValue tv2) with
  | .ok items => .ok { mv with items := items }
  | .error e => .error e

/-- The traversal `for head := ml.Head; head != nil; head = head.Next` of
`MapList.MarshalAmino`, collecting the addresses of the items, with `fuel`
bounding the number of steps. -/
def traverseFrom (items : List MapListItem) : Nat → Option Nat → Option (List Nat)
  | _, none => some []
  | 0, some _ => none
  | fuel + 1, some a =>
    match items[a]? with
    | none => none
    | some it =>
      match traverseFrom items fuel it.Next with
      | none => none
      | some rest => some (a :: rest)

/-- The items of the map in list order, from `Head` through `Next`; no list
of a heap of `n` items has more than `n` items. -/
def MapValue.traverse (mv : MapValue) : Option (List Nat) :=
  traverseFrom mv.items mv.items.length mv.MList.Head

/-- The keys and values met by the traversal. -/
def MapValue.entries (mv : MapValue) : Option (List (TypedValue × TypedValue)) :=
  match mv.traverse with
  | none => none
  | some l => some (l.filterMap (fun a => (mv.items[a]?).map (fun it => (it.Key, it.Value))))

/-- An operation on a map: an insertion (`GetPointerForKey` followed by a
write through the pointer) or a deletion (`DeleteForKey`). -/
inductive MapOp where
  | insert (key : TypedValue) (value : TypedValue)
  | delete (key : TypedValue)

/-- The key of an operation. -/
def MapOp.key : MapOp → TypedValue
  | .insert k _ => k
  | .delete k => k

/-- One operation applied to a map. -/
def MapValue.applyOp (ext : Externals) (mv : MapValue) : MapOp → Except String MapValue
  | .insert k v =>
    match mv.GetPointerForKey ext k with
    | .error e => .error e
    | .ok (mv1, pv) => mv1.Assign2 pv v
  | .delete k => mv.DeleteForKey ext k

/-- A sequence of operations applied to a map, first to last. -/
def MapValue.run (ext : Externals) (mv : MapValue) : List MapOp → Except String MapValue
  | [] => .ok mv
  | op :: ops =>
    match mv.applyOp ext op with
    | .error e => .error e
    | .ok mv1 => MapValue.run ext mv1 ops

/-- The specification of the map: the entries (key bytes, key, value) in
insertion order. -/
abbrev SpecMap := List (MapKey × TypedValue × TypedValue)

/-- Insertion in the specification: a present key keeps its position and its
stored key and takes the new value; an absent key is appended at the end. -/
def specInsert (s : SpecMap) (kb : MapKey) (k v : TypedValue) : SpecMap :=
  if s.any (fun e => e.1 = kb) then
    s.map (fun e => if e.1 = kb then (e.1, e.2.1, v) else e)
  else s ++ [(kb, k, v)]

/-- Deletion in the specification: the entry of the key is removed, the others
keep their order. -/
def specDelete (s : SpecMap) (kb : MapKey) : SpecMap :=
  s.filter (fun e => e.1 ≠ kb)

/-- One operation in the specification; the key bytes are those of
`ComputeMapKey`. -/
def specApply (ext : Externals) (s : SpecMap) (op : MapOp) : SpecMap :=
  match op.key.ComputeMapKey ext false with
  | .error _ => s
  | .ok kb =>
    match op with
    | .insert k v => specInsert s kb k v
    | .delete _ => specDelete s kb

/-- A sequence of operations in the specification, from the empty map. -/
def specRun (ext : Externals) (s : SpecMap) (ops : List MapOp) : SpecMap :=
  ops.foldl (specApply ext) s

/-- The first item of a list, or a default. -/
def headOr (l : List Nat) (d : Option Nat) : Option Nat :=
  match l with
  | [] => d
  | b :: _ => some b

/-- The last item of a list, or a default. -/
def lastOr (d : Option Nat) (l : List Nat) : Option Nat :=
  match l.getLast? with
  | none => d
  | some b => some b

/-- The items `l` form a doubly linked segment: the first has `Prev = prev`,
each `Next` is the following item, the last has `Next = nxt`, and each `Prev`
is the preceding item. -/
def Seg (items : List MapListItem) : Option Nat → List Nat → Option Nat → Prop
  | _, [], _ => True
  | prev, a :: rest, nxt =>
    ∃ it, items[a]? = some it ∧ it.Prev = prev ∧
      it.Next = (match rest with
        | [] => nxt
        | b :: _ => some b) ∧
      Seg items (some a) rest nxt

/-- The invariant of a map whose list holds the items `l` in order: the items
are distinct and linked from `Head` to `Tail`, `Size` is their number, and the
index holds exactly the entries (key bytes of the item's key ↦ item). -/
def MapValue.Inv (ext : Externals) (mv : MapValue) (l : List Nat) : Prop :=
  l.Nodup ∧ Seg mv.items none l none ∧
  mv.MList.Head = l.head? ∧ mv.MList.Tail = l.getLast? ∧ mv.MList.Size = l.length ∧
  ∀ k a, mv.vmap k = some a ↔
    (a ∈ l ∧ ∃ it, mv.items[a]? = some it ∧ it.Key.ComputeMapKey ext false = .ok k)

/-- The invariant of the map: `Inv` for the items `l`, each of which has a key
with key bytes. -/
def MapValue.WF (ext : Externals) (mv : MapValue) (l : List Nat) : Prop :=
  mv.Inv ext l ∧
  ∀ a ∈ l, ∃ it k, mv.items[a]? = some it ∧ it.Key.ComputeMapKey ext false = .ok k

/-- The items `l` of the heap hold, in order, the entries `s` of the
specification: the same key, the same value, and the key bytes of the key. -/
def Rel (ext : Externals) (items : List MapListItem) (l : List Nat) (s : SpecMap) : Prop :=
  List.Forall₂ (fun a e => ∃ it : MapListItem, items[a]? = some it ∧ it.Key = e.2.1 ∧
    it.Value = e.2.2 ∧ it.Key.ComputeMapKey ext false = .ok e.1) l s

/-! ### Value slots over the object heap

For the copy rule the payloads that Go holds by pointer are addresses into a
heap of objects (`*ArrayValue`, `*StructValue`, `*SliceValue`, the `*big.Int`
of a `BigintValue`, the `*apd.Decimal` of a `BigdecValue`): the address of an
object is its index in the heap, and an allocation appends to the heap. -/

namespace Heap

/-- The struct `PointerValue{TV, Base, Index}`. The Go pointer `TV` to a slot
is the address of the object that holds the slot and the index of the slot
there; `Base` is the address of the base object; `none` is the Go `nil`. The
field `Key` of pointers to map items is left out. -/
structure PointerValue where
  TV : Option (Nat × Nat)
  Base : Option Nat
  Index : Int

/-- The payload `V` of a slot; an object payload is the address of the
object. A `RefValue` is the placeholder of an object that is not loaded: its
`ObjectID`, or its `PkgPath` (empty when the placeholder is by identity). -/
inductive Value where
  | StringValue (s : Bytes)
  | BigintValue (V : Nat)
  | BigdecValue (V : Nat)
  | DataByteValue (Base : Nat) (Index : Int) (ElemType : GType)
  | PointerValue (pv : PointerValue)
  | ArrayValue (av : Nat)
  | SliceValue (sv : Nat)
  | StructValue (sv : Nat)
  | FuncValue (fv : Nat)
  | MapValue (mv : Nat)
  | TypeValue (Typ : GType)
  | PackageValue (pv : Nat)
  | BoundMethodValue (bmv : Nat)
  | Block (b : Nat)
  | RefValue (ObjectID : Nat) (PkgPath : Bytes)
  | HeapItemValue (hiv : Nat)

/-- The value slot `TypedValue{T, V, N}`. -/
structure TypedValue where
  T : Option GType
  V : Option Value
  N : Nat

/-- The objects of the heap. A `Slot` is a slot allocated on its own
(`&TypedValue{...}`), the slot 0 of its object. A field of the Go type `Value`
that holds an object or a placeholder (`PointerValue.Base`, `SliceValue.Base`,
`Block.Parent`) is an address: the address of the object, or the address of a
`RefValue` object that stands for the placeholder `RefValue{ObjectID}`. The
field `Blank` of a block is the address of the `Slot` that is its blank
slot. A bound method holds the address of its function and its receiver. -/
inductive Object where
  | BigInt (value : Int)
  | Decimal (coeff : Int) (exponent : Int)
  | ArrayValue (Elems : List TypedValue) (Data : Option Bytes)
  | StructValue (Fields : List TypedValue)
  | SliceValue (Base : Option Nat) (Offset : Int) (Length : Int) (Maxcap : Int)
  | MapValue (entries : List (TypedValue × TypedValue))
  | HeapItemValue (Value : TypedValue)
  | Slot (tv : TypedValue)
  | Other
  | Block (Values : List TypedValue) (Parent : Option Nat) (Blank : Nat)
  | BoundMethodValue (Func : Nat) (Receiver : TypedValue)
  | PackageValue
  | RefValue (ObjectID : Nat)

/-- The heap: the object at an address. -/
abbrev Objects := List Object

/-- The method `BigintValue.Copy`: a new `big.Int` set to the value of the
source. Returns the heap and the address of the new integer. -/
def BigintValue.Copy (h : Objects) (V : Nat) : Except String (Objects × Nat) :=
  match h[V]? with
  | some (.BigInt z) => .ok (h ++ [.BigInt z], h.length)
  | _ => .error "nil pointer dereference"

/-- The method `BigdecValue.Copy`: a new decimal, zero plus the source. Returns
the heap and the address of the new decimal. -/
def BigdecValue.Copy (h : Objects) (V : Nat) : Except String (Objects × Nat) :=
  match h[V]? with
  | some (.Decimal c e) => .ok (h ++ [.Decimal c e], h.length)
  | _ => .error "nil pointer dereference"

/-- The method `ArrayValue.Copy`: a new array of the same representation;
`copy(av2.List, av.List)` copies the element slots as they are. -/
def ArrayValue.Copy (h : Objects) (av : Nat) : Except String (Objects × Nat) :=
  match h[av]? with
  | some (.ArrayValue l none) => .ok (h ++ [.ArrayValue l none], h.length)
  | some (.ArrayValue _ (some data)) => .ok (h ++ [.ArrayValue [] (some data)], h.length)
  | _ => .error "nil pointer dereference"

/-- The loop of `StructValue.Copy`: `fields[i] = field.Copy(alloc)`, first to
last, with `cp` the copy of one slot. -/
def copyFields (cp : Objects → TypedValue → Except String (Objects × TypedValue))
    (h : Objects) : List TypedValue → Except String (Objects × List TypedValue)
  | [] => .ok (h, [])
  | field :: rest =>
    match cp h field with
    | .error e => .error e
    | .ok (h1, f1) =>
      match copyFields cp h1 rest with
      | .error e => .error e
      | .ok (h2, fs) => .ok (h2, f1 :: fs)

/-- The method `StructValue.Copy`: every field is copied by `cp`, then the new
struct is allocated. -/
def StructValue.Copy (cp : Objects → TypedValue → Except String (Objects × TypedValue))
    (h : Objects) (sv : Nat) : Except String (Objects × Nat) :=
  match h[sv]? with
  | some (.StructValue fields) =>
    match copyFields cp h fields with
    | .error e => .error e
    | .ok (h1, fs) => .ok (h1 ++ [.StructValue fs], h1.length)
  | _ => .error "nil pointer dereference"

/-- The method `TypedValue.Copy`: a type switch on the payload with the cases
`BigintValue`, `*ArrayValue` and `*StructValue`, and `cp = tv` otherwise. The
first argument bounds the depth of the recursion through struct fields. -/
def TypedValue.Copy : Nat → Objects → TypedValue → Except String (Objects × TypedValue)
  | 0, _, _ => .error "out of fuel"
  | fuel + 1, h, tv =>
    match tv.V with
    | some (.BigintValue cv) =>
      match BigintValue.Copy h cv with
      | .error e => .error e
      | .ok (h1, v) => .ok (h1, { T := tv.T, V := some (.BigintValue v), N := 0 })
    | some (.ArrayValue cv) =>
      match ArrayValue.Copy h cv with
      | .error e => .error e
      | .ok (h1, v) => .ok (h1, { T := tv.T, V := some (.ArrayValue v), N := 0 })
    | some (.StructValue cv) =>
      match StructValue.Copy (TypedValue.Copy fuel) h cv with
      | .error e => .error e
      | .ok (h1, v) => .ok (h1, { T := tv.T, V := some (.StructValue v), N := 0 })
    | _ => .ok (h, tv)

/-- The element or field slots of the object a payload holds by value. -/
def slots (h : Objects) (tv : TypedValue) : Option (Nat × List TypedValue) :=
  match tv.V with
  | some (.ArrayValue av) =>
    match h[av]? with
    | some (.ArrayValue l none) => some (av, l)
    | _ => none
  | some (.StructValue sv) =>
    match h[sv]? with
    | some (.StructValue fs) => some (sv, fs)
    | _ => none
  | _ => none

/-- The slot reached from a value by a non-empty path of array-element and
struct-field steps: the object that holds it and its index there. -/
def slotAt (h : Objects) : TypedValue → List Nat → Option (Nat × Nat)
  | _, [] => none
  | tv, [i] =>
    match slots h tv with
    | some (obj, l) => if i < l.length then some (obj, i) else none
    | none => none
  | tv, i :: j :: rest =>
    match slots h tv with
    | some (_, l) =>
      match l[i]? with
      | some ev => slotAt h ev (j :: rest)
      | none => none
    | none => none

/-- The content of slot `i` of the object `obj`. -/
def readSlot (h : Objects) (obj i : Nat) : Option TypedValue :=
  match h[obj]? with
  | some (.ArrayValue l none) => l[i]?
  | some (.StructValue fs) => fs[i]?
  | some (.Slot tv) => if i = 0 then some tv else none
  | some (.HeapItemValue v) => if i = 0 then some v else none
  | some (.Block vs _ _) => vs[i]?
  | _ => none

/-- The heap after the write `*slot = tv` to slot `i` of the object `obj`. -/
def writeSlot (h : Objects) (obj i : Nat) (tv : TypedValue) : Option Objects :=
  match h[obj]? with
  | some (.ArrayValue l none) =>
    if i < l.length then some (h.set obj (.ArrayValue (l.set i tv) none)) else none
  | some (.StructValue fs) =>
    if i < fs.length then some (h.set obj (.StructValue (fs.set i tv))) else none
  | some (.Slot _) => if i = 0 then some (h.set obj (.Slot tv)) else none
  | some (.HeapItemValue _) => if i = 0 then some (h.set obj (.HeapItemValue tv)) else none
  | some (.Block vs parent blank) =>
    if i < vs.length then some (h.set obj (.Block (vs.set i tv) parent blank)) else none
  | _ => none

/-- Reading the slot reached from a value by a path. -/
def readAt (h : Objects) (tv : TypedValue) (path : List Nat) : Option TypedValue :=
  match slotAt h tv path with
  | some (obj, i) => readSlot h obj i
  | none => none

/-- Writing to the slot reached from a value by a path. -/
def writeAt (h : Objects) (tv : TypedValue) (path : List Nat) (x : TypedValue) :
    Option Objects :=
  match slotAt h tv path with
  | some (obj, i) => writeSlot h obj i x
  | none => none

end Heap

/-- A sample of the external functions, for evaluating keys at concrete
inputs: a type identity is the name of the type ("string", "int", "int8",
"uint8", the name of a declared type, "?" otherwise), an address is its eight
little-endian bytes, a path is quoted by two '"'. -/
def sampleExt : Externals where
  typeID := fun t =>
    match t with
    | .PrimitiveType .StringType => [115, 116, 114, 105, 110, 103]
    | .PrimitiveType .IntType => [105, 110, 116]
    | .PrimitiveType .Int8Type => [105, 110, 116, 56]
    | .PrimitiveType .Uint8Type => [117, 105, 110, 116, 56]
    | .DeclaredType name _ => name
    | _ => [63]
  uintptrToBytes := putUintLE 8
  quote := fun p => [34] ++ p ++ [34]

/-- The type tag of a key: nothing when the type is omitted, else the bytes
of the type identity followed by ':'. -/
def typeTag (ext : Externals) (t : GType) (omitType : Bool) : Bytes :=
  if omitType then [] else ext.typeID t ++ [58]

/-! ### Indexing and slicing over the object heap

The Go `int` of an index, offset, length or capacity is an `Int`; the only
sums that can leave the 64-bit range, `Offset + low` and `Offset + ii`, wrap.
The allocator has no limit, and the debug assertions are off. -/

namespace Heap

/-- How a call ends when it does not return. An `exception` is the Go
`panic(&Exception{Value: typedString(fmt.Sprintf(format, args...))})`, a
`fatal` is `panic(fmt.Sprintf(format, args...))` with a plain string, and a
`runtime` is a panic of the Go runtime itself (an index out of range, a nil
dereference, a failed type assertion). The arguments kept are the integers;
the arguments printed with `%s`, the names of types, are left out. -/
inductive Panic where
  | exception (format : String) (args : List Int)
  | fatal (format : String) (args : List Int)
  | runtime (what : String) (args : List Int)
  deriving DecidableEq

/-- Whether a panic is an `*Exception` value. -/
def Panic.isException : Panic → Bool
  | .exception _ _ => true
  | _ => false

/-- The value of a 64-bit two's-complement `int` after an addition. -/
def wrapInt (x : Int) : Int :=
  (x + 2 ^ 63) % 2 ^ 64 - 2 ^ 63

/-- The Go runtime's check of `xs[ii]`. -/
def indexCheck (ii : Int) (len : Nat) : Except Panic Nat :=
  if ii < 0 then .error (.runtime "index out of range [%x]" [ii])
  else if (len : Int) ≤ ii then
    .error (.runtime "index out of range [%x] with length %y" [ii, len])
  else .ok ii.toNat

/-- The number of elements of an array object: of its byte buffer, or else of
its element list. -/
def arrayLen (l : List TypedValue) (d : Option Bytes) : Nat :=
  match d with
  | none => l.length
  | some data => data.length

/-- The method `ArrayValue.GetCapacity`. -/
def ArrayValue.GetCapacity (h : Objects) (av : Nat) : Except Panic Int :=
  match h[av]? with
  | some (.ArrayValue l none) => .ok l.length
  | some (.ArrayValue _ (some data)) => .ok data.length
  | _ => .error (.runtime "nil pointer dereference" [])

/-- The method `ArrayValue.GetLength`. -/
def ArrayValue.GetLength (h : Objects) (av : Nat) : Except Panic Int :=
  match h[av]? with
  | some (.ArrayValue l none) => .ok l.length
  | some (.ArrayValue _ (some data)) => .ok data.length
  | _ => .error (.runtime "nil pointer dereference" [])

/-- The slot `&TypedValue{T: DataByteType, V: DataByteValue{Base, Index,
ElemType}}` that stands for one byte of a byte buffer. -/
def dataByteSlot (av : Nat) (ii : Int) (et : GType) : TypedValue :=
  { T := some (.PrimitiveType .DataByteType), V := some (.DataByteValue av ii et), N := 0 }

/-- The method `ArrayValue.GetPointerAtIndexInt2`. For an element list the
pointer is to the element `av.List[ii]`, which the Go runtime checks; for a
byte buffer it is to a new slot of type `DataByteType` that names the array
and the index, and nothing is checked. The elements are taken to be loaded:
the call of `fillValueTV` on the element, which then returns the heap as it
is, is left out here and is in `ArrayValue.GetPointerAtIndexInt2Fill`. -/
def ArrayValue.GetPointerAtIndexInt2 (h : Objects) (av : Nat) (ii : Int) (et : GType) :
    Except Panic (Objects × PointerValue) :=
  match h[av]? with
  | some (.ArrayValue l none) =>
    match indexCheck ii l.length with
    | .error e => .error e
    | .ok i => .ok (h, { TV := some (av, i), Base := some av, Index := ii })
  | some (.ArrayValue _ (some _)) =>
    .ok (h ++ [.Slot (dataByteSlot av ii et)],
      { TV := some (h.length, 0), Base := some av, Index := ii })
  | _ => .error (.runtime "nil pointer dereference" [])

/-- The method `SliceValue.GetPointerAtIndexInt2`: the bounds check against
`Length`, then the element `Offset + ii` of the base array. -/
def SliceValue.GetPointerAtIndexInt2 (h : Objects) (sv : Nat) (ii : Int) (et : GType) :
    Except Panic (Objects × PointerValue) :=
  match h[sv]? with
  | some (.SliceValue base offset length _) =>
    if ii < 0 then .error (.exception "slice index out of bounds: %d" [ii])
    else if length ≤ ii then
      .error (.exception "slice index out of bounds: %d (len=%d)" [ii, length])
    else
      match base with
      | none => .error (.runtime "nil pointer dereference" [])
      | some av => ArrayValue.GetPointerAtIndexInt2 h av (wrapInt (offset + ii)) et
  | _ => .error (.runtime "nil pointer dereference" [])

/-- The method `TypedValue.GetString`. -/
def TypedValue.GetString (tv : TypedValue) : Except Panic Bytes :=
  match tv.V with
  | none => .ok []
  | some (.StringValue s) => .ok s
  | _ => .error (.runtime "interface conversion" [])

/-- The method `TypedValue.GetLength`. -/
def TypedValue.GetLength (h : Objects) (tv : TypedValue) : Except Panic Int :=
  match tv.V with
  | none =>
    match tv.T with
    | none => .error (.runtime "nil pointer dereference" [])
    | some t =>
      match baseOf t with
      | .PrimitiveType bt =>
        if bt = .StringType then .ok 0
        else .error (.fatal "unexpected type for len(): %s" [])
      | .ArrayType n _ => .ok n
      | .SliceType _ => .ok 0
      | .MapType _ _ => .ok 0
      | .PointerType (.ArrayType n _) => .ok n
      | _ => .error (.fatal "unexpected type for len(): %s" [])
  | some (.StringValue s) => .ok s.length
  | some (.ArrayValue av) => ArrayValue.GetLength h av
  | some (.SliceValue sv) =>
    match h[sv]? with
    | some (.SliceValue _ _ length _) => .ok length
    | _ => .error (.runtime "nil pointer dereference" [])
  | some (.MapValue mv) =>
    match h[mv]? with
    | some (.MapValue entries) => .ok entries.length
    | _ => .error (.runtime "nil pointer dereference" [])
  | some (.PointerValue pv) =>
    match pv.TV with
    | none => .error (.runtime "nil pointer dereference" [])
    | some (obj, i) =>
      match readSlot h obj i with
      | none => .error (.runtime "nil pointer dereference" [])
      | some cur =>
        match cur.V with
        | some (.ArrayValue av) => ArrayValue.GetLength h av
        | _ => .error (.fatal "unexpected type for len(): %s" [])
  | _ => .error (.fatal "unexpected type for len(): %s" [])

/-- The method `TypedValue.GetCapacity`. -/
def TypedValue.GetCapacity (h : Objects) (tv : TypedValue) : Except Panic Int :=
  match tv.V with
  | none =>
    match tv.T with
    | none => .error (.runtime "nil pointer dereference" [])
    | some t =>
      match baseOf t with
      | .ArrayType n _ => .ok n
      | .SliceType _ => .ok 0
      | .PointerType (.ArrayType n _) => .ok n
      | _ => .error (.fatal "unexpected type for cap(): %s" [])
  | some (.ArrayValue av) => ArrayValue.GetCapacity h av
  | some (.SliceValue sv) =>
    match h[sv]? with
    | some (.SliceValue _ _ _ maxcap) => .ok maxcap
    | _ => .error (.runtime "nil pointer dereference" [])
  | some (.PointerValue pv) =>
    match pv.TV with
    | none => .error (.runtime "nil pointer dereference" [])
    | some (obj, i) =>
      match readSlot h obj i with
      | none => .error (.runtime "nil pointer dereference" [])
      | some cur =>
        match cur.V with
        | some (.ArrayValue av) => ArrayValue.GetCapacity h av
        | _ => .error (.fatal "unexpected type for cap(): %s" [])
  | _ => .error (.fatal "unexpected type for cap(): %s" [])

/-- The method `TypedValue.GetSlice`. The slice `alloc.NewSlice(...)` is a
new object of the heap; the base array is named by its address. -/
def TypedValue.GetSlice (h : Objects) (tv : TypedValue) (low high : Int) :
    Except Panic (Objects × TypedValue) :=
  if low < 0 then
    .error (.exception "invalid slice index %d (index must be non-negative)" [low])
  else if high < 0 then
    .error (.exception "invalid slice index %d (index must be non-negative)" [low])
  else if low > high then
    .error (.exception "invalid slice index %d > %d" [low, high])
  else
    match tv.T with
    | none => .error (.runtime "nil pointer dereference" [])
    | some t0 =>
      match baseOf t0 with
      | .PrimitiveType t =>
        match tv.GetLength h with
        | .error e => .error e
        | .ok len =>
          if len < high then
            .error (.exception "slice bounds out of range [%d:%d] with string length %d"
              [low, high, len])
          else if t = .StringType ∨ t = .UntypedStringType then
            match tv.GetString with
            | .error e => .error e
            | .ok s =>
              .ok (h, { T := tv.T,
                        V := some (.StringValue ((s.drop low.toNat).take (high - low).toNat)),
                        N := 0 })
          else .error (.exception "non-string primitive type cannot be sliced" [])
      | .ArrayType _ elt =>
        match tv.GetLength h with
        | .error e => .error e
        | .ok len =>
          if len < high then
            .error (.exception "slice bounds out of range [%d:%d] with array length %d"
              [low, high, len])
          else
            match tv.V with
            | some (.ArrayValue av) =>
              match ArrayValue.GetCapacity h av with
              | .error e => .error e
              | .ok c =>
                .ok (h ++ [.SliceValue (some av) low (high - low) (c - low)],
                  { T := some (.SliceType elt), V := some (.SliceValue h.length), N := 0 })
            | _ => .error (.runtime "interface conversion" [])
      | .SliceType _ =>
        match tv.GetCapacity h with
        | .error e => .error e
        | .ok c =>
          if c < high then
            .error (.exception "slice bounds out of range [%d:%d] with capacity %d"
              [low, high, c])
          else
            match tv.V with
            | none =>
              if low ≠ 0 ∨ high ≠ 0 then
                .error (.exception "nil slice index out of range" [])
              else .ok (h, { T := tv.T, V := none, N := 0 })
            | some (.SliceValue sv) =>
              match h[sv]? with
              | some (.SliceValue base offset _ maxcap) =>
                .ok (h ++ [.SliceValue base (wrapInt (offset + low)) (high - low) (maxcap - low)],
                  { T := tv.T, V := some (.SliceValue h.length), N := 0 })
              | _ => .error (.runtime "nil pointer dereference" [])
            | _ => .error (.runtime "interface conversion" [])
      | _ => .error (.fatal "unexpected type for GetSlice(): %s" [])

/-- The method `TypedValue.GetSlice2`. -/
def TypedValue.GetSlice2 (h : Objects) (tv : TypedValue) (lowVal highVal maxVal : Int) :
    Except Panic (Objects × TypedValue) :=
  if lowVal < 0 then
    .error (.fatal "invalid slice index %d (index must be non-negative)" [lowVal])
  else if highVal < 0 then
    .error (.fatal "invalid slice index %d (index must be non-negative)" [highVal])
  else if maxVal < 0 then
    .error (.fatal "invalid slice index %d (index must be non-negative)" [maxVal])
  else if lowVal > highVal then
    .error (.fatal "invalid slice index %d > %d" [lowVal, highVal])
  else if highVal > maxVal then
    .error (.fatal "invalid slice index %d > %d" [highVal, maxVal])
  else
    match tv.GetCapacity h with
    | .error e => .error e
    | .ok c =>
      if c < highVal then
        .error (.fatal "slice bounds out of range [%d:%d:%d] with capacity %d"
          [lowVal, highVal, maxVal, c])
      else if c < maxVal then
        .error (.fatal "slice bounds out of range [%d:%d:%d] with capacity %d"
          [lowVal, highVal, maxVal, c])
      else
        match tv.T with
        | none => .error (.runtime "nil pointer dereference" [])
        | some t0 =>
          match baseOf t0 with
          | .ArrayType _ elt =>
            match tv.V with
            | some (.ArrayValue av) =>
              .ok (h ++ [.SliceValue (some av) lowVal (highVal - lowVal) (maxVal - lowVal)],
                { T := some (.SliceType elt), V := some (.SliceValue h.length), N := 0 })
            | _ => .error (.runtime "interface conversion" [])
          | .SliceType _ =>
            match tv.V with
            | none =>
              if lowVal ≠ 0 ∨ highVal ≠ 0 ∨ maxVal ≠ 0 then
                .error (.fatal "nil slice index out of range" [])
              else .ok (h, { T := tv.T, V := none, N := 0 })
            | some (.SliceValue sv) =>
              match h[sv]? with
              | some (.SliceValue base offset _ _) =>
                .ok (h ++ [.SliceValue base (wrapInt (offset + lowVal)) (highVal - lowVal)
                    (maxVal - lowVal)],
                  { T := tv.T, V := some (.SliceValue h.length), N := 0 })
              | _ => .error (.runtime "nil pointer dereference" [])
            | _ => .error (.runtime "interface conversion" [])
          | _ => .error (.fatal "unexpected type for GetSlice2(): %s" [])

/-- Whether a type is the pseudo-type `DataByteType` (`tv.T == DataByteType`). -/
def isDataByteType : Option GType → Bool
  | some (.PrimitiveType .DataByteType) => true
  | _ => false

/-- The method `DataByteValue.GetByte`: `dbv.Base.Data[dbv.Index]`. -/
def DataByteValue.GetByte (h : Objects) (base : Nat) (index : Int) : Except Panic Nat :=
  match h[base]? with
  | some (.ArrayValue _ data) =>
    match indexCheck index (data.getD []).length with
    | .error e => .error e
    | .ok i => .ok (((data.getD [])[i]?).getD 0)
  | _ => .error (.runtime "nil pointer dereference" [])

/-- The method `DataByteValue.SetByte`: `dbv.Base.Data[dbv.Index] = b`. -/
def DataByteValue.SetByte (h : Objects) (base : Nat) (index : Int) (b : Nat) :
    Except Panic Objects :=
  match h[base]? with
  | some (.ArrayValue l data) =>
    match indexCheck index (data.getD []).length with
    | .error e => .error e
    | .ok i => .ok (h.set base (.ArrayValue l (some ((data.getD []).set i b))))
  | _ => .error (.runtime "nil pointer dereference" [])

/-- The method `PointerValue.Deref`. -/
def PointerValue.Deref (h : Objects) (pv : PointerValue) : Except Panic TypedValue :=
  match pv.TV with
  | none => .error (.runtime "nil pointer dereference" [])
  | some (obj, i) =>
    match readSlot h obj i with
    | none => .error (.runtime "nil pointer dereference" [])
    | some cur =>
      if isDataByteType cur.T then
        match cur.V with
        | some (.DataByteValue base index et) =>
          match DataByteValue.GetByte h base index with
          | .error e => .error e
          | .ok b => .ok { T := some et, V := none, N := b }
        | _ => .error (.runtime "interface conversion" [])
      else .ok cur

/-- What the assignment takes from outside `values.go`: `isUntyped`, the
conversion `ConvertUntypedTo(tv, defaultTypeOf(tv.T))` of a slot, and
`GetFirstObject`. -/
structure Env where
  isUntyped : Option GType → Bool
  convertUntyped : TypedValue → TypedValue
  firstObject : Objects → TypedValue → Option Nat

/-- The method `TypedValue.Assign` on the slot `tv`: `*tv = tv2.Copy(alloc)`,
then the conversion of an untyped constant when `cu` is set. The first
argument bounds the depth of the copy. -/
def TypedValue.Assign (env : Env) (fuel : Nat) (h : Objects) (tv : Nat × Nat)
    (tv2 : TypedValue) (cu : Bool) : Except Panic Objects :=
  match TypedValue.Copy fuel h tv2 with
  | .error e => .error (.runtime e [])
  | .ok (h1, cp) =>
    match writeSlot h1 tv.1 tv.2
        (if cu && env.isUntyped cp.T then env.convertUntyped cp else cp) with
    | none => .error (.runtime "nil pointer dereference" [])
    | some h2 => .ok h2

/-- One call `rlm.DidUpdate(po, xo, co)`: the owner, the old and the new first
object of the slot. -/
structure Update where
  po : Nat
  xo : Option Nat
  co : Option Nat

/-- The method `PointerValue.Assign2`. The realm `rlm` is the list of the
calls of `DidUpdate` made so far, `none` when there is no realm. -/
def PointerValue.Assign2 (env : Env) (fuel : Nat) (h : Objects) (rlm : Option (List Update))
    (pv : PointerValue) (tv2 : TypedValue) (cu : Bool) :
    Except Panic (Objects × Option (List Update)) :=
  match pv.TV with
  | none => .error (.runtime "nil pointer dereference" [])
  | some (obj, i) =>
    match readSlot h obj i with
    | none => .error (.runtime "nil pointer dereference" [])
    | some cur =>
      if isDataByteType cur.T then
        match cur.V with
        | some (.DataByteValue base index _) =>
          match DataByteValue.SetByte h base index (tv2.N % 256) with
          | .error e => .error e
          | .ok h1 => .ok (h1, rlm)
        | _ => .error (.runtime "interface conversion" [])
      else
        match rlm, pv.Base with
        | some log, some base =>
          match TypedValue.Assign env fuel h (obj, i) tv2 cu with
          | .error e => .error e
          | .ok h1 =>
            match readSlot h1 obj i with
            | none => .error (.runtime "nil pointer dereference" [])
            | some cur1 =>
              .ok (h1, some (log ++
                [{ po := base, xo := env.firstObject h cur, co := env.firstObject h1 cur1 }]))
        | _, _ =>
          match TypedValue.Assign env fuel h (obj, i) tv2 cu with
          | .error e => .error e
          | .ok h1 => .ok (h1, rlm)

/-- The method `TypedValue.GetPointerAtIndex`. The index `ii` is
`int(iv.ConvertGetInt())`, computed by `toInt`; the map case,
`mv.GetPointerForKey` and the default value of an undefined item, is the
argument `forKey`. -/
def TypedValue.GetPointerAtIndex (toInt : TypedValue → Int)
    (forKey : Objects → Nat → GType → TypedValue → Except Panic (Objects × PointerValue))
    (h : Objects) (tv : TypedValue) (iv : TypedValue) : Except Panic (Objects × PointerValue) :=
  match tv.T with
  | none => .error (.runtime "nil pointer dereference" [])
  | some t0 =>
    match baseOf t0 with
    | .PrimitiveType bt =>
      if bt = .StringType ∨ bt = .UntypedStringType then
        match tv.GetString with
        | .error e => .error e
        | .ok sv =>
          if toInt iv ≥ sv.length then
            .error (.exception "index out of range [%d] with length %d" [toInt iv, sv.length])
          else if toInt iv < 0 then
            .error (.exception "invalid slice index %d (index must be non-negative)"
              [toInt iv])
          else
            .ok (h ++ [.Slot { T := some (.PrimitiveType .Uint8Type), V := none,
                               N := (sv[(toInt iv).toNat]?).getD 0 }],
              { TV := some (h.length, 0), Base := none, Index := 0 })
      else .error (.fatal "primitive type %s cannot be indexed" [])
    | .ArrayType _ elt =>
      match tv.V with
      | some (.ArrayValue av) => ArrayValue.GetPointerAtIndexInt2 h av (toInt iv) elt
      | _ => .error (.runtime "interface conversion" [])
    | .SliceType elt =>
      match tv.V with
      | none => .error (.fatal "nil slice index (out of bounds)" [])
      | some (.SliceValue sv) => SliceValue.GetPointerAtIndexInt2 h sv (toInt iv) elt
      | _ => .error (.runtime "interface conversion" [])
    | .MapType _ vt =>
      match tv.V with
      | none => .error (.exception "uninitialized map index" [])
      | some (.MapValue mv) => forKey h mv vt iv
      | _ => .error (.runtime "interface conversion" [])
    | _ => .error (.fatal "unexpected index base type %s (%v base %v)" [])

/-- The value a slot holds, read by value: an array by its elements or its
bytes, a struct by its fields, a big integer and a decimal by their number,
every other slot by its type, payload and numeric buffer as they are. -/
inductive Content where
  | slot (T : Option GType) (V : Option Value) (N : Nat)
  | bigint (T : Option GType) (z : Int)
  | decimal (T : Option GType) (coeff : Int) (exponent : Int)
  | list (T : Option GType) (elems : List Content)
  | bytes (T : Option GType) (data : Bytes)
  | struct (T : Option GType) (fields : List Content)

/-- The contents of the slots of a list, when every one has a content. -/
def contentAll (f : TypedValue → Option Content) : List TypedValue → Option (List Content)
  | [] => some []
  | x :: xs =>
    match f x, contentAll f xs with
    | some c, some cs => some (c :: cs)
    | _, _ => none

/-- The content of a slot in a heap: `none` when an address names no object
of the right form or the arrays and structs are nested deeper than the first
argument. -/
def content : Nat → Objects → TypedValue → Option Content
  | 0, _, _ => none
  | n + 1, h, tv =>
    match tv.V with
    | some (.BigintValue a) =>
      match h[a]? with
      | some (.BigInt z) => some (.bigint tv.T z)
      | _ => none
    | some (.BigdecValue a) =>
      match h[a]? with
      | some (.Decimal c e) => some (.decimal tv.T c e)
      | _ => none
    | some (.ArrayValue a) =>
      match h[a]? with
      | some (.ArrayValue l none) => (contentAll (content n h) l).map (.list tv.T)
      | some (.ArrayValue _ (some d)) => some (.bytes tv.T d)
      | _ => none
    | some (.StructValue a) =>
      match h[a]? with
      | some (.StructValue fs) => (contentAll (content n h) fs).map (.struct tv.T)
      | _ => none
    | _ => some (.slot tv.T tv.V tv.N)

/-- A slot of type `int` holding `n`. -/
def intSlot (n : Nat) : TypedValue :=
  { T := some (.PrimitiveType .IntType), V := none, N := n }

/-- A sample heap: object 0 is the array `A = [5]int{10, 20, 30, 40, 50}`,
object 1 the byte array `[3]uint8{1, 2, 3}` held as a byte buffer, object 2
the slice `A[1:3]` and object 3 the slice `A[2:4]`. -/
def sampleHeap : Objects :=
  [.ArrayValue [intSlot 10, intSlot 20, intSlot 30, intSlot 40, intSlot 50] none,
   .ArrayValue [] (some [1, 2, 3]),
   .SliceValue (some 0) 1 2 4,
   .SliceValue (some 0) 2 2 3]

/-- The slot holding the array `A` of the sample heap. -/
def sampleArray : TypedValue :=
  { T := some (.ArrayType 5 (.PrimitiveType .IntType)), V := some (.ArrayValue 0), N := 0 }

/-- The slot holding the byte array of the sample heap. -/
def sampleBytes : TypedValue :=
  { T := some (.ArrayType 3 (.PrimitiveType .Uint8Type)), V := some (.ArrayValue 1), N := 0 }

/-- The slot holding the slice `A[1:3]` of the sample heap. -/
def sampleSlice : TypedValue :=
  { T := some (.SliceType (.PrimitiveType .IntType)), V := some (.SliceValue 2), N := 0 }

/-- A sample of the outside functions, for evaluating assignments at concrete
inputs: the untyped types are the five untyped primitive types, no conversion
is made and no slot has a first object. -/
def sampleEnv : Env where
  isUntyped := fun t =>
    match t with
    | some (.PrimitiveType .UntypedBoolType) => true
    | some (.PrimitiveType .UntypedRuneType) => true
    | some (.PrimitiveType .UntypedBigintType) => true
    | some (.PrimitiveType .UntypedBigdecType) => true
    | some (.PrimitiveType .UntypedStringType) => true
    | _ => false
  convertUntyped := fun tv => tv
  firstObject := fun _ _ => none

/-- The read of element `j` through a slice object: the pointer
`GetPointerAtIndexInt2(j)`, then `Deref`. -/
def SliceValue.readAt (h : Objects) (sv : Nat) (j : Int) (et : GType) :
    Except Panic TypedValue :=
  match SliceValue.GetPointerAtIndexInt2 h sv j et with
  | .error e => .error e
  | .ok (h1, pv) => pv.Deref h1

/-- The write of element `j` through a slice object: the pointer
`GetPointerAtIndexInt2(j)`, then `Assign2` with no realm and no conversion. -/
def SliceValue.writeAt (env : Env) (h : Objects) (sv : Nat) (j : Int) (et : GType)
    (x : TypedValue) : Except Panic Objects :=
  match SliceValue.GetPointerAtIndexInt2 h sv j et with
  | .error e => .error e
  | .ok (h1, pv) =>
    match pv.Assign2 env 1 h1 none x false with
    | .error e => .error e
    | .ok (h2, _) => .ok h2

/-- The read of element `m` through an array object: the pointer
`GetPointerAtIndexInt2(m)`, then `Deref`. -/
def ArrayValue.readAt (h : Objects) (av : Nat) (m : Int) (et : GType) :
    Except Panic TypedValue :=
  match ArrayValue.GetPointerAtIndexInt2 h av m et with
  | .error e => .error e
  | .ok (h1, pv) => pv.Deref h1

/-- A sample heap with a struct: object 0 is the array `[1]int{1}`, object 1
the array `[2]int{5, 6}`, object 2 the slice of all of object 1, object 3 the
struct `{7}` and object 4 the struct whose fields are the int 9, the array
object 0, the slice object 2 and the struct object 3. -/
def sampleStructHeap : Objects :=
  [.ArrayValue [intSlot 1] none,
   .ArrayValue [intSlot 5, intSlot 6] none,
   .SliceValue (some 1) 0 2 2,
   .StructValue [intSlot 7],
   .StructValue
     [intSlot 9,
      { T := some (.ArrayType 1 (.PrimitiveType .IntType)), V := some (.ArrayValue 0), N := 0 },
      { T := some (.SliceType (.PrimitiveType .IntType)), V := some (.SliceValue 2), N := 0 },
      { T := some (.StructType [.mk [120] (.PrimitiveType .IntType)]),
        V := some (.StructValue 3), N := 0 }]]

/-- The slot holding the struct, object 4, of the sample heap. -/
def sampleStruct : TypedValue :=
  { T := some (.StructType [.mk [97] (.PrimitiveType .IntType),
        .mk [98] (.ArrayType 1 (.PrimitiveType .IntType)),
        .mk [99] (.SliceType (.PrimitiveType .IntType)),
        .mk [100] (.StructType [.mk [120] (.PrimitiveType .IntType)])]),
    V := some (.StructValue 4), N := 0 }

end Heap

/-! ### Classification of a slot and zero values -/

/-- The method `TypedValue.IsNilInterface`. -/
def TypedValue.IsNilInterface (tv : TypedValue) : Bool :=
  match tv.T with
  | some t =>
    if t.Kind = .InterfaceKind then
      match tv.V with
      | none => true
      | some _ => false
    else false
  | none => false

/-- The method `TypedValue.IsUndefined`. -/
def TypedValue.IsUndefined (tv : TypedValue) : Bool :=
  match tv.T with
  | none => true
  | some _ => tv.IsNilInterface

/-- The method `TypedValue.IsDefined`. -/
def TypedValue.IsDefined (tv : TypedValue) : Bool :=
  !tv.IsUndefined

/-- The method `TypedValue.HasKind`. -/
def TypedValue.HasKind (tv : TypedValue) (k : Kind) : Bool :=
  match tv.T with
  | none => false
  | some t => decide (t.Kind = k)

mutual
/-- The function `defaultValue`: the switch on `baseOf(t)`, an array for an
array type, a struct for a struct type, and `nil` otherwise. -/
def defaultValue : GType → Option Value
  | .ArrayType len elt => some (defaultArrayValue len elt)
  | .StructType fts => some (.StructValue (defaultStructFields fts))
  | .DeclaredType _ (.ArrayType len elt) => some (defaultArrayValue len elt)
  | .DeclaredType _ (.StructType fts) => some (.StructValue (defaultStructFields fts))
  | _ => none
/-- The function `defaultArrayValue` for the array type of length `len` and
element type `elt`: a byte buffer of `len` zero bytes when the element kind is
`Uint8Kind`, and otherwise an element list of `len` slots, each of the element
type with its default value, or undefined when the element type is of
interface kind. -/
def defaultArrayValue (len : Nat) (elt : GType) : Value :=
  if elt.Kind = .Uint8Kind then .ArrayValue [] (some (List.replicate len 0))
  else if elt.Kind ≠ .InterfaceKind then
    .ArrayValue (List.replicate len (.mk (some elt) (defaultValue elt) 0)) none
  else .ArrayValue (List.replicate len (.mk none none 0)) none
/-- The function `defaultStructFields`: one slot for each field, of the type
of the field with its default value, or undefined when the type of the field
is of interface kind. -/
def defaultStructFields : List FieldType → List TypedValue
  | [] => []
  | .mk _ t :: rest =>
    (if t.Kind ≠ .InterfaceKind then TypedValue.mk (some t) (defaultValue t) 0
      else TypedValue.mk none none 0) :: defaultStructFields rest
end

/-- The function `defaultTypedValue`. -/
def defaultTypedValue (t : GType) : TypedValue :=
  if t.Kind = .InterfaceKind then .mk none none 0
  else .mk (some t) (defaultValue t) 0

/-- The map case of `TypedValue.GetPointerAtIndex` for a slot of type `t`
that holds the map `v` (`none` is the nil payload): the pointer of
`GetPointerForKey`, and the default value of the declared value type written
to the item when it is undefined and that type is not of interface kind. -/
def TypedValue.GetPointerAtIndexMap (ext : Externals) (t : GType) (v : Option MapValue)
    (iv : TypedValue) : Except String (MapValue × MapPointer) :=
  match baseOf t with
  | .MapType _ vt =>
    match v with
    | none => .error "uninitialized map index"
    | some mv =>
      match mv.GetPointerForKey ext iv with
      | .error e => .error e
      | .ok (mv2, pv) =>
        match mv2.items[pv.TV]? with
        | none => .error "nil pointer dereference"
        | some it =>
          if it.Value.IsUndefined then
            if vt.Kind ≠ .InterfaceKind then
              match setItem mv2.items pv.TV (MapListItem.setValue (defaultTypedValue vt)) with
              | .ok items => .ok ({ mv2 with items := items }, pv)
              | .error e => .error e
            else .ok (mv2, pv)
          else .ok (mv2, pv)
  | _ => .error "unexpected index base type"

/-! ### Placeholders, blocks and heap items over the object heap

A `Store` gives, for the identity of an object or the path of a package, the
address of the object in the heap. Every function that may consult the store
returns the list of the lookups it made. -/

namespace Heap

/-- The two lookups of `fillValueTV`, `GetBase` and `GetParent` in a `Store`:
`GetObject(oid)`, which panics when the store has no such object, and
`GetPackage(pkgPath, false)`, which returns `nil` when it has no such
package. -/
structure Store where
  GetObject : Nat → Option Nat
  GetPackage : Bytes → Option Nat

/-- A lookup made in the store. -/
inductive Lookup where
  | object (ObjectID : Nat)
  | package (PkgPath : Bytes)
  deriving DecidableEq

/-- Whether a heap object is an `Object` of Go (it embeds `ObjectInfo`): an
array, a struct, a map, a block, a heap item, a bound method or a package. -/
def Object.isObject : Object → Bool
  | .ArrayValue _ _ => true
  | .StructValue _ => true
  | .MapValue _ => true
  | .HeapItemValue _ => true
  | .Block _ _ _ => true
  | .BoundMethodValue _ _ => true
  | .PackageValue => true
  | _ => false

/-- The payload that holds the object at an address. -/
def objectValue (h : Objects) (a : Nat) : Option Value :=
  match h[a]? with
  | some (.ArrayValue _ _) => some (.ArrayValue a)
  | some (.StructValue _) => some (.StructValue a)
  | some (.MapValue _) => some (.MapValue a)
  | some (.HeapItemValue _) => some (.HeapItemValue a)
  | some (.Block _ _ _) => some (.Block a)
  | some (.BoundMethodValue _ _) => some (.BoundMethodValue a)
  | some .PackageValue => some (.PackageValue a)
  | _ => none

/-- The type of `fillValueTV` with its store: from a heap and a slot to the
heap after the call and the lookups made. -/
abbrev Fill := Objects → Nat × Nat → Except Panic (Objects × List Lookup)

/-- The method `ArrayValue.GetPointerAtIndexInt2` with its call of
`fillValueTV` on the element `av.List[ii]`. -/
def ArrayValue.GetPointerAtIndexInt2Fill (fill : Fill) (h : Objects) (av : Nat) (ii : Int)
    (et : GType) : Except Panic (Objects × PointerValue × List Lookup) :=
  match h[av]? with
  | some (.ArrayValue l none) =>
    match indexCheck ii l.length with
    | .error e => .error e
    | .ok i =>
      match fill h (av, i) with
      | .error e => .error e
      | .ok (h1, log) => .ok (h1, { TV := some (av, i), Base := some av, Index := ii }, log)
  | some (.ArrayValue _ (some _)) =>
    .ok (h ++ [.Slot (dataByteSlot av ii et)],
      { TV := some (h.length, 0), Base := some av, Index := ii }, [])
  | _ => .error (.runtime "nil pointer dereference" [])

/-- The method `StructValue.GetPointerToInt`. -/
def StructValue.GetPointerToInt (fill : Fill) (h : Objects) (sv : Nat) (index : Int) :
    Except Panic (Objects × PointerValue × List Lookup) :=
  match h[sv]? with
  | some (.StructValue fs) =>
    match indexCheck index fs.length with
    | .error e => .error e
    | .ok i =>
      match fill h (sv, i) with
      | .error e => .error e
      | .ok (h1, log) => .ok (h1, { TV := some (sv, i), Base := some sv, Index := index }, log)
  | _ => .error (.runtime "nil pointer dereference" [])

/-- The method `Block.GetPointerToInt`. -/
def Block.GetPointerToInt (fill : Fill) (h : Objects) (b : Nat) (index : Int) :
    Except Panic (Objects × PointerValue × List Lookup) :=
  match h[b]? with
  | some (.Block vs _ _) =>
    match indexCheck index vs.length with
    | .error e => .error e
    | .ok i =>
      match fill h (b, i) with
      | .error e => .error e
      | .ok (h1, log) => .ok (h1, { TV := some (b, i), Base := some b, Index := index }, log)
  | _ => .error (.runtime "nil pointer dereference" [])

/-- The switch `switch cb := base.(type)` of the pointer case of
`fillValueTV`: the target `cv.TV` of a pointer with the index `index`, in a
slot of type `T`, derived from its base `base`. `fill` is `fillValueTV` with
its store, called on the element, the field or the value. -/
def fillTarget (fill : Fill) (h : Objects) (T : Option GType) (base : Nat) (index : Int) :
    Except Panic (Objects × Option (Nat × Nat) × List Lookup) :=
  match h[base]? with
  | some (.ArrayValue _ _) =>
    match T.map baseOf with
    | some (.PointerType et) =>
      match ArrayValue.GetPointerAtIndexInt2Fill fill h base index et with
      | .error e => .error e
      | .ok (h1, epv, log) => .ok (h1, epv.TV, log)
    | _ => .error (.runtime "interface conversion" [])
  | some (.StructValue _) =>
    match StructValue.GetPointerToInt fill h base index with
    | .error e => .error e
    | .ok (h1, fpv, log) => .ok (h1, fpv.TV, log)
  | some (.BoundMethodValue _ _) => .error (.fatal "should not happen" [])
  | some (.MapValue _) => .error (.fatal "should not happen" [])
  | some (.Block _ _ _) =>
    match Block.GetPointerToInt fill h base index with
    | .error e => .error e
    | .ok (h1, vpv, log) => .ok (h1, vpv.TV, log)
  | some (.HeapItemValue _) => .ok (h, some (base, 0), [])
  | _ => .error (.fatal "should not happen" [])

/-- The function `fillValueTV` on the slot `tv`. A placeholder payload is
replaced by the package or the object of the store. For a pointer payload
whose base is a placeholder, the base is replaced by the object of the store
and the target `TV` is derived from it by `fillTarget`; the payload is written
at the end (`tv.V = cv`). The first argument bounds the depth of the calls of
`fillValueTV` on the targets. -/
def fillValueTV (st : Store) : Nat → Fill
  | 0, _, _ => .error (.runtime "stack overflow" [])
  | fuel + 1, h, tv =>
    match readSlot h tv.1 tv.2 with
    | none => .error (.runtime "nil pointer dereference" [])
    | some cur =>
      match cur.V with
      | some (.RefValue oid pkgPath) =>
        if pkgPath ≠ [] then
          match writeSlot h tv.1 tv.2
              { cur with V := (st.GetPackage pkgPath).map Value.PackageValue } with
          | none => .error (.runtime "nil pointer dereference" [])
          | some h1 => .ok (h1, [.package pkgPath])
        else
          match st.GetObject oid with
          | none => .error (.fatal "unexpected object with id %s" [])
          | some a =>
            match objectValue h a with
            | none => .error (.runtime "interface conversion" [])
            | some v =>
              match writeSlot h tv.1 tv.2 { cur with V := some v } with
              | none => .error (.runtime "nil pointer dereference" [])
              | some h1 => .ok (h1, [.object oid])
      | some (.PointerValue cv) =>
        match cv.Base with
        | none => .ok (h, [])
        | some b =>
          match h[b]? with
          | some (.RefValue oid) =>
            match st.GetObject oid with
            | none => .error (.fatal "unexpected object with id %s" [])
            | some base =>
              match fillTarget (fillValueTV st fuel) h cur.T base cv.Index with
              | .error e => .error e
              | .ok (h1, target, log) =>
                match writeSlot h1 tv.1 tv.2
                    { cur with V := some (.PointerValue
                        { TV := target, Base := some base, Index := cv.Index }) } with
                | none => .error (.runtime "nil pointer dereference" [])
                | some h2 => .ok (h2, Lookup.object oid :: log)
          | _ => .ok (h, [])
      | _ => .ok (h, [])

/-- The method `PointerValue.GetBase`: the pointer after the call (its `Base`
holds the object found in the store), the object returned, and the lookups. -/
def PointerValue.GetBase (st : Store) (h : Objects) (pv : PointerValue) :
    Except Panic (PointerValue × Option Nat × List Lookup) :=
  match pv.Base with
  | none => .ok (pv, none, [])
  | some b =>
    match h[b]? with
    | some (.RefValue oid) =>
      match st.GetObject oid with
      | none => .error (.fatal "unexpected object with id %s" [])
      | some base =>
        match h[base]? with
        | some o =>
          if o.isObject then
            .ok ({ pv with Base := some base }, some base, [.object oid])
          else .error (.runtime "interface conversion" [])
        | none => .error (.runtime "interface conversion" [])
    | some o =>
      if o.isObject then .ok (pv, some b, [])
      else .error (.fatal "unexpected pointer base type %T" [])
    | none => .error (.fatal "unexpected pointer base type %T" [])

/-- The method `SliceValue.GetBase`: the heap after the call (the `Base` of
the slice holds the array found in the store), the array returned, and the
lookups. -/
def SliceValue.GetBase (st : Store) (h : Objects) (sv : Nat) :
    Except Panic (Objects × Option Nat × List Lookup) :=
  match h[sv]? with
  | some (.SliceValue base offset length maxcap) =>
    match base with
    | none => .ok (h, none, [])
    | some b =>
      match h[b]? with
      | some (.RefValue oid) =>
        match st.GetObject oid with
        | none => .error (.fatal "unexpected object with id %s" [])
        | some a =>
          match h[a]? with
          | some (.ArrayValue _ _) =>
            .ok (h.set sv (.SliceValue (some a) offset length maxcap), some a, [.object oid])
          | _ => .error (.runtime "interface conversion" [])
      | some (.ArrayValue _ _) => .ok (h, some b, [])
      | _ => .error (.fatal "should not happen" [])
  | _ => .error (.runtime "nil pointer dereference" [])

/-- The method `Block.GetParent`: the heap after the call (the `Parent` of the
block holds the block found in the store), the parent returned, and the
lookups. -/
def Block.GetParent (st : Store) (h : Objects) (b : Nat) :
    Except Panic (Objects × Option Nat × List Lookup) :=
  match h[b]? with
  | some (.Block vs parent blank) =>
    match parent with
    | none => .ok (h, none, [])
    | some p =>
      match h[p]? with
      | some (.Block _ _ _) => .ok (h, some p, [])
      | some (.RefValue oid) =>
        match st.GetObject oid with
        | none => .error (.fatal "unexpected object with id %s" [])
        | some a =>
          match h[a]? with
          | some (.Block _ _ _) => .ok (h.set b (.Block vs (some a) blank), some a, [.object oid])
          | _ => .error (.runtime "interface conversion" [])
      | _ => .error (.fatal "should not happen" [])
  | _ => .error (.runtime "nil pointer dereference" [])

/-- The constants of `VPType` that `values.go` names, and `VPUverse` for
every other one. -/
inductive VPType where
  | VPUverse | VPBlock | VPField | VPValMethod | VPPtrMethod | VPInterface
  | VPSubrefField | VPDerefField | VPDerefValMethod | VPDerefPtrMethod | VPDerefInterface
  deriving DecidableEq

/-- The struct `ValuePath`, as far as `values.go` reads it: `Depth` is a
`uint8` and `Index` a `uint16`. -/
structure ValuePath where
  Typ : VPType
  Depth : Nat
  Index : Nat
  Name : Bytes

/-- The constant `PointerIndexBlockBlank`. -/
def PointerIndexBlockBlank : Int := -1

/-- The loop `for i := uint8(1); i < path.Depth; i++ { b = b.GetParent(store) }`
of `Block.GetPointerTo`, from the value `i` of the counter; the first argument
bounds the number of passes and is `path.Depth` at the start. The block `b`
is `none` when `GetParent` returned `nil`. -/
def Block.parentLoop (st : Store) (depth : Nat) :
    Nat → Nat → Objects → Option Nat → Except Panic (Objects × Option Nat × List Lookup)
  | 0, _, h, b => .ok (h, b, [])
  | fuel + 1, i, h, b =>
    if i < depth then
      match b with
      | none => .error (.runtime "nil pointer dereference" [])
      | some a =>
        match Block.GetParent st h a with
        | .error e => .error e
        | .ok (h1, b1, log1) =>
          match Block.parentLoop st depth fuel (i + 1) h1 b1 with
          | .error e => .error e
          | .ok (h2, b2, log2) => .ok (h2, b2, log1 ++ log2)
    else .ok (h, b, [])

/-- The block reached from the block `b` by following the `Parent` link `n`
times, each time with `GetParent`. This definition follows the words of the
specification of `GetPointerTo`; the loop of the code is `parentLoop`. -/
def Block.followParent (st : Store) :
    Nat → Objects → Option Nat → Except Panic (Objects × Option Nat × List Lookup)
  | 0, h, b => .ok (h, b, [])
  | n + 1, h, b =>
    match b with
    | none => .error (.runtime "nil pointer dereference" [])
    | some a =>
      match Block.GetParent st h a with
      | .error e => .error e
      | .ok (h1, b1, log1) =>
        match Block.followParent st n h1 b1 with
        | .error e => .error e
        | .ok (h2, b2, log2) => .ok (h2, b2, log1 ++ log2)

/-- The method `Block.GetPointerTo`. Whether a path is the path of the blank
identifier (`path.IsBlockBlankPath()`) is the argument `isBlank`; the first
argument bounds the depth of `fillValueTV`. -/
def Block.GetPointerTo (st : Store) (fuel : Nat) (isBlank : ValuePath → Bool) (h : Objects)
    (b : Nat) (path : ValuePath) : Except Panic (Objects × PointerValue × List Lookup) :=
  if isBlank path then
    match h[b]? with
    | some (.Block _ _ blank) =>
      .ok (h, { TV := some (blank, 0), Base := some b, Index := PointerIndexBlockBlank }, [])
    | _ => .error (.runtime "nil pointer dereference" [])
  else
    match Block.parentLoop st path.Depth path.Depth 1 h (some b) with
    | .error e => .error e
    | .ok (h1, b1, log1) =>
      match b1 with
      | none => .error (.runtime "nil pointer dereference" [])
      | some a =>
        match Block.GetPointerToInt (fillValueTV st fuel) h1 a path.Index with
        | .error e => .error e
        | .ok (h2, pv, log2) => .ok (h2, pv, log1 ++ log2)

/-- The slot `TypedValue{T: heapItemType{}, V: hiv}` that holds a heap
item. -/
def heapItemSlot (hiv : Nat) : TypedValue :=
  { T := some .heapItemType, V := some (.HeapItemValue hiv), N := 0 }

/-- The method `Block.GetPointerToHeapDefine`: the new heap item
`&HeapItemValue{}` is allocated after the pointer is obtained, and the slot
is overwritten. -/
def Block.GetPointerToHeapDefine (st : Store) (fuel : Nat) (isBlank : ValuePath → Bool)
    (h : Objects) (b : Nat) (path : ValuePath) :
    Except Panic (Objects × PointerValue × List Lookup) :=
  match Block.GetPointerTo st fuel isBlank h b path with
  | .error e => .error e
  | .ok (h1, ptr, log) =>
    match ptr.TV with
    | none => .error (.runtime "nil pointer dereference" [])
    | some (obj, i) =>
      match writeSlot (h1 ++ [.HeapItemValue { T := none, V := none, N := 0 }]) obj i
          (heapItemSlot h1.length) with
      | none => .error (.runtime "nil pointer dereference" [])
      | some h2 =>
        .ok (h2, { TV := some (h1.length, 0), Base := some h1.length, Index := 0 }, log)

/-- The method `Block.GetPointerToHeapUse`. -/
def Block.GetPointerToHeapUse (st : Store) (fuel : Nat) (isBlank : ValuePath → Bool)
    (h : Objects) (b : Nat) (path : ValuePath) :
    Except Panic (Objects × PointerValue × List Lookup) :=
  match Block.GetPointerTo st fuel isBlank h b path with
  | .error e => .error e
  | .ok (h1, ptr, log) =>
    match ptr.TV with
    | none => .error (.runtime "nil pointer dereference" [])
    | some (obj, i) =>
      match readSlot h1 obj i with
      | none => .error (.runtime "nil pointer dereference" [])
      | some cur =>
        match cur.T with
        | some .heapItemType =>
          match cur.V with
          | some (.HeapItemValue hiv) =>
            .ok (h1, { TV := some (hiv, 0), Base := some hiv, Index := 0 }, log)
          | _ => .error (.fatal "should not happen, should be HeapItemValue" [])
        | _ => .error (.fatal "should not happen, should be heapItemType" [])

/-- The slot `&TypedValue{T: &PointerType{Elt: ft}, V: PointerValue{TV: fv,
Base: sv, Index: index}}` of `GetSubrefPointerTo`, `fv` being the field `i`
of the struct `sv`. -/
def subrefSlot (ft : GType) (sv i : Nat) (index : Int) : TypedValue :=
  { T := some (.PointerType ft),
    V := some (.PointerValue { TV := some (sv, i), Base := some sv, Index := index }),
    N := 0 }

/-- The method `StructValue.GetSubrefPointerTo`. The static type of the field,
`st.GetStaticTypeOfAt(path)`, is the argument `ft`. The slot of pointer type
is allocated on its own; the pointer returned has no base. -/
def StructValue.GetSubrefPointerTo (fill : Fill) (ft : GType) (h : Objects) (sv : Nat)
    (path : ValuePath) : Except Panic (Objects × PointerValue × List Lookup) :=
  match h[sv]? with
  | some (.StructValue fs) =>
    match indexCheck path.Index fs.length with
    | .error e => .error e
    | .ok i =>
      match fill h (sv, i) with
      | .error e => .error e
      | .ok (h1, log) =>
        .ok (h1 ++ [.Slot (subrefSlot ft sv i path.Index)],
          { TV := some (h1.length, 0), Base := none, Index := 0 }, log)
  | _ => .error (.runtime "nil pointer dereference" [])

/-- Whether a slot is loaded in a heap: its payload is not a placeholder and
is not a pointer whose base is a placeholder. -/
def TypedValue.isLoaded (h : Objects) (cur : TypedValue) : Bool :=
  match cur.V with
  | some (.RefValue _ _) => false
  | some (.PointerValue cv) =>
    match cv.Base with
    | none => true
    | some b =>
      match h[b]? with
      | some (.RefValue _) => false
      | _ => true
  | _ => true

/-- The frame of an object: the object with the content of its slots erased.
A write to a slot keeps the frame of every object. -/
def Object.frame : Object → Object
  | .ArrayValue l none =>
    .ArrayValue (List.replicate l.length { T := none, V := none, N := 0 }) none
  | .StructValue fs => .StructValue (List.replicate fs.length { T := none, V := none, N := 0 })
  | .Block vs p bl => .Block (List.replicate vs.length { T := none, V := none, N := 0 }) p bl
  | .Slot _ => .Slot { T := none, V := none, N := 0 }
  | .HeapItemValue _ => .HeapItemValue { T := none, V := none, N := 0 }
  | o => o

/-- The heap `h1` keeps the objects of the heap `h`: every object of `h` is
in `h1` at the same address with the same frame. -/
def Keeps (h h1 : Objects) : Prop :=
  ∀ (a : Nat) (o : Object), h[a]? = some o →
    ∃ o1 : Object, h1[a]? = some o1 ∧ o1.frame = o.frame

/-- The block `a` has the parent `p`, and the parent is loaded: it is empty
or a block of the heap. -/
def Settled (h : Objects) (a : Nat) (p : Option Nat) : Prop :=
  (∃ vs bl, h[a]? = some (.Block vs p bl)) ∧
  ∀ q, p = some q → ∃ vs2 p2 bl2, h[q]? = some (.Block vs2 p2 bl2)

/-- The heap `h3` differs from the heap `h2` at most in the content of the
heap item `n` and in new objects. -/
def SameButItem (h2 h3 : Objects) (n : Nat) : Prop :=
  (∀ c, c < h2.length → c ≠ n → h3[c]? = h2[c]?) ∧
  ∃ v, h3[n]? = some (.HeapItemValue v)

/-- A sample of `IsBlockBlankPath` for evaluating at concrete inputs: the
path of depth 0 and index 0. -/
def sampleIsBlank (path : ValuePath) : Bool :=
  path.Depth == 0 && path.Index == 0

/-- A sample store for evaluating at concrete inputs: the object 7 is at the
address 0, the object 8 at the address 4, the object 9 at the address 8, and
there is no package. -/
def sampleStore : Store where
  GetObject := fun oid =>
    if oid = 7 then some 0 else if oid = 8 then some 4 else if oid = 9 then some 8 else none
  GetPackage := fun _ => none

/-- A sample heap with placeholders. Object 0 is the array `[2]int{1, 2}`
(object 7 of the store), object 1 the placeholder of object 7, object 2 a
slice of the whole array whose base is the placeholder, object 3 the blank
slot of the block 4, object 4 a block with the value 5, no parent (object 8
of the store), object 5 the placeholder of object 8, object 6 the blank slot
of the block 7, object 7 a block whose parent is the placeholder and whose
values are the int 6, a pointer to the element 1 of the array with the
placeholder of the array as base, and the placeholder of object 8, object 8
the struct `{3}` (object 9 of the store) and object 9 its placeholder. -/
def sampleRefHeap : Objects :=
  [.ArrayValue [intSlot 1, intSlot 2] none,
   .RefValue 7,
   .SliceValue (some 1) 0 2 2,
   .Slot { T := none, V := none, N := 0 },
   .Block [intSlot 5] none 3,
   .RefValue 8,
   .Slot { T := none, V := none, N := 0 },
   .Block
     [intSlot 6,
      { T := some (.PointerType (.PrimitiveType .IntType)),
        V := some (.PointerValue { TV := none, Base := some 1, Index := 1 }), N := 0 },
      { T := none, V := some (.RefValue 8 []), N := 0 }]
     (some 5) 6,
   .StructValue [intSlot 3],
   .RefValue 9]

/-- A sample heap with a pointer to itself: object 0 is an array whose one
element is a pointer with the index 0 and the placeholder of object 7 as
base, object 1 that placeholder; in the sample store the object 7 is the
array itself. -/
def sampleCyclicHeap : Objects :=
  [.ArrayValue
     [{ T := some (.PointerType (.PrimitiveType .IntType)),
        V := some (.PointerValue { TV := none, Base := some 1, Index := 0 }), N := 0 }]
     none,
   .RefValue 7]

end Heap

/-! ### The numeric buffer: setters, sign -/

/-- The write `*(*K)(unsafe.Pointer(&tv.N)) = x` of a value of `w` bits into
the numeric buffer, read as a little-endian word: the low `w` bits, which are
the first `w / 8` bytes of the buffer, become `x`, and the other bits stay. -/
def setLow (w : Nat) (n x : Nat) : Nat :=
  n / 2 ^ w * 2 ^ w + x % 2 ^ w

/-- The setter `SetBool`: one byte, 1 for `true` and 0 for `false`. -/
def TypedValue.SetBool (tv : TypedValue) (b : Bool) : TypedValue :=
  .mk tv.T tv.V (setLow 8 tv.N (if b then 1 else 0))

/-- The setter `SetString`: `tv.V = s`. -/
def TypedValue.SetString (tv : TypedValue) (s : Bytes) : TypedValue :=
  .mk tv.T (some (.StringValue s)) tv.N

/-- The setter `SetInt` (an `int64`). -/
def TypedValue.SetInt (tv : TypedValue) (n : Int) : TypedValue :=
  .mk tv.T tv.V (setLow 64 tv.N (toUnsigned 64 n))

/-- The setter `SetInt8`. -/
def TypedValue.SetInt8 (tv : TypedValue) (n : Int) : TypedValue :=
  .mk tv.T tv.V (setLow 8 tv.N (toUnsigned 8 n))

/-- The setter `SetInt16`. -/
def TypedValue.SetInt16 (tv : TypedValue) (n : Int) : TypedValue :=
  .mk tv.T tv.V (setLow 16 tv.N (toUnsigned 16 n))

/-- The setter `SetInt32`. -/
def TypedValue.SetInt32 (tv : TypedValue) (n : Int) : TypedValue :=
  .mk tv.T tv.V (setLow 32 tv.N (toUnsigned 32 n))

/-- The setter `SetInt64`. -/
def TypedValue.SetInt64 (tv : TypedValue) (n : Int) : TypedValue :=
  .mk tv.T tv.V (setLow 64 tv.N (toUnsigned 64 n))

/-- The setter `SetUint` (a `uint64`). -/
def TypedValue.SetUint (tv : TypedValue) (n : Nat) : TypedValue :=
  .mk tv.T tv.V (setLow 64 tv.N n)

/-- The setter `SetUint8`. -/
def TypedValue.SetUint8 (tv : TypedValue) (n : Nat) : TypedValue :=
  .mk tv.T tv.V (setLow 8 tv.N n)

/-- The setter `SetUint16`. -/
def TypedValue.SetUint16 (tv : TypedValue) (n : Nat) : TypedValue :=
  .mk tv.T tv.V (setLow 16 tv.N n)

/-- The setter `SetUint32`. -/
def TypedValue.SetUint32 (tv : TypedValue) (n : Nat) : TypedValue :=
  .mk tv.T tv.V (setLow 32 tv.N n)

/-- The setter `SetUint64`. -/
def TypedValue.SetUint64 (tv : TypedValue) (n : Nat) : TypedValue :=
  .mk tv.T tv.V (setLow 64 tv.N n)

/-- The setter `SetFloat32`: the bit pattern, a `uint32`. -/
def TypedValue.SetFloat32 (tv : TypedValue) (n : Nat) : TypedValue :=
  .mk tv.T tv.V (setLow 32 tv.N n)

/-- The setter `SetFloat64`: the bit pattern, a `uint64`. -/
def TypedValue.SetFloat64 (tv : TypedValue) (n : Nat) : TypedValue :=
  .mk tv.T tv.V (setLow 64 tv.N n)

/-- The function `signOfSignedBytes`: the sign of the whole buffer read as an
`int64`. -/
def signOfSignedBytes (n : Nat) : Int :=
  if toSigned 64 n = 0 then 0
  else if toSigned 64 n < 0 then -1
  else 1

/-- The function `signOfUnsignedBytes`: 0 when the whole buffer read as a
`uint64` is 0, and 1 otherwise. -/
def signOfUnsignedBytes (n : Nat) : Int :=
  if n % 2 ^ 64 = 0 then 0 else 1

/-- The method `TypedValue.Sign`. -/
def TypedValue.Sign (tv : TypedValue) : Except String Int :=
  match tv.T with
  | none => .error "type should not be nil"
  | some t =>
    match t.Kind with
    | .UintKind => .ok (signOfUnsignedBytes tv.N)
    | .Uint8Kind => .ok (signOfUnsignedBytes tv.N)
    | .Uint16Kind => .ok (signOfUnsignedBytes tv.N)
    | .Uint32Kind => .ok (signOfUnsignedBytes tv.N)
    | .Uint64Kind => .ok (signOfUnsignedBytes tv.N)
    | .IntKind => .ok (signOfSignedBytes tv.N)
    | .Int8Kind => .ok (signOfSignedBytes tv.N)
    | .Int16Kind => .ok (signOfSignedBytes tv.N)
    | .Int32Kind => .ok (signOfSignedBytes tv.N)
    | .Int64Kind => .ok (signOfSignedBytes tv.N)
    | .Float32Kind => .ok (signOfSignedBytes tv.N)
    | .Float64Kind => .ok (signOfSignedBytes tv.N)
    | .BigintKind =>
      match tv.V with
      | some (.BigintValue v) => .ok (Int.sign v)
      | _ => .error "interface conversion: Value is not BigintValue"
    | .BigdecKind =>
      match tv.V with
      | some (.BigdecValue v) => .ok (Int.sign v)
      | _ => .error "interface conversion: Value is not BigdecValue"
    | _ => .error "type should be numeric"

/-- The method `TypedValue.AssertNonNegative`: it panics with the message
when the sign is negative. -/
def TypedValue.AssertNonNegative (tv : TypedValue) (msg : String) : Except String Unit :=
  match tv.Sign with
  | .error e => .error e
  | .ok s => if s < 0 then .error msg else .ok ()

/-- The methods `ArrayValue.GetLength` and `ArrayValue.GetCapacity` on an
array held by value: the length of the byte buffer when there is one, and of
the element list otherwise. -/
def ArrayValue.GetLength : Value → Except String Int
  | .ArrayValue l none => .ok l.length
  | .ArrayValue _ (some data) => .ok data.length
  | _ => .error "nil pointer dereference"

/-- The method `ArrayValue.GetCapacity` on an array held by value. -/
def ArrayValue.GetCapacity : Value → Except String Int
  | .ArrayValue l none => .ok l.length
  | .ArrayValue _ (some data) => .ok data.length
  | _ => .error "nil pointer dereference"

/-! ### The image of a map list -/

/-- The method `MapList.MarshalAmino`: the image is the list of the items met
from `Head` through `Next`. The loop returns on every list that has no cycle;
no such list of a heap of `n` items has more than `n` items. -/
def MapList.MarshalAmino (items : List MapListItem) (ml : MapList) : Option (List Nat) :=
  traverseFrom items items.length ml.Head

/-- One pass of the loop of `MapList.UnmarshalAmino`, for the item `item` at
the index `i` of the image. -/
def MapList.unmarshalStep (items : List MapListItem) (ml : MapList) (i : Nat) (item : Nat) :
    Except String (List MapListItem × MapList) :=
  let head := if i = 0 then some item else ml.Head
  match setItem items item (MapListItem.setPrev ml.Tail) with
  | .error e => .error e
  | .ok items1 =>
    match ml.Tail with
    | some t =>
      match setItem items1 t (MapListItem.setNext (some item)) with
      | .error e => .error e
      | .ok items2 => .ok (items2, { Head := head, Tail := some item, Size := ml.Size + 1 })
    | none => .ok (items1, { Head := head, Tail := some item, Size := ml.Size + 1 })

/-- The loop `for i, item := range mlimg.List` of `MapList.UnmarshalAmino`,
from the index `i`. -/
def MapList.unmarshalLoop :
    List Nat → Nat → List MapListItem → MapList → Except String (List MapListItem × MapList)
  | [], _, items, ml => .ok (items, ml)
  | item :: rest, i, items, ml =>
    match MapList.unmarshalStep items ml i item with
    | .error e => .error e
    | .ok (items1, ml1) => MapList.unmarshalLoop rest (i + 1) items1 ml1

/-- The method `MapList.UnmarshalAmino` on the image `mlimg`. -/
def MapList.UnmarshalAmino (items : List MapListItem) (ml : MapList) (mlimg : List Nat) :
    Except String (List MapListItem × MapList) :=
  MapList.unmarshalLoop mlimg 0 items ml

/-- A map list is well formed for the items `l` in order: they are distinct
and linked from `Head` to `Tail`, and `Size` is their number. -/
def MapList.WF (items : List MapListItem) (ml : MapList) (l : List Nat) : Prop :=
  l.Nodup ∧ Seg items none l none ∧
  ml.Head = l.head? ∧ ml.Tail = l.getLast? ∧ ml.Size = l.length

/-- A sample heap of two linked items with the keys 1 and 2 of type `int`. -/
def sampleMapItems : List MapListItem :=
  [{ Prev := none, Next := some 1,
     Key := TypedValue.mk (some (.PrimitiveType .IntType)) none 1,
     Value := TypedValue.mk (some (.PrimitiveType .IntType)) none 10 },
   { Prev := some 0, Next := none,
     Key := TypedValue.mk (some (.PrimitiveType .IntType)) none 2,
     Value := TypedValue.mk (some (.PrimitiveType .IntType)) none 20 }]

/-- The map list of the two items of `sampleMapItems`. -/
def sampleMapList : MapList :=
  { Head := some 0, Tail := some 1, Size := 2 }

namespace Heap

/-! ### Selectors -/

/-- What `GetPointerToFromTV` takes from outside `values.go`: `Elem()` of a
type; the static type of a field, `st.GetStaticTypeOfAt(path)`; the method of
a declared type at a path, as the address of its function
(`dt.GetValueAt(alloc, store, path).GetFunc()`) and its bound type
(`mv.GetType(store).BoundType()`); and the cases of the second switch that
go through a package block, a type value, a value method or an interface. -/
structure PathEnv where
  elem : Option GType → Option GType
  staticTypeOfAt : GType → ValuePath → GType
  method : GType → ValuePath → Except Panic (Nat × GType)
  rest : Objects → Nat × Nat → Option (Nat × Nat) → ValuePath →
    Except Panic (Objects × PointerValue × List Lookup)

/-- The expression `tv.V.(PointerValue).TV`: the type assertion fails on
every payload that is not a pointer, the empty payload of a nil pointer
included. -/
def pointerTarget (cur : TypedValue) : Except Panic (Option (Nat × Nat)) :=
  match cur.V with
  | some (.PointerValue pv) => .ok pv.TV
  | _ => .error (.runtime "interface conversion" [])

/-- The first switch of `GetPointerToFromTV`, on `path.Type` and
`path.Depth`, for the slot `tv` with the content `cur`: the heap, the slot
`dtv` (`none` is `nil`), `isPtr` and the path after the switch. The new slot
of the case `VPDerefValMethod` is appended to the heap. -/
def pathDispatch (penv : PathEnv) (h : Objects) (tv : Nat × Nat) (cur : TypedValue)
    (path : ValuePath) : Except Panic (Objects × Option (Nat × Nat) × Bool × ValuePath) :=
  match path.Typ with
  | .VPField =>
    match path.Depth with
    | 0 => .ok (h, some tv, false, path)
    | 1 => .ok (h, some tv, false, { path with Depth := 0 })
    | _ => .error (.fatal "should not happen" [])
  | .VPSubrefField =>
    match path.Depth with
    | 0 =>
      match pointerTarget cur with
      | .error e => .error e
      | .ok dtv => .ok (h, dtv, true, path)
    | 1 =>
      match pointerTarget cur with
      | .error e => .error e
      | .ok dtv => .ok (h, dtv, true, { path with Depth := 0 })
    | 2 =>
      match pointerTarget cur with
      | .error e => .error e
      | .ok dtv => .ok (h, dtv, true, { path with Depth := 0 })
    | 3 =>
      match pointerTarget cur with
      | .error e => .error e
      | .ok dtv => .ok (h, dtv, true, { path with Depth := 0 })
    | _ => .error (.fatal "should not happen" [])
  | .VPDerefField =>
    match path.Depth with
    | 0 =>
      match pointerTarget cur with
      | .error e => .error e
      | .ok dtv => .ok (h, dtv, true, { path with Typ := .VPField })
    | 1 =>
      match pointerTarget cur with
      | .error e => .error e
      | .ok dtv => .ok (h, dtv, true, { path with Typ := .VPField, Depth := 0 })
    | 2 =>
      match cur.V with
      | none => .error (.exception "nil pointer dereference" [])
      | some _ =>
        match pointerTarget cur with
        | .error e => .error e
        | .ok dtv => .ok (h, dtv, true, { path with Typ := .VPField, Depth := 0 })
    | 3 =>
      match pointerTarget cur with
      | .error e => .error e
      | .ok dtv => .ok (h, dtv, true, { path with Typ := .VPField, Depth := 0 })
    | _ => .error (.fatal "should not happen" [])
  | .VPDerefValMethod =>
    match cur.V with
    | none => .error (.exception "nil pointer dereference" [])
    | some _ =>
      match pointerTarget cur with
      | .error e => .error e
      | .ok none => .error (.runtime "nil pointer dereference" [])
      | .ok (some (obj, i)) =>
        match readSlot h obj i with
        | none => .error (.runtime "nil pointer dereference" [])
        | some dtv2 =>
          .ok (h ++ [.Slot { T := penv.elem cur.T, V := dtv2.V, N := dtv2.N }],
            some (h.length, 0), true, { path with Typ := .VPValMethod })
  | .VPDerefPtrMethod => .ok (h, none, true, { path with Typ := .VPPtrMethod })
  | .VPDerefInterface =>
    match pointerTarget cur with
    | .error e => .error e
    | .ok dtv => .ok (h, dtv, true, { path with Typ := .VPInterface })
  | _ => .ok (h, some tv, false, path)

/-- The slot `&TypedValue{T: mt.BoundType(), V: bmv}` that holds a bound
method. -/
def boundMethodSlot (bt : GType) (bmv : Nat) : TypedValue :=
  { T := some bt, V := some (.BoundMethodValue bmv), N := 0 }

/-- The case `VPPtrMethod` of the second switch of `GetPointerToFromTV`: the
method of the declared type `tv.T.(*PointerType).Elt.(*DeclaredType)`, bound
to the receiver `*tv`, in a new slot whose pointer has no base. -/
def ptrMethodCase (penv : PathEnv) (h : Objects) (cur : TypedValue) (path : ValuePath) :
    Except Panic (Objects × PointerValue) :=
  match cur.T with
  | some (.PointerType (.DeclaredType name base)) =>
    match penv.method (.DeclaredType name base) path with
    | .error e => .error e
    | .ok (mv, bt) =>
      .ok (h ++ [Object.BoundMethodValue mv cur, Object.Slot (boundMethodSlot bt h.length)],
        { TV := some (h.length + 1, 0), Base := none, Index := 0 })
  | _ => .error (.runtime "interface conversion" [])

/-- The second switch of `GetPointerToFromTV`, on the type of the path after
the first switch. -/
def pathSelect (penv : PathEnv) (fill : Fill) (h : Objects) (tv : Nat × Nat)
    (cur : TypedValue) (dtv : Option (Nat × Nat)) (path : ValuePath) :
    Except Panic (Objects × PointerValue × List Lookup) :=
  match path.Typ with
  | .VPField =>
    match dtv with
    | none => .error (.runtime "nil pointer dereference" [])
    | some (obj, i) =>
      match readSlot h obj i with
      | none => .error (.runtime "nil pointer dereference" [])
      | some d =>
        match d.T.map baseOf with
        | some (.StructType _) =>
          match d.V with
          | some (.StructValue sv) => StructValue.GetPointerToInt fill h sv path.Index
          | _ => .error (.runtime "interface conversion" [])
        | some .TypeType => penv.rest h tv dtv path
        | _ => .error (.fatal "unexpected selector base type %s (%s)" [])
  | .VPSubrefField =>
    match dtv with
    | none => .error (.runtime "nil pointer dereference" [])
    | some (obj, i) =>
      match readSlot h obj i with
      | none => .error (.runtime "nil pointer dereference" [])
      | some d =>
        match d.T.map baseOf with
        | some (.StructType fts) =>
          match d.V with
          | some (.StructValue sv) =>
            StructValue.GetSubrefPointerTo fill
              (penv.staticTypeOfAt (.StructType fts) path) h sv path
          | _ => .error (.runtime "interface conversion" [])
        | _ => .error (.fatal "unexpected (subref) selector base type %s (%s)" [])
  | .VPPtrMethod =>
    match ptrMethodCase penv h cur path with
    | .error e => .error e
    | .ok (h1, pv) => .ok (h1, pv, [])
  | .VPBlock => penv.rest h tv dtv path
  | .VPValMethod => penv.rest h tv dtv path
  | .VPInterface => penv.rest h tv dtv path
  | _ => .error (.fatal "should not happen" [])

/-- The statement `if dtv == nil { } else { fillValueTV(store, dtv) }` of
`GetPointerToFromTV`. -/
def fillDtv (fill : Fill) (h : Objects) (dtv : Option (Nat × Nat)) :
    Except Panic (Objects × List Lookup) :=
  match dtv with
  | none => .ok (h, [])
  | some d => fill h d

/-- The method `TypedValue.GetPointerToFromTV` on the slot `tv`: the first
switch, `fillValueTV` on `dtv` when it is not `nil`, then the second
switch. -/
def TypedValue.GetPointerToFromTV (penv : PathEnv) (fill : Fill) (h : Objects)
    (tv : Nat × Nat) (path : ValuePath) : Except Panic (Objects × PointerValue × List Lookup) :=
  match readSlot h tv.1 tv.2 with
  | none => .error (.runtime "nil pointer dereference" [])
  | some cur =>
    match pathDispatch penv h tv cur path with
    | .error e => .error e
    | .ok (h1, dtv, _, path1) =>
      match fillDtv fill h1 dtv with
      | .error e => .error e
      | .ok (h2, log) =>
        match pathSelect penv fill h2 tv cur dtv path1 with
        | .error e => .error e
        | .ok (h3, pv, log2) => .ok (h3, pv, log ++ log2)

/-- A sample of the outside functions of `GetPointerToFromTV`: the element
type of a pointer type, the method of every declared type is the function at
the address 0 with the bound type `func`, and the other cases fail. -/
def samplePathEnv : PathEnv where
  elem := fun t =>
    match t with
    | some (.PointerType e) => some e
    | _ => none
  staticTypeOfAt := fun t _ => t
  method := fun _ _ => .ok (0, .FuncType)
  rest := fun _ _ _ _ => .error (.fatal "not in the sample" [])

/-- A sample heap with a nil pointer: object 0 is a slot of the type `*M`,
`M` a declared struct type, with an empty payload. -/
def sampleNilPointerHeap : Objects :=
  [.Slot { T := some (.PointerType (.DeclaredType [77] (.StructType []))), V := none, N := 0 }]

/-- A slice `(Base, Offset, Length, Maxcap)` is well formed in a heap: its
base is an array of the heap, `0 ≤ Offset`, `0 ≤ Length ≤ Maxcap` and
`Offset + Maxcap` is at most the number of elements of the base. -/
def SliceWF (h : Objects) (base : Option Nat) (offset length maxcap : Int) : Prop :=
  ∃ av l d, base = some av ∧ h[av]? = some (Object.ArrayValue l d) ∧
    0 ≤ offset ∧ 0 ≤ length ∧ length ≤ maxcap ∧ offset + maxcap ≤ (arrayLen l d : Int)

end Heap

/-- The heap `h1` keeps the shape of the arrays of the heap `h`: every array of
`h` is in `h1` at the same address, with the same representation, a byte
buffer or an element list, and the same number of elements. -/
def Heap.SameShape (h h1 : Heap.Objects) : Prop :=
  ∀ (a : Nat) (l : List Heap.TypedValue) (d : Option Bytes),
    h[a]? = some (Heap.Object.ArrayValue l d) →
    ∃ (l1 : List Heap.TypedValue) (d1 : Option Bytes),
      h1[a]? = some (Heap.Object.ArrayValue l1 d1) ∧ d1.isSome = d.isSome ∧
        Heap.arrayLen l1 d1 = Heap.arrayLen l d

/-! ## Theorems -/

/-! ### Little-endian bytes -/

theorem putUintLE_length (n v : Nat) : (putUintLE n v).length = n := by
  induction n generalizing v with
  | zero => rfl
  | succ n ih => simp [putUintLE, ih]

theorem putUintLE_lt (n v : Nat) : ∀ b ∈ putUintLE n v, b < 256 := by
  induction n generalizing v with
  | zero => simp [putUintLE]
  | succ n ih =>
    intro b hb
    simp only [putUintLE, List.mem_cons] at hb
    rcases hb with rfl | hb
    · exact Nat.mod_lt _ (by decide)
    · exact ih _ b hb

theorem getUintLE_putUintLE (n v : Nat) : getUintLE (putUintLE n v) = v % 256 ^ n := by
  induction n generalizing v with
  | zero => simp [putUintLE, getUintLE, Nat.mod_one]
  | succ n ih =>
    simp only [putUintLE, getUintLE, ih]
    rw [pow_succ, Nat.mul_comm (256 ^ n) 256, Nat.mod_mul]

theorem putUintLE_inj (n a b : Nat) (ha : a < 256 ^ n) (hb : b < 256 ^ n)
    (h : putUintLE n a = putUintLE n b) : a = b := by
  have h1 := congrArg getUintLE h
  rwa [getUintLE_putUintLE, getUintLE_putUintLE, Nat.mod_eq_of_lt ha, Nat.mod_eq_of_lt hb] at h1


/-! ### The primitive encoding -/

theorem scalar_decode (pt : PrimitiveType) (w : Nat) (tv : TypedValue)
    (hw : pt.encWidth = some w) :
    decodeLE pt.isSigned (putUintLE w (toUnsigned (8 * w) (tv.scalar pt))) = tv.scalar pt := by
  cases pt <;> simp [PrimitiveType.encWidth] at hw <;> subst hw <;>
    simp only [decodeLE, PrimitiveType.isSigned, putUintLE_length, getUintLE_putUintLE,
      TypedValue.scalar, TypedValue.GetInt8, TypedValue.GetInt16, TypedValue.GetInt32,
      TypedValue.GetInt, TypedValue.GetInt64, TypedValue.GetUint8, TypedValue.GetUint16,
      TypedValue.GetUint32, TypedValue.GetUint, TypedValue.GetUint64, TypedValue.GetFloat32,
      TypedValue.GetFloat64, toSigned, toUnsigned, if_true, Bool.false_eq_true, if_false] <;>
    first
      | (split <;> omega)
      | omega

theorem primitiveBytes_scalar (tv : TypedValue) (t : GType) (pt : PrimitiveType) (w : Nat)
    (hT : tv.T = some t) (hb : baseOf t = .PrimitiveType pt) (hw : pt.encWidth = some w) :
    tv.PrimitiveBytes = .ok (putUintLE w (toUnsigned (8 * w) (tv.scalar pt))) := by
  cases pt <;> simp [PrimitiveType.encWidth] at hw <;> subst hw <;>
    simp only [TypedValue.PrimitiveBytes, hT, Option.map_some', hb, TypedValue.scalar,
      TypedValue.GetInt8, TypedValue.GetInt16, TypedValue.GetInt32,
      TypedValue.GetInt, TypedValue.GetInt64, TypedValue.GetUint8, TypedValue.GetUint16,
      TypedValue.GetUint32, TypedValue.GetUint, TypedValue.GetUint64, TypedValue.GetFloat32,
      TypedValue.GetFloat64] <;>
    first
      | rfl
      | (split <;> rfl)
      | (congr 2; unfold toUnsigned; omega)

theorem primitiveBytes_string (tv : TypedValue) (t : GType)
    (hT : tv.T = some t) (hb : baseOf t = .PrimitiveType .StringType) :
    tv.PrimitiveBytes = tv.GetString := by
  simp only [TypedValue.PrimitiveBytes, hT, Option.map_some', hb]

/-- C7. `PrimitiveBytes` of a slot whose base type is a primitive type: a
string is its raw bytes; a bool is the one byte 0x01 or 0x00; every other
encoded type has the fixed width of its base type, each byte below 256, the
bytes being the little-endian bytes of the two's-complement pattern of the
value; decoding them at that width gives the value back, and two slots of the
same type have equal bytes exactly when their values are equal. -/
theorem primitiveBytes_fixed_width_little_endian (tv : TypedValue) (t : GType)
    (pt : PrimitiveType) (hT : tv.T = some t) (hb : baseOf t = .PrimitiveType pt) :
    (pt = .StringType →
      tv.PrimitiveBytes = tv.GetString ∧
      ∀ tv2 : TypedValue, tv2.T = some t →
        (tv2.PrimitiveBytes = tv.PrimitiveBytes ↔ tv2.GetString = tv.GetString)) ∧
    (pt = .BoolType → tv.PrimitiveBytes = .ok [if tv.GetBool then 1 else 0]) ∧
    ∀ w, pt.encWidth = some w →
      ∃ bs, tv.PrimitiveBytes = .ok bs ∧ bs.length = w ∧ (∀ b ∈ bs, b < 256) ∧
        bs = putUintLE w (toUnsigned (8 * w) (tv.scalar pt)) ∧
        decodeLE pt.isSigned bs = tv.scalar pt ∧
        ∀ tv2 : TypedValue, tv2.T = some t →
          (tv2.PrimitiveBytes = .ok bs ↔ tv2.scalar pt = tv.scalar pt) := by
  refine ⟨?_, ?_, ?_⟩
  · intro hpt
    subst hpt
    refine ⟨primitiveBytes_string tv t hT hb, ?_⟩
    intro tv2 hT2
    rw [primitiveBytes_string tv t hT hb, primitiveBytes_string tv2 t hT2 hb]
  · intro hpt
    subst hpt
    rw [primitiveBytes_scalar tv t _ 1 hT hb rfl]
    simp only [TypedValue.scalar]
    split <;> rfl
  · intro w hw
    refine ⟨_, primitiveBytes_scalar tv t pt w hT hb hw, putUintLE_length _ _,
      putUintLE_lt _ _, rfl, scalar_decode pt w tv hw, ?_⟩
    intro tv2 hT2
    rw [primitiveBytes_scalar tv2 t pt w hT2 hb hw]
    constructor
    · intro h
      have h1 := congrArg (decodeLE pt.isSigned) (Except.ok.inj h)
      rwa [scalar_decode pt w tv2 hw, scalar_decode pt w tv hw] at h1
    · intro h
      rw [h]

/-- The int16 slot holding -2 is encoded as the two bytes FE FF. -/
theorem primitiveBytes_fixed_width_little_endian_witness :
    ∃ bs, (TypedValue.mk (some (.PrimitiveType .Int16Type)) none 65534).PrimitiveBytes = .ok bs ∧
      bs.length = 2 ∧ (∀ b ∈ bs, b < 256) ∧
      bs = putUintLE 2 (toUnsigned (8 * 2)
        ((TypedValue.mk (some (.PrimitiveType .Int16Type)) none 65534).scalar .Int16Type)) ∧
      decodeLE PrimitiveType.Int16Type.isSigned bs =
        (TypedValue.mk (some (.PrimitiveType .Int16Type)) none 65534).scalar .Int16Type ∧
      ∀ tv2 : TypedValue, tv2.T = some (.PrimitiveType .Int16Type) →
        (tv2.PrimitiveBytes = .ok bs ↔ tv2.scalar .Int16Type =
          (TypedValue.mk (some (.PrimitiveType .Int16Type)) none 65534).scalar .Int16Type) :=
  (primitiveBytes_fixed_width_little_endian
    (TypedValue.mk (some (.PrimitiveType .Int16Type)) none 65534)
    (.PrimitiveType .Int16Type) .Int16Type rfl rfl).2.2 2 rfl


/-! ### The layout of map keys -/

theorem computeMapKey_nil (ext : Externals) (v : Option Value) (n : Nat) (o : Bool) :
    TypedValue.ComputeMapKey ext (.mk none v n) o = .ok nilStr := by
  simp [TypedValue.ComputeMapKey]

theorem computeMapKey_array (ext : Externals) (t : GType) (l : List TypedValue)
    (d : Option Bytes) (n : Nat) (o : Bool) :
    TypedValue.ComputeMapKey ext (.mk (some t) (some (.ArrayValue l d)) n) o =
      computeMapKeyCases ext t (some (.ArrayValue l d)) n o
        (fun omitTypes => arrayElemKeys ext omitTypes l) (fun _ => .ok []) := by
  simp [TypedValue.ComputeMapKey]

theorem computeMapKey_struct (ext : Externals) (t : GType) (fs : List TypedValue)
    (n : Nat) (o : Bool) :
    TypedValue.ComputeMapKey ext (.mk (some t) (some (.StructValue fs)) n) o =
      computeMapKeyCases ext t (some (.StructValue fs)) n o
        (fun _ => .ok []) (fun fts => structFieldKeys ext fts fs) := by
  simp [TypedValue.ComputeMapKey]

theorem computeMapKey_some (ext : Externals) (t : GType) (v : Option Value) (n : Nat)
    (o : Bool) :
    TypedValue.ComputeMapKey ext (.mk (some t) v n) o =
      computeMapKeyCases ext t v n o (elemKeysOf ext v) (fieldKeysOf ext v) := by
  cases v with
  | none => simp only [TypedValue.ComputeMapKey]; rfl
  | some x => cases x <;> simp only [TypedValue.ComputeMapKey] <;> rfl

theorem intercalate_cons_cons (sep k k2 : Bytes) (ks : List Bytes) :
    sep.intercalate (k :: k2 :: ks) = k ++ sep ++ sep.intercalate (k2 :: ks) := by
  simp [List.intercalate, List.intersperse]

theorem arrayElemKeys_forall₂ (ext : Externals) (o : Bool) (l : List TypedValue)
    (ks : List Bytes)
    (h : List.Forall₂ (fun e k => TypedValue.ComputeMapKey ext e o = .ok k) l ks) :
    arrayElemKeys ext o l = .ok ([44].intercalate ks) := by
  induction h with
  | nil => simp [arrayElemKeys, List.intercalate]
  | @cons e k l ks hk hrest ih =>
    cases hrest with
    | nil => simp [arrayElemKeys, List.intercalate, hk]
    | @cons e2 k2 l2 ks2 hk2 hrest2 =>
      rw [intercalate_cons_cons]
      simp only [arrayElemKeys, hk]
      rw [ih]

theorem structFieldKeys_forall₂ (ext : Externals) (fts : List FieldType)
    (fs : List TypedValue) (ks : List Bytes) (hlen : fs.length ≤ fts.length)
    (h : List.Forall₂ (fun (p : TypedValue × FieldType) k =>
      TypedValue.ComputeMapKey ext p.1 (p.2.type.Kind != Kind.InterfaceKind) = .ok k)
      (fs.zip fts) ks) :
    structFieldKeys ext fts fs = .ok ([44].intercalate ks) := by
  induction fs generalizing fts ks with
  | nil =>
    cases h
    cases fts <;> simp [structFieldKeys, List.intercalate]
  | cons fv rest ih =>
    cases fts with
    | nil => simp at hlen
    | cons ft fts =>
      simp only [List.zip_cons_cons] at h
      cases h with
      | @cons _ k _ ks1 hk hrest =>
        cases rest with
        | nil =>
          cases hrest
          simpa [structFieldKeys, List.intercalate] using hk
        | cons f2 rest2 =>
          have hlen2 : (f2 :: rest2).length ≤ fts.length := by
            simp only [List.length_cons] at hlen ⊢
            omega
          have ih2 := ih fts ks1 hlen2 hrest
          cases ks1 with
          | nil =>
            cases fts with
            | nil => simp at hlen2
            | cons ft2 fts2 => cases hrest
          | cons k2 ks2 =>
            rw [intercalate_cons_cons]
            simp only [structFieldKeys]
            simp only [] at hk
            rw [hk, ih2]


theorem computeMapKey_typed (ext : Externals) (t : GType) (v : Option Value) (n : Nat) :
    TypedValue.ComputeMapKey ext (.mk (some t) v n) false =
      (TypedValue.ComputeMapKey ext (.mk (some t) v n) true).map
        (fun body => ext.typeID t ++ [58] ++ body) := by
  rw [computeMapKey_some, computeMapKey_some]
  unfold computeMapKeyCases
  cases baseOf t <;> simp only [Except.map, Bool.false_eq_true, if_false, if_true,
    List.nil_append, List.append_assoc]
  all_goals first
    | rfl
    | (split <;> first | rfl | (split <;> rfl))

theorem computeMapKey_array_list (ext : Externals) (t : GType) (len : Nat) (elt : GType)
    (l : List TypedValue) (n : Nat) (o : Bool) (ks : List Bytes)
    (hb : baseOf t = .ArrayType len elt)
    (h : List.Forall₂ (fun e k =>
      TypedValue.ComputeMapKey ext e (elt.Kind != Kind.InterfaceKind) = .ok k) l ks) :
    TypedValue.ComputeMapKey ext (.mk (some t) (some (.ArrayValue l none)) n) o =
      .ok (typeTag ext t o ++ [91] ++ [44].intercalate ks ++ [93]) := by
  rw [computeMapKey_some]
  simp only [computeMapKeyCases, hb, elemKeysOf, arrayElemKeys_forall₂ ext _ l ks h, typeTag]

theorem computeMapKey_array_data (ext : Externals) (t : GType) (len : Nat) (elt : GType)
    (l : List TypedValue) (data : Bytes) (n : Nat) (o : Bool)
    (hb : baseOf t = .ArrayType len elt) :
    TypedValue.ComputeMapKey ext (.mk (some t) (some (.ArrayValue l (some data))) n) o =
      .ok (typeTag ext t o ++ [91] ++ data ++ [93]) := by
  rw [computeMapKey_some]
  simp only [computeMapKeyCases, hb, typeTag]

theorem computeMapKey_struct_fields (ext : Externals) (t : GType) (fts : List FieldType)
    (fs : List TypedValue) (n : Nat) (o : Bool) (ks : List Bytes)
    (hb : baseOf t = .StructType fts) (hlen : fs.length ≤ fts.length)
    (h : List.Forall₂ (fun (p : TypedValue × FieldType) k =>
      TypedValue.ComputeMapKey ext p.1 (p.2.type.Kind != Kind.InterfaceKind) = .ok k)
      (fs.zip fts) ks) :
    TypedValue.ComputeMapKey ext (.mk (some t) (some (.StructValue fs)) n) o =
      .ok (typeTag ext t o ++ [123] ++ [44].intercalate ks ++ [125]) := by
  rw [computeMapKey_some]
  simp only [computeMapKeyCases, hb, fieldKeysOf, structFieldKeys_forall₂ ext fts fs ks hlen h,
    typeTag]


/-- C6. The layout of `ComputeMapKey`: a slot without a type is keyed by the
bare bytes "nil"; for a slot with a type the key is the body, preceded by the
type identity and ':' unless `omitType` is set; a list-represented array has
the body '[' k_0 ',' ... ',' k_(n-1) ']' where k_i is the key of element i
computed with `omitType` = (the static element kind is not interface); a
raw-byte array has the body '[' data ']'; a struct has the body
'{' k_0 ',' ... ',' k_(n-1) '}' where k_i is the key of field i computed with
`omitType` = (the declared type of field i is not of interface kind). -/
theorem computeMapKey_layout (ext : Externals) :
    (∀ v n o, TypedValue.ComputeMapKey ext (.mk none v n) o = .ok nilStr) ∧
    (∀ t v n, TypedValue.ComputeMapKey ext (.mk (some t) v n) false =
      (TypedValue.ComputeMapKey ext (.mk (some t) v n) true).map
        (fun body => ext.typeID t ++ [58] ++ body)) ∧
    (∀ t len elt l n o ks, baseOf t = .ArrayType len elt →
      List.Forall₂ (fun e k =>
        TypedValue.ComputeMapKey ext e (elt.Kind != Kind.InterfaceKind) = .ok k) l ks →
      TypedValue.ComputeMapKey ext (.mk (some t) (some (.ArrayValue l none)) n) o =
        .ok (typeTag ext t o ++ [91] ++ [44].intercalate ks ++ [93])) ∧
    (∀ t len elt l data n o, baseOf t = .ArrayType len elt →
      TypedValue.ComputeMapKey ext (.mk (some t) (some (.ArrayValue l (some data))) n) o =
        .ok (typeTag ext t o ++ [91] ++ data ++ [93])) ∧
    (∀ t fts fs n o ks, baseOf t = .StructType fts → fs.length ≤ fts.length →
      List.Forall₂ (fun (p : TypedValue × FieldType) k =>
        TypedValue.ComputeMapKey ext p.1 (p.2.type.Kind != Kind.InterfaceKind) = .ok k)
        (fs.zip fts) ks →
      TypedValue.ComputeMapKey ext (.mk (some t) (some (.StructValue fs)) n) o =
        .ok (typeTag ext t o ++ [123] ++ [44].intercalate ks ++ [125])) :=
  ⟨computeMapKey_nil ext, computeMapKey_typed ext,
    fun t len elt l n o ks hb h => computeMapKey_array_list ext t len elt l n o ks hb h,
    fun t len elt l data n o hb => computeMapKey_array_data ext t len elt l data n o hb,
    fun t fts fs n o ks hb hlen h => computeMapKey_struct_fields ext t fts fs n o ks hb hlen h⟩

/-- The key of the array `[2]string{"a", "b"}` held in an interface slot, of
the raw byte array `[2]uint8{1, 2}` and of the struct `{int8 1, "b"}` with the
types omitted. -/
theorem computeMapKey_layout_witness :
    TypedValue.ComputeMapKey sampleExt
        (.mk (some (.ArrayType 2 (.PrimitiveType .StringType)))
          (some (.ArrayValue
            [.mk (some (.PrimitiveType .StringType)) (some (.StringValue [97])) 0,
             .mk (some (.PrimitiveType .StringType)) (some (.StringValue [98])) 0] none)) 0)
        false
      = .ok (typeTag sampleExt (.ArrayType 2 (.PrimitiveType .StringType)) false ++ [91] ++
          [44].intercalate [[97], [98]] ++ [93]) ∧
    TypedValue.ComputeMapKey sampleExt
        (.mk (some (.ArrayType 2 (.PrimitiveType .Uint8Type)))
          (some (.ArrayValue [] (some [1, 2]))) 0) true
      = .ok (typeTag sampleExt (.ArrayType 2 (.PrimitiveType .Uint8Type)) true ++ [91] ++
          [1, 2] ++ [93]) ∧
    TypedValue.ComputeMapKey sampleExt
        (.mk (some (.StructType [.mk [120] (.PrimitiveType .Int8Type),
            .mk [121] (.PrimitiveType .StringType)]))
          (some (.StructValue
            [.mk (some (.PrimitiveType .Int8Type)) none 1,
             .mk (some (.PrimitiveType .StringType)) (some (.StringValue [98])) 0])) 0)
        true
      = .ok (typeTag sampleExt (.StructType [.mk [120] (.PrimitiveType .Int8Type),
            .mk [121] (.PrimitiveType .StringType)]) true ++ [123] ++
          [44].intercalate [[1], [98]] ++ [125]) :=
  ⟨(computeMapKey_layout sampleExt).2.2.1 _ 2 (.PrimitiveType .StringType) _ 0 false
      [[97], [98]] rfl
      (List.Forall₂.cons rfl (List.Forall₂.cons rfl List.Forall₂.nil)),
    (computeMapKey_layout sampleExt).2.2.2.1 _ 2 (.PrimitiveType .Uint8Type) [] [1, 2] 0 true rfl,
    (computeMapKey_layout sampleExt).2.2.2.2 _ _ _ 0 true [[1], [98]] rfl (by decide)
      (List.Forall₂.cons rfl (List.Forall₂.cons rfl List.Forall₂.nil))⟩


/-! ### Values that cannot be keys -/

theorem computeMapKeyCases_unkeyable (ext : Externals) (t : GType) (v : Option Value)
    (n : Nat) (o : Bool) (ek : Bool → Except String Bytes)
    (fk : List FieldType → Except String Bytes) (h : (baseOf t).isUnkeyable = true) :
    ∃ e, computeMapKeyCases ext t v n o ek fk = .error e := by
  unfold computeMapKeyCases
  cases hb : baseOf t <;> simp [hb, GType.isUnkeyable] at h <;> exact ⟨_, rfl⟩

theorem computeMapKeyCases_array_fails (ext : Externals) (t : GType) (l : List TypedValue)
    (n : Nat) (o : Bool) (ek : Bool → Except String Bytes)
    (fk : List FieldType → Except String Bytes) (h : (baseOf t).isArrayType = true)
    (hek : ∀ b, ∃ e, ek b = .error e) :
    ∃ e, computeMapKeyCases ext t (some (.ArrayValue l none)) n o ek fk = .error e := by
  unfold computeMapKeyCases
  cases hb : baseOf t <;> simp [hb, GType.isArrayType] at h
  rename_i len elt
  obtain ⟨e, he⟩ := hek (elt.Kind != Kind.InterfaceKind)
  exact ⟨e, by simp only [he]⟩

theorem computeMapKeyCases_struct_fails (ext : Externals) (t : GType) (fs : List TypedValue)
    (n : Nat) (o : Bool) (ek : Bool → Except String Bytes)
    (fk : List FieldType → Except String Bytes) (h : (baseOf t).isStructType = true)
    (hfk : ∀ fts, ∃ e, fk fts = .error e) :
    ∃ e, computeMapKeyCases ext t (some (.StructValue fs)) n o ek fk = .error e := by
  unfold computeMapKeyCases
  cases hb : baseOf t <;> simp [hb, GType.isStructType] at h
  rename_i fts
  obtain ⟨e, he⟩ := hfk fts
  exact ⟨e, by simp only [he]⟩

mutual
theorem containsUnkeyable_fails (ext : Externals) :
    ∀ (tv : TypedValue) (o : Bool), tv.containsUnkeyable = true →
      ∃ e, TypedValue.ComputeMapKey ext tv o = .error e
  | .mk none _ _, _, h => by simp [TypedValue.containsUnkeyable] at h
  | .mk (some t) none n, o, h => by
    rw [computeMapKey_some]
    exact computeMapKeyCases_unkeyable ext t _ n o _ _ (by simpa [TypedValue.containsUnkeyable] using h)
  | .mk (some t) (some (.ArrayValue l d)) n, o, h => by
    rw [computeMapKey_some]
    simp only [TypedValue.containsUnkeyable, Bool.or_eq_true, Bool.and_eq_true] at h
    rcases h with h | ⟨⟨h1, h2⟩, h3⟩
    · exact computeMapKeyCases_unkeyable ext t _ n o _ _ h
    · cases d with
      | some x => simp at h2
      | none =>
        exact computeMapKeyCases_array_fails ext t l n o _ _ h1
          (fun b => anyUnkeyable_elems_fail ext l b h3)
  | .mk (some t) (some (.StructValue fs)) n, o, h => by
    rw [computeMapKey_some]
    simp only [TypedValue.containsUnkeyable, Bool.or_eq_true, Bool.and_eq_true] at h
    rcases h with h | ⟨h1, h3⟩
    · exact computeMapKeyCases_unkeyable ext t _ n o _ _ h
    · exact computeMapKeyCases_struct_fails ext t fs n o _ _ h1
        (fun fts => anyUnkeyable_fields_fail ext fs fts h3)
  | .mk (some t) (some (.StringValue _)) n, o, h
  | .mk (some t) (some (.BigintValue _)) n, o, h
  | .mk (some t) (some (.BigdecValue _)) n, o, h
  | .mk (some t) (some (.PointerValue _)) n, o, h
  | .mk (some t) (some (.SliceValue _ _ _ _)) n, o, h
  | .mk (some t) (some (.FuncValue _)) n, o, h
  | .mk (some t) (some (.MapValue _)) n, o, h
  | .mk (some t) (some (.TypeValue _)) n, o, h
  | .mk (some t) (some (.PackageValue _)) n, o, h => by
    rw [computeMapKey_some]
    exact computeMapKeyCases_unkeyable ext t _ n o _ _ (by simpa [TypedValue.containsUnkeyable] using h)
theorem anyUnkeyable_elems_fail (ext : Externals) :
    ∀ (l : List TypedValue) (o : Bool), anyUnkeyable l = true →
      ∃ e, arrayElemKeys ext o l = .error e
  | [], _, h => by simp [anyUnkeyable] at h
  | [ev], o, h => by
    simp only [anyUnkeyable, Bool.or_false] at h
    simpa only [arrayElemKeys] using containsUnkeyable_fails ext ev o h
  | ev :: e2 :: rest, o, h => by
    simp only [arrayElemKeys]
    rw [anyUnkeyable, Bool.or_eq_true] at h
    cases hk : TypedValue.ComputeMapKey ext ev o with
    | error e => exact ⟨e, rfl⟩
    | ok k =>
      rcases h with h | h
      · obtain ⟨e, he⟩ := containsUnkeyable_fails ext ev o h
        rw [he] at hk
        cases hk
      · obtain ⟨e, he⟩ := anyUnkeyable_elems_fail ext (e2 :: rest) o h
        exact ⟨e, by simp only [he]⟩
theorem anyUnkeyable_fields_fail (ext : Externals) :
    ∀ (fs : List TypedValue) (fts : List FieldType), anyUnkeyable fs = true →
      ∃ e, structFieldKeys ext fts fs = .error e
  | [], _, h => by simp [anyUnkeyable] at h
  | _ :: _, [], _ => ⟨"index out of range", by simp only [structFieldKeys]⟩
  | [fv], ft :: fts, h => by
    simp only [anyUnkeyable, Bool.or_false] at h
    simpa only [structFieldKeys] using containsUnkeyable_fails ext fv _ h
  | fv :: f2 :: rest, ft :: fts, h => by
    simp only [structFieldKeys]
    rw [anyUnkeyable, Bool.or_eq_true] at h
    cases hk : TypedValue.ComputeMapKey ext fv (ft.type.Kind != Kind.InterfaceKind) with
    | error e => exact ⟨e, rfl⟩
    | ok k =>
      rcases h with h | h
      · obtain ⟨e, he⟩ := containsUnkeyable_fails ext fv _ h
        rw [he] at hk
        cases hk
      · obtain ⟨e, he⟩ := anyUnkeyable_fields_fail ext (f2 :: rest) fts h
        exact ⟨e, by simp only [he]⟩
end


/-! ### Values that are keys -/

theorem primitiveBytes_keyable (t : GType) (v : Option Value) (n : Nat)
    (pt : PrimitiveType) (hb : baseOf t = .PrimitiveType pt)
    (h : isKeyableCases t v true true = true) :
    ∃ k, (TypedValue.mk (some t) v n).PrimitiveBytes = .ok k := by
  unfold isKeyableCases at h
  rw [hb] at h
  by_cases hs : pt = .StringType
  · subst hs
    rw [primitiveBytes_string (TypedValue.mk (some t) v n) t rfl hb]
    simp only [TypedValue.GetString, TypedValue.V]
    cases v with
    | none => exact ⟨_, rfl⟩
    | some x =>
      cases x <;> simp at h
      exact ⟨_, rfl⟩
  · have hw : pt.encWidth.isSome = true := by
      cases pt <;> simp_all
    obtain ⟨w, hw⟩ := Option.isSome_iff_exists.mp hw
    exact ⟨_, primitiveBytes_scalar _ t pt w rfl hb hw⟩

theorem isKeyableCases_primitive (t : GType) (v : Option Value) (be bf : Bool)
    (pt : PrimitiveType) (hb : baseOf t = .PrimitiveType pt) :
    isKeyableCases t v be bf = isKeyableCases t v true true := by
  unfold isKeyableCases
  rw [hb]
  cases pt <;> rfl

theorem computeMapKeyCases_keyable (ext : Externals) (t : GType) (v : Option Value)
    (n : Nat) (o : Bool) (ek : Bool → Except String Bytes)
    (fk : List FieldType → Except String Bytes) (be bf : Bool)
    (h : isKeyableCases t v be bf = true)
    (hek : be = true → ∀ b, ∃ k, ek b = .ok k)
    (hfk : ∀ fts fs, v = some (.StructValue fs) → fs.length ≤ fts.length → bf = true →
      ∃ k, fk fts = .ok k) :
    ∃ k, computeMapKeyCases ext t v n o ek fk = .ok k := by
  cases hb : baseOf t with
  | PrimitiveType pt =>
    rw [isKeyableCases_primitive t v be bf pt hb] at h
    obtain ⟨k, hk⟩ := primitiveBytes_keyable t v n pt hb h
    simp only [computeMapKeyCases, hb, hk]
    exact ⟨_, rfl⟩
  | PointerType elt =>
    simp only [isKeyableCases, hb] at h
    cases v with
    | none => simp at h
    | some x =>
      cases x <;> simp at h
      simp only [computeMapKeyCases, hb]
      exact ⟨_, rfl⟩
  | PackageType =>
    simp only [isKeyableCases, hb] at h
    cases v with
    | none => simp at h
    | some x =>
      cases x <;> simp at h
      simp only [computeMapKeyCases, hb]
      exact ⟨_, rfl⟩
  | ArrayType len elt =>
    simp only [isKeyableCases, hb] at h
    cases v with
    | none => simp at h
    | some x =>
      cases x with
      | ArrayValue l d =>
        cases d with
        | some data =>
          simp only [computeMapKeyCases, hb]
          exact ⟨_, rfl⟩
        | none =>
          obtain ⟨k, hk⟩ := hek h (elt.Kind != Kind.InterfaceKind)
          simp only [computeMapKeyCases, hb, hk]
          exact ⟨_, rfl⟩
      | _ => simp at h
  | StructType fts =>
    simp only [isKeyableCases, hb] at h
    cases v with
    | none => simp at h
    | some x =>
      cases x <;> simp at h
      obtain ⟨k, hk⟩ := hfk fts _ rfl h.1 h.2
      simp only [computeMapKeyCases, hb, hk]
      exact ⟨_, rfl⟩
  | _ => simp [isKeyableCases, hb] at h


mutual
theorem isKeyable_ok (ext : Externals) :
    ∀ (tv : TypedValue) (o : Bool), tv.isKeyable = true →
      ∃ k, TypedValue.ComputeMapKey ext tv o = .ok k
  | .mk none _ _, _, _ => ⟨nilStr, computeMapKey_nil ext _ _ _⟩
  | .mk (some t) none n, o, h => by
    rw [computeMapKey_some]
    exact computeMapKeyCases_keyable ext t _ n o _ _ true true
      (by simpa [TypedValue.isKeyable] using h) (fun _ _ => ⟨[], rfl⟩)
      (fun _ _ hv => by cases hv)
  | .mk (some t) (some (.ArrayValue l d)) n, o, h => by
    rw [computeMapKey_some]
    exact computeMapKeyCases_keyable ext t _ n o _ _ (allKeyable l) true
      (by simpa [TypedValue.isKeyable] using h)
      (fun hl b => allKeyable_elems_ok ext l b hl)
      (fun _ _ hv => by cases hv)
  | .mk (some t) (some (.StructValue fs)) n, o, h => by
    rw [computeMapKey_some]
    refine computeMapKeyCases_keyable ext t _ n o _ _ true (allKeyable fs)
      (by simpa [TypedValue.isKeyable] using h) (fun _ _ => ⟨[], rfl⟩) ?_
    intro fts fs2 hv hlen hfs
    cases hv
    exact allKeyable_fields_ok ext fs fts hfs hlen
  | .mk (some t) (some (.StringValue _)) n, o, h
  | .mk (some t) (some (.BigintValue _)) n, o, h
  | .mk (some t) (some (.BigdecValue _)) n, o, h
  | .mk (some t) (some (.PointerValue _)) n, o, h
  | .mk (some t) (some (.SliceValue _ _ _ _)) n, o, h
  | .mk (some t) (some (.FuncValue _)) n, o, h
  | .mk (some t) (some (.MapValue _)) n, o, h
  | .mk (some t) (some (.TypeValue _)) n, o, h
  | .mk (some t) (some (.PackageValue _)) n, o, h => by
    rw [computeMapKey_some]
    exact computeMapKeyCases_keyable ext t _ n o _ _ true true
      (by simpa [TypedValue.isKeyable] using h) (fun _ _ => ⟨[], rfl⟩)
      (fun _ _ hv => by cases hv)
theorem allKeyable_elems_ok (ext : Externals) :
    ∀ (l : List TypedValue) (o : Bool), allKeyable l = true →
      ∃ k, arrayElemKeys ext o l = .ok k
  | [], _, _ => ⟨[], by simp only [arrayElemKeys]⟩
  | [ev], o, h => by
    simp only [allKeyable, Bool.and_true] at h
    simpa only [arrayElemKeys] using isKeyable_ok ext ev o h
  | ev :: e2 :: rest, o, h => by
    rw [allKeyable, Bool.and_eq_true] at h
    obtain ⟨k, hk⟩ := isKeyable_ok ext ev o h.1
    obtain ⟨ks, hks⟩ := allKeyable_elems_ok ext (e2 :: rest) o h.2
    exact ⟨k ++ [44] ++ ks, by simp only [arrayElemKeys, hk, hks]⟩
theorem allKeyable_fields_ok (ext : Externals) :
    ∀ (fs : List TypedValue) (fts : List FieldType), allKeyable fs = true →
      fs.length ≤ fts.length → ∃ k, structFieldKeys ext fts fs = .ok k
  | [], _, _, _ => ⟨[], by simp only [structFieldKeys]⟩
  | _ :: _, [], _, hlen => by simp at hlen
  | [fv], ft :: fts, h, _ => by
    simp only [allKeyable, Bool.and_true] at h
    simpa only [structFieldKeys] using isKeyable_ok ext fv _ h
  | fv :: f2 :: rest, ft :: fts, h, hlen => by
    rw [allKeyable, Bool.and_eq_true] at h
    obtain ⟨k, hk⟩ := isKeyable_ok ext fv (ft.type.Kind != Kind.InterfaceKind) h.1
    obtain ⟨ks, hks⟩ := allKeyable_fields_ok ext (f2 :: rest) fts h.2
      (by simp only [List.length_cons] at hlen ⊢; omega)
    exact ⟨k ++ [44] ++ ks, by simp only [structFieldKeys, hk, hks]⟩
end


/-- C8 (as stated, refuted). Two values built only from a primitive and from a
pointer for which `ComputeMapKey` returns no key: an untyped big integer
(`PrimitiveBytes` has no case for its type) and a nil pointer (the payload is
not a `PointerValue`). -/
theorem computeMapKey_bigint_and_nil_pointer_fail :
    TypedValue.ComputeMapKey sampleExt
        (.mk (some (.PrimitiveType .UntypedBigintType)) (some (.BigintValue 1)) 0) false
      = .error "unexpected primitive value type" ∧
    TypedValue.ComputeMapKey sampleExt
        (.mk (some (.PointerType (.PrimitiveType .IntType))) none 0) false
      = .error "interface conversion: Value is not PointerValue" :=
  ⟨rfl, rfl⟩

/-- C8 (amended). `ComputeMapKey` fails for every slot whose base type is a
slice, map, func or channel type and for every list-represented array or
struct holding such a slot at any depth; it returns key bytes for every slot
built only from primitives of the types `PrimitiveBytes` encodes, non-nil
pointers, packages, arrays, and structs with no more fields than their type
declares. -/
theorem computeMapKey_fails_or_returns (ext : Externals) :
    (∀ (tv : TypedValue) (o : Bool), tv.containsUnkeyable = true →
      ∃ e, TypedValue.ComputeMapKey ext tv o = .error e) ∧
    (∀ (tv : TypedValue) (o : Bool), tv.isKeyable = true →
      ∃ k, TypedValue.ComputeMapKey ext tv o = .ok k) :=
  ⟨containsUnkeyable_fails ext, isKeyable_ok ext⟩

/-- An array holding a struct that holds a nil slice has no key; a struct of
an int8 and a raw byte array has one. -/
theorem computeMapKey_fails_or_returns_witness :
    (∃ e, TypedValue.ComputeMapKey sampleExt
      (.mk (some (.ArrayType 1 (.StructType [.mk [120] (.SliceType (.PrimitiveType .IntType))])))
        (some (.ArrayValue
          [.mk (some (.StructType [.mk [120] (.SliceType (.PrimitiveType .IntType))]))
            (some (.StructValue [.mk (some (.SliceType (.PrimitiveType .IntType))) none 0])) 0]
          none)) 0) false = .error e) ∧
    (∃ k, TypedValue.ComputeMapKey sampleExt
      (.mk (some (.StructType [.mk [120] (.PrimitiveType .Int8Type),
          .mk [121] (.ArrayType 2 (.PrimitiveType .Uint8Type))]))
        (some (.StructValue
          [.mk (some (.PrimitiveType .Int8Type)) none 1,
           .mk (some (.ArrayType 2 (.PrimitiveType .Uint8Type)))
             (some (.ArrayValue [] (some [1, 2]))) 0])) 0) false = .ok k) :=
  ⟨(computeMapKey_fails_or_returns sampleExt).1 _ false rfl,
    (computeMapKey_fails_or_returns sampleExt).2 _ false rfl⟩


/-! ### Structurally equal values have equal keys -/

theorem samePrimitive_bytes (t : GType) (pt : PrimitiveType) (a b : TypedValue)
    (ha : a.T = some t) (hbT : b.T = some t) (hb : baseOf t = .PrimitiveType pt)
    (h : samePrimitive pt a b) : a.PrimitiveBytes = b.PrimitiveBytes := by
  by_cases hs : pt = .StringType
  · subst hs
    rw [primitiveBytes_string a t ha hb, primitiveBytes_string b t hbT hb]
    exact h
  · cases hw : pt.encWidth with
    | some w =>
      have h1 : a.scalar pt = b.scalar pt := by
        cases pt <;> simp_all [samePrimitive]
      rw [primitiveBytes_scalar a t pt w ha hb hw, primitiveBytes_scalar b t pt w hbT hb hw, h1]
    | none =>
      simp only [TypedValue.PrimitiveBytes, ha, hbT, Option.map_some', hb]
      cases pt <;> simp_all [PrimitiveType.encWidth]

theorem computeMapKeyCases_congr (ext : Externals) (t : GType) (av bv : Option Value)
    (an bn : Nat) (o : Bool) (ek1 ek2 : Bool → Except String Bytes)
    (fk1 fk2 : List FieldType → Except String Bytes) (elems fields : Prop)
    (h : sameValueCases t (.mk (some t) av an) (.mk (some t) bv bn) elems fields)
    (harr : elems → ∀ len elt, baseOf t = .ArrayType len elt →
      computeMapKeyCases ext t av an o ek1 fk1 = computeMapKeyCases ext t bv bn o ek2 fk2)
    (hstr : fields → ∀ fts, baseOf t = .StructType fts →
      computeMapKeyCases ext t av an o ek1 fk1 = computeMapKeyCases ext t bv bn o ek2 fk2) :
    computeMapKeyCases ext t av an o ek1 fk1 = computeMapKeyCases ext t bv bn o ek2 fk2 := by
  obtain ⟨-, h⟩ := h
  cases hb : baseOf t with
  | PrimitiveType pt =>
    rw [hb] at h
    have hp := samePrimitive_bytes t pt (.mk (some t) av an) (.mk (some t) bv bn) rfl rfl hb h
    simp only [computeMapKeyCases, hb, hp]
  | ArrayType len elt =>
    rw [hb] at h
    exact harr h len elt hb
  | StructType fts =>
    rw [hb] at h
    exact hstr h fts hb
  | _ =>
    rw [hb] at h
    simp only [TypedValue.V] at h
    subst h
    simp only [computeMapKeyCases, hb]


theorem sameValueCases_array (t : GType) (a b : TypedValue) (elems fields : Prop)
    (len : Nat) (elt : GType) (hb : baseOf t = .ArrayType len elt)
    (h : sameValueCases t a b elems fields) : elems := by
  have h2 := h.2
  rw [hb] at h2
  exact h2

theorem sameValueCases_struct (t : GType) (a b : TypedValue) (elems fields : Prop)
    (fts : List FieldType) (hb : baseOf t = .StructType fts)
    (h : sameValueCases t a b elems fields) : fields := by
  have h2 := h.2
  rw [hb] at h2
  exact h2

mutual
theorem sameValue_key (ext : Externals) :
    ∀ (a b : TypedValue) (o : Bool), sameValue false a b →
      TypedValue.ComputeMapKey ext a o = TypedValue.ComputeMapKey ext b o
  | .mk none _ _, .mk tb vb nb, o, h => by
    simp only [sameValue, TypedValue.T] at h
    subst h
    rw [computeMapKey_nil, computeMapKey_nil]
  | .mk (some t) (some (.ArrayValue l1 d1)) n1, .mk tb vb nb, o, h => by
    simp only [sameValue] at h
    have hT : tb = some t := h.1
    subst hT
    rw [computeMapKey_some, computeMapKey_some]
    refine computeMapKeyCases_congr ext t _ _ _ _ o _ _ _ _ _ _ h ?_ (fun hf => hf.elim)
    intro he len elt hb
    simp only [TypedValue.V] at he
    cases d1 with
    | none =>
      cases vb with
      | none => simp at he
      | some x =>
        cases x with
        | ArrayValue l2 d2 =>
          cases d2 with
          | none =>
            simp only at he
            have := sameValues_elemKeys ext l1 l2 (elt.Kind != Kind.InterfaceKind) he
            simp only [computeMapKeyCases, hb, elemKeysOf, this]
          | some y => simp at he
        | _ => simp at he
    | some x1 =>
      cases vb with
      | none => simp at he
      | some x =>
        cases x with
        | ArrayValue l2 d2 =>
          cases d2 with
          | none => simp at he
          | some y =>
            simp only at he
            subst he
            simp only [computeMapKeyCases, hb]
        | _ => simp at he
  | .mk (some t) (some (.StructValue fs1)) n1, .mk tb vb nb, o, h => by
    simp only [sameValue] at h
    have hT : tb = some t := h.1
    subst hT
    rw [computeMapKey_some, computeMapKey_some]
    refine computeMapKeyCases_congr ext t _ _ _ _ o _ _ _ _ _ _ h (fun hf => hf.elim) ?_
    intro he fts hb
    simp only [TypedValue.V] at he
    cases vb with
    | none => simp at he
    | some x =>
      cases x with
      | StructValue fs2 =>
        simp only at he
        have := sameValues_fieldKeys ext fs1 fs2 fts he
        simp only [computeMapKeyCases, hb, fieldKeysOf, this]
      | _ => simp at he
  | .mk (some t) none n1, .mk tb vb nb, o, h
  | .mk (some t) (some (.StringValue _)) n1, .mk tb vb nb, o, h
  | .mk (some t) (some (.BigintValue _)) n1, .mk tb vb nb, o, h
  | .mk (some t) (some (.BigdecValue _)) n1, .mk tb vb nb, o, h
  | .mk (some t) (some (.PointerValue _)) n1, .mk tb vb nb, o, h
  | .mk (some t) (some (.SliceValue _ _ _ _)) n1, .mk tb vb nb, o, h
  | .mk (some t) (some (.FuncValue _)) n1, .mk tb vb nb, o, h
  | .mk (some t) (some (.MapValue _)) n1, .mk tb vb nb, o, h
  | .mk (some t) (some (.TypeValue _)) n1, .mk tb vb nb, o, h
  | .mk (some t) (some (.PackageValue _)) n1, .mk tb vb nb, o, h => by
    simp only [sameValue] at h
    have hT : tb = some t := h.1
    subst hT
    rw [computeMapKey_some, computeMapKey_some]
    exact computeMapKeyCases_congr ext t _ _ _ _ o _ _ _ _ _ _ h (fun hf => hf.elim)
      (fun hf => hf.elim)
theorem sameValues_elemKeys (ext : Externals) :
    ∀ (l1 l2 : List TypedValue) (o : Bool), sameValues false l1 l2 →
      arrayElemKeys ext o l1 = arrayElemKeys ext o l2
  | [], [], _, _ => rfl
  | [], _ :: _, _, h => by simp [sameValues] at h
  | _ :: _, [], _, h => by simp [sameValues] at h
  | [x], [y], o, h => by
    simp only [sameValues, and_true] at h
    simp only [arrayElemKeys, sameValue_key ext x y o h]
  | [_], _ :: _ :: _, _, h => by simp [sameValues] at h
  | _ :: _ :: _, [_], _, h => by simp [sameValues] at h
  | x :: x2 :: xs, y :: y2 :: ys, o, h => by
    rw [sameValues] at h
    simp only [arrayElemKeys, sameValue_key ext x y o h.1,
      sameValues_elemKeys ext (x2 :: xs) (y2 :: ys) o h.2]
theorem sameValues_fieldKeys (ext : Externals) :
    ∀ (l1 l2 : List TypedValue) (fts : List FieldType), sameValues false l1 l2 →
      structFieldKeys ext fts l1 = structFieldKeys ext fts l2
  | [], [], _, _ => rfl
  | [], _ :: _, _, h => by simp [sameValues] at h
  | _ :: _, [], _, h => by simp [sameValues] at h
  | _ :: _, _ :: _, [], _ => by simp only [structFieldKeys]
  | [x], [y], ft :: fts, h => by
    simp only [sameValues, and_true] at h
    simp only [structFieldKeys, sameValue_key ext x y _ h]
  | [_], _ :: _ :: _, _, h => by simp [sameValues] at h
  | _ :: _ :: _, [_], _, h => by simp [sameValues] at h
  | x :: x2 :: xs, y :: y2 :: ys, ft :: fts, h => by
    rw [sameValues] at h
    simp only [structFieldKeys, sameValue_key ext x y _ h.1,
      sameValues_fieldKeys ext (x2 :: xs) (y2 :: ys) fts h.2]
end


/-- C4 (as stated, refuted). The byte array `[2]uint8{1, 2}` held as a typed
element list and held as a raw byte buffer are structurally equal and of the
same type, and their keys differ: the list form separates the elements by
',', the raw form does not. -/
theorem computeMapKey_list_vs_data_differ :
    sameValue true
      (.mk (some (.ArrayType 2 (.PrimitiveType .Uint8Type)))
        (some (.ArrayValue [.mk (some (.PrimitiveType .Uint8Type)) none 1,
          .mk (some (.PrimitiveType .Uint8Type)) none 2] none)) 0)
      (.mk (some (.ArrayType 2 (.PrimitiveType .Uint8Type)))
        (some (.ArrayValue [] (some [1, 2]))) 0) ∧
    TypedValue.ComputeMapKey sampleExt
      (.mk (some (.ArrayType 2 (.PrimitiveType .Uint8Type)))
        (some (.ArrayValue [.mk (some (.PrimitiveType .Uint8Type)) none 1,
          .mk (some (.PrimitiveType .Uint8Type)) none 2] none)) 0) false
      = .ok [63, 58, 91, 1, 44, 2, 93] ∧
    TypedValue.ComputeMapKey sampleExt
      (.mk (some (.ArrayType 2 (.PrimitiveType .Uint8Type)))
        (some (.ArrayValue [] (some [1, 2]))) 0) false
      = .ok [63, 58, 91, 1, 2, 93] :=
  ⟨⟨rfl, rfl, rfl⟩, rfl, rfl⟩

/-- C4 (amended). Two structurally equal slots of the same type that hold every
array in the same representation (list against list, raw buffer against raw
buffer) have the same result of `ComputeMapKey`, for either value of
`omitType`; a repeated call on one slot gives the same result (the embedding
is a function). -/
theorem computeMapKey_same_representation (ext : Externals) (a b : TypedValue) (o : Bool)
    (h : sameValue false a b) :
    TypedValue.ComputeMapKey ext a o = TypedValue.ComputeMapKey ext b o ∧
    TypedValue.ComputeMapKey ext a o = TypedValue.ComputeMapKey ext a o :=
  ⟨sameValue_key ext a b o h, rfl⟩

/-- Two structs `{int8 -1, [2]uint8{1, 2}}` whose int8 buffers differ above the
low byte are structurally equal and have the same key. -/
theorem computeMapKey_same_representation_witness :
    sameValue false
      (.mk (some (.StructType [.mk [120] (.PrimitiveType .Int8Type),
          .mk [121] (.ArrayType 2 (.PrimitiveType .Uint8Type))]))
        (some (.StructValue
          [.mk (some (.PrimitiveType .Int8Type)) none 255,
           .mk (some (.ArrayType 2 (.PrimitiveType .Uint8Type)))
             (some (.ArrayValue [] (some [1, 2]))) 0])) 0)
      (.mk (some (.StructType [.mk [120] (.PrimitiveType .Int8Type),
          .mk [121] (.ArrayType 2 (.PrimitiveType .Uint8Type))]))
        (some (.StructValue
          [.mk (some (.PrimitiveType .Int8Type)) none 511,
           .mk (some (.ArrayType 2 (.PrimitiveType .Uint8Type)))
             (some (.ArrayValue [] (some [1, 2]))) 0])) 0) ∧
    TypedValue.ComputeMapKey sampleExt
      (.mk (some (.StructType [.mk [120] (.PrimitiveType .Int8Type),
          .mk [121] (.ArrayType 2 (.PrimitiveType .Uint8Type))]))
        (some (.StructValue
          [.mk (some (.PrimitiveType .Int8Type)) none 255,
           .mk (some (.ArrayType 2 (.PrimitiveType .Uint8Type)))
             (some (.ArrayValue [] (some [1, 2]))) 0])) 0) false =
    TypedValue.ComputeMapKey sampleExt
      (.mk (some (.StructType [.mk [120] (.PrimitiveType .Int8Type),
          .mk [121] (.ArrayType 2 (.PrimitiveType .Uint8Type))]))
        (some (.StructValue
          [.mk (some (.PrimitiveType .Int8Type)) none 511,
           .mk (some (.ArrayType 2 (.PrimitiveType .Uint8Type)))
             (some (.ArrayValue [] (some [1, 2]))) 0])) 0) false :=
  ⟨⟨rfl, ⟨rfl, by show toSigned 8 255 = toSigned 8 511; decide⟩, ⟨rfl, rfl⟩, trivial⟩,
    And.left (computeMapKey_same_representation sampleExt _ _ false
      ⟨rfl, ⟨rfl, by show toSigned 8 255 = toSigned 8 511; decide⟩, ⟨rfl, rfl⟩, trivial⟩)⟩


/-! ### Type identities in interface slots -/

theorem typed_keys_differ (ta tb ba bb : Bytes) (hne : ta ≠ tb)
    (hsep : (¬ (ta ++ [58]) <+: tb ∧ ¬ (tb ++ [58]) <+: ta) ∨ ba.length = bb.length) :
    ta ++ [58] ++ ba ≠ tb ++ [58] ++ bb := by
  intro h
  rcases hsep with ⟨h1, h2⟩ | hlen
  · simp only [List.append_assoc, List.singleton_append] at h
    rcases List.append_eq_append_iff.mp h with ⟨c, hc1, hc2⟩ | ⟨c, hc1, hc2⟩
    · cases c with
      | nil => exact hne (by simpa using hc1.symm)
      | cons x c =>
        simp only [List.cons_append, List.cons.injEq] at hc2
        apply h1
        rw [hc1, ← hc2.1]
        exact ⟨c, by simp⟩
    · cases c with
      | nil => exact hne (by simpa using hc1)
      | cons x c =>
        simp only [List.cons_append, List.cons.injEq] at hc2
        apply h2
        rw [hc1, ← hc2.1]
        exact ⟨c, by simp⟩
  · have hl := congrArg List.length h
    simp only [List.length_append, List.length_singleton] at hl
    have h3 : ta.length = tb.length := by omega
    simp only [List.append_assoc] at h
    exact hne (List.append_inj h h3).1

theorem arrayElemKeys_slot (ext : Externals) (o : Bool) (x y : TypedValue)
    (post : List TypedValue) (k : Bytes) :
    ∀ pre : List TypedValue, arrayElemKeys ext o (pre ++ x :: post) = .ok k →
      arrayElemKeys ext o (pre ++ y :: post) = .ok k →
      TypedValue.ComputeMapKey ext x o = TypedValue.ComputeMapKey ext y o := by
  intro pre
  induction pre generalizing k with
  | nil =>
    intro h1 h2
    cases post with
    | nil =>
      simp only [List.nil_append, arrayElemKeys] at h1 h2
      rw [h1, h2]
    | cons p ps =>
      simp only [List.nil_append, arrayElemKeys] at h1 h2
      cases hx : TypedValue.ComputeMapKey ext x o with
      | error e => simp [hx] at h1
      | ok kx =>
        cases hy : TypedValue.ComputeMapKey ext y o with
        | error e => simp [hy] at h2
        | ok ky =>
          cases hr : arrayElemKeys ext o (p :: ps) with
          | error e => simp [hx, hr] at h1
          | ok ks =>
            simp only [hx, hr, Except.ok.injEq] at h1
            simp only [hy, hr, Except.ok.injEq] at h2
            have h3 : kx ++ ([44] ++ ks) = ky ++ ([44] ++ ks) := by
              rw [← List.append_assoc, ← List.append_assoc, h1, h2]
            rw [List.append_cancel_right h3]
  | cons q qs ih =>
    intro h1 h2
    obtain ⟨z1, zs1, hz1⟩ : ∃ z zs, qs ++ x :: post = z :: zs := by
      cases qs <;> exact ⟨_, _, rfl⟩
    obtain ⟨z2, zs2, hz2⟩ : ∃ z zs, qs ++ y :: post = z :: zs := by
      cases qs <;> exact ⟨_, _, rfl⟩
    simp only [List.cons_append, hz1, hz2, arrayElemKeys] at h1 h2
    rw [← hz1] at h1
    rw [← hz2] at h2
    cases hq : TypedValue.ComputeMapKey ext q o with
    | error e => simp [hq] at h1
    | ok kq =>
      cases hr1 : arrayElemKeys ext o (qs ++ x :: post) with
      | error e => simp [hq, hr1] at h1
      | ok r1 =>
        cases hr2 : arrayElemKeys ext o (qs ++ y :: post) with
        | error e => simp [hq, hr2] at h2
        | ok r2 =>
          simp only [hq, hr1, Except.ok.injEq] at h1
          simp only [hq, hr2, Except.ok.injEq] at h2
          have h3 : kq ++ [44] ++ r1 = kq ++ [44] ++ r2 := by rw [h1, h2]
          have h4 : r1 = r2 := List.append_cancel_left h3
          subst h4
          exact ih r1 hr1 hr2


theorem structFieldKeys_slot (ext : Externals) (x y : TypedValue)
    (post : List TypedValue) :
    ∀ (pre : List TypedValue) (fts : List FieldType) (k : Bytes),
      structFieldKeys ext fts (pre ++ x :: post) = .ok k →
      structFieldKeys ext fts (pre ++ y :: post) = .ok k →
      ∃ ft, fts[pre.length]? = some ft ∧
        TypedValue.ComputeMapKey ext x (ft.type.Kind != Kind.InterfaceKind) =
          TypedValue.ComputeMapKey ext y (ft.type.Kind != Kind.InterfaceKind) := by
  intro pre
  induction pre with
  | nil =>
    intro fts k h1 h2
    cases fts with
    | nil => simp [structFieldKeys] at h1
    | cons ft fts =>
      refine ⟨ft, by simp, ?_⟩
      cases post with
      | nil =>
        simp only [List.nil_append, structFieldKeys] at h1 h2
        rw [h1, h2]
      | cons p ps =>
        simp only [List.nil_append, structFieldKeys] at h1 h2
        cases hx : TypedValue.ComputeMapKey ext x (ft.type.Kind != Kind.InterfaceKind) with
        | error e => simp [hx] at h1
        | ok kx =>
          cases hy : TypedValue.ComputeMapKey ext y (ft.type.Kind != Kind.InterfaceKind) with
          | error e => simp [hy] at h2
          | ok ky =>
            cases hr : structFieldKeys ext fts (p :: ps) with
            | error e => simp [hx, hr] at h1
            | ok ks =>
              simp only [hx, hr, Except.ok.injEq] at h1
              simp only [hy, hr, Except.ok.injEq] at h2
              have h3 : kx ++ ([44] ++ ks) = ky ++ ([44] ++ ks) := by
                rw [← List.append_assoc, ← List.append_assoc, h1, h2]
              rw [List.append_cancel_right h3]
  | cons q qs ih =>
    intro fts k h1 h2
    cases fts with
    | nil => simp [structFieldKeys] at h1
    | cons ft fts =>
      obtain ⟨z1, zs1, hz1⟩ : ∃ z zs, qs ++ x :: post = z :: zs := by
        cases qs <;> exact ⟨_, _, rfl⟩
      obtain ⟨z2, zs2, hz2⟩ : ∃ z zs, qs ++ y :: post = z :: zs := by
        cases qs <;> exact ⟨_, _, rfl⟩
      simp only [List.cons_append, hz1, hz2, structFieldKeys] at h1 h2
      rw [← hz1] at h1
      rw [← hz2] at h2
      cases hq : TypedValue.ComputeMapKey ext q (ft.type.Kind != Kind.InterfaceKind) with
      | error e => simp [hq] at h1
      | ok kq =>
        cases hr1 : structFieldKeys ext fts (qs ++ x :: post) with
        | error e => simp [hq, hr1] at h1
        | ok r1 =>
          cases hr2 : structFieldKeys ext fts (qs ++ y :: post) with
          | error e => simp [hq, hr2] at h2
          | ok r2 =>
            simp only [hq, hr1, Except.ok.injEq] at h1
            simp only [hq, hr2, Except.ok.injEq] at h2
            have h3 : kq ++ [44] ++ r1 = kq ++ [44] ++ r2 := by rw [h1, h2]
            have h4 : r1 = r2 := List.append_cancel_left h3
            subst h4
            obtain ⟨ft2, hft2, hk⟩ := ih fts r1 hr1 hr2
            exact ⟨ft2, by simpa using hft2, hk⟩

theorem computeMapKey_typed_differ (ext : Externals) (ta tb : GType) (va vb : Option Value)
    (na nb : Nat) (ka kb : Bytes) (hne : ext.typeID ta ≠ ext.typeID tb)
    (hsep : (¬ (ext.typeID ta ++ [58]) <+: ext.typeID tb ∧
        ¬ (ext.typeID tb ++ [58]) <+: ext.typeID ta) ∨
      ∀ ba bb, TypedValue.ComputeMapKey ext (.mk (some ta) va na) true = .ok ba →
        TypedValue.ComputeMapKey ext (.mk (some tb) vb nb) true = .ok bb →
        ba.length = bb.length)
    (ha : TypedValue.ComputeMapKey ext (.mk (some ta) va na) false = .ok ka)
    (hb : TypedValue.ComputeMapKey ext (.mk (some tb) vb nb) false = .ok kb) : ka ≠ kb := by
  rw [computeMapKey_typed] at ha hb
  cases hba : TypedValue.ComputeMapKey ext (.mk (some ta) va na) true with
  | error e => simp [hba, Except.map] at ha
  | ok ba =>
    cases hbb : TypedValue.ComputeMapKey ext (.mk (some tb) vb nb) true with
    | error e => simp [hbb, Except.map] at hb
    | ok bb =>
      simp only [hba, Except.map, Except.ok.injEq] at ha
      simp only [hbb, Except.map, Except.ok.injEq] at hb
      rw [← ha, ← hb]
      apply typed_keys_differ _ _ _ _ hne
      rcases hsep with h | h
      · exact Or.inl h
      · exact Or.inr (h ba bb hba hbb)

theorem computeMapKey_array_slot_differ (ext : Externals) (t : GType) (len : Nat)
    (elt : GType) (pre post : List TypedValue) (x y : TypedValue) (n1 n2 : Nat) (o : Bool)
    (k1 k2 : Bytes) (hb : baseOf t = .ArrayType len elt) (hk : elt.Kind = Kind.InterfaceKind)
    (hxy : TypedValue.ComputeMapKey ext x false ≠ TypedValue.ComputeMapKey ext y false)
    (h1 : TypedValue.ComputeMapKey ext
      (.mk (some t) (some (.ArrayValue (pre ++ x :: post) none)) n1) o = .ok k1)
    (h2 : TypedValue.ComputeMapKey ext
      (.mk (some t) (some (.ArrayValue (pre ++ y :: post) none)) n2) o = .ok k2) : k1 ≠ k2 := by
  intro hk12
  subst hk12
  rw [computeMapKey_some] at h1 h2
  simp only [computeMapKeyCases, hb, elemKeysOf, hk, bne_self_eq_false] at h1 h2
  cases hr1 : arrayElemKeys ext false (pre ++ x :: post) with
  | error e => simp [hr1] at h1
  | ok r1 =>
    cases hr2 : arrayElemKeys ext false (pre ++ y :: post) with
    | error e => simp [hr2] at h2
    | ok r2 =>
      simp only [hr1, Except.ok.injEq] at h1
      simp only [hr2, Except.ok.injEq] at h2
      have h3 : typeTag ext t o ++ [91] ++ r1 ++ [93] = typeTag ext t o ++ [91] ++ r2 ++ [93] := by
        simp only [typeTag]
        rw [h1, h2]
      have h4 : r1 = r2 := by
        have := List.append_cancel_right h3
        exact List.append_cancel_left this
      subst h4
      exact hxy (arrayElemKeys_slot ext false x y post r1 pre hr1 hr2)

theorem computeMapKey_struct_slot_differ (ext : Externals) (t : GType)
    (fts : List FieldType) (ft : FieldType) (pre post : List TypedValue) (x y : TypedValue)
    (n1 n2 : Nat) (o : Bool) (k1 k2 : Bytes) (hb : baseOf t = .StructType fts)
    (hft : fts[pre.length]? = some ft) (hk : ft.type.Kind = Kind.InterfaceKind)
    (hxy : TypedValue.ComputeMapKey ext x false ≠ TypedValue.ComputeMapKey ext y false)
    (h1 : TypedValue.ComputeMapKey ext
      (.mk (some t) (some (.StructValue (pre ++ x :: post))) n1) o = .ok k1)
    (h2 : TypedValue.ComputeMapKey ext
      (.mk (some t) (some (.StructValue (pre ++ y :: post))) n2) o = .ok k2) : k1 ≠ k2 := by
  intro hk12
  subst hk12
  rw [computeMapKey_some] at h1 h2
  simp only [computeMapKeyCases, hb, fieldKeysOf] at h1 h2
  cases hr1 : structFieldKeys ext fts (pre ++ x :: post) with
  | error e => simp [hr1] at h1
  | ok r1 =>
    cases hr2 : structFieldKeys ext fts (pre ++ y :: post) with
    | error e => simp [hr2] at h2
    | ok r2 =>
      simp only [hr1, Except.ok.injEq] at h1
      simp only [hr2, Except.ok.injEq] at h2
      have h3 : typeTag ext t o ++ [123] ++ r1 ++ [125] = typeTag ext t o ++ [123] ++ r2 ++ [125] := by
        simp only [typeTag]
        rw [h1, h2]
      have h4 : r1 = r2 := by
        have := List.append_cancel_right h3
        exact List.append_cancel_left this
      subst h4
      obtain ⟨ft2, hft2, hkk⟩ := structFieldKeys_slot ext x y post pre fts r1 hr1 hr2
      rw [hft] at hft2
      cases hft2
      rw [hk] at hkk
      exact hxy hkk


/-- C5 (as stated, refuted). Two arrays of static type `[2]interface{}` whose
second elements are of the same kind (string) and of different type identity
("string" and the declared "main.MyStr") have the same key: the elements are
`"a,main.MyStr:b", "c"` and `"a", MyStr("b,string:c")`. -/
theorem computeMapKey_interface_elements_collide :
    TypedValue.ComputeMapKey sampleExt
      (.mk (some (.ArrayType 2 .InterfaceType))
        (some (.ArrayValue
          [.mk (some (.PrimitiveType .StringType)) (some (.StringValue [97, 44, 109, 97, 105, 110, 46, 77, 121, 83, 116, 114, 58, 98])) 0,
           .mk (some (.PrimitiveType .StringType)) (some (.StringValue [99])) 0] none)) 0) false =
    TypedValue.ComputeMapKey sampleExt
      (.mk (some (.ArrayType 2 .InterfaceType))
        (some (.ArrayValue
          [.mk (some (.PrimitiveType .StringType)) (some (.StringValue [97])) 0,
           .mk (some (.DeclaredType [109, 97, 105, 110, 46, 77, 121, 83, 116, 114] (.PrimitiveType .StringType))) (some (.StringValue [98, 44, 115, 116, 114, 105, 110, 103, 58, 99])) 0] none)) 0) false ∧
    (∃ k, TypedValue.ComputeMapKey sampleExt
      (.mk (some (.ArrayType 2 .InterfaceType))
        (some (.ArrayValue
          [.mk (some (.PrimitiveType .StringType)) (some (.StringValue [97, 44, 109, 97, 105, 110, 46, 77, 121, 83, 116, 114, 58, 98])) 0,
           .mk (some (.PrimitiveType .StringType)) (some (.StringValue [99])) 0] none)) 0) false = .ok k) ∧
    GType.Kind (.PrimitiveType .StringType) = GType.Kind (.DeclaredType [109, 97, 105, 110, 46, 77, 121, 83, 116, 114] (.PrimitiveType .StringType)) ∧
    sampleExt.typeID (.PrimitiveType .StringType) ≠ sampleExt.typeID (.DeclaredType [109, 97, 105, 110, 46, 77, 121, 83, 116, 114] (.PrimitiveType .StringType)) :=
  ⟨rfl, ⟨_, rfl⟩, rfl, by decide⟩

/-- C5 (amended). Two slots with types whose identities differ have different
keys (type not omitted) when neither identity followed by ':' is a prefix of
the other, or when their keys without the type have the same length (as for
equal payload bytes); and two list-represented arrays, or two structs, of one
type that differ only in one element or field whose static type is of
interface kind have different keys when the keys of the two elements or fields
differ. -/
theorem computeMapKey_dynamic_type_distinguishes (ext : Externals) :
    (∀ (ta tb : GType) (va vb : Option Value) (na nb : Nat) (ka kb : Bytes),
      ext.typeID ta ≠ ext.typeID tb →
      ((¬ (ext.typeID ta ++ [58]) <+: ext.typeID tb ∧
          ¬ (ext.typeID tb ++ [58]) <+: ext.typeID ta) ∨
        ∀ ba bb, TypedValue.ComputeMapKey ext (.mk (some ta) va na) true = .ok ba →
          TypedValue.ComputeMapKey ext (.mk (some tb) vb nb) true = .ok bb →
          ba.length = bb.length) →
      TypedValue.ComputeMapKey ext (.mk (some ta) va na) false = .ok ka →
      TypedValue.ComputeMapKey ext (.mk (some tb) vb nb) false = .ok kb → ka ≠ kb) ∧
    (∀ (t : GType) (len : Nat) (elt : GType) (pre post : List TypedValue)
      (x y : TypedValue) (n1 n2 : Nat) (o : Bool) (k1 k2 : Bytes),
      baseOf t = .ArrayType len elt → elt.Kind = Kind.InterfaceKind →
      TypedValue.ComputeMapKey ext x false ≠ TypedValue.ComputeMapKey ext y false →
      TypedValue.ComputeMapKey ext
        (.mk (some t) (some (.ArrayValue (pre ++ x :: post) none)) n1) o = .ok k1 →
      TypedValue.ComputeMapKey ext
        (.mk (some t) (some (.ArrayValue (pre ++ y :: post) none)) n2) o = .ok k2 →
      k1 ≠ k2) ∧
    (∀ (t : GType) (fts : List FieldType) (ft : FieldType) (pre post : List TypedValue)
      (x y : TypedValue) (n1 n2 : Nat) (o : Bool) (k1 k2 : Bytes),
      baseOf t = .StructType fts → fts[pre.length]? = some ft →
      ft.type.Kind = Kind.InterfaceKind →
      TypedValue.ComputeMapKey ext x false ≠ TypedValue.ComputeMapKey ext y false →
      TypedValue.ComputeMapKey ext
        (.mk (some t) (some (.StructValue (pre ++ x :: post))) n1) o = .ok k1 →
      TypedValue.ComputeMapKey ext
        (.mk (some t) (some (.StructValue (pre ++ y :: post))) n2) o = .ok k2 →
      k1 ≠ k2) :=
  ⟨fun ta tb va vb na nb ka kb hne hsep ha hb =>
      computeMapKey_typed_differ ext ta tb va vb na nb ka kb hne hsep ha hb,
    fun t len elt pre post x y n1 n2 o k1 k2 hb hk hxy h1 h2 =>
      computeMapKey_array_slot_differ ext t len elt pre post x y n1 n2 o k1 k2 hb hk hxy h1 h2,
    fun t fts ft pre post x y n1 n2 o k1 k2 hb hft hk hxy h1 h2 =>
      computeMapKey_struct_slot_differ ext t fts ft pre post x y n1 n2 o k1 k2 hb hft hk hxy
        h1 h2⟩

/-- The int8 value 1 and the value 1 of the declared type "main.I8" over int8
have different keys in an interface slot, as the second element of an array
`[2]interface{}` and as the interface-typed second field of a struct. -/
theorem computeMapKey_dynamic_type_distinguishes_witness :
    ([105, 110, 116, 56, 58, 1] : Bytes) ≠ [109, 97, 105, 110, 46, 73, 56, 58, 1] ∧
    ([63, 58, 91, 105, 110, 116, 56, 58, 1, 44, 105, 110, 116, 56, 58, 1, 93] : Bytes) ≠
      [63, 58, 91, 105, 110, 116, 56, 58, 1, 44, 109, 97, 105, 110, 46, 73, 56, 58, 1, 93] ∧
    ([63, 58, 123, 0, 0, 0, 0, 0, 0, 0, 0, 44, 105, 110, 116, 56, 58, 1, 125] : Bytes) ≠
      [63, 58, 123, 0, 0, 0, 0, 0, 0, 0, 0, 44, 109, 97, 105, 110, 46, 73, 56, 58, 1, 125] :=
  ⟨(computeMapKey_dynamic_type_distinguishes sampleExt).1 (.PrimitiveType .Int8Type) (.DeclaredType [109, 97, 105, 110, 46, 73, 56] (.PrimitiveType .Int8Type)) none none 1 1 _ _
      (by decide)
      (Or.inr (fun ba bb h1 h2 => by
        have e1 : [1] = ba := Except.ok.inj h1
        have e2 : [1] = bb := Except.ok.inj h2
        subst e1 e2
        rfl))
      rfl rfl,
    (computeMapKey_dynamic_type_distinguishes sampleExt).2.1 (.ArrayType 2 .InterfaceType) 2 .InterfaceType
      [(.mk (some (.PrimitiveType .Int8Type)) none 1)] [] (.mk (some (.PrimitiveType .Int8Type)) none 1) (.mk (some (.DeclaredType [109, 97, 105, 110, 46, 73, 56] (.PrimitiveType .Int8Type))) none 1) 0 0 false _ _ rfl rfl
      (fun h => absurd (Except.ok.inj h) (by decide)) rfl rfl,
    (computeMapKey_dynamic_type_distinguishes sampleExt).2.2 (.StructType [.mk [120] (.PrimitiveType .IntType), .mk [121] .InterfaceType]) _ (.mk [121] .InterfaceType)
      [.mk (some (.PrimitiveType .IntType)) none 0] [] (.mk (some (.PrimitiveType .Int8Type)) none 1) (.mk (some (.DeclaredType [109, 97, 105, 110, 46, 73, 56] (.PrimitiveType .Int8Type))) none 1) 0 0 false _ _ rfl rfl rfl
      (fun h => absurd (Except.ok.inj h) (by decide)) rfl rfl⟩


theorem keyLen_baseOf (t : GType) : keyLen t = keyLen (baseOf t) := by
  cases t <;> simp [baseOf, keyLen]

theorem fieldKeyLen_eq (ft : FieldType) : fieldKeyLen ft = keyLen ft.type := by
  cases ft; simp [fieldKeyLen, FieldType.type]

theorem fixedKey_unfold (T : Option GType) (v : Option Value) (n : Nat) (t : GType) :
    fixedKey (.mk T v n) t → T = some t := by
  intro h
  cases v with
  | none => simp only [fixedKey] at h; exact h.1
  | some x => cases x <;> simp only [fixedKey] at h <;> exact h.1

theorem fixedKeyCases_length (ext : Externals)
    (hlen : ∀ p, (ext.uintptrToBytes p).length = 8)
    (t : GType) (v : Option Value) (n : Nat) (ek : Bool → Except String Bytes)
    (fk : List FieldType → Except String Bytes) (elems : Nat → GType → Prop)
    (fields : List FieldType → Prop) (T : Option GType)
    (h : fixedKeyCases t T v elems fields)
    (harr : ∀ len elt, baseOf t = .ArrayType len elt → elt.Kind ≠ Kind.InterfaceKind →
      elems len elt →
      ∃ k, computeMapKeyCases ext t v n true ek fk = .ok k ∧ k.length = keyLen t)
    (hstr : ∀ fts, baseOf t = .StructType fts → fields fts →
      ∃ k, computeMapKeyCases ext t v n true ek fk = .ok k ∧ k.length = keyLen t) :
    ∃ k, computeMapKeyCases ext t v n true ek fk = .ok k ∧ k.length = keyLen t := by
  obtain ⟨-, h⟩ := h
  cases hb : baseOf t with
  | PrimitiveType pt =>
    rw [hb] at h
    obtain ⟨w, hw⟩ := Option.isSome_iff_exists.mp h
    have hp := primitiveBytes_scalar (.mk (some t) v n) t pt w rfl hb hw
    refine ⟨_, by simp only [computeMapKeyCases, hb, hp]; rfl, ?_⟩
    rw [keyLen_baseOf, hb]
    simp [keyLen, hw, putUintLE_length]
  | PointerType elt =>
    rw [hb] at h
    obtain ⟨p, hv, -⟩ := h
    subst hv
    refine ⟨_, by simp only [computeMapKeyCases, hb]; rfl, ?_⟩
    rw [keyLen_baseOf, hb]
    simp [keyLen, hlen]
  | ArrayType len elt =>
    rw [hb] at h
    exact harr len elt hb h.1 h.2
  | StructType fts =>
    rw [hb] at h
    exact hstr fts hb h
  | _ =>
    rw [hb] at h
    exact h.elim


theorem bne_interface_of_ne (k : Kind) (h : k ≠ Kind.InterfaceKind) :
    (k != Kind.InterfaceKind) = true := by
  simpa [bne_iff_ne] using h

mutual
theorem fixedKey_length (ext : Externals)
    (hlen : ∀ p, (ext.uintptrToBytes p).length = 8) :
    ∀ (a : TypedValue) (t : GType), fixedKey a t →
      ∃ k, TypedValue.ComputeMapKey ext a true = .ok k ∧ k.length = keyLen t
  | .mk T (some (.ArrayValue l d)) n, t, h => by
    have hT := fixedKey_unfold _ _ _ _ h
    subst hT
    simp only [fixedKey] at h
    rw [computeMapKey_some]
    refine fixedKeyCases_length ext hlen t _ n _ _ _ _ _ h ?_ (fun _ _ hf => hf.elim)
    intro len elt hb hk he
    cases d with
    | none =>
      simp only at he
      obtain ⟨hk8, hl, hfl⟩ := he
      obtain ⟨ks, hks, hkl⟩ := fixedKeys_length ext hlen l elt hfl
      refine ⟨_, by simp only [computeMapKeyCases, hb, elemKeysOf, bne_interface_of_ne _ hk, hks]; rfl, ?_⟩
      rw [keyLen_baseOf, hb]
      simp [keyLen, hk8, hkl, hl]
    | some data =>
      simp only at he
      refine ⟨_, by simp only [computeMapKeyCases, hb]; rfl, ?_⟩
      rw [keyLen_baseOf, hb]
      simp [keyLen, he.1, he.2]
  | .mk T (some (.StructValue fs)) n, t, h => by
    have hT := fixedKey_unfold _ _ _ _ h
    subst hT
    simp only [fixedKey] at h
    rw [computeMapKey_some]
    refine fixedKeyCases_length ext hlen t _ n _ _ _ _ _ h (fun _ _ _ _ hf => hf.elim) ?_
    intro fts hb hf
    obtain ⟨ks, hks, hkl⟩ := fixedFields_length ext hlen fs fts hf
    refine ⟨_, by simp only [computeMapKeyCases, hb, fieldKeysOf, hks]; rfl, ?_⟩
    rw [keyLen_baseOf, hb]
    simp [keyLen, hkl]
  | .mk T none n, t, h
  | .mk T (some (.StringValue _)) n, t, h
  | .mk T (some (.BigintValue _)) n, t, h
  | .mk T (some (.BigdecValue _)) n, t, h
  | .mk T (some (.PointerValue _)) n, t, h
  | .mk T (some (.SliceValue _ _ _ _)) n, t, h
  | .mk T (some (.FuncValue _)) n, t, h
  | .mk T (some (.MapValue _)) n, t, h
  | .mk T (some (.TypeValue _)) n, t, h
  | .mk T (some (.PackageValue _)) n, t, h => by
    have hT := fixedKey_unfold _ _ _ _ h
    subst hT
    simp only [fixedKey] at h
    rw [computeMapKey_some]
    exact fixedKeyCases_length ext hlen t _ n _ _ _ _ _ h (fun _ _ _ _ hf => hf.elim)
      (fun _ _ hf => hf.elim)
theorem fixedKeys_length (ext : Externals)
    (hlen : ∀ p, (ext.uintptrToBytes p).length = 8) :
    ∀ (l : List TypedValue) (t : GType), fixedKeys l t →
      ∃ ks, arrayElemKeys ext true l = .ok ks ∧
        ks.length = l.length * keyLen t + (l.length - 1)
  | [], _, _ => ⟨[], by simp only [arrayElemKeys], by simp⟩
  | [x], t, h => by
    simp only [fixedKeys, and_true] at h
    obtain ⟨k, hk, hkl⟩ := fixedKey_length ext hlen x t h
    exact ⟨k, by simp only [arrayElemKeys, hk], by simp [hkl]⟩
  | x :: x2 :: xs, t, h => by
    rw [fixedKeys] at h
    obtain ⟨k, hk, hkl⟩ := fixedKey_length ext hlen x t h.1
    obtain ⟨ks, hks, hksl⟩ := fixedKeys_length ext hlen (x2 :: xs) t h.2
    refine ⟨k ++ [44] ++ ks, by simp only [arrayElemKeys, hk, hks], ?_⟩
    simp only [List.length_append, List.length_cons, List.length_nil, hkl, hksl,
      Nat.add_sub_cancel]
    rw [Nat.succ_mul (xs.length + 1)]
    omega
theorem fixedFields_length (ext : Externals)
    (hlen : ∀ p, (ext.uintptrToBytes p).length = 8) :
    ∀ (fs : List TypedValue) (fts : List FieldType), fixedFields fs fts →
      ∃ ks, structFieldKeys ext fts fs = .ok ks ∧ ks.length = fieldsKeyLen fts
  | [], [], _ => ⟨[], by simp only [structFieldKeys], by simp [fieldsKeyLen]⟩
  | [], _ :: _, h => by simp [fixedFields] at h
  | _ :: _, [], h => by simp [fixedFields] at h
  | [f], [ft], h => by
    simp only [fixedFields, and_true] at h
    obtain ⟨k, hk, hkl⟩ := fixedKey_length ext hlen f ft.type h.2
    exact ⟨k, by simp only [structFieldKeys, bne_interface_of_ne _ h.1, hk],
      by simp [fieldsKeyLen, fieldKeyLen_eq, hkl]⟩
  | [_], _ :: _ :: _, h => by simp [fixedFields] at h
  | _ :: _ :: _, [_], h => by simp [fixedFields] at h
  | f :: f2 :: fs, ft :: ft2 :: fts, h => by
    rw [fixedFields] at h
    obtain ⟨k, hk, hkl⟩ := fixedKey_length ext hlen f ft.type h.2.1
    obtain ⟨ks, hks, hksl⟩ := fixedFields_length ext hlen (f2 :: fs) (ft2 :: fts) h.2.2
    refine ⟨k ++ [44] ++ ks,
      by simp only [structFieldKeys, bne_interface_of_ne _ h.1, hk, hks], ?_⟩
    simp only [List.length_append, List.length_cons, List.length_nil, hkl, hksl,
      fieldsKeyLen, fieldKeyLen_eq]
end


theorem fixedKey_cases (T : Option GType) (v : Option Value) (n : Nat) (t : GType)
    (h : fixedKey (.mk T v n) t) :
    ∃ elems fields, fixedKeyCases t T v elems fields ∧
      (∀ len elt, elems len elt →
        ∃ l d, v = some (.ArrayValue l d) ∧
          match d with
          | none => elt.Kind ≠ Kind.Uint8Kind ∧ l.length = len ∧ fixedKeys l elt
          | some data => elt.Kind = Kind.Uint8Kind ∧ data.length = len) ∧
      (∀ fts, fields fts → ∃ fs, v = some (.StructValue fs) ∧ fixedFields fs fts) := by
  cases v with
  | none =>
    simp only [fixedKey] at h
    exact ⟨_, _, h, fun _ _ hf => hf.elim, fun _ hf => hf.elim⟩
  | some x =>
    cases x with
    | ArrayValue l d =>
      simp only [fixedKey] at h
      exact ⟨_, _, h, fun _ _ he => ⟨l, d, rfl, he⟩, fun _ hf => hf.elim⟩
    | StructValue fs =>
      simp only [fixedKey] at h
      exact ⟨_, _, h, fun _ _ hf => hf.elim, fun _ hf => ⟨fs, rfl, hf⟩⟩
    | _ =>
      simp only [fixedKey] at h
      exact ⟨_, _, h, fun _ _ hf => hf.elim, fun _ hf => hf.elim⟩

theorem fixedKey_array_shape (T : Option GType) (v : Option Value) (n : Nat) (t : GType)
    (len : Nat) (elt : GType) (h : fixedKey (.mk T v n) t)
    (hb : baseOf t = .ArrayType len elt) :
    ∃ l d, v = some (.ArrayValue l d) ∧
      match d with
      | none => elt.Kind ≠ Kind.Uint8Kind ∧ l.length = len ∧ fixedKeys l elt
      | some data => elt.Kind = Kind.Uint8Kind ∧ data.length = len := by
  obtain ⟨elems, fields, hc, he, -⟩ := fixedKey_cases T v n t h
  have h2 := hc.2
  rw [hb] at h2
  exact he len elt h2.2

theorem fixedKey_struct_shape (T : Option GType) (v : Option Value) (n : Nat) (t : GType)
    (fts : List FieldType) (h : fixedKey (.mk T v n) t)
    (hb : baseOf t = .StructType fts) :
    ∃ fs, v = some (.StructValue fs) ∧ fixedFields fs fts := by
  obtain ⟨elems, fields, hc, -, hf⟩ := fixedKey_cases T v n t h
  have h2 := hc.2
  rw [hb] at h2
  exact hf fts h2

theorem fixedKey_pointer_shape (T : Option GType) (v : Option Value) (n : Nat) (t : GType)
    (elt : GType) (h : fixedKey (.mk T v n) t) (hb : baseOf t = .PointerType elt) :
    ∃ p, v = some (.PointerValue p) ∧ p < 2 ^ 64 := by
  obtain ⟨elems, fields, hc, -, -⟩ := fixedKey_cases T v n t h
  have h2 := hc.2
  rw [hb] at h2
  exact h2

theorem fixedKey_primitive_shape (T : Option GType) (v : Option Value) (n : Nat) (t : GType)
    (pt : PrimitiveType) (h : fixedKey (.mk T v n) t) (hb : baseOf t = .PrimitiveType pt) :
    pt.encWidth.isSome = true := by
  obtain ⟨elems, fields, hc, -, -⟩ := fixedKey_cases T v n t h
  have h2 := hc.2
  rw [hb] at h2
  exact h2

theorem samePrimitive_of_scalar (pt : PrimitiveType) (w : Nat) (a b : TypedValue)
    (hw : pt.encWidth = some w) (h : a.scalar pt = b.scalar pt) : samePrimitive pt a b := by
  cases pt <;> simp_all [samePrimitive, PrimitiveType.encWidth]

theorem fixedKeyCases_inj (ext : Externals)
    (hinj : ∀ p q, p < 2 ^ 64 → q < 2 ^ 64 →
      ext.uintptrToBytes p = ext.uintptrToBytes q → p = q)
    (t : GType) (va vb : Option Value) (na nb : Nat)
    (ek1 ek2 : Bool → Except String Bytes) (fk1 fk2 : List FieldType → Except String Bytes)
    (elemsA : Nat → GType → Prop) (fieldsA : List FieldType → Prop)
    (selems sfields : Prop)
    (ha : fixedKeyCases t (some t) va elemsA fieldsA) (hb : fixedKey (.mk (some t) vb nb) t)
    (hk : computeMapKeyCases ext t va na true ek1 fk1 =
      computeMapKeyCases ext t vb nb true ek2 fk2)
    (harr : ∀ len elt, baseOf t = .ArrayType len elt → elt.Kind ≠ Kind.InterfaceKind →
      elemsA len elt → selems)
    (hstr : ∀ fts, baseOf t = .StructType fts → fieldsA fts → sfields) :
    sameValueCases t (.mk (some t) va na) (.mk (some t) vb nb) selems sfields := by
  refine ⟨rfl, ?_⟩
  obtain ⟨-, ha⟩ := ha
  cases hbt : baseOf t with
  | PrimitiveType pt =>
    rw [hbt] at ha
    obtain ⟨w, hw⟩ := Option.isSome_iff_exists.mp ha
    have hpa := primitiveBytes_scalar (.mk (some t) va na) t pt w rfl hbt hw
    have hpb := primitiveBytes_scalar (.mk (some t) vb nb) t pt w rfl hbt hw
    simp only [computeMapKeyCases, hbt, hpa, hpb, if_true, List.nil_append,
      Except.ok.injEq] at hk
    have h1 := congrArg (decodeLE pt.isSigned) hk
    rw [scalar_decode pt w _ hw, scalar_decode pt w _ hw] at h1
    exact samePrimitive_of_scalar pt w _ _ hw h1
  | PointerType elt =>
    rw [hbt] at ha
    obtain ⟨p, hp, hp64⟩ := ha
    obtain ⟨q, hq, hq64⟩ := fixedKey_pointer_shape _ _ _ _ elt hb hbt
    subst hp hq
    simp only [computeMapKeyCases, hbt, if_true, List.nil_append, Except.ok.injEq] at hk
    have := hinj p q hp64 hq64 hk
    subst this
    rfl
  | ArrayType len elt =>
    rw [hbt] at ha
    exact harr len elt hbt ha.1 ha.2
  | StructType fts =>
    rw [hbt] at ha
    exact hstr fts hbt ha
  | _ =>
    rw [hbt] at ha
    exact ha.elim


mutual
theorem fixedKey_inj (ext : Externals)
    (hlen : ∀ p, (ext.uintptrToBytes p).length = 8)
    (hinj : ∀ p q, p < 2 ^ 64 → q < 2 ^ 64 →
      ext.uintptrToBytes p = ext.uintptrToBytes q → p = q) :
    ∀ (a b : TypedValue) (t : GType), fixedKey a t → fixedKey b t →
      TypedValue.ComputeMapKey ext a true = TypedValue.ComputeMapKey ext b true →
      sameValue false a b
  | .mk Ta (some (.ArrayValue l1 d1)) n1, .mk Tb vb nb, t, ha, hb, hk => by
    have hTa := fixedKey_unfold _ _ _ _ ha
    subst hTa
    have hTb := fixedKey_unfold _ _ _ _ hb
    subst hTb
    simp only [sameValue]
    simp only [fixedKey] at ha
    rw [computeMapKey_some, computeMapKey_some] at hk
    refine fixedKeyCases_inj ext hinj t _ vb n1 nb _ _ _ _ _ _ _ _ ha hb hk ?_
      (fun _ _ hf => hf.elim)
    intro len elt hbt hkI heA
    obtain ⟨l2, d2, hv, heB⟩ := fixedKey_array_shape _ _ _ _ len elt hb hbt
    subst hv
    simp only [TypedValue.V]
    cases d1 with
    | none =>
      cases d2 with
      | some y => exact absurd heB.1 heA.1
      | none =>
        simp only at heA heB ⊢
        obtain ⟨ks1, hks1, -⟩ := fixedKeys_length ext hlen l1 elt heA.2.2
        obtain ⟨ks2, hks2, -⟩ := fixedKeys_length ext hlen l2 elt heB.2.2
        simp only [computeMapKeyCases, hbt, elemKeysOf, bne_interface_of_ne _ hkI, hks1, hks2,
          if_true, List.nil_append, Except.ok.injEq] at hk
        have h3 : ks1 = ks2 := by
          have := List.append_cancel_right hk
          exact List.append_cancel_left this
        subst h3
        exact fixedKeys_inj ext hlen hinj l1 l2 elt heA.2.2 heB.2.2
          (by rw [heA.2.1, heB.2.1]) (by rw [hks1, hks2])
    | some x =>
      cases d2 with
      | none => exact absurd heA.1 heB.1
      | some y =>
        simp only [computeMapKeyCases, hbt, if_true, List.nil_append, Except.ok.injEq] at hk
        have := List.append_cancel_right hk
        exact List.append_cancel_left this
  | .mk Ta (some (.StructValue fs1)) n1, .mk Tb vb nb, t, ha, hb, hk => by
    have hTa := fixedKey_unfold _ _ _ _ ha
    subst hTa
    have hTb := fixedKey_unfold _ _ _ _ hb
    subst hTb
    simp only [sameValue]
    simp only [fixedKey] at ha
    rw [computeMapKey_some, computeMapKey_some] at hk
    refine fixedKeyCases_inj ext hinj t _ vb n1 nb _ _ _ _ _ _ _ _ ha hb hk
      (fun _ _ _ _ hf => hf.elim) ?_
    intro fts hbt hfA
    obtain ⟨fs2, hv, hfB⟩ := fixedKey_struct_shape _ _ _ _ fts hb hbt
    subst hv
    simp only [TypedValue.V]
    obtain ⟨ks1, hks1, -⟩ := fixedFields_length ext hlen fs1 fts hfA
    obtain ⟨ks2, hks2, -⟩ := fixedFields_length ext hlen fs2 fts hfB
    simp only [computeMapKeyCases, hbt, fieldKeysOf, hks1, hks2,
      if_true, List.nil_append, Except.ok.injEq] at hk
    have h3 : ks1 = ks2 := by
      have := List.append_cancel_right hk
      exact List.append_cancel_left this
    subst h3
    exact fixedFields_inj ext hlen hinj fs1 fs2 fts hfA hfB (by rw [hks1, hks2])
  | .mk Ta none n1, .mk Tb vb nb, t, ha, hb, hk
  | .mk Ta (some (.StringValue _)) n1, .mk Tb vb nb, t, ha, hb, hk
  | .mk Ta (some (.BigintValue _)) n1, .mk Tb vb nb, t, ha, hb, hk
  | .mk Ta (some (.BigdecValue _)) n1, .mk Tb vb nb, t, ha, hb, hk
  | .mk Ta (some (.PointerValue _)) n1, .mk Tb vb nb, t, ha, hb, hk
  | .mk Ta (some (.SliceValue _ _ _ _)) n1, .mk Tb vb nb, t, ha, hb, hk
  | .mk Ta (some (.FuncValue _)) n1, .mk Tb vb nb, t, ha, hb, hk
  | .mk Ta (some (.MapValue _)) n1, .mk Tb vb nb, t, ha, hb, hk
  | .mk Ta (some (.TypeValue _)) n1, .mk Tb vb nb, t, ha, hb, hk
  | .mk Ta (some (.PackageValue _)) n1, .mk Tb vb nb, t, ha, hb, hk => by
    have hTa := fixedKey_unfold _ _ _ _ ha
    subst hTa
    have hTb := fixedKey_unfold _ _ _ _ hb
    subst hTb
    simp only [sameValue]
    simp only [fixedKey] at ha
    rw [computeMapKey_some, computeMapKey_some] at hk
    exact fixedKeyCases_inj ext hinj t _ vb n1 nb _ _ _ _ _ _ _ _ ha hb hk
      (fun _ _ _ _ hf => hf.elim) (fun _ _ hf => hf.elim)
theorem fixedKeys_inj (ext : Externals)
    (hlen : ∀ p, (ext.uintptrToBytes p).length = 8)
    (hinj : ∀ p q, p < 2 ^ 64 → q < 2 ^ 64 →
      ext.uintptrToBytes p = ext.uintptrToBytes q → p = q) :
    ∀ (l1 l2 : List TypedValue) (t : GType), fixedKeys l1 t → fixedKeys l2 t →
      l1.length = l2.length →
      arrayElemKeys ext true l1 = arrayElemKeys ext true l2 → sameValues false l1 l2
  | [], [], _, _, _, _, _ => by simp only [sameValues]
  | [], _ :: _, _, _, _, hl, _ => by simp at hl
  | _ :: _, [], _, _, _, hl, _ => by simp at hl
  | [x], [y], t, h1, h2, _, hk => by
    simp only [fixedKeys, and_true] at h1 h2
    simp only [arrayElemKeys] at hk
    simp only [sameValues, and_true]
    exact fixedKey_inj ext hlen hinj x y t h1 h2 hk
  | [_], _ :: _ :: _, _, _, _, hl, _ => by simp at hl
  | _ :: _ :: _, [_], _, _, _, hl, _ => by simp at hl
  | x :: x2 :: xs, y :: y2 :: ys, t, h1, h2, hl, hk => by
    rw [fixedKeys] at h1 h2
    obtain ⟨kx, hkx, hlx⟩ := fixedKey_length ext hlen x t h1.1
    obtain ⟨ky, hky, hly⟩ := fixedKey_length ext hlen y t h2.1
    obtain ⟨r1, hr1, -⟩ := fixedKeys_length ext hlen (x2 :: xs) t h1.2
    obtain ⟨r2, hr2, -⟩ := fixedKeys_length ext hlen (y2 :: ys) t h2.2
    simp only [arrayElemKeys, hkx, hky, hr1, hr2, Except.ok.injEq, List.append_assoc] at hk
    obtain ⟨e1, e2⟩ := List.append_inj hk (by rw [hlx, hly])
    subst e1
    have e3 : r1 = r2 := List.append_cancel_left e2
    subst e3
    rw [sameValues]
    exact ⟨fixedKey_inj ext hlen hinj x y t h1.1 h2.1 (by rw [hkx, hky]),
      fixedKeys_inj ext hlen hinj (x2 :: xs) (y2 :: ys) t h1.2 h2.2
        (by simpa using hl) (by rw [hr1, hr2])⟩
theorem fixedFields_inj (ext : Externals)
    (hlen : ∀ p, (ext.uintptrToBytes p).length = 8)
    (hinj : ∀ p q, p < 2 ^ 64 → q < 2 ^ 64 →
      ext.uintptrToBytes p = ext.uintptrToBytes q → p = q) :
    ∀ (l1 l2 : List TypedValue) (fts : List FieldType), fixedFields l1 fts →
      fixedFields l2 fts →
      structFieldKeys ext fts l1 = structFieldKeys ext fts l2 → sameValues false l1 l2
  | [], [], _, _, _, _ => by simp only [sameValues]
  | [], _ :: _, [], _, h2, _ => by simp [fixedFields] at h2
  | [], _ :: _, _ :: _, h1, _, _ => by simp [fixedFields] at h1
  | _ :: _, [], [], h1, _, _ => by simp [fixedFields] at h1
  | _ :: _, [], _ :: _, _, h2, _ => by simp [fixedFields] at h2
  | _ :: _, _ :: _, [], h1, _, _ => by simp [fixedFields] at h1
  | [x], [y], [ft], h1, h2, hk => by
    simp only [fixedFields, and_true] at h1 h2
    simp only [structFieldKeys, bne_interface_of_ne _ h1.1] at hk
    simp only [sameValues, and_true]
    exact fixedKey_inj ext hlen hinj x y ft.type h1.2 h2.2 hk
  | [_], _ :: _, _ :: _ :: _, h1, _, _ => by simp [fixedFields] at h1
  | [_], _ :: _ :: _, [_], _, h2, _ => by simp [fixedFields] at h2
  | _ :: _ :: _, _ :: _, [_], h1, _, _ => by simp [fixedFields] at h1
  | _ :: _ :: _, [_], _ :: _ :: _, _, h2, _ => by simp [fixedFields] at h2
  | x :: x2 :: xs, y :: y2 :: ys, ft :: ft2 :: fts, h1, h2, hk => by
    rw [fixedFields] at h1 h2
    obtain ⟨kx, hkx, hlx⟩ := fixedKey_length ext hlen x ft.type h1.2.1
    obtain ⟨ky, hky, hly⟩ := fixedKey_length ext hlen y ft.type h2.2.1
    obtain ⟨r1, hr1, -⟩ := fixedFields_length ext hlen (x2 :: xs) (ft2 :: fts) h1.2.2
    obtain ⟨r2, hr2, -⟩ := fixedFields_length ext hlen (y2 :: ys) (ft2 :: fts) h2.2.2
    simp only [structFieldKeys, bne_interface_of_ne _ h1.1, hkx, hky, hr1, hr2,
      Except.ok.injEq, List.append_assoc] at hk
    obtain ⟨e1, e2⟩ := List.append_inj hk (by rw [hlx, hly])
    subst e1
    have e3 : r1 = r2 := List.append_cancel_left e2
    subst e3
    rw [sameValues]
    exact ⟨fixedKey_inj ext hlen hinj x y ft.type h1.2.1 h2.2.1 (by rw [hkx, hky]),
      fixedFields_inj ext hlen hinj (x2 :: xs) (y2 :: ys) (ft2 :: fts) h1.2.2 h2.2.2
        (by rw [hr1, hr2])⟩
end


/-! ### Keys as equality witnesses -/

theorem sameValue_of_primitive (cross : Bool) (t : GType) (pt : PrimitiveType)
    (v : Option Value) (n : Nat) (b : TypedValue) (hbt : baseOf t = .PrimitiveType pt)
    (hT : b.T = some t) (h : samePrimitive pt (.mk (some t) v n) b) :
    sameValue cross (.mk (some t) v n) b := by
  cases v with
  | none => simp only [sameValue, sameValueCases, hbt]; exact ⟨hT, h⟩
  | some x => cases x <;> simp only [sameValue, sameValueCases, hbt] <;> exact ⟨hT, h⟩

theorem computeMapKey_omit_of_eq (ext : Externals) (t : GType) (va vb : Option Value)
    (na nb : Nat) (o : Bool)
    (h : TypedValue.ComputeMapKey ext (.mk (some t) va na) o =
      TypedValue.ComputeMapKey ext (.mk (some t) vb nb) o) :
    TypedValue.ComputeMapKey ext (.mk (some t) va na) true =
      TypedValue.ComputeMapKey ext (.mk (some t) vb nb) true := by
  cases o with
  | true => exact h
  | false =>
    rw [computeMapKey_typed, computeMapKey_typed] at h
    cases ha : TypedValue.ComputeMapKey ext (.mk (some t) va na) true with
    | error e1 =>
      cases hb : TypedValue.ComputeMapKey ext (.mk (some t) vb nb) true with
      | error e2 => simpa [ha, hb, Except.map] using h
      | ok k2 => simp [ha, hb, Except.map] at h
    | ok k1 =>
      cases hb : TypedValue.ComputeMapKey ext (.mk (some t) vb nb) true with
      | error e2 => simp [ha, hb, Except.map] at h
      | ok k2 => simpa [ha, hb, Except.map] using h

theorem string_key_inj (ext : Externals) (t : GType) (va vb : Option Value) (na nb : Nat)
    (hbt : baseOf t = .PrimitiveType .StringType)
    (h : TypedValue.ComputeMapKey ext (.mk (some t) va na) true =
      TypedValue.ComputeMapKey ext (.mk (some t) vb nb) true) :
    (TypedValue.mk (some t) va na).GetString = (TypedValue.mk (some t) vb nb).GetString := by
  rw [computeMapKey_some, computeMapKey_some] at h
  have hpa := primitiveBytes_string (.mk (some t) va na) t rfl hbt
  have hpb := primitiveBytes_string (.mk (some t) vb nb) t rfl hbt
  simp only [computeMapKeyCases, hbt, hpa, hpb, if_true, List.nil_append] at h
  cases ha : (TypedValue.mk (some t) va na).GetString with
  | error e1 =>
    cases hb : (TypedValue.mk (some t) vb nb).GetString with
    | error e2 => simpa [ha, hb] using h
    | ok k2 => simp [ha, hb] at h
  | ok k1 =>
    cases hb : (TypedValue.mk (some t) vb nb).GetString with
    | error e2 => simp [ha, hb] at h
    | ok k2 => simpa [ha, hb] using h

/-- C3 (as stated, refuted). The arrays `[2]string{"a,", "b"}` and
`[2]string{"a", ",b"}` have the same key, "[a,,b]" after the type, and are not
structurally equal. -/
theorem computeMapKey_string_elements_collide :
    TypedValue.ComputeMapKey sampleExt
      (.mk (some (.ArrayType 2 (.PrimitiveType .StringType)))
        (some (.ArrayValue
          [.mk (some (.PrimitiveType .StringType)) (some (.StringValue [97, 44])) 0,
           .mk (some (.PrimitiveType .StringType)) (some (.StringValue [98])) 0] none)) 0) false =
    TypedValue.ComputeMapKey sampleExt
      (.mk (some (.ArrayType 2 (.PrimitiveType .StringType)))
        (some (.ArrayValue
          [.mk (some (.PrimitiveType .StringType)) (some (.StringValue [97])) 0,
           .mk (some (.PrimitiveType .StringType)) (some (.StringValue [44, 98])) 0] none)) 0) false ∧
    TypedValue.ComputeMapKey sampleExt
      (.mk (some (.ArrayType 2 (.PrimitiveType .StringType)))
        (some (.ArrayValue
          [.mk (some (.PrimitiveType .StringType)) (some (.StringValue [97, 44])) 0,
           .mk (some (.PrimitiveType .StringType)) (some (.StringValue [98])) 0] none)) 0) false = .ok [63, 58, 91, 97, 44, 44, 98, 93] ∧
    ¬ sameValue true
      (.mk (some (.ArrayType 2 (.PrimitiveType .StringType)))
        (some (.ArrayValue
          [.mk (some (.PrimitiveType .StringType)) (some (.StringValue [97, 44])) 0,
           .mk (some (.PrimitiveType .StringType)) (some (.StringValue [98])) 0] none)) 0)
      (.mk (some (.ArrayType 2 (.PrimitiveType .StringType)))
        (some (.ArrayValue
          [.mk (some (.PrimitiveType .StringType)) (some (.StringValue [97])) 0,
           .mk (some (.PrimitiveType .StringType)) (some (.StringValue [44, 98])) 0] none)) 0) :=
  ⟨rfl, rfl, fun h => absurd (Except.ok.inj h.2.1.2) (by decide)⟩

/-- C3 (amended). `ComputeMapKey` is an equality witness on the keys built from
fixed-width parts and on string keys: when machine addresses are encoded
injectively in eight bytes, two keys of the same static type that are built
from fixed-width primitives, non-nil pointers, arrays and structs (no element
or field of string type or of interface kind; byte arrays as raw buffers,
other arrays as lists), or two keys of one string type, with equal results of
`ComputeMapKey` are structurally equal. -/
theorem computeMapKey_equality_witness (ext : Externals)
    (hlen : ∀ p, (ext.uintptrToBytes p).length = 8)
    (hinj : ∀ p q, p < 2 ^ 64 → q < 2 ^ 64 →
      ext.uintptrToBytes p = ext.uintptrToBytes q → p = q) :
    (∀ (a b : TypedValue) (t : GType) (o : Bool), fixedKey a t → fixedKey b t →
      TypedValue.ComputeMapKey ext a o = TypedValue.ComputeMapKey ext b o →
      sameValue false a b) ∧
    (∀ (a b : TypedValue) (t : GType) (o : Bool), a.T = some t → b.T = some t →
      baseOf t = .PrimitiveType .StringType →
      TypedValue.ComputeMapKey ext a o = TypedValue.ComputeMapKey ext b o →
      sameValue false a b) := by
  constructor
  · intro a b t o ha hb hk
    obtain ⟨Ta, va, na⟩ := a
    obtain ⟨Tb, vb, nb⟩ := b
    have hTa := fixedKey_unfold _ _ _ _ ha
    have hTb := fixedKey_unfold _ _ _ _ hb
    subst hTa
    subst hTb
    exact fixedKey_inj ext hlen hinj _ _ t ha hb
      (computeMapKey_omit_of_eq ext t va vb na nb o hk)
  · intro a b t o ha hb hbt hk
    obtain ⟨Ta, va, na⟩ := a
    obtain ⟨Tb, vb, nb⟩ := b
    simp only [TypedValue.T] at ha hb
    subst ha
    subst hb
    exact sameValue_of_primitive false t .StringType va na _ hbt rfl
      (string_key_inj ext t va vb na nb hbt
        (computeMapKey_omit_of_eq ext t va vb na nb o hk))

/-- Two structs `{int8 -1, [2]uint8{1, 2}}` with equal keys, and the strings
"ab" and "ab" with equal keys, are structurally equal. -/
theorem computeMapKey_equality_witness_witness :
    sameValue false
      (.mk (some (.StructType [.mk [120] (.PrimitiveType .Int8Type), .mk [121] (.ArrayType 2 (.PrimitiveType .Uint8Type))]))
        (some (.StructValue
          [.mk (some (.PrimitiveType .Int8Type)) none 255,
           .mk (some (.ArrayType 2 (.PrimitiveType .Uint8Type)))
             (some (.ArrayValue [] (some [1, 2]))) 0])) 0)
      (.mk (some (.StructType [.mk [120] (.PrimitiveType .Int8Type), .mk [121] (.ArrayType 2 (.PrimitiveType .Uint8Type))]))
        (some (.StructValue
          [.mk (some (.PrimitiveType .Int8Type)) none 511,
           .mk (some (.ArrayType 2 (.PrimitiveType .Uint8Type)))
             (some (.ArrayValue [] (some [1, 2]))) 0])) 0) ∧
    sameValue false
      (.mk (some (.PrimitiveType .StringType)) (some (.StringValue [97, 98])) 0)
      (.mk (some (.PrimitiveType .StringType)) (some (.StringValue [97, 98])) 7) :=
  ⟨(computeMapKey_equality_witness sampleExt (putUintLE_length 8)
      (fun p q hp hq h => putUintLE_inj 8 p q (by omega) (by omega) h)).1
      (.mk (some (.StructType [.mk [120] (.PrimitiveType .Int8Type), .mk [121] (.ArrayType 2 (.PrimitiveType .Uint8Type))]))
        (some (.StructValue
          [.mk (some (.PrimitiveType .Int8Type)) none 255,
           .mk (some (.ArrayType 2 (.PrimitiveType .Uint8Type)))
             (some (.ArrayValue [] (some [1, 2]))) 0])) 0)
      (.mk (some (.StructType [.mk [120] (.PrimitiveType .Int8Type), .mk [121] (.ArrayType 2 (.PrimitiveType .Uint8Type))]))
        (some (.StructValue
          [.mk (some (.PrimitiveType .Int8Type)) none 511,
           .mk (some (.ArrayType 2 (.PrimitiveType .Uint8Type)))
             (some (.ArrayValue [] (some [1, 2]))) 0])) 0)
      (.StructType [.mk [120] (.PrimitiveType .Int8Type), .mk [121] (.ArrayType 2 (.PrimitiveType .Uint8Type))]) false
      ⟨rfl, by decide, ⟨rfl, rfl⟩, by decide, ⟨rfl, by decide, rfl, rfl⟩, trivial⟩
      ⟨rfl, by decide, ⟨rfl, rfl⟩, by decide, ⟨rfl, by decide, rfl, rfl⟩, trivial⟩
      rfl,
    (computeMapKey_equality_witness sampleExt (putUintLE_length 8)
      (fun p q hp hq h => putUintLE_inj 8 p q (by omega) (by omega) h)).2
      (.mk (some (.PrimitiveType .StringType)) (some (.StringValue [97, 98])) 0)
      (.mk (some (.PrimitiveType .StringType)) (some (.StringValue [97, 98])) 7)
      (.PrimitiveType .StringType) false rfl rfl rfl rfl⟩


/-! ### The linked list of the ordered map -/

theorem seg_frame (items items2 : List MapListItem) (l : List Nat) :
    ∀ (prev nxt : Option Nat),
      (∀ a ∈ l, ∀ it, items[a]? = some it →
        ∃ it2, items2[a]? = some it2 ∧ it2.Prev = it.Prev ∧ it2.Next = it.Next) →
      Seg items prev l nxt → Seg items2 prev l nxt := by
  induction l with
  | nil => intro _ _ _ _; trivial
  | cons a rest ih =>
    intro prev nxt hf h
    obtain ⟨it, hit, hp, hn, hrest⟩ := h
    obtain ⟨it2, hit2, hp2, hn2⟩ := hf a (List.mem_cons_self _ _) it hit
    exact ⟨it2, hit2, hp2.trans hp, hn2.trans hn,
      ih (some a) nxt (fun b hb => hf b (List.mem_cons_of_mem _ hb)) hrest⟩

theorem seg_mem (items : List MapListItem) (l : List Nat) :
    ∀ (prev nxt : Option Nat), Seg items prev l nxt →
      ∀ a ∈ l, ∃ it, items[a]? = some it := by
  induction l with
  | nil => intro _ _ _ a ha; simp at ha
  | cons b rest ih =>
    intro prev nxt h a ha
    obtain ⟨it, hit, -, -, hrest⟩ := h
    rcases List.mem_cons.mp ha with rfl | ha
    · exact ⟨it, hit⟩
    · exact ih _ _ hrest a ha

theorem seg_append (items : List MapListItem) (l1 l2 : List Nat) :
    ∀ (prev nxt : Option Nat),
      Seg items prev (l1 ++ l2) nxt ↔
        Seg items prev l1 (headOr l2 nxt) ∧ Seg items (lastOr prev l1) l2 nxt := by
  induction l1 with
  | nil => intro prev nxt; simp [Seg, lastOr]
  | cons a rest ih =>
    intro prev nxt
    have hl : lastOr prev (a :: rest) = lastOr (some a) rest := by
      cases rest with
      | nil => simp [lastOr]
      | cons b r =>
        have hx : (b :: r).getLast? = some ((b :: r).getLast (by simp)) :=
          List.getLast?_eq_getLast _ _
        simp only [lastOr, List.getLast?_cons_cons, hx]
    rw [hl]
    simp only [List.cons_append, Seg]
    constructor
    · rintro ⟨it, hit, hp, hn, hrest⟩
      obtain ⟨h1, h2⟩ := (ih (some a) nxt).mp hrest
      refine ⟨⟨it, hit, hp, ?_, h1⟩, h2⟩
      cases rest with
      | nil => cases l2 <;> simpa [headOr] using hn
      | cons b r => simpa using hn
    · rintro ⟨⟨it, hit, hp, hn, h1⟩, h2⟩
      refine ⟨it, hit, hp, ?_, (ih (some a) nxt).mpr ⟨h1, h2⟩⟩
      cases rest with
      | nil => cases l2 <;> simpa [headOr] using hn
      | cons b r => simpa using hn


theorem getElem?_lt {α : Type} (l : List α) (a : Nat) (x : α) (h : l[a]? = some x) :
    a < l.length := by
  obtain ⟨h1, -⟩ := List.getElem?_eq_some_iff.mp h
  exact h1

theorem seg_set_next_last (items : List MapListItem) (l : List Nat) (b : Nat)
    (prev nxt nxt2 : Option Nat) (it : MapListItem) (hit : items[b]? = some it)
    (hnd : b ∉ l) (h : Seg items prev (l ++ [b]) nxt) :
    Seg (items.set b (it.setNext nxt2)) prev (l ++ [b]) nxt2 := by
  have hb := getElem?_lt _ _ _ hit
  obtain ⟨h1, h2⟩ := (seg_append items l [b] prev nxt).mp h
  refine (seg_append _ l [b] prev nxt2).mpr ⟨?_, ?_⟩
  · refine seg_frame items _ l prev _ ?_ h1
    intro a ha it2 hit2
    have hne : b ≠ a := fun e => hnd (e ▸ ha)
    exact ⟨it2, by rw [List.getElem?_set_ne hne]; exact hit2, rfl, rfl⟩
  · obtain ⟨it2, hit2, hp, -, -⟩ := h2
    rw [hit] at hit2
    cases hit2
    exact ⟨_, List.getElem?_set_self hb, hp, rfl, trivial⟩

theorem seg_set_prev_head (items : List MapListItem) (l : List Nat) (b : Nat)
    (prev nxt prev2 : Option Nat) (it : MapListItem) (hit : items[b]? = some it)
    (hnd : b ∉ l) (h : Seg items prev (b :: l) nxt) :
    Seg (items.set b (it.setPrev prev2)) prev2 (b :: l) nxt := by
  have hb := getElem?_lt _ _ _ hit
  obtain ⟨it2, hit2, -, hn, hrest⟩ := h
  rw [hit] at hit2
  cases hit2
  refine ⟨_, List.getElem?_set_self hb, rfl, hn, ?_⟩
  refine seg_frame items _ l (some b) _ ?_ hrest
  intro a ha it2 hit2
  have hne : b ≠ a := fun e => hnd (e ▸ ha)
  exact ⟨it2, by rw [List.getElem?_set_ne hne]; exact hit2, rfl, rfl⟩

theorem traverseFrom_seg (items : List MapListItem) (l : List Nat) :
    ∀ (prev : Option Nat) (fuel : Nat), Seg items prev l none → l.length ≤ fuel →
      traverseFrom items fuel l.head? = some l := by
  induction l with
  | nil => intro _ fuel _ _; cases fuel <;> rfl
  | cons a rest ih =>
    intro prev fuel h hf
    obtain ⟨it, hit, -, hn, hrest⟩ := h
    cases fuel with
    | zero => simp at hf
    | succ fuel =>
      have hf2 : rest.length ≤ fuel := by simpa using hf
      have := ih (some a) fuel hrest hf2
      have hn2 : it.Next = rest.head? := by
        cases rest <;> simpa using hn
      simp only [List.head?_cons, traverseFrom, hit, hn2, this]

theorem nodup_length_le (l : List Nat) (n : Nat) (hnd : l.Nodup) (h : ∀ a ∈ l, a < n) :
    l.length ≤ n := by
  have hs : l ⊆ List.range n := fun a ha => List.mem_range.mpr (h a ha)
  have := (List.subperm_of_subset hnd hs).length_le
  simpa using this

theorem inv_traverse (ext : Externals) (mv : MapValue) (l : List Nat)
    (h : mv.Inv ext l) : mv.traverse = some l := by
  obtain ⟨hnd, hseg, hh, -, -, -⟩ := h
  unfold MapValue.traverse
  rw [hh]
  refine traverseFrom_seg mv.items l none _ hseg (nodup_length_le l _ hnd ?_)
  intro a ha
  obtain ⟨it, hit⟩ := seg_mem _ _ _ _ hseg a ha
  exact getElem?_lt _ _ _ hit


/-! ### The operations of the ordered map keep the invariant -/

theorem inv_makeMap (ext : Externals) (c : Int) : (MapValue.MakeMap c).Inv ext [] := by
  refine ⟨List.nodup_nil, trivial, rfl, rfl, rfl, ?_⟩
  intro k a
  simp [MapValue.MakeMap]

theorem inv_mem_lt (ext : Externals) (mv : MapValue) (l : List Nat) (h : mv.Inv ext l)
    (a : Nat) (ha : a ∈ l) : a < mv.items.length := by
  obtain ⟨it, hit⟩ := seg_mem _ _ _ _ h.2.1 a ha
  exact getElem?_lt _ _ _ hit

theorem append_inv (ext : Externals) (mv : MapValue) (l : List Nat) (key : TypedValue)
    (kmk : MapKey) (h : mv.Inv ext l) (hk : key.ComputeMapKey ext false = .ok kmk)
    (hv : mv.vmap kmk = none) :
    ∃ items ml, MapList.Append mv.items mv.MList key = .ok (items, ml, mv.items.length) ∧
      MapValue.Inv ext
        (MapValue.mk items (fun k => if k = kmk then some mv.items.length else mv.vmap k) ml)
        (l ++ [mv.items.length]) ∧
      (∀ a ∈ l, ∀ it, mv.items[a]? = some it →
        ∃ it2, items[a]? = some it2 ∧ it2.Key = it.Key ∧ it2.Value = it.Value) ∧
      (∃ it2, items[mv.items.length]? = some it2 ∧ it2.Key = key ∧
        it2.Value = TypedValue.mk none none 0) := by
  obtain ⟨hnd, hseg, hh, ht, hs, hvm⟩ := h
  have hlt : ∀ a ∈ l, a < mv.items.length := fun a ha =>
    inv_mem_lt ext mv l ⟨hnd, hseg, hh, ht, hs, hvm⟩ a ha
  have hnl : mv.items.length ∉ l := fun hm => Nat.lt_irrefl _ (hlt _ hm)
  have hnd2 : (l ++ [mv.items.length]).Nodup := by
    rw [List.nodup_append]
    exact ⟨hnd, List.nodup_singleton _, by
      intro a ha hb
      rw [List.mem_singleton] at hb
      exact hnl (hb ▸ ha)⟩
  rcases List.eq_nil_or_concat l with rfl | ⟨l0, t, hl⟩
  · -- the list was empty
    simp only [List.head?_nil, List.getLast?_nil] at hh ht
    refine ⟨_, _, by simp only [MapList.Append, hh, ht]; rfl, ?_, ?_, ?_⟩
    · refine ⟨hnd2, ?_, rfl, rfl, by simp [hs], ?_⟩
      · exact ⟨_, List.getElem?_concat_length _ _, rfl, rfl, trivial⟩
      · intro k a
        have hold := hvm k a
        simp only [List.nil_append, List.mem_singleton, List.not_mem_nil, false_and,
          iff_false] at hold ⊢
        constructor
        · intro h1
          by_cases hkk : k = kmk
          · subst hkk
            simp only [if_true, Option.some.injEq] at h1
            subst h1
            exact ⟨rfl, _, List.getElem?_concat_length _ _, hk⟩
          · simp only [hkk, if_false] at h1
            exact absurd h1 hold
        · rintro ⟨rfl, it, hit, hkey⟩
          rw [List.getElem?_concat_length] at hit
          cases hit
          simp only [MapListItem.new] at hkey
          rw [hk] at hkey
          cases hkey
          simp
    · intro a ha
      simp at ha
    · exact ⟨_, List.getElem?_concat_length _ _, rfl, rfl⟩
  · -- the list ends with the item t
    rw [List.concat_eq_append] at hl
    subst hl
    have htl : t < mv.items.length := hlt t (by simp)
    obtain ⟨itt, hitt⟩ := seg_mem _ _ _ _ hseg t (by simp)
    have ht2 : mv.MList.Tail = some t := by rw [ht, List.getLast?_concat]
    have hh2 : ∃ h0, mv.MList.Head = some h0 ∧ (l0 ++ [t]).head? = some h0 := by
      cases l0 with
      | nil => exact ⟨t, by simpa using hh, rfl⟩
      | cons x xs => exact ⟨x, by simpa using hh, rfl⟩
    obtain ⟨h0, hh3, hh4⟩ := hh2
    have hitt1 : (mv.items ++ [MapListItem.new (some t) key])[t]? = some itt := by
      rw [List.getElem?_append_left htl]
      exact hitt
    have hset : setItem (mv.items ++ [MapListItem.new (some t) key]) t
        (MapListItem.setNext (some mv.items.length)) =
        .ok ((mv.items ++ [MapListItem.new (some t) key]).set t
          (itt.setNext (some mv.items.length))) := by
      simp only [setItem, hitt1]
    have hnt : t ≠ mv.items.length := Nat.ne_of_lt htl
    have hnew : ((mv.items ++ [MapListItem.new (some t) key]).set t
          (itt.setNext (some mv.items.length)))[mv.items.length]? =
        some (MapListItem.new (some t) key) := by
      rw [List.getElem?_set_ne hnt]
      exact List.getElem?_concat_length _ _
    have hold : ∀ a ∈ l0 ++ [t], ∀ it, mv.items[a]? = some it →
        ∃ it2, ((mv.items ++ [MapListItem.new (some t) key]).set t
            (itt.setNext (some mv.items.length)))[a]? = some it2 ∧
          it2.Key = it.Key ∧ it2.Value = it.Value := by
      intro a ha it hit
      have hal := hlt a ha
      by_cases hat : a = t
      · subst hat
        rw [hitt] at hit
        cases hit
        exact ⟨_, List.getElem?_set_self (by simpa using Nat.lt_succ_of_lt hal), rfl, rfl⟩
      · refine ⟨it, ?_, rfl, rfl⟩
        rw [List.getElem?_set_ne (Ne.symm hat), List.getElem?_append_left hal]
        exact hit
    refine ⟨_, _, by simp only [MapList.Append, hh3, ht2, hset]; rfl, ?_, ?_, ?_⟩
    · refine ⟨hnd2, ?_, ?_, ?_, ?_, ?_⟩
      · -- the links
        have hnd0 : t ∉ l0 := by
          have := List.nodup_append.mp hnd
          intro hm
          exact this.2.2 hm (List.mem_singleton_self t)
        have h1 : Seg (mv.items ++ [MapListItem.new (some t) key]) none (l0 ++ [t]) none := by
          refine seg_frame mv.items _ _ none none ?_ hseg
          intro a ha it hit
          exact ⟨it, by rw [List.getElem?_append_left (hlt a ha)]; exact hit, rfl, rfl⟩
        have h2 := seg_set_next_last _ l0 t none none (some mv.items.length) itt hitt1 hnd0 h1
        refine (seg_append _ (l0 ++ [t]) [mv.items.length] none none).mpr ⟨h2, ?_⟩
        refine ⟨_, hnew, ?_, rfl, trivial⟩
        simp [lastOr, List.getLast?_concat, MapListItem.new]
      · show some h0 = _
        rw [List.head?_append, hh4]
        rfl
      · simp [List.getLast?_concat]
      · simp only [hs, List.length_append, List.length_singleton]
        push_cast
        ring
      · intro k a
        have holdk := hvm k a
        constructor
        · intro h1
          by_cases hkk : k = kmk
          · subst hkk
            simp only [if_true, Option.some.injEq] at h1
            subst h1
            exact ⟨by simp, _, hnew, hk⟩
          · simp only [hkk, if_false] at h1
            obtain ⟨ha, it, hit, hkey⟩ := holdk.mp h1
            obtain ⟨it2, hit2, hk2, -⟩ := hold a ha it hit
            exact ⟨List.mem_append_left _ ha, it2, hit2, by rw [hk2]; exact hkey⟩
        · rintro ⟨ha, it, hit, hkey⟩
          rcases List.mem_append.mp ha with ha | ha
          · obtain ⟨it0, hit0⟩ := seg_mem _ _ _ _ hseg a ha
            obtain ⟨it2, hit2, hk2, -⟩ := hold a ha it0 hit0
            rw [hit] at hit2
            cases hit2
            have hv0 : mv.vmap k = some a := holdk.mpr ⟨ha, it0, hit0, by rw [← hk2]; exact hkey⟩
            have hkk : k ≠ kmk := fun e => by
              rw [e, hv] at hv0
              cases hv0
            simp only [hkk, if_false]
            exact hv0
          · rw [List.mem_singleton] at ha
            subst ha
            rw [hnew] at hit
            cases hit
            simp only [MapListItem.new] at hkey
            rw [hk] at hkey
            cases hkey
            simp
    · exact hold
    · exact ⟨_, hnew, rfl, rfl⟩


theorem set_content (items : List MapListItem) (b : Nat) (it : MapListItem)
    (it3 : MapListItem) (hit : items[b]? = some it) (hk : it3.Key = it.Key)
    (hv : it3.Value = it.Value) :
    ∀ (c : Nat) (itc : MapListItem), items[c]? = some itc →
      ∃ it2 : MapListItem, (items.set b it3)[c]? = some it2 ∧ it2.Key = itc.Key ∧
        it2.Value = itc.Value := by
  intro c itc hc
  by_cases hbc : b = c
  · subst hbc
    rw [hit] at hc
    cases hc
    exact ⟨it3, List.getElem?_set_self (getElem?_lt _ _ _ hit), hk, hv⟩
  · exact ⟨itc, by rw [List.getElem?_set_ne hbc]; exact hc, rfl, rfl⟩

theorem set_key (items : List MapListItem) (b : Nat) (it : MapListItem)
    (it3 : MapListItem) (hit : items[b]? = some it) (hk : it3.Key = it.Key) :
    ∀ (c : Nat) (itc : MapListItem), items[c]? = some itc →
      ∃ it2 : MapListItem, (items.set b it3)[c]? = some it2 ∧ it2.Key = itc.Key := by
  intro c itc hc
  by_cases hbc : b = c
  · subst hbc
    rw [hit] at hc
    cases hc
    exact ⟨it3, List.getElem?_set_self (getElem?_lt _ _ _ hit), hk⟩
  · exact ⟨itc, by rw [List.getElem?_set_ne hbc]; exact hc, rfl⟩

theorem assign2_inv (ext : Externals) (mv : MapValue) (l : List Nat) (pv : MapPointer)
    (v : TypedValue) (h : mv.Inv ext l) (ha : pv.TV ∈ l) :
    ∃ it, mv.items[pv.TV]? = some it ∧
      mv.Assign2 pv v = .ok (MapValue.mk (mv.items.set pv.TV (it.setValue v)) mv.vmap mv.MList) ∧
      MapValue.Inv ext (MapValue.mk (mv.items.set pv.TV (it.setValue v)) mv.vmap mv.MList) l := by
  obtain ⟨hnd, hseg, hh, ht, hs, hvm⟩ := h
  obtain ⟨it, hit⟩ := seg_mem _ _ _ _ hseg pv.TV ha
  have hlt := getElem?_lt _ _ _ hit
  refine ⟨it, hit, by simp only [MapValue.Assign2, setItem, hit], hnd, ?_, hh, ht, hs, ?_⟩
  · refine seg_frame mv.items _ l none none ?_ hseg
    intro b _ itb hitb
    by_cases hab : pv.TV = b
    · subst hab
      rw [hit] at hitb
      cases hitb
      exact ⟨_, List.getElem?_set_self hlt, rfl, rfl⟩
    · exact ⟨itb, by rw [List.getElem?_set_ne hab]; exact hitb, rfl, rfl⟩
  · intro k b
    rw [hvm k b]
    constructor
    · rintro ⟨hb, itb, hitb, hkey⟩
      obtain ⟨it2, hit2, hk2⟩ :=
        set_key mv.items pv.TV it (it.setValue v) hit rfl b itb hitb
      exact ⟨hb, it2, hit2, by rw [hk2]; exact hkey⟩
    · rintro ⟨hb, it2, hit2, hkey⟩
      obtain ⟨itb, hitb⟩ := seg_mem _ _ _ _ hseg b hb
      obtain ⟨it3, hit3, hk3⟩ :=
        set_key mv.items pv.TV it (it.setValue v) hit rfl b itb hitb
      rw [hit2] at hit3
      cases hit3
      exact ⟨hb, itb, hitb, by rw [← hk3]; exact hkey⟩


theorem lastOr_none (l : List Nat) : lastOr none l = l.getLast? := by
  unfold lastOr
  cases l.getLast? <;> rfl

theorem headOr_none (l : List Nat) : headOr l none = l.head? := by
  cases l <;> rfl

theorem unlinkPrev_seg (items : List MapListItem) (l1 l2 : List Nat) (a : Nat)
    (head next : Option Nat) (hnd : (l1 ++ a :: l2).Nodup)
    (hs1 : Seg items none l1 (some a)) (hs3 : Seg items (some a) l2 none)
    (hh : head = (l1 ++ a :: l2).head?) (hn : next = l2.head?) :
    ∃ items1, MapList.unlinkPrev items head (lastOr none l1) next =
        .ok (items1, (l1 ++ l2).head?) ∧
      Seg items1 none l1 next ∧ Seg items1 (some a) l2 none ∧
      (∀ (b : Nat) (it : MapListItem), items[b]? = some it →
        ∃ it2 : MapListItem, items1[b]? = some it2 ∧ it2.Key = it.Key ∧
          it2.Value = it.Value) := by
  rcases List.eq_nil_or_concat l1 with rfl | ⟨l0, p, hl⟩
  · refine ⟨items, ?_, trivial, hs3, fun b it hit => ⟨it, hit, rfl, rfl⟩⟩
    simp only [MapList.unlinkPrev, lastOr, List.getLast?_nil, List.nil_append, hn]
  · rw [List.concat_eq_append] at hl
    subst hl
    obtain ⟨itp, hitp⟩ := seg_mem _ _ _ _ hs1 p (by simp)
    have hnd1 := List.nodup_append.mp hnd
    have hp0 : p ∉ l0 := by
      have := List.nodup_append.mp hnd1.1
      intro hm
      exact this.2.2 hm (List.mem_singleton_self p)
    have hp2 : p ∉ l2 := by
      intro hm
      exact hnd1.2.2 (by simp) (List.mem_cons_of_mem _ hm)
    refine ⟨items.set p (itp.setNext next), ?_, ?_, ?_, ?_⟩
    · have hlast : lastOr none (l0 ++ [p]) = some p := by
        simp [lastOr, List.getLast?_concat]
      have hhd : head = (l0 ++ [p] ++ l2).head? := by
        rw [hh]
        cases l0 <;> rfl
      simp only [MapList.unlinkPrev, hlast, setItem, hitp, hhd]
    · exact seg_set_next_last items l0 p none (some a) next itp hitp hp0 hs1
    · refine seg_frame items _ l2 (some a) none ?_ hs3
      intro b hb it hit
      have hne : p ≠ b := fun e => hp2 (e ▸ hb)
      exact ⟨it, by rw [List.getElem?_set_ne hne]; exact hit, rfl, rfl⟩
    · exact set_content items p itp (itp.setNext next) hitp rfl rfl

theorem unlinkNext_seg (items : List MapListItem) (l1 l2 : List Nat) (a : Nat)
    (tail prev : Option Nat) (hnd : (l1 ++ a :: l2).Nodup)
    (hs1 : Seg items none l1 (l2.head?)) (hs3 : Seg items (some a) l2 none)
    (ht : tail = (l1 ++ a :: l2).getLast?) (hp : prev = l1.getLast?) :
    ∃ items2, MapList.unlinkNext items tail prev l2.head? =
        .ok (items2, (l1 ++ l2).getLast?) ∧
      Seg items2 none (l1 ++ l2) none ∧
      (∀ (b : Nat) (it : MapListItem), items[b]? = some it →
        ∃ it2 : MapListItem, items2[b]? = some it2 ∧ it2.Key = it.Key ∧
          it2.Value = it.Value) := by
  cases l2 with
  | nil =>
    refine ⟨items, ?_, ?_, fun b it hit => ⟨it, hit, rfl, rfl⟩⟩
    · simp only [MapList.unlinkNext, List.head?_nil, List.append_nil, hp]
    · simpa using hs1
  | cons nx l3 =>
    obtain ⟨itn, hitn⟩ := seg_mem _ _ _ _ hs3 nx (by simp)
    have hnd1 := List.nodup_append.mp hnd
    have hn1 : nx ∉ l1 := by
      intro hm
      exact hnd1.2.2 hm (by simp)
    have hn3 : nx ∉ l3 := by
      have h2 := hnd1.2.1
      rw [List.nodup_cons] at h2
      have h3 := h2.2
      rw [List.nodup_cons] at h3
      exact h3.1
    refine ⟨items.set nx (itn.setPrev prev), ?_, ?_, ?_⟩
    · have htl : tail = (l1 ++ nx :: l3).getLast? := by
        rw [ht]
        simp [List.getLast?_append, List.getLast?_cons_cons]
      simp only [MapList.unlinkNext, List.head?_cons, setItem, hitn, htl]
    · refine (seg_append _ l1 (nx :: l3) none none).mpr ⟨?_, ?_⟩
      · refine seg_frame items _ l1 none _ ?_ hs1
        intro b hb it hit
        have hne : nx ≠ b := fun e => hn1 (e ▸ hb)
        exact ⟨it, by rw [List.getElem?_set_ne hne]; exact hit, rfl, rfl⟩
      · rw [lastOr_none, ← hp]
        exact seg_set_prev_head items l3 nx (some a) none prev itn hitn hn3 hs3
    · exact set_content items nx itn (itn.setPrev prev) hitn rfl rfl


theorem remove_inv (ext : Externals) (mv : MapValue) (l1 l2 : List Nat) (a : Nat)
    (kmk : MapKey) (h : mv.Inv ext (l1 ++ a :: l2)) (hv : mv.vmap kmk = some a) :
    ∃ items ml, MapList.Remove mv.items mv.MList a = .ok (items, ml) ∧
      MapValue.Inv ext
        (MapValue.mk items (fun k => if k = kmk then none else mv.vmap k) ml) (l1 ++ l2) ∧
      (∀ (b : Nat) (it : MapListItem), mv.items[b]? = some it →
        ∃ it2 : MapListItem, items[b]? = some it2 ∧ it2.Key = it.Key ∧
          it2.Value = it.Value) := by
  obtain ⟨hnd, hseg, hh, ht, hs, hvm⟩ := h
  obtain ⟨hs1, hs2⟩ := (seg_append mv.items l1 (a :: l2) none none).mp hseg
  obtain ⟨ita, hita, hpa, hna, hs3⟩ := hs2
  have hna2 : ita.Next = l2.head? := by
    cases l2 <;> exact hna
  have hs1a : Seg mv.items none l1 (some a) := hs1
  obtain ⟨items1, e1, hs11, hs13, hc1⟩ :=
    unlinkPrev_seg mv.items l1 l2 a mv.MList.Head ita.Next hnd hs1a hs3 hh hna2
  rw [hna2] at hs11
  obtain ⟨items2, e2, hs2, hc2⟩ :=
    unlinkNext_seg items1 l1 l2 a mv.MList.Tail ita.Prev hnd hs11 hs13 ht
      (by rw [hpa, lastOr_none])
  rw [← hpa] at e1
  rw [← hna2] at e2
  have hcont : ∀ (b : Nat) (it : MapListItem), mv.items[b]? = some it →
      ∃ it2 : MapListItem, items2[b]? = some it2 ∧ it2.Key = it.Key ∧
        it2.Value = it.Value := by
    intro b it hit
    obtain ⟨it1, hit1, hk1, hv1⟩ := hc1 b it hit
    obtain ⟨it2, hit2, hk2, hv2⟩ := hc2 b it1 hit1
    exact ⟨it2, hit2, hk2.trans hk1, hv2.trans hv1⟩
  have hsub : (l1 ++ l2).Sublist (l1 ++ a :: l2) :=
    (List.sublist_cons_self a l2).append_left l1
  have hnd2 : (l1 ++ l2).Nodup := hnd.sublist hsub
  have hal : a ∉ l1 ++ l2 := by
    have hnd1 := List.nodup_append.mp hnd
    intro hm
    rcases List.mem_append.mp hm with hm | hm
    · exact hnd1.2.2 hm (List.mem_cons_self _ _)
    · exact (List.nodup_cons.mp hnd1.2.1).1 hm
  have hka : ita.Key.ComputeMapKey ext false = .ok kmk := by
    obtain ⟨-, it, hit, hkey⟩ := (hvm kmk a).mp hv
    rw [hita] at hit
    cases hit
    exact hkey
  refine ⟨items2, _, by simp only [MapList.Remove, hita, e1, e2]; rfl, ?_, hcont⟩
  refine ⟨hnd2, hs2, rfl, rfl, ?_, ?_⟩
  · show mv.MList.Size - 1 = _
    rw [hs]
    simp only [List.length_append, List.length_cons]
    push_cast
    ring
  · intro k b
    constructor
    · intro h1
      by_cases hkk : k = kmk
      · simp [hkk] at h1
      · simp only [hkk, if_false] at h1
        obtain ⟨hb, it, hit, hkey⟩ := (hvm k b).mp h1
        obtain ⟨it2, hit2, hk2, -⟩ := hcont b it hit
        have hba : b ≠ a := by
          intro e
          subst e
          rw [hita] at hit
          cases hit
          rw [hka] at hkey
          exact hkk (Except.ok.inj hkey).symm
        have hb2 : b ∈ l1 ++ l2 := by
          rcases List.mem_append.mp hb with hb | hb
          · exact List.mem_append_left _ hb
          · rcases List.mem_cons.mp hb with hb | hb
            · exact absurd hb hba
            · exact List.mem_append_right _ hb
        exact ⟨hb2, it2, hit2, by rw [hk2]; exact hkey⟩
    · rintro ⟨hb, it2, hit2, hkey⟩
      have hb1 : b ∈ l1 ++ a :: l2 := hsub.subset hb
      obtain ⟨it, hit⟩ := seg_mem _ _ _ _ hseg b hb1
      obtain ⟨it3, hit3, hk3, -⟩ := hcont b it hit
      rw [hit2] at hit3
      cases hit3
      have hv0 : mv.vmap k = some b := (hvm k b).mpr ⟨hb1, it, hit, by rw [← hk3]; exact hkey⟩
      have hkk : k ≠ kmk := by
        intro e
        rw [e, hv] at hv0
        cases hv0
        exact hal hb
      simp only [hkk, if_false]
      exact hv0


theorem wf_getPointerForKey (ext : Externals) (mv : MapValue) (l : List Nat)
    (key : TypedValue) (kmk : MapKey) (h : mv.WF ext l)
    (hk : key.ComputeMapKey ext false = .ok kmk) :
    ∃ mv2 pv l2, mv.GetPointerForKey ext key = .ok (mv2, pv) ∧ mv2.WF ext l2 ∧ pv.TV ∈ l2 ∧
      ((∃ a, mv.vmap kmk = some a ∧ mv2 = mv ∧ l2 = l ∧ pv.TV = a) ∨
       (mv.vmap kmk = none ∧ l2 = l ++ [mv.items.length] ∧ pv.TV = mv.items.length ∧
        (∀ a ∈ l, ∀ it, mv.items[a]? = some it →
          ∃ it2 : MapListItem, mv2.items[a]? = some it2 ∧ it2.Key = it.Key ∧
            it2.Value = it.Value) ∧
        (∃ it2 : MapListItem, mv2.items[mv.items.length]? = some it2 ∧ it2.Key = key ∧
          it2.Value = TypedValue.mk none none 0))) := by
  obtain ⟨hinv, hkeyed⟩ := h
  cases hv : mv.vmap kmk with
  | some a =>
    have ha : a ∈ l := ((hinv.2.2.2.2.2 kmk a).mp hv).1
    exact ⟨mv, ⟨a, key, PointerIndexMap⟩, l,
      by simp only [MapValue.GetPointerForKey, hk, hv], ⟨hinv, hkeyed⟩, ha,
      Or.inl ⟨a, rfl, rfl, rfl, rfl⟩⟩
  | none =>
    obtain ⟨items, ml, happ, hinv2, hcont, hnew⟩ := append_inv ext mv l key kmk hinv hk hv
    refine ⟨_, ⟨mv.items.length, key, PointerIndexMap⟩, l ++ [mv.items.length],
      by simp only [MapValue.GetPointerForKey, hk, hv, happ], ⟨hinv2, ?_⟩, by simp,
      Or.inr ⟨rfl, rfl, rfl, hcont, hnew⟩⟩
    intro a ha
    rcases List.mem_append.mp ha with ha | ha
    · obtain ⟨it, k, hit, hkk⟩ := hkeyed a ha
      obtain ⟨it2, hit2, hk2, -⟩ := hcont a ha it hit
      exact ⟨it2, k, hit2, by rw [hk2]; exact hkk⟩
    · rw [List.mem_singleton] at ha
      subst ha
      obtain ⟨it2, hit2, hk2, -⟩ := hnew
      exact ⟨it2, kmk, hit2, by rw [hk2]; exact hk⟩

theorem wf_assign2 (ext : Externals) (mv : MapValue) (l : List Nat) (pv : MapPointer)
    (v : TypedValue) (h : mv.WF ext l) (ha : pv.TV ∈ l) :
    ∃ it, mv.items[pv.TV]? = some it ∧
      mv.Assign2 pv v = .ok (MapValue.mk (mv.items.set pv.TV (it.setValue v)) mv.vmap mv.MList) ∧
      MapValue.WF ext (MapValue.mk (mv.items.set pv.TV (it.setValue v)) mv.vmap mv.MList) l := by
  obtain ⟨hinv, hkeyed⟩ := h
  obtain ⟨it, hit, hres, hinv2⟩ := assign2_inv ext mv l pv v hinv ha
  refine ⟨it, hit, hres, hinv2, ?_⟩
  intro b hb
  obtain ⟨itb, k, hitb, hkk⟩ := hkeyed b hb
  obtain ⟨it2, hit2, hk2⟩ := set_key mv.items pv.TV it (it.setValue v) hit rfl b itb hitb
  exact ⟨it2, k, hit2, by rw [hk2]; exact hkk⟩

theorem wf_deleteForKey (ext : Externals) (mv : MapValue) (l : List Nat)
    (key : TypedValue) (kmk : MapKey) (h : mv.WF ext l)
    (hk : key.ComputeMapKey ext false = .ok kmk) :
    ∃ mv2 l2, mv.DeleteForKey ext key = .ok mv2 ∧ mv2.WF ext l2 ∧
      ((mv.vmap kmk = none ∧ mv2 = mv ∧ l2 = l) ∨
       (∃ a l1 l3, mv.vmap kmk = some a ∧ l = l1 ++ a :: l3 ∧ l2 = l1 ++ l3 ∧
        (∀ (b : Nat) (it : MapListItem), mv.items[b]? = some it →
          ∃ it2 : MapListItem, mv2.items[b]? = some it2 ∧ it2.Key = it.Key ∧
            it2.Value = it.Value))) := by
  obtain ⟨hinv, hkeyed⟩ := h
  cases hv : mv.vmap kmk with
  | none =>
    exact ⟨mv, l, by simp only [MapValue.DeleteForKey, hk, hv], ⟨hinv, hkeyed⟩,
      Or.inl ⟨rfl, rfl, rfl⟩⟩
  | some a =>
    have ha : a ∈ l := ((hinv.2.2.2.2.2 kmk a).mp hv).1
    obtain ⟨l1, l3, hl⟩ := List.append_of_mem ha
    subst hl
    obtain ⟨items, ml, hrem, hinv2, hcont⟩ := remove_inv ext mv l1 l3 a kmk hinv hv
    refine ⟨_, l1 ++ l3, by simp only [MapValue.DeleteForKey, hk, hv, hrem], ⟨hinv2, ?_⟩,
      Or.inr ⟨a, l1, l3, rfl, rfl, rfl, hcont⟩⟩
    intro b hb
    have hb1 : b ∈ l1 ++ a :: l3 :=
      ((List.sublist_cons_self a l3).append_left l1).subset hb
    obtain ⟨it, k, hit, hkk⟩ := hkeyed b hb1
    obtain ⟨it2, hit2, hk2, -⟩ := hcont b it hit
    exact ⟨it2, k, hit2, by rw [hk2]; exact hkk⟩

theorem wf_getValueForKey (ext : Externals) (mv : MapValue) (l : List Nat)
    (key : TypedValue) (kmk : MapKey) (h : mv.WF ext l)
    (hk : key.ComputeMapKey ext false = .ok kmk) :
    (∃ a it, mv.vmap kmk = some a ∧ mv.items[a]? = some it ∧
      mv.GetValueForKey ext key = .ok (it.Value, true)) ∨
    (mv.vmap kmk = none ∧
      mv.GetValueForKey ext key = .ok (TypedValue.mk none none 0, false)) := by
  cases hv : mv.vmap kmk with
  | none => exact Or.inr ⟨rfl, by simp only [MapValue.GetValueForKey, hk, hv]⟩
  | some a =>
    obtain ⟨-, it, hit, -⟩ := (h.1.2.2.2.2.2 kmk a).mp hv
    exact Or.inl ⟨a, it, rfl, hit, by simp only [MapValue.GetValueForKey, hk, hv, hit]⟩


theorem seg_links (items : List MapListItem) (l1 l2 : List Nat) (a : Nat)
    (h : Seg items none (l1 ++ a :: l2) none) :
    ∃ it, items[a]? = some it ∧ it.Prev = l1.getLast? ∧ it.Next = l2.head? ∧
      (∀ b, l2.head? = some b → ∃ itb : MapListItem, items[b]? = some itb ∧ itb.Prev = some a) ∧
      (∀ b, l1.getLast? = some b →
        ∃ itb : MapListItem, items[b]? = some itb ∧ itb.Next = some a) := by
  obtain ⟨hs1, hs2⟩ := (seg_append items l1 (a :: l2) none none).mp h
  obtain ⟨ita, hita, hpa, hna, hs3⟩ := hs2
  refine ⟨ita, hita, by rw [hpa, lastOr_none], by cases l2 <;> exact hna, ?_, ?_⟩
  · intro b hb
    cases l2 with
    | nil => simp at hb
    | cons x xs =>
      simp only [List.head?_cons, Option.some.injEq] at hb
      subst hb
      obtain ⟨itb, hitb, hpb, -, -⟩ := hs3
      exact ⟨itb, hitb, hpb⟩
  · intro b hb
    rcases List.eq_nil_or_concat l1 with rfl | ⟨l0, p, hl⟩
    · simp at hb
    · rw [List.concat_eq_append] at hl
      subst hl
      rw [List.getLast?_concat] at hb
      cases hb
      obtain ⟨-, hs4⟩ := (seg_append items l0 [b] none _).mp hs1
      obtain ⟨itb, hitb, -, hnb, -⟩ := hs4
      exact ⟨itb, hitb, hnb⟩

theorem wf_properties (ext : Externals) (mv : MapValue) (l : List Nat) (h : mv.WF ext l) :
    mv.traverse = some l ∧ l.Nodup ∧
      (∀ a ∈ l, ∃ it k, mv.items[a]? = some it ∧
        it.Key.ComputeMapKey ext false = .ok k ∧ mv.vmap k = some a) ∧
      (∀ k a, mv.vmap k = some a →
        a ∈ l ∧ ∃ it, mv.items[a]? = some it ∧ it.Key.ComputeMapKey ext false = .ok k) ∧
      (∀ a ∈ l, ∀ b ∈ l, ∀ (ita itb : MapListItem) (k : MapKey),
        mv.items[a]? = some ita → mv.items[b]? = some itb →
        ita.Key.ComputeMapKey ext false = .ok k →
        itb.Key.ComputeMapKey ext false = .ok k → a = b) ∧
      mv.MList.Size = l.length ∧
      (∀ (hd : Nat) (it : MapListItem), mv.MList.Head = some hd →
        mv.items[hd]? = some it → it.Prev = none) ∧
      (∀ (tl : Nat) (it : MapListItem), mv.MList.Tail = some tl →
        mv.items[tl]? = some it → it.Next = none) ∧
      (∀ a ∈ l, ∀ (it : MapListItem) (b : Nat), mv.items[a]? = some it →
        it.Next = some b → ∃ itb : MapListItem, mv.items[b]? = some itb ∧ itb.Prev = some a) ∧
      (∀ a ∈ l, ∀ (it : MapListItem) (b : Nat), mv.items[a]? = some it →
        it.Prev = some b → ∃ itb : MapListItem, mv.items[b]? = some itb ∧ itb.Next = some a) ∧
      ((mv.MList.Head = none ∧ mv.MList.Tail = none) ↔ mv.MList.Size = 0) ∧
      (mv.MList.Head = none ↔ mv.MList.Tail = none) := by
  obtain ⟨hinv, hkeyed⟩ := h
  have htr := inv_traverse ext mv l hinv
  obtain ⟨hnd, hseg, hh, ht, hs, hvm⟩ := hinv
  refine ⟨htr, hnd, ?_, ?_, ?_, hs, ?_, ?_, ?_, ?_, ?_, ?_⟩
  · intro a ha
    obtain ⟨it, k, hit, hk⟩ := hkeyed a ha
    exact ⟨it, k, hit, hk, (hvm k a).mpr ⟨ha, it, hit, hk⟩⟩
  · intro k a hv
    exact (hvm k a).mp hv
  · intro a ha b hb ita itb k hita hitb hka hkb
    have h1 := (hvm k a).mpr ⟨ha, ita, hita, hka⟩
    have h2 := (hvm k b).mpr ⟨hb, itb, hitb, hkb⟩
    rw [h1] at h2
    exact Option.some.inj h2
  · intro hd it hhd hit
    rw [hh] at hhd
    cases l with
    | nil => simp at hhd
    | cons x xs =>
      simp only [List.head?_cons, Option.some.injEq] at hhd
      subst hhd
      obtain ⟨it2, hit2, hp, -, -⟩ := hseg
      rw [hit] at hit2
      cases hit2
      exact hp
  · intro tl it htl hit
    rw [ht] at htl
    rcases List.eq_nil_or_concat l with rfl | ⟨l0, p, hl⟩
    · simp at htl
    · rw [List.concat_eq_append] at hl
      subst hl
      rw [List.getLast?_concat] at htl
      cases htl
      obtain ⟨it2, hit2, -, hn, -, -⟩ := seg_links mv.items l0 [] tl hseg
      rw [hit] at hit2
      cases hit2
      simpa using hn
  · intro a ha it b hit hn
    obtain ⟨l1, l2, hl⟩ := List.append_of_mem ha
    subst hl
    obtain ⟨it2, hit2, -, hn2, hnext, -⟩ := seg_links mv.items l1 l2 a hseg
    rw [hit] at hit2
    cases hit2
    exact hnext b (by rw [← hn2]; exact hn)
  · intro a ha it b hit hp
    obtain ⟨l1, l2, hl⟩ := List.append_of_mem ha
    subst hl
    obtain ⟨it2, hit2, hp2, -, -, hprev⟩ := seg_links mv.items l1 l2 a hseg
    rw [hit] at hit2
    cases hit2
    exact hprev b (by rw [← hp2]; exact hp)
  · rw [hh, ht, hs]
    cases l with
    | nil => simp
    | cons x xs =>
      simp only [List.head?_cons, List.length_cons]
      constructor
      · intro h1
        exact absurd h1.1 (by simp)
      · intro h1
        have : (0 : Int) ≤ (xs.length : Int) := Int.natCast_nonneg _
        push_cast at h1
        omega
  · rw [hh, ht]
    cases l with
    | nil => simp
    | cons x xs =>
      have hx : (x :: xs).getLast? = some ((x :: xs).getLast (by simp)) :=
        List.getLast?_eq_getLast _ _
      simp [hx]

/-- C2. `MakeMap` establishes the map invariant and `GetPointerForKey`,
`GetValueForKey` and `DeleteForKey`, called with a key that has key bytes,
return and preserve it (`GetValueForKey` does not change the map). Under the
invariant, with `l` the items reached from `Head` through `Next`: the items
are distinct, each is indexed under the key bytes of its key, every index
entry is such an item, no two items share key bytes, `Size` is the number of
items, `Head.Prev` and `Tail.Next` are empty, `Prev` and `Next` are mutually
inverse, and `Head` and `Tail` are both empty exactly when `Size` is 0. -/
theorem map_invariant (ext : Externals) :
    (∀ c, (MapValue.MakeMap c).WF ext []) ∧
    (∀ (mv : MapValue) (l : List Nat) (key : TypedValue) (kmk : MapKey),
      mv.WF ext l → key.ComputeMapKey ext false = .ok kmk →
      (∃ mv2 pv l2, mv.GetPointerForKey ext key = .ok (mv2, pv) ∧ mv2.WF ext l2) ∧
      (∃ r, mv.GetValueForKey ext key = .ok r) ∧
      (∃ mv2 l2, mv.DeleteForKey ext key = .ok mv2 ∧ mv2.WF ext l2)) ∧
    (∀ (mv : MapValue) (l : List Nat), mv.WF ext l →
      mv.traverse = some l ∧ l.Nodup ∧
      (∀ a ∈ l, ∃ it k, mv.items[a]? = some it ∧
        it.Key.ComputeMapKey ext false = .ok k ∧ mv.vmap k = some a) ∧
      (∀ k a, mv.vmap k = some a →
        a ∈ l ∧ ∃ it, mv.items[a]? = some it ∧ it.Key.ComputeMapKey ext false = .ok k) ∧
      (∀ a ∈ l, ∀ b ∈ l, ∀ (ita itb : MapListItem) (k : MapKey),
        mv.items[a]? = some ita → mv.items[b]? = some itb →
        ita.Key.ComputeMapKey ext false = .ok k →
        itb.Key.ComputeMapKey ext false = .ok k → a = b) ∧
      mv.MList.Size = l.length ∧
      (∀ (hd : Nat) (it : MapListItem), mv.MList.Head = some hd →
        mv.items[hd]? = some it → it.Prev = none) ∧
      (∀ (tl : Nat) (it : MapListItem), mv.MList.Tail = some tl →
        mv.items[tl]? = some it → it.Next = none) ∧
      (∀ a ∈ l, ∀ (it : MapListItem) (b : Nat), mv.items[a]? = some it →
        it.Next = some b → ∃ itb : MapListItem, mv.items[b]? = some itb ∧ itb.Prev = some a) ∧
      (∀ a ∈ l, ∀ (it : MapListItem) (b : Nat), mv.items[a]? = some it →
        it.Prev = some b → ∃ itb : MapListItem, mv.items[b]? = some itb ∧ itb.Next = some a) ∧
      ((mv.MList.Head = none ∧ mv.MList.Tail = none) ↔ mv.MList.Size = 0) ∧
      (mv.MList.Head = none ↔ mv.MList.Tail = none)) := by
  refine ⟨fun c => ⟨inv_makeMap ext c, fun a ha => by simp at ha⟩, ?_, wf_properties ext⟩
  intro mv l key kmk h hk
  refine ⟨?_, ?_, ?_⟩
  · obtain ⟨mv2, pv, l2, h1, h2, -, -⟩ := wf_getPointerForKey ext mv l key kmk h hk
    exact ⟨mv2, pv, l2, h1, h2⟩
  · rcases wf_getValueForKey ext mv l key kmk h hk with ⟨a, it, -, -, h1⟩ | ⟨-, h1⟩
    · exact ⟨_, h1⟩
    · exact ⟨_, h1⟩
  · obtain ⟨mv2, l2, h1, h2, -⟩ := wf_deleteForKey ext mv l key kmk h hk
    exact ⟨mv2, l2, h1, h2⟩


/-- The three operations on the empty map made by `MakeMap`, with the key "a". -/
theorem map_invariant_witness :
    (∃ mv2 pv l2, (MapValue.MakeMap 0).GetPointerForKey sampleExt
        (TypedValue.mk (some (.PrimitiveType .StringType)) (some (.StringValue [97])) 0) = .ok (mv2, pv) ∧
      mv2.WF sampleExt l2) ∧
    (∃ r, (MapValue.MakeMap 0).GetValueForKey sampleExt
        (TypedValue.mk (some (.PrimitiveType .StringType)) (some (.StringValue [97])) 0) = .ok r) ∧
    (∃ mv2 l2, (MapValue.MakeMap 0).DeleteForKey sampleExt
        (TypedValue.mk (some (.PrimitiveType .StringType)) (some (.StringValue [97])) 0) = .ok mv2 ∧
      mv2.WF sampleExt l2) :=
  (map_invariant sampleExt).2.1 (MapValue.MakeMap 0) []
    (TypedValue.mk (some (.PrimitiveType .StringType)) (some (.StringValue [97])) 0)
    [115, 116, 114, 105, 110, 103, 58, 97] ((map_invariant sampleExt).1 0) rfl

/-! ### The ordered map refines its specification -/

theorem rel_frame (ext : Externals) (items items2 : List MapListItem) (l : List Nat)
    (s : SpecMap) (h : Rel ext items l s)
    (hc : ∀ a ∈ l, ∀ it, items[a]? = some it →
      ∃ it2 : MapListItem, items2[a]? = some it2 ∧ it2.Key = it.Key ∧ it2.Value = it.Value) :
    Rel ext items2 l s := by
  unfold Rel at h ⊢
  induction h with
  | nil => exact List.Forall₂.nil
  | @cons a e l s hae _ ih =>
    obtain ⟨it, hit, hk, hv, hkb⟩ := hae
    obtain ⟨it2, hit2, hk2, hv2⟩ := hc a (List.mem_cons_self _ _) it hit
    refine List.Forall₂.cons ⟨it2, hit2, hk2.trans hk, hv2.trans hv, by rw [hk2]; exact hkb⟩
      (ih (fun b hb => hc b (List.mem_cons_of_mem _ hb)))

theorem rel_mem_left (ext : Externals) (items : List MapListItem) (l : List Nat)
    (s : SpecMap) (h : Rel ext items l s) (a : Nat) (ha : a ∈ l) :
    ∃ e ∈ s, ∃ it : MapListItem, items[a]? = some it ∧
      it.Key.ComputeMapKey ext false = .ok e.1 := by
  unfold Rel at h
  induction h with
  | nil => simp at ha
  | @cons b e l s hbe _ ih =>
    rcases List.mem_cons.mp ha with rfl | ha
    · obtain ⟨it, hit, -, -, hkb⟩ := hbe
      exact ⟨e, List.mem_cons_self _ _, it, hit, hkb⟩
    · obtain ⟨e2, he2, hx⟩ := ih ha
      exact ⟨e2, List.mem_cons_of_mem _ he2, hx⟩

theorem rel_mem_right (ext : Externals) (items : List MapListItem) (l : List Nat)
    (s : SpecMap) (h : Rel ext items l s) (e : MapKey × TypedValue × TypedValue)
    (he : e ∈ s) :
    ∃ a ∈ l, ∃ it : MapListItem, items[a]? = some it ∧
      it.Key.ComputeMapKey ext false = .ok e.1 := by
  unfold Rel at h
  induction h with
  | nil => simp at he
  | @cons b e2 l s hbe _ ih =>
    rcases List.mem_cons.mp he with rfl | he
    · obtain ⟨it, hit, -, -, hkb⟩ := hbe
      exact ⟨b, List.mem_cons_self _ _, it, hit, hkb⟩
    · obtain ⟨a, ha, hx⟩ := ih he
      exact ⟨a, List.mem_cons_of_mem _ ha, hx⟩

theorem rel_split (ext : Externals) (items : List MapListItem) (l1 l2 : List Nat) (a : Nat) :
    ∀ (s : SpecMap), Rel ext items (l1 ++ a :: l2) s →
      ∃ s1 e s2, s = s1 ++ e :: s2 ∧ Rel ext items l1 s1 ∧ Rel ext items l2 s2 ∧
        ∃ it : MapListItem, items[a]? = some it ∧
          it.Key.ComputeMapKey ext false = .ok e.1 := by
  induction l1 with
  | nil =>
    intro s h
    cases h with
    | cons hae hrest =>
      obtain ⟨it, hit, -, -, hkb⟩ := hae
      exact ⟨[], _, _, rfl, List.Forall₂.nil, hrest, it, hit, hkb⟩
  | cons b l1 ih =>
    intro s h
    cases h with
    | cons hbe hrest =>
      obtain ⟨s1, e, s2, hs, h1, h2, hx⟩ := ih _ hrest
      subst hs
      exact ⟨_ :: s1, e, s2, rfl, List.Forall₂.cons hbe h1, h2, hx⟩

theorem rel_append (ext : Externals) (items : List MapListItem) (l1 l2 : List Nat)
    (s1 s2 : SpecMap) (h1 : Rel ext items l1 s1) (h2 : Rel ext items l2 s2) :
    Rel ext items (l1 ++ l2) (s1 ++ s2) := by
  unfold Rel at h1 h2 ⊢
  induction h1 with
  | nil => exact h2
  | cons hae _ ih => exact List.Forall₂.cons hae ih

theorem rel_entries (ext : Externals) (items : List MapListItem) (l : List Nat)
    (s : SpecMap) (h : Rel ext items l s) :
    l.filterMap (fun a => (items[a]?).map (fun it => (it.Key, it.Value))) =
      s.map (fun e => (e.2.1, e.2.2)) := by
  unfold Rel at h
  induction h with
  | nil => rfl
  | @cons a e l s hae _ ih =>
    obtain ⟨it, hit, hk, hv, -⟩ := hae
    simp only [List.filterMap_cons, hit, Option.map_some', List.map_cons, ih, hk, hv]


theorem rel_update (ext : Externals) (items : List MapListItem) (l : List Nat)
    (s : SpecMap) (a : Nat) (it : MapListItem) (v : TypedValue) (kb : MapKey)
    (hr : Rel ext items l s) (hit : items[a]? = some it)
    (hka : it.Key.ComputeMapKey ext false = .ok kb)
    (huniq : ∀ b ∈ l, ∀ itb : MapListItem, items[b]? = some itb →
      itb.Key.ComputeMapKey ext false = .ok kb → b = a) :
    Rel ext (items.set a (it.setValue v)) l
      (s.map (fun e => if e.1 = kb then (e.1, e.2.1, v) else e)) := by
  have hlt := getElem?_lt _ _ _ hit
  unfold Rel at hr ⊢
  induction hr with
  | nil => exact List.Forall₂.nil
  | @cons b e l s hbe _ ih =>
    obtain ⟨itb, hitb, hk, hv, hkb⟩ := hbe
    simp only [List.map_cons]
    refine List.Forall₂.cons ?_ (ih (fun c hc => huniq c (List.mem_cons_of_mem _ hc)))
    by_cases hba : b = a
    · subst hba
      rw [hit] at hitb
      cases hitb
      have he : e.1 = kb := by
        rw [hka] at hkb
        exact (Except.ok.inj hkb).symm
      simp only [he, if_true]
      exact ⟨_, List.getElem?_set_self hlt, hk, rfl, by rw [← he] at hka ⊢; exact hkb⟩
    · have he : e.1 ≠ kb := by
        intro he
        rw [he] at hkb
        exact hba (huniq b (List.mem_cons_self _ _) itb hitb hkb)
      simp only [he, if_false]
      exact ⟨itb, by rw [List.getElem?_set_ne (Ne.symm hba)]; exact hitb, hk, hv, hkb⟩

theorem spec_any_false (ext : Externals) (mv : MapValue) (l : List Nat) (s : SpecMap)
    (kb : MapKey) (h : mv.WF ext l) (hr : Rel ext mv.items l s) (hv : mv.vmap kb = none) :
    ∀ e ∈ s, e.1 ≠ kb := by
  intro e he hek
  obtain ⟨a, ha, it, hit, hkey⟩ := rel_mem_right ext mv.items l s hr e he
  rw [hek] at hkey
  have := (h.1.2.2.2.2.2 kb a).mpr ⟨ha, it, hit, hkey⟩
  rw [hv] at this
  cases this

theorem applyOp_sim (ext : Externals) (mv : MapValue) (l : List Nat) (s : SpecMap)
    (op : MapOp) (kb : MapKey) (h : mv.WF ext l) (hr : Rel ext mv.items l s)
    (hk : op.key.ComputeMapKey ext false = .ok kb) :
    ∃ mv2 l2, mv.applyOp ext op = .ok mv2 ∧ mv2.WF ext l2 ∧
      Rel ext mv2.items l2 (specApply ext s op) := by
  cases op with
  | insert k v =>
    simp only [MapOp.key] at hk
    obtain ⟨mv1, pv, l1, hget, hwf1, hpv, hcase⟩ := wf_getPointerForKey ext mv l k kb h hk
    obtain ⟨it, hit, hass, hwf2⟩ := wf_assign2 ext mv1 l1 pv v hwf1 hpv
    refine ⟨_, l1, by simp only [MapValue.applyOp, hget, hass], hwf2, ?_⟩
    simp only [specApply, MapOp.key, hk]
    rcases hcase with ⟨a, hv, rfl, rfl, hpa⟩ | ⟨hv, rfl, hpa, hcont, hnew⟩
    · -- the key is present
      obtain ⟨-, ita, hita, hka⟩ := (h.1.2.2.2.2.2 kb a).mp hv
      rw [hpa] at hit ⊢
      rw [hita] at hit
      cases hit
      have hany : s.any (fun e => decide (e.1 = kb)) = true := by
        obtain ⟨e, he, it2, hit2, hkey⟩ :=
          rel_mem_left ext mv1.items l1 s hr a (by rw [← hpa]; exact hpv)
        rw [hita] at hit2
        cases hit2
        rw [hka] at hkey
        exact List.any_eq_true.mpr ⟨e, he, by simpa using (Except.ok.inj hkey).symm⟩
      simp only [specInsert, hany, if_true]
      refine rel_update ext mv1.items l1 s a it v kb hr hita hka ?_
      intro b hb itb hitb hkb
      have h1 := (h.1.2.2.2.2.2 kb b).mpr ⟨hb, itb, hitb, hkb⟩
      rw [hv] at h1
      exact (Option.some.inj h1).symm
    · -- the key is absent
      have hno := spec_any_false ext mv l s kb h hr hv
      have hany : s.any (fun e => decide (e.1 = kb)) = false := by
        rw [List.any_eq_false]
        intro e he
        simpa using hno e he
      simp only [specInsert, hany, Bool.false_eq_true, if_false]
      obtain ⟨itn, hitn, hkn, hvn⟩ := hnew
      rw [hpa] at hit ⊢
      rw [hitn] at hit
      cases hit
      have hlt := getElem?_lt _ _ _ hitn
      refine rel_append ext _ l [mv.items.length] s [(kb, k, v)] ?_ ?_
      · refine rel_frame ext mv.items _ l s hr ?_
        intro a ha ita hita
        obtain ⟨it2, hit2, hk2, hv2⟩ := hcont a ha ita hita
        have hne : mv.items.length ≠ a :=
          Ne.symm (Nat.ne_of_lt (inv_mem_lt ext mv l h.1 a ha))
        exact ⟨it2, by rw [List.getElem?_set_ne hne]; exact hit2, hk2, hv2⟩
      · exact List.Forall₂.cons
          ⟨_, List.getElem?_set_self hlt, hkn, rfl, by
            show TypedValue.ComputeMapKey ext it.Key false = Except.ok kb
            rw [hkn]; exact hk⟩
          List.Forall₂.nil
  | delete k =>
    simp only [MapOp.key] at hk
    obtain ⟨mv2, l2, hdel, hwf2, hcase⟩ := wf_deleteForKey ext mv l k kb h hk
    refine ⟨mv2, l2, by simp only [MapValue.applyOp, hdel], hwf2, ?_⟩
    simp only [specApply, MapOp.key, hk, specDelete]
    rcases hcase with ⟨hv, rfl, rfl⟩ | ⟨a, l1, l3, hv, rfl, rfl, hcont⟩
    · have hno := spec_any_false ext mv2 l2 s kb h hr hv
      have hf : s.filter (fun e => decide (e.1 ≠ kb)) = s := by
        rw [List.filter_eq_self]
        intro e he
        simpa using hno e he
      rw [hf]
      exact hr
    · obtain ⟨s1, e, s3, hs, hr1, hr3, ita, hita, hkey⟩ := rel_split ext mv.items l1 l3 a s hr
      subst hs
      have hnd := h.1.1
      have hka : e.1 = kb := by
        obtain ⟨-, it2, hit2, hk2⟩ := (h.1.2.2.2.2.2 kb a).mp hv
        rw [hita] at hit2
        cases hit2
        rw [hkey] at hk2
        exact Except.ok.inj hk2
      have hne : ∀ (lx : List Nat) (sx : SpecMap), Rel ext mv.items lx sx →
          (∀ b ∈ lx, b ∈ l1 ++ a :: l3 ∧ b ≠ a) → ∀ e2 ∈ sx, e2.1 ≠ kb := by
        intro lx sx hrx hlx e2 he2 hek
        obtain ⟨b, hb, itb, hitb, hkb⟩ := rel_mem_right ext mv.items lx sx hrx e2 he2
        rw [hek] at hkb
        have h1 := (h.1.2.2.2.2.2 kb b).mpr ⟨(hlx b hb).1, itb, hitb, hkb⟩
        rw [hv] at h1
        exact (hlx b hb).2 (Option.some.inj h1).symm
      have hnd1 := List.nodup_append.mp hnd
      have hn1 := hne l1 s1 hr1 (fun b hb =>
        ⟨List.mem_append_left _ hb, fun e => hnd1.2.2 (e ▸ hb) (List.mem_cons_self _ _)⟩)
      have hn3 := hne l3 s3 hr3 (fun b hb =>
        ⟨List.mem_append_right _ (List.mem_cons_of_mem _ hb),
          fun e => (List.nodup_cons.mp hnd1.2.1).1 (e ▸ hb)⟩)
      have hf : (s1 ++ e :: s3).filter (fun e => decide (e.1 ≠ kb)) = s1 ++ s3 := by
        rw [List.filter_append, List.filter_cons]
        have h1 : s1.filter (fun e => decide (e.1 ≠ kb)) = s1 := by
          rw [List.filter_eq_self]
          intro e2 he2
          simpa using hn1 e2 he2
        have h3 : s3.filter (fun e => decide (e.1 ≠ kb)) = s3 := by
          rw [List.filter_eq_self]
          intro e2 he2
          simpa using hn3 e2 he2
        rw [h1, h3]
        simp [hka]
      rw [hf]
      refine rel_append ext _ l1 l3 s1 s3 ?_ ?_
      · exact rel_frame ext mv.items _ l1 s1 hr1 (fun b _ it hit => hcont b it hit)
      · exact rel_frame ext mv.items _ l3 s3 hr3 (fun b _ it hit => hcont b it hit)


theorem run_sim (ext : Externals) (ops : List MapOp) :
    ∀ (mv : MapValue) (l : List Nat) (s : SpecMap), mv.WF ext l → Rel ext mv.items l s →
      (∀ op ∈ ops, ∃ kb, op.key.ComputeMapKey ext false = .ok kb) →
      ∃ mv2 l2, mv.run ext ops = .ok mv2 ∧ mv2.WF ext l2 ∧
        Rel ext mv2.items l2 (specRun ext s ops) := by
  induction ops with
  | nil =>
    intro mv l s h hr _
    exact ⟨mv, l, rfl, h, hr⟩
  | cons op ops ih =>
    intro mv l s h hr hk
    obtain ⟨kb, hkb⟩ := hk op (List.mem_cons_self _ _)
    obtain ⟨mv1, l1, hop, hwf1, hr1⟩ := applyOp_sim ext mv l s op kb h hr hkb
    obtain ⟨mv2, l2, hrun, hwf2, hr2⟩ :=
      ih mv1 l1 (specApply ext s op) hwf1 hr1 (fun o ho => hk o (List.mem_cons_of_mem _ ho))
    exact ⟨mv2, l2, by simp only [MapValue.run, hop, hrun], hwf2, hr2⟩

theorem rel_keys_nodup (ext : Externals) (mv : MapValue) (l : List Nat) (h : mv.WF ext l) :
    ∀ (lx : List Nat) (sx : SpecMap), Rel ext mv.items lx sx → lx.Nodup →
      (∀ b ∈ lx, b ∈ l) → (sx.map (fun e => e.1)).Nodup := by
  intro lx sx hr
  unfold Rel at hr
  induction hr with
  | nil => intro _ _; exact List.nodup_nil
  | @cons a e lx sx hae hrest ih =>
    intro hnd hsub
    obtain ⟨it, hit, -, -, hkb⟩ := hae
    rw [List.nodup_cons] at hnd
    simp only [List.map_cons]
    rw [List.nodup_cons]
    refine ⟨?_, ih hnd.2 (fun b hb => hsub b (List.mem_cons_of_mem _ hb))⟩
    intro hmem
    obtain ⟨e2, he2, hek⟩ := List.mem_map.mp hmem
    obtain ⟨b, hb, itb, hitb, hkb2⟩ := rel_mem_right ext mv.items lx sx hrest e2 he2
    rw [hek] at hkb2
    have h1 := (h.1.2.2.2.2.2 e.1 a).mpr ⟨hsub a (List.mem_cons_self _ _), it, hit, hkb⟩
    have h2 := (h.1.2.2.2.2.2 e.1 b).mpr ⟨hsub b (List.mem_cons_of_mem _ hb), itb, hitb, hkb2⟩
    rw [h1] at h2
    cases h2
    exact hnd.1 hb

theorem specInsert_present (s : SpecMap) (kb : MapKey) (k v : TypedValue)
    (h : kb ∈ s.map (fun e => e.1)) :
    (specInsert s kb k v).map (fun e => e.1) = s.map (fun e => e.1) := by
  have hany : s.any (fun e => decide (e.1 = kb)) = true := by
    obtain ⟨e, he, hek⟩ := List.mem_map.mp h
    exact List.any_eq_true.mpr ⟨e, he, by simpa using hek⟩
  simp only [specInsert, hany, if_true, List.map_map]
  apply List.map_congr_left
  intro e _
  simp only [Function.comp]
  split <;> rfl

theorem specInsert_absent (s : SpecMap) (kb : MapKey) (k v : TypedValue)
    (h : kb ∉ s.map (fun e => e.1)) :
    specInsert s kb k v = s ++ [(kb, k, v)] := by
  have hany : s.any (fun e => decide (e.1 = kb)) = false := by
    rw [List.any_eq_false]
    intro e he
    have : e.1 ≠ kb := fun hek => h (List.mem_map.mpr ⟨e, he, hek⟩)
    simpa using this
  simp only [specInsert, hany, Bool.false_eq_true, if_false]

theorem specDelete_keys (s : SpecMap) (kb : MapKey) :
    (specDelete s kb).map (fun e => e.1) =
      (s.map (fun e => e.1)).filter (fun x => decide (x ≠ kb)) := by
  simp only [specDelete, List.filter_map]
  rfl

/-- C1. For every sequence of insertions and deletions whose keys have key
bytes, applied to a map made by `MakeMap`, the operations return, and the
traversal from `Head` through `Next` yields the keys and values of the
specification run on the same sequence, each key once. In the specification
an insertion of a present key keeps the order of the keys, an insertion of an
absent key (never inserted, or deleted since) appends it at the end, and a
deletion removes the key and keeps the order of the others. -/
theorem map_order (ext : Externals) :
    (∀ ops : List MapOp, (∀ op ∈ ops, ∃ kb, op.key.ComputeMapKey ext false = .ok kb) →
      ∃ mv, (MapValue.MakeMap 0).run ext ops = .ok mv ∧
        mv.entries = some ((specRun ext [] ops).map (fun e => (e.2.1, e.2.2))) ∧
        ((specRun ext [] ops).map (fun e => e.1)).Nodup) ∧
    (∀ (s : SpecMap) (kb : MapKey) (k v : TypedValue), kb ∈ s.map (fun e => e.1) →
      (specInsert s kb k v).map (fun e => e.1) = s.map (fun e => e.1)) ∧
    (∀ (s : SpecMap) (kb : MapKey) (k v : TypedValue), kb ∉ s.map (fun e => e.1) →
      specInsert s kb k v = s ++ [(kb, k, v)]) ∧
    (∀ (s : SpecMap) (kb : MapKey), (specDelete s kb).map (fun e => e.1) =
      (s.map (fun e => e.1)).filter (fun x => decide (x ≠ kb))) := by
  refine ⟨?_, specInsert_present, specInsert_absent, specDelete_keys⟩
  intro ops hk
  have hwf0 : (MapValue.MakeMap 0).WF ext [] :=
    ⟨inv_makeMap ext 0, fun a ha => by simp at ha⟩
  obtain ⟨mv, l, hrun, hwf, hr⟩ :=
    run_sim ext ops (MapValue.MakeMap 0) [] [] hwf0 List.Forall₂.nil hk
  refine ⟨mv, hrun, ?_, ?_⟩
  · simp only [MapValue.entries, inv_traverse ext mv l hwf.1, rel_entries ext mv.items l _ hr]
  · exact rel_keys_nodup ext mv l hwf l _ hr hwf.1.1 (fun b hb => hb)

/-- The scenario: insert "a"→1, insert "b"→2, delete "a", insert "a"→3 gives the
keys "b", "a" with the values 2, 3. -/
theorem map_order_witness :
    ∃ mv, (MapValue.MakeMap 0).run sampleExt
      [.insert (TypedValue.mk (some (.PrimitiveType .StringType)) (some (.StringValue [97])) 0) (TypedValue.mk (some (.PrimitiveType .IntType)) none 1),
       .insert (TypedValue.mk (some (.PrimitiveType .StringType)) (some (.StringValue [98])) 0) (TypedValue.mk (some (.PrimitiveType .IntType)) none 2),
       .delete (TypedValue.mk (some (.PrimitiveType .StringType)) (some (.StringValue [97])) 0),
       .insert (TypedValue.mk (some (.PrimitiveType .StringType)) (some (.StringValue [97])) 0) (TypedValue.mk (some (.PrimitiveType .IntType)) none 3)] = .ok mv ∧
      mv.entries = some [((TypedValue.mk (some (.PrimitiveType .StringType)) (some (.StringValue [98])) 0), (TypedValue.mk (some (.PrimitiveType .IntType)) none 2)), ((TypedValue.mk (some (.PrimitiveType .StringType)) (some (.StringValue [97])) 0), (TypedValue.mk (some (.PrimitiveType .IntType)) none 3))] ∧
      ([[115, 116, 114, 105, 110, 103, 58, 98], [115, 116, 114, 105, 110, 103, 58, 97]] :
        List MapKey).Nodup :=
  (map_order sampleExt).1
    [.insert (TypedValue.mk (some (.PrimitiveType .StringType)) (some (.StringValue [97])) 0) (TypedValue.mk (some (.PrimitiveType .IntType)) none 1),
       .insert (TypedValue.mk (some (.PrimitiveType .StringType)) (some (.StringValue [98])) 0) (TypedValue.mk (some (.PrimitiveType .IntType)) none 2),
       .delete (TypedValue.mk (some (.PrimitiveType .StringType)) (some (.StringValue [97])) 0),
       .insert (TypedValue.mk (some (.PrimitiveType .StringType)) (some (.StringValue [97])) 0) (TypedValue.mk (some (.PrimitiveType .IntType)) none 3)]
    (fun op hop => by
      simp only [List.mem_cons, List.mem_singleton, List.not_mem_nil, or_false] at hop
      rcases hop with rfl | rfl | rfl | rfl <;> exact ⟨_, rfl⟩)



/-! ### The copy of a value slot -/

/-- C9 (the code at the failing input). `TypedValue.Copy` of a slot holding a
`BigdecValue` returns the slot itself: the heap is unchanged and the result
holds the same decimal, at address 0, as the source. For a `BigintValue` it
allocates a new integer, at address 1. -/
theorem copy_bigdec_shares_decimal (fuel : Nat) :
    Heap.TypedValue.Copy (fuel + 1) [.Decimal 15 (-1)]
        { T := some (.PrimitiveType .BigdecType), V := some (.BigdecValue 0), N := 0 } =
      .ok ([.Decimal 15 (-1)],
        { T := some (.PrimitiveType .BigdecType), V := some (.BigdecValue 0), N := 0 }) ∧
    Heap.TypedValue.Copy (fuel + 1) [.BigInt 15]
        { T := some (.PrimitiveType .BigintType), V := some (.BigintValue 0), N := 0 } =
      .ok ([.BigInt 15, .BigInt 15],
        { T := some (.PrimitiveType .BigintType), V := some (.BigintValue 1), N := 0 }) :=
  ⟨rfl, rfl⟩

/-- C10 (the code at the failing input). The array `[1][1]int{{1}}` is the
object 1 whose element holds the inner array, object 0. Its copy is a new
outer array, object 2, whose element still holds object 0; the write of 7 to
element 0 of element 0 of the copy changes element 0 of element 0 of the
source from 1 to 7. For the struct `{f [1]int}`, whose copy copies the field,
the same write leaves the source unchanged. -/
theorem copy_array_shares_inner_array (fuel : Nat) :
    Heap.TypedValue.Copy (fuel + 1)
        [.ArrayValue [{ T := some (.PrimitiveType .IntType), V := none, N := 1 }] none,
         .ArrayValue [{ T := some (.ArrayType 1 (.PrimitiveType .IntType)), V := some (.ArrayValue 0), N := 0 }] none]
        { T := some (.ArrayType 1 (.ArrayType 1 (.PrimitiveType .IntType))), V := some (.ArrayValue 1), N := 0 } =
      .ok ([.ArrayValue [{ T := some (.PrimitiveType .IntType), V := none, N := 1 }] none,
          .ArrayValue [{ T := some (.ArrayType 1 (.PrimitiveType .IntType)), V := some (.ArrayValue 0), N := 0 }] none,
          .ArrayValue [{ T := some (.ArrayType 1 (.PrimitiveType .IntType)), V := some (.ArrayValue 0), N := 0 }] none],
        { T := some (.ArrayType 1 (.ArrayType 1 (.PrimitiveType .IntType))), V := some (.ArrayValue 2), N := 0 }) ∧
    (Heap.readAt
        [.ArrayValue [{ T := some (.PrimitiveType .IntType), V := none, N := 1 }] none,
         .ArrayValue [{ T := some (.ArrayType 1 (.PrimitiveType .IntType)), V := some (.ArrayValue 0), N := 0 }] none]
        { T := some (.ArrayType 1 (.ArrayType 1 (.PrimitiveType .IntType))), V := some (.ArrayValue 1), N := 0 } [0, 0]).map (fun tv => tv.N) =
      some 1 ∧
    ((Heap.writeAt
        [.ArrayValue [{ T := some (.PrimitiveType .IntType), V := none, N := 1 }] none,
         .ArrayValue [{ T := some (.ArrayType 1 (.PrimitiveType .IntType)), V := some (.ArrayValue 0), N := 0 }] none,
         .ArrayValue [{ T := some (.ArrayType 1 (.PrimitiveType .IntType)), V := some (.ArrayValue 0), N := 0 }] none]
        { T := some (.ArrayType 1 (.ArrayType 1 (.PrimitiveType .IntType))), V := some (.ArrayValue 2), N := 0 } [0, 0]
        { T := some (.PrimitiveType .IntType), V := none, N := 7 }).bind
      (fun h2 => Heap.readAt h2
        { T := some (.ArrayType 1 (.ArrayType 1 (.PrimitiveType .IntType))), V := some (.ArrayValue 1), N := 0 } [0, 0])).map (fun tv => tv.N) =
      some 7 ∧
    Heap.TypedValue.Copy (fuel + 2)
        [.ArrayValue [{ T := some (.PrimitiveType .IntType), V := none, N := 1 }] none,
         .StructValue [{ T := some (.ArrayType 1 (.PrimitiveType .IntType)), V := some (.ArrayValue 0), N := 0 }]]
        { T := some (.StructType [.mk [102] (.ArrayType 1 (.PrimitiveType .IntType))]), V := some (.StructValue 1), N := 0 } =
      .ok ([.ArrayValue [{ T := some (.PrimitiveType .IntType), V := none, N := 1 }] none,
          .StructValue [{ T := some (.ArrayType 1 (.PrimitiveType .IntType)), V := some (.ArrayValue 0), N := 0 }],
          .ArrayValue [{ T := some (.PrimitiveType .IntType), V := none, N := 1 }] none,
          .StructValue [{ T := some (.ArrayType 1 (.PrimitiveType .IntType)), V := some (.ArrayValue 2), N := 0 }]],
        { T := some (.StructType [.mk [102] (.ArrayType 1 (.PrimitiveType .IntType))]), V := some (.StructValue 3), N := 0 }) ∧
    ((Heap.writeAt
        [.ArrayValue [{ T := some (.PrimitiveType .IntType), V := none, N := 1 }] none,
         .StructValue [{ T := some (.ArrayType 1 (.PrimitiveType .IntType)), V := some (.ArrayValue 0), N := 0 }],
         .ArrayValue [{ T := some (.PrimitiveType .IntType), V := none, N := 1 }] none,
         .StructValue [{ T := some (.ArrayType 1 (.PrimitiveType .IntType)), V := some (.ArrayValue 2), N := 0 }]]
        { T := some (.StructType [.mk [102] (.ArrayType 1 (.PrimitiveType .IntType))]), V := some (.StructValue 3), N := 0 } [0, 0]
        { T := some (.PrimitiveType .IntType), V := none, N := 7 }).bind
      (fun h2 => Heap.readAt h2
        { T := some (.StructType [.mk [102] (.ArrayType 1 (.PrimitiveType .IntType))]), V := some (.StructValue 1), N := 0 } [0, 0])).map (fun tv => tv.N) =
      some 1 :=
  ⟨rfl, rfl, rfl, rfl, rfl⟩

/-! ### Indexing a slice and an array -/

theorem wrapInt_eq (x : Int) (h1 : -2 ^ 63 ≤ x) (h2 : x < 2 ^ 63) : Heap.wrapInt x = x := by
  unfold Heap.wrapInt
  omega

theorem indexCheck_ok (ii : Int) (len : Nat) (h1 : 0 ≤ ii) (h2 : ii < len) :
    Heap.indexCheck ii len = .ok ii.toNat := by
  unfold Heap.indexCheck
  rw [if_neg (by omega), if_neg (by omega)]

theorem indexCheck_error (ii : Int) (len : Nat) (e : Heap.Panic)
    (h : Heap.indexCheck ii len = .error e) : e.isException = false := by
  unfold Heap.indexCheck at h
  split_ifs at h <;> cases h <;> rfl

theorem arrayPointer_error (h : Heap.Objects) (av : Nat) (ii : Int) (et : GType)
    (e : Heap.Panic) (he : Heap.ArrayValue.GetPointerAtIndexInt2 h av ii et = .error e) :
    e.isException = false := by
  unfold Heap.ArrayValue.GetPointerAtIndexInt2 at he
  split at he
  · cases hc : Heap.indexCheck ii _ with
    | error e2 =>
      rw [hc] at he
      cases he
      exact indexCheck_error _ _ _ hc
    | ok i => rw [hc] at he; cases he
  · cases he
  · cases he; rfl

/-- C14 (as stated, refuted). On the slice `A[1:3]`, of length 2, the index
-1 raises the exception "slice index out of bounds: %d" whose only argument
is the index: the length is not carried. The index 2 raises the exception
that carries the index and the length. -/
theorem slice_index_negative_carries_no_length :
    Heap.SliceValue.GetPointerAtIndexInt2 Heap.sampleHeap 2 (-1) (.PrimitiveType .IntType) =
      .error (.exception "slice index out of bounds: %d" [-1]) ∧
    Heap.SliceValue.GetPointerAtIndexInt2 Heap.sampleHeap 2 2 (.PrimitiveType .IntType) =
      .error (.exception "slice index out of bounds: %d (len=%d)" [2, 2]) :=
  ⟨rfl, rfl⟩

/-- C14 (amended). `SliceValue.GetPointerAtIndexInt2` raises an exception
exactly when `ii < 0` or `Length ≤ ii`: for `ii < 0` the exception carries the
index alone, for `Length ≤ ii` it carries the index and `Length`, and for
`0 ≤ ii < Length`, on a slice whose window lies within its base array, the
call returns a pointer. -/
theorem slice_index_bounds (h : Heap.Objects) (sv : Nat) (base : Option Nat)
    (offset length maxcap ii : Int) (et : GType)
    (hs : h[sv]? = some (.SliceValue base offset length maxcap)) :
    (ii < 0 → Heap.SliceValue.GetPointerAtIndexInt2 h sv ii et =
      .error (.exception "slice index out of bounds: %d" [ii])) ∧
    (0 ≤ ii → length ≤ ii → Heap.SliceValue.GetPointerAtIndexInt2 h sv ii et =
      .error (.exception "slice index out of bounds: %d (len=%d)" [ii, length])) ∧
    (0 ≤ ii → ii < length →
      ∀ (av : Nat) (l : List Heap.TypedValue) (d : Option Bytes),
        base = some av → h[av]? = some (.ArrayValue l d) →
        0 ≤ offset → offset + length ≤ (Heap.arrayLen l d : Int) →
        (Heap.arrayLen l d : Int) < 2 ^ 63 →
        ∃ r, Heap.SliceValue.GetPointerAtIndexInt2 h sv ii et = .ok r) ∧
    ((∃ e, Heap.SliceValue.GetPointerAtIndexInt2 h sv ii et = .error e ∧ e.isException = true) ↔
      (ii < 0 ∨ length ≤ ii)) := by
  have hnx := fun av e => arrayPointer_error h av (Heap.wrapInt (offset + ii)) et e
  refine ⟨?_, ?_, ?_, ?_⟩
  · intro h1
    simp only [Heap.SliceValue.GetPointerAtIndexInt2, hs, if_pos h1]
  · intro h1 h2
    simp only [Heap.SliceValue.GetPointerAtIndexInt2, hs, if_neg (not_lt.mpr h1), if_pos h2]
  · intro h1 h2 av l d hb ha h3 h4 h5
    subst hb
    simp only [Heap.SliceValue.GetPointerAtIndexInt2, hs, if_neg (not_lt.mpr h1),
      if_neg (not_le.mpr h2)]
    cases d with
    | none =>
      simp only [Heap.arrayLen] at h4 h5
      rw [wrapInt_eq _ (by omega) (by omega)]
      simp only [Heap.ArrayValue.GetPointerAtIndexInt2, ha,
        indexCheck_ok (offset + ii) l.length (by omega) (by omega)]
      exact ⟨_, rfl⟩
    | some data =>
      simp only [Heap.ArrayValue.GetPointerAtIndexInt2, ha]
      exact ⟨_, rfl⟩
  · constructor
    · rintro ⟨e, he, hx⟩
      by_contra hc
      push_neg at hc
      simp only [Heap.SliceValue.GetPointerAtIndexInt2, hs, if_neg (not_lt.mpr hc.1),
        if_neg (not_le.mpr hc.2)] at he
      cases base with
      | none => simp only at he; cases he; simp [Heap.Panic.isException] at hx
      | some av =>
        simp only at he
        rw [hnx av e he] at hx
        cases hx
    · rintro (h1 | h1)
      · exact ⟨.exception "slice index out of bounds: %d" [ii],
          by simp only [Heap.SliceValue.GetPointerAtIndexInt2, hs, if_pos h1], rfl⟩
      · by_cases h0 : ii < 0
        · exact ⟨.exception "slice index out of bounds: %d" [ii],
            by simp only [Heap.SliceValue.GetPointerAtIndexInt2, hs, if_pos h0], rfl⟩
        · exact ⟨.exception "slice index out of bounds: %d (len=%d)" [ii, length],
            by simp only [Heap.SliceValue.GetPointerAtIndexInt2, hs, if_neg h0, if_pos h1], rfl⟩

/-- The index 1 of the slice `A[1:3]` of the sample heap. -/
theorem slice_index_bounds_witness :
    Heap.sampleHeap[2]? = some (.SliceValue (some 0) 1 2 4) ∧
    ∃ r, Heap.SliceValue.GetPointerAtIndexInt2 Heap.sampleHeap 2 1 (.PrimitiveType .IntType) =
      .ok r :=
  ⟨rfl, (slice_index_bounds Heap.sampleHeap 2 (some 0) 1 2 4 1 (.PrimitiveType .IntType)
    rfl).2.2.1 (by decide) (by decide) 0 _ none rfl rfl (by decide) (by decide) (by decide)⟩

/-- C15 (the code at the failing input). On the byte array `[3]uint8{1, 2, 3}`
held as a byte buffer, the request of a pointer at index 5, and at index -1,
returns a pointer: nothing is raised when the pointer is requested. On the
array `A` of five elements held as an element list the index 5 ends in the
index check of the Go runtime, which is not an exception value. The slice
`A[1:3]` raises the exception for the index 5. `TypedValue.GetPointerAtIndex`
on a slot of array type is the call of `ArrayValue.GetPointerAtIndexInt2`. -/
theorem array_index_not_checked (toInt : Heap.TypedValue → Int)
    (forKey : Heap.Objects → Nat → GType → Heap.TypedValue →
      Except Heap.Panic (Heap.Objects × Heap.PointerValue)) (iv : Heap.TypedValue) :
    Heap.ArrayValue.GetPointerAtIndexInt2 Heap.sampleHeap 1 5 (.PrimitiveType .Uint8Type) =
      .ok (Heap.sampleHeap ++
          [.Slot (Heap.dataByteSlot 1 5 (.PrimitiveType .Uint8Type))],
        { TV := some (4, 0), Base := some 1, Index := 5 }) ∧
    Heap.ArrayValue.GetPointerAtIndexInt2 Heap.sampleHeap 1 (-1) (.PrimitiveType .Uint8Type) =
      .ok (Heap.sampleHeap ++
          [.Slot (Heap.dataByteSlot 1 (-1) (.PrimitiveType .Uint8Type))],
        { TV := some (4, 0), Base := some 1, Index := -1 }) ∧
    Heap.ArrayValue.GetPointerAtIndexInt2 Heap.sampleHeap 0 5 (.PrimitiveType .IntType) =
      .error (.runtime "index out of range [%x] with length %y" [5, 5]) ∧
    (Heap.Panic.runtime "index out of range [%x] with length %y" [5, 5]).isException = false ∧
    Heap.SliceValue.GetPointerAtIndexInt2 Heap.sampleHeap 2 5 (.PrimitiveType .IntType) =
      .error (.exception "slice index out of bounds: %d (len=%d)" [5, 2]) ∧
    Heap.TypedValue.GetPointerAtIndex toInt forKey Heap.sampleHeap Heap.sampleBytes iv =
      Heap.ArrayValue.GetPointerAtIndexInt2 Heap.sampleHeap 1 (toInt iv)
        (.PrimitiveType .Uint8Type) ∧
    Heap.TypedValue.GetPointerAtIndex toInt forKey Heap.sampleHeap Heap.sampleArray iv =
      Heap.ArrayValue.GetPointerAtIndexInt2 Heap.sampleHeap 0 (toInt iv)
        (.PrimitiveType .IntType) :=
  ⟨rfl, rfl, rfl, rfl, rfl, rfl, rfl⟩


/-! ### Slicing -/

theorem arrayValue_getLength (h : Heap.Objects) (av : Nat) (l : List Heap.TypedValue)
    (d : Option Bytes) (ha : h[av]? = some (.ArrayValue l d)) :
    Heap.ArrayValue.GetLength h av = .ok (Heap.arrayLen l d) ∧
    Heap.ArrayValue.GetCapacity h av = .ok (Heap.arrayLen l d) := by
  cases d <;> simp only [Heap.ArrayValue.GetLength, Heap.ArrayValue.GetCapacity, ha,
    Heap.arrayLen] <;> exact ⟨trivial, trivial⟩

theorem getSlice_slice (h : Heap.Objects) (tv : Heap.TypedValue) (t0 elt : GType)
    (sv : Nat) (base : Option Nat) (offset length maxcap low high : Int)
    (hT : tv.T = some t0) (hb : baseOf t0 = .SliceType elt)
    (hV : tv.V = some (.SliceValue sv))
    (hs : h[sv]? = some (.SliceValue base offset length maxcap)) :
    Heap.TypedValue.GetSlice h tv low high =
      if low < 0 then
        .error (.exception "invalid slice index %d (index must be non-negative)" [low])
      else if high < 0 then
        .error (.exception "invalid slice index %d (index must be non-negative)" [low])
      else if low > high then
        .error (.exception "invalid slice index %d > %d" [low, high])
      else if maxcap < high then
        .error (.exception "slice bounds out of range [%d:%d] with capacity %d"
          [low, high, maxcap])
      else
        .ok (h ++ [.SliceValue base (Heap.wrapInt (offset + low)) (high - low) (maxcap - low)],
          { T := tv.T, V := some (.SliceValue h.length), N := 0 }) := by
  simp only [Heap.TypedValue.GetSlice, hT, hb, Heap.TypedValue.GetCapacity, hV, hs]

theorem getSlice_array (h : Heap.Objects) (tv : Heap.TypedValue) (t0 elt : GType) (n : Nat)
    (av : Nat) (l : List Heap.TypedValue) (d : Option Bytes) (low high : Int)
    (hT : tv.T = some t0) (hb : baseOf t0 = .ArrayType n elt)
    (hV : tv.V = some (.ArrayValue av))
    (ha : h[av]? = some (.ArrayValue l d)) :
    Heap.TypedValue.GetSlice h tv low high =
      if low < 0 then
        .error (.exception "invalid slice index %d (index must be non-negative)" [low])
      else if high < 0 then
        .error (.exception "invalid slice index %d (index must be non-negative)" [low])
      else if low > high then
        .error (.exception "invalid slice index %d > %d" [low, high])
      else if (Heap.arrayLen l d : Int) < high then
        .error (.exception "slice bounds out of range [%d:%d] with array length %d"
          [low, high, Heap.arrayLen l d])
      else
        .ok (h ++ [.SliceValue (some av) low (high - low) (Heap.arrayLen l d - low)],
          { T := some (.SliceType elt), V := some (.SliceValue h.length), N := 0 }) := by
  obtain ⟨h1, h2⟩ := arrayValue_getLength h av l d ha
  simp only [Heap.TypedValue.GetSlice, hT, hb, Heap.TypedValue.GetLength, hV, h1, h2]

/-- C16. `GetSlice(low, high)` on a non-nil slice `(Base, Offset, Length,
Maxcap)` returns exactly when `0 ≤ low ≤ high ≤ Maxcap`, and then the result
has the type of the source and holds a new slice object with the same `Base`,
the offset `Offset + low` (as a 64-bit sum), the length `high - low` and the
capacity `Maxcap - low`. On an array of `n` elements, in either
representation, it returns exactly when `0 ≤ low ≤ high ≤ n`, and then the
result holds a new slice object with the array as `Base`, the offset `low`,
the length `high - low` and the capacity `n - low`. In both cases the heap
after the call is the heap before it followed by the one slice object: no
element is copied and no object of the source is changed. -/
theorem getSlice_bounds_and_result (h : Heap.Objects) (tv : Heap.TypedValue) (t0 elt : GType)
    (low high : Int) (hT : tv.T = some t0) :
    (∀ (sv : Nat) (base : Option Nat) (offset length maxcap : Int),
      baseOf t0 = .SliceType elt → tv.V = some (.SliceValue sv) →
      h[sv]? = some (.SliceValue base offset length maxcap) →
      ((∃ r, Heap.TypedValue.GetSlice h tv low high = .ok r) ↔
        (0 ≤ low ∧ low ≤ high ∧ high ≤ maxcap)) ∧
      (0 ≤ low → low ≤ high → high ≤ maxcap →
        Heap.TypedValue.GetSlice h tv low high =
          .ok (h ++ [.SliceValue base (Heap.wrapInt (offset + low)) (high - low)
              (maxcap - low)],
            { T := tv.T, V := some (.SliceValue h.length), N := 0 }) ∧
        (-2 ^ 63 ≤ offset + low → offset + low < 2 ^ 63 →
          Heap.wrapInt (offset + low) = offset + low))) ∧
    (∀ (n av : Nat) (l : List Heap.TypedValue) (d : Option Bytes),
      baseOf t0 = .ArrayType n elt → tv.V = some (.ArrayValue av) →
      h[av]? = some (.ArrayValue l d) →
      ((∃ r, Heap.TypedValue.GetSlice h tv low high = .ok r) ↔
        (0 ≤ low ∧ low ≤ high ∧ high ≤ (Heap.arrayLen l d : Int))) ∧
      (0 ≤ low → low ≤ high → high ≤ (Heap.arrayLen l d : Int) →
        Heap.TypedValue.GetSlice h tv low high =
          .ok (h ++ [.SliceValue (some av) low (high - low) (Heap.arrayLen l d - low)],
            { T := some (.SliceType elt), V := some (.SliceValue h.length), N := 0 }))) := by
  constructor
  · intro sv base offset length maxcap hb hV hs
    have hdef := getSlice_slice h tv t0 elt sv base offset length maxcap low high hT hb hV hs
    constructor
    · constructor
      · rintro ⟨r, hr⟩
        rw [hdef] at hr
        split_ifs at hr with c1 c2 c3 c4
        exact ⟨by omega, by omega, by omega⟩
      · rintro ⟨h1, h2, h3⟩
        rw [hdef, if_neg (by omega), if_neg (by omega), if_neg (by omega), if_neg (by omega)]
        exact ⟨_, rfl⟩
    · intro h1 h2 h3
      refine ⟨?_, fun h4 h5 => wrapInt_eq _ h4 h5⟩
      rw [hdef, if_neg (by omega), if_neg (by omega), if_neg (by omega), if_neg (by omega)]
  · intro n av l d hb hV ha
    have hdef := getSlice_array h tv t0 elt n av l d low high hT hb hV ha
    constructor
    · constructor
      · rintro ⟨r, hr⟩
        rw [hdef] at hr
        split_ifs at hr with c1 c2 c3 c4
        exact ⟨by omega, by omega, by omega⟩
      · rintro ⟨h1, h2, h3⟩
        rw [hdef, if_neg (by omega), if_neg (by omega), if_neg (by omega), if_neg (by omega)]
        exact ⟨_, rfl⟩
    · intro h1 h2 h3
      rw [hdef, if_neg (by omega), if_neg (by omega), if_neg (by omega), if_neg (by omega)]

/-- The slice `A[1:3][1:3]` of the sample heap: the slice object
`(A, 2, 2, 3)`. -/
theorem getSlice_bounds_and_result_witness :
    Heap.sampleSlice.T = some (.SliceType (.PrimitiveType .IntType)) ∧
    Heap.TypedValue.GetSlice Heap.sampleHeap Heap.sampleSlice 1 3 =
      .ok (Heap.sampleHeap ++ [.SliceValue (some 0) 2 2 3],
        { T := some (.SliceType (.PrimitiveType .IntType)), V := some (.SliceValue 4),
          N := 0 }) :=
  ⟨rfl, ((getSlice_bounds_and_result Heap.sampleHeap Heap.sampleSlice
    (.SliceType (.PrimitiveType .IntType)) (.PrimitiveType .IntType) 1 3 rfl).1
    2 (some 0) 1 2 4 rfl rfl rfl).2 (by decide) (by decide) (by decide) |>.1⟩

theorem getSlice2_slice (h : Heap.Objects) (tv : Heap.TypedValue) (t0 elt : GType)
    (sv : Nat) (base : Option Nat) (offset length maxcap low high max : Int)
    (hT : tv.T = some t0) (hb : baseOf t0 = .SliceType elt)
    (hV : tv.V = some (.SliceValue sv))
    (hs : h[sv]? = some (.SliceValue base offset length maxcap)) :
    Heap.TypedValue.GetSlice2 h tv low high max =
      if low < 0 then
        .error (.fatal "invalid slice index %d (index must be non-negative)" [low])
      else if high < 0 then
        .error (.fatal "invalid slice index %d (index must be non-negative)" [high])
      else if max < 0 then
        .error (.fatal "invalid slice index %d (index must be non-negative)" [max])
      else if low > high then
        .error (.fatal "invalid slice index %d > %d" [low, high])
      else if high > max then
        .error (.fatal "invalid slice index %d > %d" [high, max])
      else if maxcap < high then
        .error (.fatal "slice bounds out of range [%d:%d:%d] with capacity %d"
          [low, high, max, maxcap])
      else if maxcap < max then
        .error (.fatal "slice bounds out of range [%d:%d:%d] with capacity %d"
          [low, high, max, maxcap])
      else
        .ok (h ++ [.SliceValue base (Heap.wrapInt (offset + low)) (high - low) (max - low)],
          { T := tv.T, V := some (.SliceValue h.length), N := 0 }) := by
  simp only [Heap.TypedValue.GetSlice2, hT, hb, Heap.TypedValue.GetCapacity, hV, hs]

theorem getSlice2_array (h : Heap.Objects) (tv : Heap.TypedValue) (t0 elt : GType) (n : Nat)
    (av : Nat) (l : List Heap.TypedValue) (d : Option Bytes) (low high max : Int)
    (hT : tv.T = some t0) (hb : baseOf t0 = .ArrayType n elt)
    (hV : tv.V = some (.ArrayValue av))
    (ha : h[av]? = some (.ArrayValue l d)) :
    Heap.TypedValue.GetSlice2 h tv low high max =
      if low < 0 then
        .error (.fatal "invalid slice index %d (index must be non-negative)" [low])
      else if high < 0 then
        .error (.fatal "invalid slice index %d (index must be non-negative)" [high])
      else if max < 0 then
        .error (.fatal "invalid slice index %d (index must be non-negative)" [max])
      else if low > high then
        .error (.fatal "invalid slice index %d > %d" [low, high])
      else if high > max then
        .error (.fatal "invalid slice index %d > %d" [high, max])
      else if (Heap.arrayLen l d : Int) < high then
        .error (.fatal "slice bounds out of range [%d:%d:%d] with capacity %d"
          [low, high, max, Heap.arrayLen l d])
      else if (Heap.arrayLen l d : Int) < max then
        .error (.fatal "slice bounds out of range [%d:%d:%d] with capacity %d"
          [low, high, max, Heap.arrayLen l d])
      else
        .ok (h ++ [.SliceValue (some av) low (high - low) (max - low)],
          { T := some (.SliceType elt), V := some (.SliceValue h.length), N := 0 }) := by
  obtain ⟨-, h2⟩ := arrayValue_getLength h av l d ha
  simp only [Heap.TypedValue.GetSlice2, hT, hb, Heap.TypedValue.GetCapacity, hV, h2]

/-- C17. `GetSlice2(low, high, max)` on a non-nil slice, and on an array,
returns exactly when `0 ≤ low ≤ high ≤ max ≤` the capacity of the source
(`Maxcap` of the slice, the number of elements of the array), and then the
result holds a new slice object over the same base array (the `Base` of the
slice, the array itself) with the offset `Offset + low` (`low` for an array),
the length `high - low` and the capacity `max - low`. The heap after the call
is the heap before it followed by the one slice object: no element is
copied. -/
theorem getSlice2_bounds_and_result (h : Heap.Objects) (tv : Heap.TypedValue) (t0 elt : GType)
    (low high max : Int) (hT : tv.T = some t0) :
    (∀ (sv : Nat) (base : Option Nat) (offset length maxcap : Int),
      baseOf t0 = .SliceType elt → tv.V = some (.SliceValue sv) →
      h[sv]? = some (.SliceValue base offset length maxcap) →
      ((∃ r, Heap.TypedValue.GetSlice2 h tv low high max = .ok r) ↔
        (0 ≤ low ∧ low ≤ high ∧ high ≤ max ∧ max ≤ maxcap)) ∧
      (0 ≤ low → low ≤ high → high ≤ max → max ≤ maxcap →
        Heap.TypedValue.GetSlice2 h tv low high max =
          .ok (h ++ [.SliceValue base (Heap.wrapInt (offset + low)) (high - low) (max - low)],
            { T := tv.T, V := some (.SliceValue h.length), N := 0 }) ∧
        (-2 ^ 63 ≤ offset + low → offset + low < 2 ^ 63 →
          Heap.wrapInt (offset + low) = offset + low))) ∧
    (∀ (n av : Nat) (l : List Heap.TypedValue) (d : Option Bytes),
      baseOf t0 = .ArrayType n elt → tv.V = some (.ArrayValue av) →
      h[av]? = some (.ArrayValue l d) →
      ((∃ r, Heap.TypedValue.GetSlice2 h tv low high max = .ok r) ↔
        (0 ≤ low ∧ low ≤ high ∧ high ≤ max ∧ max ≤ (Heap.arrayLen l d : Int))) ∧
      (0 ≤ low → low ≤ high → high ≤ max → max ≤ (Heap.arrayLen l d : Int) →
        Heap.TypedValue.GetSlice2 h tv low high max =
          .ok (h ++ [.SliceValue (some av) low (high - low) (max - low)],
            { T := some (.SliceType elt), V := some (.SliceValue h.length), N := 0 }))) := by
  constructor
  · intro sv base offset length maxcap hb hV hs
    have hdef := getSlice2_slice h tv t0 elt sv base offset length maxcap low high max
      hT hb hV hs
    constructor
    · constructor
      · rintro ⟨r, hr⟩
        rw [hdef] at hr
        split_ifs at hr
        exact ⟨by omega, by omega, by omega, by omega⟩
      · rintro ⟨h1, h2, h3, h4⟩
        rw [hdef, if_neg (by omega), if_neg (by omega), if_neg (by omega), if_neg (by omega),
          if_neg (by omega), if_neg (by omega), if_neg (by omega)]
        exact ⟨_, rfl⟩
    · intro h1 h2 h3 h4
      refine ⟨?_, fun h4 h5 => wrapInt_eq _ h4 h5⟩
      rw [hdef, if_neg (by omega), if_neg (by omega), if_neg (by omega), if_neg (by omega),
        if_neg (by omega), if_neg (by omega), if_neg (by omega)]
  · intro n av l d hb hV ha
    have hdef := getSlice2_array h tv t0 elt n av l d low high max hT hb hV ha
    constructor
    · constructor
      · rintro ⟨r, hr⟩
        rw [hdef] at hr
        split_ifs at hr
        exact ⟨by omega, by omega, by omega, by omega⟩
      · rintro ⟨h1, h2, h3, h4⟩
        rw [hdef, if_neg (by omega), if_neg (by omega), if_neg (by omega), if_neg (by omega),
          if_neg (by omega), if_neg (by omega), if_neg (by omega)]
        exact ⟨_, rfl⟩
    · intro h1 h2 h3 h4
      rw [hdef, if_neg (by omega), if_neg (by omega), if_neg (by omega), if_neg (by omega),
        if_neg (by omega), if_neg (by omega), if_neg (by omega)]

/-- The slice `A[1:3:4]` of the array of the sample heap: the slice object
`(A, 1, 2, 3)`. -/
theorem getSlice2_bounds_and_result_witness :
    Heap.sampleArray.T = some (.ArrayType 5 (.PrimitiveType .IntType)) ∧
    Heap.TypedValue.GetSlice2 Heap.sampleHeap Heap.sampleArray 1 3 4 =
      .ok (Heap.sampleHeap ++ [.SliceValue (some 0) 1 2 3],
        { T := some (.SliceType (.PrimitiveType .IntType)), V := some (.SliceValue 4),
          N := 0 }) :=
  ⟨rfl, ((getSlice2_bounds_and_result Heap.sampleHeap Heap.sampleArray
    (.ArrayType 5 (.PrimitiveType .IntType)) (.PrimitiveType .IntType) 1 3 4 rfl).2
    5 0 _ none rfl rfl rfl).2 (by decide) (by decide) (by decide) (by decide)⟩


theorem arrayValue_getCapacity_error (h : Heap.Objects) (av : Nat) (e : Heap.Panic)
    (he : Heap.ArrayValue.GetCapacity h av = .error e) : e.isException = false := by
  unfold Heap.ArrayValue.GetCapacity at he
  split at he <;> cases he
  rfl

theorem getCapacity_error (h : Heap.Objects) (tv : Heap.TypedValue) (e : Heap.Panic)
    (he : Heap.TypedValue.GetCapacity h tv = .error e) : e.isException = false := by
  unfold Heap.TypedValue.GetCapacity at he
  repeat' split at he
  all_goals first
    | exact arrayValue_getCapacity_error _ _ _ he
    | (cases he; rfl)
    | cases he

theorem getSlice2_error (h : Heap.Objects) (tv : Heap.TypedValue) (low high max : Int)
    (e : Heap.Panic) (he : Heap.TypedValue.GetSlice2 h tv low high max = .error e) :
    e.isException = false := by
  unfold Heap.TypedValue.GetSlice2 at he
  repeat' split at he
  all_goals first
    | (cases he; rfl)
    | (cases he; exact getCapacity_error _ _ _ (by assumption))
    | cases he

/-! ### Pointers into the base array of a slice -/

theorem readSlot_list (h : Heap.Objects) (a : Nat) (l : List Heap.TypedValue) (k : Nat)
    (ha : h[a]? = some (.ArrayValue l none)) : Heap.readSlot h a k = l[k]? := by
  simp only [Heap.readSlot, ha]

theorem writeSlot_list (h : Heap.Objects) (a : Nat) (l : List Heap.TypedValue) (k : Nat)
    (x : Heap.TypedValue) (ha : h[a]? = some (.ArrayValue l none)) (hk : k < l.length) :
    Heap.writeSlot h a k x = some (h.set a (.ArrayValue (l.set k x) none)) := by
  simp only [Heap.writeSlot, ha, if_pos hk]

theorem copy_inline (n : Nat) (h : Heap.Objects) (x : Heap.TypedValue) (hx : x.V = none) :
    Heap.TypedValue.Copy (n + 1) h x = .ok (h, x) := by
  simp only [Heap.TypedValue.Copy, hx]

theorem arrayPointer_list (h : Heap.Objects) (a : Nat) (l : List Heap.TypedValue) (m : Int)
    (et : GType) (ha : h[a]? = some (.ArrayValue l none)) (h0 : 0 ≤ m) (h1 : m < l.length) :
    Heap.ArrayValue.GetPointerAtIndexInt2 h a m et =
      .ok (h, { TV := some (a, m.toNat), Base := some a, Index := m }) := by
  simp only [Heap.ArrayValue.GetPointerAtIndexInt2, ha, indexCheck_ok m l.length h0 h1]

theorem slicePointer_list (h : Heap.Objects) (s a : Nat) (offset length maxcap i : Int)
    (l : List Heap.TypedValue) (et : GType)
    (hs : h[s]? = some (.SliceValue (some a) offset length maxcap))
    (ha : h[a]? = some (.ArrayValue l none))
    (h0 : 0 ≤ i) (h1 : i < length) (h2 : 0 ≤ offset) (h3 : offset + length ≤ l.length)
    (h4 : (l.length : Int) < 2 ^ 63) :
    Heap.SliceValue.GetPointerAtIndexInt2 h s i et =
      .ok (h, { TV := some (a, (offset + i).toNat), Base := some a, Index := offset + i }) := by
  simp only [Heap.SliceValue.GetPointerAtIndexInt2, hs, if_neg (not_lt.mpr h0),
    if_neg (not_le.mpr h1)]
  rw [wrapInt_eq _ (by omega) (by omega)]
  exact arrayPointer_list h a l (offset + i) et ha (by omega) (by omega)

theorem deref_list (h : Heap.Objects) (a : Nat) (l : List Heap.TypedValue) (k : Nat)
    (base : Option Nat) (index : Int) (x : Heap.TypedValue)
    (ha : h[a]? = some (.ArrayValue l none)) (hk : l[k]? = some x)
    (hx : Heap.isDataByteType x.T = false) :
    Heap.PointerValue.Deref h { TV := some (a, k), Base := base, Index := index } = .ok x := by
  simp only [Heap.PointerValue.Deref, readSlot_list h a l k ha, hk, hx]
  rfl

theorem assign2_list (env : Heap.Env) (n : Nat) (h : Heap.Objects) (a : Nat)
    (l : List Heap.TypedValue) (k : Nat) (base : Option Nat) (index : Int)
    (cur x : Heap.TypedValue)
    (ha : h[a]? = some (.ArrayValue l none)) (hk : l[k]? = some cur)
    (hc : Heap.isDataByteType cur.T = false) (hx : x.V = none) :
    Heap.PointerValue.Assign2 env (n + 1) h none
        { TV := some (a, k), Base := base, Index := index } x false =
      .ok (h.set a (.ArrayValue (l.set k x) none), none) := by
  have hlt : k < l.length := by
    rcases List.getElem?_eq_some_iff.mp hk with ⟨hlt, -⟩
    exact hlt
  simp only [Heap.PointerValue.Assign2, readSlot_list h a l k ha, hk, hc,
    Heap.TypedValue.Assign, copy_inline n h x hx, writeSlot_list h a l k _ ha hlt]
  cases base <;> simp

theorem getElem?_lt_length (h : Heap.Objects) (a : Nat) (o : Heap.Object)
    (ha : h[a]? = some o) : a < h.length := by
  rcases List.getElem?_eq_some_iff.mp ha with ⟨hlt, -⟩
  exact hlt

theorem slice_list_aliases (env : Heap.Env) (n : Nat) (h : Heap.Objects) (s a : Nat)
    (offset length maxcap i : Int) (l : List Heap.TypedValue) (et : GType)
    (x : Heap.TypedValue)
    (hs : h[s]? = some (.SliceValue (some a) offset length maxcap))
    (ha : h[a]? = some (.ArrayValue l none))
    (h0 : 0 ≤ i) (h1 : i < length) (h2 : 0 ≤ offset) (h3 : offset + length ≤ l.length)
    (h4 : (l.length : Int) < 2 ^ 63)
    (hl : ∀ e ∈ l, Heap.isDataByteType e.T = false)
    (hx : x.V = none) (hxt : Heap.isDataByteType x.T = false) :
    Heap.SliceValue.GetPointerAtIndexInt2 h s i et =
      .ok (h, { TV := some (a, (offset + i).toNat), Base := some a, Index := offset + i }) ∧
    Heap.ArrayValue.GetPointerAtIndexInt2 h a (offset + i) et =
      .ok (h, { TV := some (a, (offset + i).toNat), Base := some a, Index := offset + i }) ∧
    Heap.PointerValue.Assign2 env (n + 1) h none
        { TV := some (a, (offset + i).toNat), Base := some a, Index := offset + i } x false =
      .ok (h.set a (.ArrayValue (l.set (offset + i).toNat x) none), none) ∧
    (∀ m : Int, 0 ≤ m → m < l.length →
      Heap.ArrayValue.GetPointerAtIndexInt2
          (h.set a (.ArrayValue (l.set (offset + i).toNat x) none)) a m et =
        .ok (h.set a (.ArrayValue (l.set (offset + i).toNat x) none),
          { TV := some (a, m.toNat), Base := some a, Index := m }) ∧
      ∃ y, Heap.PointerValue.Deref (h.set a (.ArrayValue (l.set (offset + i).toNat x) none))
          { TV := some (a, m.toNat), Base := some a, Index := m } = .ok y ∧
        (m = offset + i → y = x) ∧ (m ≠ offset + i → l[m.toNat]? = some y)) ∧
    (∀ (s2 : Nat) (offset2 length2 maxcap2 j : Int),
      h[s2]? = some (.SliceValue (some a) offset2 length2 maxcap2) →
      0 ≤ offset2 → offset2 + length2 ≤ l.length → 0 ≤ j → j < length2 →
      Heap.SliceValue.GetPointerAtIndexInt2
          (h.set a (.ArrayValue (l.set (offset + i).toNat x) none)) s2 j et =
        .ok (h.set a (.ArrayValue (l.set (offset + i).toNat x) none),
          { TV := some (a, (offset2 + j).toNat), Base := some a, Index := offset2 + j }) ∧
      ∃ y, Heap.PointerValue.Deref (h.set a (.ArrayValue (l.set (offset + i).toNat x) none))
          { TV := some (a, (offset2 + j).toNat), Base := some a, Index := offset2 + j } =
            .ok y ∧
        (offset2 + j = offset + i → y = x) ∧
        (offset2 + j ≠ offset + i → l[(offset2 + j).toNat]? = some y)) := by
  have hk : (offset + i).toNat < l.length := by omega
  obtain ⟨cur, hcur⟩ : ∃ cur, l[(offset + i).toNat]? = some cur :=
    ⟨l[(offset + i).toNat], List.getElem?_eq_getElem hk⟩
  have hcd : Heap.isDataByteType cur.T = false := hl cur (List.getElem?_mem hcur)
  have halt := getElem?_lt_length h a _ ha
  have ha2 : (h.set a (.ArrayValue (l.set (offset + i).toNat x) none))[a]? =
      some (.ArrayValue (l.set (offset + i).toNat x) none) := by
    rw [List.getElem?_set_self halt]
  have hread : ∀ m : Int, 0 ≤ m → m < l.length →
      ∃ y, Heap.PointerValue.Deref (h.set a (.ArrayValue (l.set (offset + i).toNat x) none))
          { TV := some (a, m.toNat), Base := some a, Index := m } = .ok y ∧
        (m = offset + i → y = x) ∧ (m ≠ offset + i → l[m.toNat]? = some y) := by
    intro m hm0 hm1
    by_cases hm : m = offset + i
    · subst hm
      refine ⟨x, deref_list _ a _ _ _ _ x ha2 ?_ hxt, fun _ => rfl, fun hne => absurd rfl hne⟩
      rw [List.getElem?_set_self hk]
    · have hmk : m.toNat < l.length := by omega
      have hne : (offset + i).toNat ≠ m.toNat := by omega
      have hy : (l.set (offset + i).toNat x)[m.toNat]? = some l[m.toNat] := by
        rw [List.getElem?_set_ne hne]
        exact List.getElem?_eq_getElem hmk
      refine ⟨l[m.toNat], deref_list _ a _ _ _ _ _ ha2 hy ?_, fun he => absurd he hm,
        fun _ => List.getElem?_eq_getElem hmk⟩
      exact hl _ (List.getElem_mem hmk)
  refine ⟨slicePointer_list h s a offset length maxcap i l et hs ha h0 h1 h2 h3 h4,
    arrayPointer_list h a l (offset + i) et ha (by omega) (by omega),
    assign2_list env n h a l _ _ _ cur x ha hcur hcd hx, ?_, ?_⟩
  · intro m hm0 hm1
    refine ⟨arrayPointer_list _ a _ m et ha2 hm0 (by rw [List.length_set]; exact hm1),
      hread m hm0 hm1⟩
  · intro s2 offset2 length2 maxcap2 j hs2 g0 g1 g2 g3
    have hne : a ≠ s2 := by
      intro he
      subst he
      rw [ha] at hs2
      cases hs2
    have hs2b : (h.set a (.ArrayValue (l.set (offset + i).toNat x) none))[s2]? =
        some (.SliceValue (some a) offset2 length2 maxcap2) := by
      rw [List.getElem?_set_ne hne]
      exact hs2
    refine ⟨slicePointer_list _ s2 a offset2 length2 maxcap2 j _ et hs2b ha2 g2 g3 g0
      (by rw [List.length_set]; exact g1) (by rw [List.length_set]; exact h4),
      hread (offset2 + j) (by omega) (by omega)⟩

theorem getElem?_append_one (h : Heap.Objects) (a : Nat) (o p : Heap.Object)
    (ha : h[a]? = some o) : (h ++ [p])[a]? = some o := by
  rw [List.getElem?_append_left (getElem?_lt_length h a o ha)]
  exact ha

theorem readSlot_new (h : Heap.Objects) (tv : Heap.TypedValue) :
    Heap.readSlot (h ++ [.Slot tv]) h.length 0 = some tv := by
  simp [Heap.readSlot]

theorem slicePointer_bytes (h : Heap.Objects) (s a : Nat) (offset length maxcap i : Int)
    (l : List Heap.TypedValue) (data : Bytes) (et : GType)
    (hs : h[s]? = some (.SliceValue (some a) offset length maxcap))
    (ha : h[a]? = some (.ArrayValue l (some data)))
    (h0 : 0 ≤ i) (h1 : i < length) (h2 : 0 ≤ offset) (h3 : offset + length ≤ data.length)
    (h4 : (data.length : Int) < 2 ^ 63) :
    Heap.SliceValue.GetPointerAtIndexInt2 h s i et =
      .ok (h ++ [.Slot (Heap.dataByteSlot a (offset + i) et)],
        { TV := some (h.length, 0), Base := some a, Index := offset + i }) := by
  simp only [Heap.SliceValue.GetPointerAtIndexInt2, hs, if_neg (not_lt.mpr h0),
    if_neg (not_le.mpr h1)]
  rw [wrapInt_eq _ (by omega) (by omega)]
  simp only [Heap.ArrayValue.GetPointerAtIndexInt2, ha]

theorem deref_bytes (h : Heap.Objects) (a : Nat) (l : List Heap.TypedValue) (data : Bytes)
    (m : Int) (et : GType) (base : Option Nat) (index : Int)
    (ha : h[a]? = some (.ArrayValue l (some data))) (h0 : 0 ≤ m) (h1 : m < data.length) :
    Heap.PointerValue.Deref
        (h ++ [.Slot (Heap.dataByteSlot a m et)])
        { TV := some (h.length, 0), Base := base, Index := index } =
      .ok { T := some et, V := none, N := (data[m.toNat]?).getD 0 } := by
  simp only [Heap.PointerValue.Deref, readSlot_new, Heap.dataByteSlot, Heap.isDataByteType,
    if_true,
    Heap.DataByteValue.GetByte, getElem?_append_one h a _ _ ha, Option.getD_some,
    indexCheck_ok m data.length h0 h1]

theorem assign2_bytes (env : Heap.Env) (n : Nat) (h : Heap.Objects) (a : Nat)
    (l : List Heap.TypedValue) (data : Bytes) (m : Int) (et : GType) (base : Option Nat)
    (index : Int) (rlm : Option (List Heap.Update)) (x : Heap.TypedValue) (cu : Bool)
    (ha : h[a]? = some (.ArrayValue l (some data))) (h0 : 0 ≤ m) (h1 : m < data.length) :
    Heap.PointerValue.Assign2 env n
        (h ++ [.Slot (Heap.dataByteSlot a m et)]) rlm
        { TV := some (h.length, 0), Base := base, Index := index } x cu =
      .ok (List.set (h ++ [Heap.Object.Slot (Heap.dataByteSlot a m et)]) a
          (.ArrayValue l (some (data.set m.toNat (x.N % 256)))), rlm) := by
  simp only [Heap.PointerValue.Assign2, readSlot_new, Heap.dataByteSlot, Heap.isDataByteType,
    if_true,
    Heap.DataByteValue.SetByte, getElem?_append_one h a _ _ ha, Option.getD_some,
    indexCheck_ok m data.length h0 h1]

theorem slice_bytes_aliases (env : Heap.Env) (h : Heap.Objects) (s a : Nat)
    (offset length maxcap i : Int) (l : List Heap.TypedValue) (data : Bytes) (et : GType)
    (x : Heap.TypedValue)
    (hs : h[s]? = some (.SliceValue (some a) offset length maxcap))
    (ha : h[a]? = some (.ArrayValue l (some data)))
    (h0 : 0 ≤ i) (h1 : i < length) (h2 : 0 ≤ offset) (h3 : offset + length ≤ data.length)
    (h4 : (data.length : Int) < 2 ^ 63) :
    Heap.SliceValue.GetPointerAtIndexInt2 h s i et =
      .ok (h ++ [.Slot (Heap.dataByteSlot a (offset + i) et)],
        { TV := some (h.length, 0), Base := some a, Index := offset + i }) ∧
    Heap.SliceValue.writeAt env h s i et x =
      .ok (List.set (h ++ [Heap.Object.Slot (Heap.dataByteSlot a (offset + i) et)]) a
        (.ArrayValue l (some (data.set (offset + i).toNat (x.N % 256))))) ∧
    (∀ (s2 : Nat) (offset2 length2 maxcap2 j : Int),
      h[s2]? = some (.SliceValue (some a) offset2 length2 maxcap2) →
      0 ≤ offset2 → offset2 + length2 ≤ data.length → 0 ≤ j → j < length2 →
      ∃ b, Heap.SliceValue.readAt
          (List.set (h ++ [Heap.Object.Slot (Heap.dataByteSlot a (offset + i) et)]) a
            (.ArrayValue l (some (data.set (offset + i).toNat (x.N % 256)))))
          s2 j et = .ok { T := some et, V := none, N := b } ∧
        (offset2 + j = offset + i → b = x.N % 256) ∧
        (offset2 + j ≠ offset + i → data[(offset2 + j).toNat]? = some b)) := by
  have hp := slicePointer_bytes h s a offset length maxcap i l data et hs ha h0 h1 h2 h3 h4
  have hk : (offset + i).toNat < data.length := by omega
  have halt := getElem?_lt_length h a _ ha
  refine ⟨hp, ?_, ?_⟩
  · simp only [Heap.SliceValue.writeAt, hp,
      assign2_bytes env 1 h a l data (offset + i) et (some a) (offset + i) none x false ha
        (by omega) (by omega)]
  · intro s2 offset2 length2 maxcap2 j hs2 g0 g1 g2 g3
    have hne : a ≠ s2 := by
      intro he
      subst he
      rw [ha] at hs2
      cases hs2
    have hs2b : (List.set (h ++ [Heap.Object.Slot (Heap.dataByteSlot a (offset + i) et)]) a
            (.ArrayValue l (some (data.set (offset + i).toNat (x.N % 256)))))[s2]? =
        some (.SliceValue (some a) offset2 length2 maxcap2) := by
      rw [List.getElem?_set_ne hne]
      exact getElem?_append_one h s2 _ _ hs2
    have ha2 : (List.set (h ++ [Heap.Object.Slot (Heap.dataByteSlot a (offset + i) et)]) a
            (.ArrayValue l (some (data.set (offset + i).toNat (x.N % 256)))))[a]? =
        some (.ArrayValue l (some (data.set (offset + i).toNat (x.N % 256)))) := by
      rw [List.getElem?_set_self (by rw [List.length_append]; omega)]
    have hlen : (data.set (offset + i).toNat (x.N % 256)).length = data.length :=
      List.length_set _ _ _
    have hm : (offset2 + j).toNat < data.length := by omega
    refine ⟨((data.set (offset + i).toNat (x.N % 256))[(offset2 + j).toNat]?).getD 0, ?_, ?_, ?_⟩
    · simp only [Heap.SliceValue.readAt,
        slicePointer_bytes _ s2 a offset2 length2 maxcap2 j l _ et hs2b ha2 g2 g3 g0
          (by rw [hlen]; exact g1) (by rw [hlen]; exact h4),
        deref_bytes _ a l _ (offset2 + j) et (some a) (offset2 + j) ha2 (by omega)
          (by rw [hlen]; omega)]
    · intro he
      rw [he, List.getElem?_set_self hk]
      rfl
    · intro he
      have hne2 : (offset + i).toNat ≠ (offset2 + j).toNat := by omega
      rw [List.getElem?_set_ne hne2, List.getElem?_eq_getElem hm]
      rfl
/-- C18 (the code at the failing input). On the slice `A[1:3]` of the sample
heap, every bounds failure of `GetSlice2` (a negative low, high or max,
low > high, high > max, high or max above the capacity 4) is a panic with a
plain string, not an exception value; the same failures of `GetSlice` are
exception values. On every heap and slot, no failure of `GetSlice2` is an
exception value. -/
theorem getSlice2_failures_are_plain_strings :
    Heap.TypedValue.GetSlice2 Heap.sampleHeap Heap.sampleSlice (-1) 1 2 =
      .error (.fatal "invalid slice index %d (index must be non-negative)" [-1]) ∧
    Heap.TypedValue.GetSlice2 Heap.sampleHeap Heap.sampleSlice 0 (-1) 2 =
      .error (.fatal "invalid slice index %d (index must be non-negative)" [-1]) ∧
    Heap.TypedValue.GetSlice2 Heap.sampleHeap Heap.sampleSlice 0 1 (-1) =
      .error (.fatal "invalid slice index %d (index must be non-negative)" [-1]) ∧
    Heap.TypedValue.GetSlice2 Heap.sampleHeap Heap.sampleSlice 2 1 3 =
      .error (.fatal "invalid slice index %d > %d" [2, 1]) ∧
    Heap.TypedValue.GetSlice2 Heap.sampleHeap Heap.sampleSlice 0 3 2 =
      .error (.fatal "invalid slice index %d > %d" [3, 2]) ∧
    Heap.TypedValue.GetSlice2 Heap.sampleHeap Heap.sampleSlice 0 5 6 =
      .error (.fatal "slice bounds out of range [%d:%d:%d] with capacity %d" [0, 5, 6, 4]) ∧
    Heap.TypedValue.GetSlice2 Heap.sampleHeap Heap.sampleSlice 0 1 5 =
      .error (.fatal "slice bounds out of range [%d:%d:%d] with capacity %d" [0, 1, 5, 4]) ∧
    (Heap.Panic.fatal "invalid slice index %d (index must be non-negative)" [-1]).isException
      = false ∧
    Heap.TypedValue.GetSlice Heap.sampleHeap Heap.sampleSlice (-1) 1 =
      .error (.exception "invalid slice index %d (index must be non-negative)" [-1]) ∧
    Heap.TypedValue.GetSlice Heap.sampleHeap Heap.sampleSlice 2 1 =
      .error (.exception "invalid slice index %d > %d" [2, 1]) ∧
    Heap.TypedValue.GetSlice Heap.sampleHeap Heap.sampleSlice 0 5 =
      .error (.exception "slice bounds out of range [%d:%d] with capacity %d" [0, 5, 4]) ∧
    (∀ (h : Heap.Objects) (tv : Heap.TypedValue) (low high max : Int),
      match Heap.TypedValue.GetSlice2 h tv low high max with
      | .error e => e.isException = false
      | .ok _ => True) := by
  refine ⟨rfl, rfl, rfl, rfl, rfl, rfl, rfl, rfl, rfl, rfl, rfl, ?_⟩
  intro h tv low high max
  cases hc : Heap.TypedValue.GetSlice2 h tv low high max with
  | error e => exact getSlice2_error h tv low high max e hc
  | ok r => trivial

/-- C19. For a slice `s = (A, Offset, Length, Maxcap)` and `0 ≤ i < Length`,
the window of `s` lying within the array `A`. When `A` holds an element list,
the pointer `s.GetPointerAtIndexInt2(i)` is the pointer to element
`Offset + i` of `A` (`TV` the slot `Offset + i` of `A`, `Base = A`,
`Index = Offset + i`), the pointer `A.GetPointerAtIndexInt2(Offset + i)`
itself; after the assignment of an inline value `x` through it, the element
`m` read through `A` is `x` for `m = Offset + i` and the old element
otherwise, and the element `j` read through every slice
`(A, Offset2, Length2, Maxcap2)` is `x` when `Offset2 + j = Offset + i` and
the old element of `A` otherwise. When `A` holds a byte buffer, the pointer
has `Base = A` and `Index = Offset + i` and points to a new slot that stands
for the byte `Offset + i` of `A`; after the assignment of `x` through it the
byte read through every slice of `A` at the backing index `Offset + i` is the
low byte of `x`, and the old byte at every other index. -/
theorem slice_pointer_aliases_base (env : Heap.Env) (h : Heap.Objects) (s a : Nat)
    (offset length maxcap i : Int) (et : GType) (x : Heap.TypedValue)
    (hs : h[s]? = some (.SliceValue (some a) offset length maxcap))
    (h0 : 0 ≤ i) (h1 : i < length) (h2 : 0 ≤ offset) :
    (∀ l : List Heap.TypedValue, h[a]? = some (.ArrayValue l none) →
      offset + length ≤ l.length → (l.length : Int) < 2 ^ 63 →
      (∀ e ∈ l, Heap.isDataByteType e.T = false) →
      x.V = none → Heap.isDataByteType x.T = false →
      Heap.SliceValue.GetPointerAtIndexInt2 h s i et =
        .ok (h, { TV := some (a, (offset + i).toNat), Base := some a, Index := offset + i }) ∧
      Heap.ArrayValue.GetPointerAtIndexInt2 h a (offset + i) et =
        .ok (h, { TV := some (a, (offset + i).toNat), Base := some a, Index := offset + i }) ∧
      Heap.SliceValue.writeAt env h s i et x =
        .ok (h.set a (.ArrayValue (l.set (offset + i).toNat x) none)) ∧
      (∀ m : Int, 0 ≤ m → m < l.length →
        ∃ y, Heap.ArrayValue.readAt
            (h.set a (.ArrayValue (l.set (offset + i).toNat x) none)) a m et = .ok y ∧
          (m = offset + i → y = x) ∧ (m ≠ offset + i → l[m.toNat]? = some y)) ∧
      (∀ (s2 : Nat) (offset2 length2 maxcap2 j : Int),
        h[s2]? = some (.SliceValue (some a) offset2 length2 maxcap2) →
        0 ≤ offset2 → offset2 + length2 ≤ l.length → 0 ≤ j → j < length2 →
        ∃ y, Heap.SliceValue.readAt
            (h.set a (.ArrayValue (l.set (offset + i).toNat x) none)) s2 j et = .ok y ∧
          (offset2 + j = offset + i → y = x) ∧
          (offset2 + j ≠ offset + i → l[(offset2 + j).toNat]? = some y))) ∧
    (∀ (l : List Heap.TypedValue) (data : Bytes), h[a]? = some (.ArrayValue l (some data)) →
      offset + length ≤ data.length → (data.length : Int) < 2 ^ 63 →
      Heap.SliceValue.GetPointerAtIndexInt2 h s i et =
        .ok (h ++ [.Slot (Heap.dataByteSlot a (offset + i) et)],
          { TV := some (h.length, 0), Base := some a, Index := offset + i }) ∧
      Heap.SliceValue.writeAt env h s i et x =
        .ok (List.set (h ++ [Heap.Object.Slot (Heap.dataByteSlot a (offset + i) et)]) a
          (.ArrayValue l (some (data.set (offset + i).toNat (x.N % 256))))) ∧
      (∀ (s2 : Nat) (offset2 length2 maxcap2 j : Int),
        h[s2]? = some (.SliceValue (some a) offset2 length2 maxcap2) →
        0 ≤ offset2 → offset2 + length2 ≤ data.length → 0 ≤ j → j < length2 →
        ∃ b, Heap.SliceValue.readAt
            (List.set (h ++ [Heap.Object.Slot (Heap.dataByteSlot a (offset + i) et)]) a
              (.ArrayValue l (some (data.set (offset + i).toNat (x.N % 256)))))
            s2 j et = .ok { T := some et, V := none, N := b } ∧
          (offset2 + j = offset + i → b = x.N % 256) ∧
          (offset2 + j ≠ offset + i → data[(offset2 + j).toNat]? = some b))) := by
  constructor
  · intro l ha h3 h4 hl hx hxt
    obtain ⟨g1, g2, g3, g4, g5⟩ :=
      slice_list_aliases env 0 h s a offset length maxcap i l et x hs ha h0 h1 h2 h3 h4 hl hx hxt
    refine ⟨g1, g2, ?_, ?_, ?_⟩
    · simp only [Heap.SliceValue.writeAt, g1, g3]
    · intro m hm0 hm1
      obtain ⟨q1, y, q2, q3⟩ := g4 m hm0 hm1
      exact ⟨y, by simp only [Heap.ArrayValue.readAt, q1, q2], q3⟩
    · intro s2 offset2 length2 maxcap2 j hs2 c0 c1 c2 c3
      obtain ⟨q1, y, q2, q3⟩ := g5 s2 offset2 length2 maxcap2 j hs2 c0 c1 c2 c3
      exact ⟨y, by simp only [Heap.SliceValue.readAt, q1, q2], q3⟩
  · intro l data ha h3 h4
    exact slice_bytes_aliases env h s a offset length maxcap i l data et x hs ha h0 h1 h2 h3 h4

/-- The array `A` of five elements of the sample heap with its slices
`A[1:3]` (object 2) and `A[2:4]` (object 3): the pointer at index 1 of
`A[1:3]` is the pointer to element 2 of `A`; the value 99 written at index 1
of `A[1:3]` is read at index 0 of `A[2:4]`; the value written at index 0 of
`A[1:3]`, element 1 of `A`, leaves the elements 30 and 40 read through
`A[2:4]`. -/
theorem slice_pointer_aliases_base_witness :
    Heap.SliceValue.GetPointerAtIndexInt2 Heap.sampleHeap 2 1 (.PrimitiveType .IntType) =
      .ok (Heap.sampleHeap, { TV := some (0, 2), Base := some 0, Index := 2 }) ∧
    (Heap.SliceValue.writeAt Heap.sampleEnv Heap.sampleHeap 2 1 (.PrimitiveType .IntType)
        (Heap.intSlot 99)).bind
      (fun h2 => Heap.SliceValue.readAt h2 3 0 (.PrimitiveType .IntType)) =
      .ok (Heap.intSlot 99) ∧
    (Heap.SliceValue.writeAt Heap.sampleEnv Heap.sampleHeap 2 0 (.PrimitiveType .IntType)
        (Heap.intSlot 99)).bind
      (fun h2 => Heap.SliceValue.readAt h2 3 0 (.PrimitiveType .IntType)) =
      .ok (Heap.intSlot 30) ∧
    (Heap.SliceValue.writeAt Heap.sampleEnv Heap.sampleHeap 2 0 (.PrimitiveType .IntType)
        (Heap.intSlot 99)).bind
      (fun h2 => Heap.SliceValue.readAt h2 3 1 (.PrimitiveType .IntType)) =
      .ok (Heap.intSlot 40) ∧
    (Heap.SliceValue.writeAt Heap.sampleEnv Heap.sampleHeap 2 0 (.PrimitiveType .IntType)
        (Heap.intSlot 99)).bind
      (fun h2 => Heap.SliceValue.readAt h2 2 0 (.PrimitiveType .IntType)) =
      .ok (Heap.intSlot 99) :=
  ⟨((slice_pointer_aliases_base Heap.sampleEnv Heap.sampleHeap 2 0 1 2 4 1
      (.PrimitiveType .IntType) (Heap.intSlot 99) rfl (by decide) (by decide) (by decide)).1
      _ rfl (by decide) (by decide) (by decide) rfl rfl).1,
    rfl, rfl, rfl, rfl⟩

/-! ### Lookup in the ordered map -/

/-- C20. `GetValueForKey`, called with a key that has key bytes, returns the
value of the item indexed under the key bytes together with `true` when the
index holds the key bytes, and the undefined slot together with `false` when
it does not. On a map that satisfies the invariant the first case is the case
that an item of the list has a key with these key bytes, and the value is the
value of that item. The map is an argument of the call only: the call returns
no map, so the list, the index and `Size` after it are those before it. -/
theorem getValueForKey_lookup (ext : Externals) (mv : MapValue) (key : TypedValue)
    (kmk : MapKey) (hk : key.ComputeMapKey ext false = .ok kmk) :
    (∀ (a : Nat) (it : MapListItem), mv.vmap kmk = some a → mv.items[a]? = some it →
      mv.GetValueForKey ext key = .ok (it.Value, true)) ∧
    (mv.vmap kmk = none →
      mv.GetValueForKey ext key = .ok (TypedValue.mk none none 0, false)) ∧
    (∀ l : List Nat, mv.WF ext l →
      (∃ a ∈ l, ∃ it : MapListItem, mv.items[a]? = some it ∧
        it.Key.ComputeMapKey ext false = .ok kmk ∧
        mv.GetValueForKey ext key = .ok (it.Value, true)) ∨
      ((∀ a ∈ l, ∀ it : MapListItem, mv.items[a]? = some it →
          it.Key.ComputeMapKey ext false ≠ .ok kmk) ∧
        mv.GetValueForKey ext key = .ok (TypedValue.mk none none 0, false))) := by
  refine ⟨?_, ?_, ?_⟩
  · intro a it hv hit
    simp only [MapValue.GetValueForKey, hk, hv, hit]
  · intro hv
    simp only [MapValue.GetValueForKey, hk, hv]
  · intro l hwf
    cases hv : mv.vmap kmk with
    | some a =>
      obtain ⟨hal, it, hit, hkey⟩ := (hwf.1.2.2.2.2.2 kmk a).mp hv
      exact Or.inl ⟨a, hal, it, hit, hkey, by simp only [MapValue.GetValueForKey, hk, hv, hit]⟩
    | none =>
      refine Or.inr ⟨?_, by simp only [MapValue.GetValueForKey, hk, hv]⟩
      intro a hal it hit hkey
      have := (hwf.1.2.2.2.2.2 kmk a).mpr ⟨hal, it, hit, hkey⟩
      rw [hv] at this
      cases this

/-- On the empty map the key "a" is not found; after the insertion of
"a"→1 it is found with the value 1, and the key "b" is not found. -/
theorem getValueForKey_lookup_witness :
    (MapValue.MakeMap 0).GetValueForKey sampleExt
        (TypedValue.mk (some (.PrimitiveType .StringType)) (some (.StringValue [97])) 0) =
      .ok (TypedValue.mk none none 0, false) ∧
    ∃ mv, (MapValue.MakeMap 0).run sampleExt
        [.insert (TypedValue.mk (some (.PrimitiveType .StringType)) (some (.StringValue [97])) 0)
          (TypedValue.mk (some (.PrimitiveType .IntType)) none 1)] = .ok mv ∧
      mv.GetValueForKey sampleExt
          (TypedValue.mk (some (.PrimitiveType .StringType)) (some (.StringValue [97])) 0) =
        .ok (TypedValue.mk (some (.PrimitiveType .IntType)) none 1, true) ∧
      mv.GetValueForKey sampleExt
          (TypedValue.mk (some (.PrimitiveType .StringType)) (some (.StringValue [98])) 0) =
        .ok (TypedValue.mk none none 0, false) :=
  ⟨(getValueForKey_lookup sampleExt (MapValue.MakeMap 0)
      (TypedValue.mk (some (.PrimitiveType .StringType)) (some (.StringValue [97])) 0)
      [115, 116, 114, 105, 110, 103, 58, 97] rfl).2.1 rfl,
    _, rfl, rfl, rfl⟩

/-! ### The copy of a slot and the content of a slot -/

theorem prefix_getElem? (h h2 : Heap.Objects) (hp : h <+: h2) (a : Nat) (o : Heap.Object)
    (ha : h[a]? = some o) : h2[a]? = some o := by
  obtain ⟨r, rfl⟩ := hp
  rw [List.getElem?_append_left (getElem?_lt_length h a o ha)]
  exact ha

theorem contentAll_some (f : Heap.TypedValue → Option Heap.Content) :
    ∀ (l : List Heap.TypedValue) (ts : List Heap.Content), Heap.contentAll f l = some ts →
      List.Forall₂ (fun x t => f x = some t) l ts
  | [], ts, hc => by
    simp only [Heap.contentAll, Option.some.injEq] at hc
    subst hc
    exact List.Forall₂.nil
  | x :: xs, ts, hc => by
    simp only [Heap.contentAll] at hc
    cases hx : f x with
    | none => rw [hx] at hc; simp at hc
    | some c =>
      cases hxs : Heap.contentAll f xs with
      | none => rw [hx, hxs] at hc; simp at hc
      | some cs =>
        rw [hx, hxs] at hc
        simp only [Option.some.injEq] at hc
        subst hc
        exact List.Forall₂.cons hx (contentAll_some f xs cs hxs)

theorem contentAll_of (f : Heap.TypedValue → Option Heap.Content) :
    ∀ (l : List Heap.TypedValue) (ts : List Heap.Content),
      List.Forall₂ (fun x t => f x = some t) l ts → Heap.contentAll f l = some ts
  | _, _, .nil => rfl
  | _, _, .cons hx hxs => by
    simp only [Heap.contentAll, hx, contentAll_of f _ _ hxs]

theorem content_succ (n : Nat) (h : Heap.Objects) (tv : Heap.TypedValue) :
    Heap.content (n + 1) h tv =
      match tv.V with
      | some (.BigintValue a) =>
        match h[a]? with
        | some (.BigInt z) => some (.bigint tv.T z)
        | _ => none
      | some (.BigdecValue a) =>
        match h[a]? with
        | some (.Decimal c e) => some (.decimal tv.T c e)
        | _ => none
      | some (.ArrayValue a) =>
        match h[a]? with
        | some (.ArrayValue l none) => (Heap.contentAll (Heap.content n h) l).map (.list tv.T)
        | some (.ArrayValue _ (some d)) => some (.bytes tv.T d)
        | _ => none
      | some (.StructValue a) =>
        match h[a]? with
        | some (.StructValue fs) => (Heap.contentAll (Heap.content n h) fs).map (.struct tv.T)
        | _ => none
      | _ => some (.slot tv.T tv.V tv.N) := rfl

theorem content_bigint (n : Nat) (h : Heap.Objects) (tv : Heap.TypedValue) (a : Nat)
    (t : Heap.Content) (hV : tv.V = some (.BigintValue a))
    (hc : Heap.content (n + 1) h tv = some t) :
    ∃ z, h[a]? = some (.BigInt z) ∧ t = .bigint tv.T z := by
  rw [content_succ, hV] at hc
  simp only at hc
  split at hc
  · rename_i z ho
    exact ⟨z, ho, by cases hc; rfl⟩
  · cases hc

theorem content_bigdec (n : Nat) (h : Heap.Objects) (tv : Heap.TypedValue) (a : Nat)
    (t : Heap.Content) (hV : tv.V = some (.BigdecValue a))
    (hc : Heap.content (n + 1) h tv = some t) :
    ∃ c e, h[a]? = some (.Decimal c e) ∧ t = .decimal tv.T c e := by
  rw [content_succ, hV] at hc
  simp only at hc
  split at hc
  · rename_i c e ho
    exact ⟨c, e, ho, by cases hc; rfl⟩
  · cases hc

theorem content_array (n : Nat) (h : Heap.Objects) (tv : Heap.TypedValue) (a : Nat)
    (t : Heap.Content) (hV : tv.V = some (.ArrayValue a))
    (hc : Heap.content (n + 1) h tv = some t) :
    (∃ l ts, h[a]? = some (.ArrayValue l none) ∧
      Heap.contentAll (Heap.content n h) l = some ts ∧ t = .list tv.T ts) ∨
    (∃ l d, h[a]? = some (.ArrayValue l (some d)) ∧ t = .bytes tv.T d) := by
  rw [content_succ, hV] at hc
  simp only at hc
  split at hc
  · rename_i l ho
    cases hl : Heap.contentAll (Heap.content n h) l with
    | none => rw [hl] at hc; cases hc
    | some ts =>
      rw [hl] at hc
      exact Or.inl ⟨l, ts, ho, hl, by cases hc; rfl⟩
  · rename_i l d ho
    exact Or.inr ⟨l, d, ho, by cases hc; rfl⟩
  · cases hc

theorem content_struct (n : Nat) (h : Heap.Objects) (tv : Heap.TypedValue) (a : Nat)
    (t : Heap.Content) (hV : tv.V = some (.StructValue a))
    (hc : Heap.content (n + 1) h tv = some t) :
    ∃ fs ts, h[a]? = some (.StructValue fs) ∧
      Heap.contentAll (Heap.content n h) fs = some ts ∧ t = .struct tv.T ts := by
  rw [content_succ, hV] at hc
  simp only at hc
  split at hc
  · rename_i fs ho
    cases hl : Heap.contentAll (Heap.content n h) fs with
    | none => rw [hl] at hc; cases hc
    | some ts =>
      rw [hl] at hc
      exact ⟨fs, ts, ho, hl, by cases hc; rfl⟩
  · cases hc

theorem content_of_bigint (n : Nat) (h : Heap.Objects) (tv : Heap.TypedValue) (a : Nat)
    (z : Int) (hV : tv.V = some (.BigintValue a)) (ho : h[a]? = some (.BigInt z)) :
    Heap.content (n + 1) h tv = some (.bigint tv.T z) := by
  rw [content_succ, hV]
  simp only [ho]

theorem content_of_bigdec (n : Nat) (h : Heap.Objects) (tv : Heap.TypedValue) (a : Nat)
    (c e : Int) (hV : tv.V = some (.BigdecValue a)) (ho : h[a]? = some (.Decimal c e)) :
    Heap.content (n + 1) h tv = some (.decimal tv.T c e) := by
  rw [content_succ, hV]
  simp only [ho]

theorem content_of_list (n : Nat) (h : Heap.Objects) (tv : Heap.TypedValue) (a : Nat)
    (l : List Heap.TypedValue) (ts : List Heap.Content)
    (hV : tv.V = some (.ArrayValue a)) (ho : h[a]? = some (.ArrayValue l none))
    (hl : Heap.contentAll (Heap.content n h) l = some ts) :
    Heap.content (n + 1) h tv = some (.list tv.T ts) := by
  rw [content_succ, hV]
  simp only [ho, hl, Option.map_some']

theorem content_of_bytes (n : Nat) (h : Heap.Objects) (tv : Heap.TypedValue) (a : Nat)
    (l : List Heap.TypedValue) (d : Bytes)
    (hV : tv.V = some (.ArrayValue a)) (ho : h[a]? = some (.ArrayValue l (some d))) :
    Heap.content (n + 1) h tv = some (.bytes tv.T d) := by
  rw [content_succ, hV]
  simp only [ho]

theorem content_of_struct (n : Nat) (h : Heap.Objects) (tv : Heap.TypedValue) (a : Nat)
    (fs : List Heap.TypedValue) (ts : List Heap.Content)
    (hV : tv.V = some (.StructValue a)) (ho : h[a]? = some (.StructValue fs))
    (hl : Heap.contentAll (Heap.content n h) fs = some ts) :
    Heap.content (n + 1) h tv = some (.struct tv.T ts) := by
  rw [content_succ, hV]
  simp only [ho, hl, Option.map_some']

theorem contentAll_mono (f g : Heap.TypedValue → Option Heap.Content)
    (hfg : ∀ x t, f x = some t → g x = some t) (l : List Heap.TypedValue)
    (ts : List Heap.Content) (hl : Heap.contentAll f l = some ts) :
    Heap.contentAll g l = some ts :=
  contentAll_of g l ts ((contentAll_some f l ts hl).imp (fun x t hx => hfg x t hx))

theorem content_mono : ∀ (n : Nat) (h h2 : Heap.Objects) (tv : Heap.TypedValue)
    (t : Heap.Content), h <+: h2 → Heap.content n h tv = some t →
    Heap.content n h2 tv = some t
  | 0, _, _, _, _, _, hc => by cases hc
  | n + 1, h, h2, tv, t, hp, hc => by
    have ih := fun x t => content_mono n h h2 x t hp
    cases hV : tv.V with
    | none => rw [content_succ, hV] at hc ⊢; exact hc
    | some v =>
      cases v with
      | BigintValue a =>
        obtain ⟨z, ho, rfl⟩ := content_bigint n h tv a t hV hc
        exact content_of_bigint n h2 tv a z hV (prefix_getElem? h h2 hp a _ ho)
      | BigdecValue a =>
        obtain ⟨c, e, ho, rfl⟩ := content_bigdec n h tv a t hV hc
        exact content_of_bigdec n h2 tv a c e hV (prefix_getElem? h h2 hp a _ ho)
      | ArrayValue a =>
        rcases content_array n h tv a t hV hc with ⟨l, ts, ho, hl, rfl⟩ | ⟨l, d, ho, rfl⟩
        · exact content_of_list n h2 tv a l ts hV (prefix_getElem? h h2 hp a _ ho)
            (contentAll_mono _ _ ih l ts hl)
        · exact content_of_bytes n h2 tv a l d hV (prefix_getElem? h h2 hp a _ ho)
      | StructValue a =>
        obtain ⟨fs, ts, ho, hl, rfl⟩ := content_struct n h tv a t hV hc
        exact content_of_struct n h2 tv a fs ts hV (prefix_getElem? h h2 hp a _ ho)
          (contentAll_mono _ _ ih fs ts hl)
      | _ => rw [content_succ, hV] at hc ⊢; exact hc

theorem copy_bigint (n : Nat) (h : Heap.Objects) (tv : Heap.TypedValue) (a : Nat) (z : Int)
    (hV : tv.V = some (.BigintValue a)) (ho : h[a]? = some (.BigInt z)) :
    Heap.TypedValue.Copy (n + 1) h tv =
      .ok (h ++ [.BigInt z], { T := tv.T, V := some (.BigintValue h.length), N := 0 }) := by
  simp only [Heap.TypedValue.Copy, hV, Heap.BigintValue.Copy, ho]

theorem copy_list (n : Nat) (h : Heap.Objects) (tv : Heap.TypedValue) (a : Nat)
    (l : List Heap.TypedValue) (hV : tv.V = some (.ArrayValue a))
    (ho : h[a]? = some (.ArrayValue l none)) :
    Heap.TypedValue.Copy (n + 1) h tv =
      .ok (h ++ [.ArrayValue l none],
        { T := tv.T, V := some (.ArrayValue h.length), N := 0 }) := by
  simp only [Heap.TypedValue.Copy, hV, Heap.ArrayValue.Copy, ho]

theorem copy_bytes (n : Nat) (h : Heap.Objects) (tv : Heap.TypedValue) (a : Nat)
    (l : List Heap.TypedValue) (d : Bytes) (hV : tv.V = some (.ArrayValue a))
    (ho : h[a]? = some (.ArrayValue l (some d))) :
    Heap.TypedValue.Copy (n + 1) h tv =
      .ok (h ++ [.ArrayValue [] (some d)],
        { T := tv.T, V := some (.ArrayValue h.length), N := 0 }) := by
  simp only [Heap.TypedValue.Copy, hV, Heap.ArrayValue.Copy, ho]

theorem copy_struct (n : Nat) (h h1 : Heap.Objects) (tv : Heap.TypedValue) (a : Nat)
    (fs fs2 : List Heap.TypedValue) (hV : tv.V = some (.StructValue a))
    (ho : h[a]? = some (.StructValue fs))
    (hf : Heap.copyFields (Heap.TypedValue.Copy n) h fs = .ok (h1, fs2)) :
    Heap.TypedValue.Copy (n + 1) h tv =
      .ok (h1 ++ [.StructValue fs2],
        { T := tv.T, V := some (.StructValue h1.length), N := 0 }) := by
  simp only [Heap.TypedValue.Copy, hV, Heap.StructValue.Copy, ho, hf]

theorem copy_other (n : Nat) (h : Heap.Objects) (tv : Heap.TypedValue)
    (h1 : ∀ a, tv.V ≠ some (.BigintValue a)) (h2 : ∀ a, tv.V ≠ some (.ArrayValue a))
    (h3 : ∀ a, tv.V ≠ some (.StructValue a)) :
    Heap.TypedValue.Copy (n + 1) h tv = .ok (h, tv) := by
  cases hV : tv.V with
  | none => simp only [Heap.TypedValue.Copy, hV]
  | some v =>
    cases v with
    | BigintValue a => exact absurd hV (h1 a)
    | ArrayValue a => exact absurd hV (h2 a)
    | StructValue a => exact absurd hV (h3 a)
    | _ => simp only [Heap.TypedValue.Copy, hV]

theorem getElem?_append_length (h : Heap.Objects) (o : Heap.Object) :
    (h ++ [o])[h.length]? = some o := by
  simp

theorem copyFields_content (n : Nat)
    (ih : ∀ (h : Heap.Objects) (tv : Heap.TypedValue) (t : Heap.Content),
      Heap.content n h tv = some t →
      ∃ h2 cp, Heap.TypedValue.Copy n h tv = .ok (h2, cp) ∧ h <+: h2 ∧
        Heap.content n h2 cp = some t ∧ cp.T = tv.T) :
    ∀ (fs : List Heap.TypedValue) (h : Heap.Objects) (ts : List Heap.Content),
      Heap.contentAll (Heap.content n h) fs = some ts →
      ∃ h1 fs2, Heap.copyFields (Heap.TypedValue.Copy n) h fs = .ok (h1, fs2) ∧ h <+: h1 ∧
        Heap.contentAll (Heap.content n h1) fs2 = some ts ∧
        List.Forall₂ (fun f f2 => ∃ hi hj, h <+: hi ∧ hj <+: h1 ∧
          Heap.TypedValue.Copy n hi f = .ok (hj, f2)) fs fs2
  | [], h, ts, hc => by
    refine ⟨h, [], rfl, List.prefix_refl h, ?_, List.Forall₂.nil⟩
    exact hc
  | f :: rest, h, ts, hc => by
    cases contentAll_some _ _ _ hc with
    | cons hf hrest =>
      rename_i c cs
      obtain ⟨h2, f2, hcp, hp, hc2, -⟩ := ih h f c hf
      have hrest2 : Heap.contentAll (Heap.content n h2) rest = some cs :=
        contentAll_of _ _ _ (hrest.imp (fun x t hx => content_mono n h h2 x t hp hx))
      obtain ⟨h1, fs2, hcf, hp1, hc1, hall⟩ := copyFields_content n ih rest h2 cs hrest2
      refine ⟨h1, f2 :: fs2, ?_, List.IsPrefix.trans hp hp1, ?_, ?_⟩
      · simp only [Heap.copyFields, hcp, hcf]
      · simp only [Heap.contentAll, content_mono n h2 h1 f2 c hp1 hc2, hc1]
      · refine List.Forall₂.cons ⟨h, h2, List.prefix_refl h, hp1, hcp⟩ ?_
        exact hall.imp (fun x y ⟨hi, hj, q1, q2, q3⟩ =>
          ⟨hi, hj, List.IsPrefix.trans hp q1, q2, q3⟩)

theorem copy_content : ∀ (n : Nat) (h : Heap.Objects) (tv : Heap.TypedValue)
    (t : Heap.Content), Heap.content n h tv = some t →
    ∃ h2 cp, Heap.TypedValue.Copy n h tv = .ok (h2, cp) ∧ h <+: h2 ∧
      Heap.content n h2 cp = some t ∧ cp.T = tv.T
  | 0, _, _, _, hc => by cases hc
  | n + 1, h, tv, t, hc => by
    cases hV : tv.V with
    | none =>
      refine ⟨h, tv, copy_other n h tv ?_ ?_ ?_, List.prefix_refl h, hc, rfl⟩ <;>
        (intro a; rw [hV]; exact fun hx => by cases hx)
    | some v =>
      cases v with
      | BigintValue a =>
        obtain ⟨z, ho, rfl⟩ := content_bigint n h tv a t hV hc
        exact ⟨_, _, copy_bigint n h tv a z hV ho, List.prefix_append _ _,
          content_of_bigint n _ _ h.length z rfl (getElem?_append_length h _), rfl⟩
      | ArrayValue a =>
        rcases content_array n h tv a t hV hc with ⟨l, ts, ho, hl, rfl⟩ | ⟨l, d, ho, rfl⟩
        · exact ⟨_, _, copy_list n h tv a l hV ho, List.prefix_append _ _,
            content_of_list n _ _ h.length l ts rfl (getElem?_append_length h _)
              (contentAll_mono _ _
                (fun x t => content_mono n h _ x t (List.prefix_append _ _)) l ts hl), rfl⟩
        · exact ⟨_, _, copy_bytes n h tv a l d hV ho, List.prefix_append _ _,
            content_of_bytes n _ _ h.length [] d rfl (getElem?_append_length h _), rfl⟩
      | StructValue a =>
        obtain ⟨fs, ts, ho, hl, rfl⟩ := content_struct n h tv a t hV hc
        obtain ⟨h1, fs2, hcf, hp1, hc1, -⟩ :=
          copyFields_content n (copy_content n) fs h ts hl
        exact ⟨_, _, copy_struct n h h1 tv a fs fs2 hV ho hcf,
          List.IsPrefix.trans hp1 (List.prefix_append _ _),
          content_of_struct n _ _ h1.length fs2 ts rfl (getElem?_append_length h1 _)
            (contentAll_mono _ _
              (fun x t => content_mono n h1 _ x t (List.prefix_append _ _)) fs2 ts hc1), rfl⟩
      | _ =>
        refine ⟨h, tv, copy_other n h tv ?_ ?_ ?_, List.prefix_refl h, hc, rfl⟩ <;>
          (intro a; rw [hV]; exact fun hx => by cases hx)

theorem copy_bigint_inv (n : Nat) (h h2 : Heap.Objects) (tv cp : Heap.TypedValue) (a : Nat)
    (hV : tv.V = some (.BigintValue a))
    (hcp : Heap.TypedValue.Copy (n + 1) h tv = .ok (h2, cp)) :
    ∃ z, h[a]? = some (.BigInt z) ∧ h2 = h ++ [.BigInt z] ∧
      cp = { T := tv.T, V := some (.BigintValue h.length), N := 0 } := by
  simp only [Heap.TypedValue.Copy, hV, Heap.BigintValue.Copy] at hcp
  split at hcp
  · rename_i e he
    cases hcp
  · rename_i h1 v he
    split at he
    · rename_i z ho
      cases he
      cases hcp
      exact ⟨z, ho, rfl, rfl⟩
    · cases he

theorem copy_array_inv (n : Nat) (h h2 : Heap.Objects) (tv cp : Heap.TypedValue) (a : Nat)
    (hV : tv.V = some (.ArrayValue a))
    (hcp : Heap.TypedValue.Copy (n + 1) h tv = .ok (h2, cp)) :
    cp = { T := tv.T, V := some (.ArrayValue h.length), N := 0 } ∧
    ((∃ l, h[a]? = some (.ArrayValue l none) ∧ h2 = h ++ [.ArrayValue l none]) ∨
     (∃ l d, h[a]? = some (.ArrayValue l (some d)) ∧ h2 = h ++ [.ArrayValue [] (some d)])) := by
  simp only [Heap.TypedValue.Copy, hV, Heap.ArrayValue.Copy] at hcp
  split at hcp
  · cases hcp
  · rename_i h1 v he
    split at he
    · rename_i l ho
      cases he
      cases hcp
      exact ⟨rfl, Or.inl ⟨l, ho, rfl⟩⟩
    · rename_i l d ho
      cases he
      cases hcp
      exact ⟨rfl, Or.inr ⟨l, d, ho, rfl⟩⟩
    · cases he

theorem copy_struct_inv (n : Nat) (h h2 : Heap.Objects) (tv cp : Heap.TypedValue) (a : Nat)
    (hV : tv.V = some (.StructValue a))
    (hcp : Heap.TypedValue.Copy (n + 1) h tv = .ok (h2, cp)) :
    ∃ fs h1 fs2, h[a]? = some (.StructValue fs) ∧
      Heap.copyFields (Heap.TypedValue.Copy n) h fs = .ok (h1, fs2) ∧
      h2 = h1 ++ [.StructValue fs2] ∧
      cp = { T := tv.T, V := some (.StructValue h1.length), N := 0 } := by
  simp only [Heap.TypedValue.Copy, hV, Heap.StructValue.Copy] at hcp
  split at hcp
  · cases hcp
  · rename_i h1 v he
    split at he
    · rename_i fs ho
      split at he
      · cases he
      · rename_i h3 fs2 hf
        cases he
        cases hcp
        exact ⟨fs, h3, fs2, ho, hf, rfl, rfl⟩
    · cases he

theorem copyFields_extends (cp : Heap.Objects → Heap.TypedValue →
      Except String (Heap.Objects × Heap.TypedValue))
    (hcp : ∀ h tv h2 c, cp h tv = .ok (h2, c) → h <+: h2) :
    ∀ (fs : List Heap.TypedValue) (h h1 : Heap.Objects) (fs2 : List Heap.TypedValue),
      Heap.copyFields cp h fs = .ok (h1, fs2) →
      h <+: h1 ∧ List.Forall₂ (fun f f2 => ∃ hi hj, h <+: hi ∧ hi <+: hj ∧ hj <+: h1 ∧
        cp hi f = .ok (hj, f2)) fs fs2
  | [], h, h1, fs2, hf => by
    simp only [Heap.copyFields] at hf
    cases hf
    exact ⟨List.prefix_refl _, List.Forall₂.nil⟩
  | f :: rest, h, h1, fs2, hf => by
    simp only [Heap.copyFields] at hf
    split at hf
    · cases hf
    · rename_i h2 f2 hc
      split at hf
      · cases hf
      · rename_i h3 fs3 hr
        cases hf
        obtain ⟨hp3, hall⟩ := copyFields_extends cp hcp rest h2 h1 fs3 hr
        have hp2 := hcp h f h2 f2 hc
        refine ⟨List.IsPrefix.trans hp2 hp3, List.Forall₂.cons
          ⟨h, h2, List.prefix_refl _, hp2, hp3, hc⟩ ?_⟩
        exact hall.imp (fun x y ⟨hi, hj, q1, q2, q3, q4⟩ =>
          ⟨hi, hj, List.IsPrefix.trans hp2 q1, q2, q3, q4⟩)

theorem copy_extends : ∀ (n : Nat) (h : Heap.Objects) (tv : Heap.TypedValue)
    (h2 : Heap.Objects) (cp : Heap.TypedValue),
    Heap.TypedValue.Copy n h tv = .ok (h2, cp) → h <+: h2
  | 0, _, _, _, _, hcp => by cases hcp
  | n + 1, h, tv, h2, cp, hcp => by
    cases hV : tv.V with
    | none =>
      rw [copy_other n h tv (by rw [hV]; intro a hx; cases hx)
        (by rw [hV]; intro a hx; cases hx) (by rw [hV]; intro a hx; cases hx)] at hcp
      cases hcp
      exact List.prefix_refl _
    | some v =>
      cases v with
      | BigintValue a =>
        obtain ⟨z, -, rfl, -⟩ := copy_bigint_inv n h h2 tv cp a hV hcp
        exact List.prefix_append _ _
      | ArrayValue a =>
        rcases (copy_array_inv n h h2 tv cp a hV hcp).2 with ⟨l, -, rfl⟩ | ⟨l, d, -, rfl⟩
        · exact List.prefix_append _ _
        · exact List.prefix_append _ _
      | StructValue a =>
        obtain ⟨fs, h1, fs2, -, hf, rfl, -⟩ := copy_struct_inv n h h2 tv cp a hV hcp
        exact List.IsPrefix.trans
          (copyFields_extends _ (copy_extends n) fs h h1 fs2 hf).1 (List.prefix_append _ _)
      | _ =>
        rw [copy_other n h tv (by rw [hV]; intro a hx; cases hx)
          (by rw [hV]; intro a hx; cases hx) (by rw [hV]; intro a hx; cases hx)] at hcp
        cases hcp
        exact List.prefix_refl _

theorem forall₂_getElem? {α β : Type} (R : α → β → Prop) :
    ∀ (l1 : List α) (l2 : List β) (i : Nat) (a : α), List.Forall₂ R l1 l2 →
      l1[i]? = some a → ∃ b, l2[i]? = some b ∧ R a b
  | _, _, _, _, .nil, hi => by simp at hi
  | _, _, 0, a, .cons hr _, hi => by
    simp only [List.getElem?_cons_zero, Option.some.injEq] at hi
    subst hi
    exact ⟨_, List.getElem?_cons_zero, hr⟩
  | _, _, i + 1, a, .cons _ hrs, hi => by
    simp only [List.getElem?_cons_succ] at hi ⊢
    exact forall₂_getElem? R _ _ i a hrs hi

theorem readAt_step (h : Heap.Objects) (tv : Heap.TypedValue) (i : Nat) (rest : List Nat) :
    Heap.readAt h tv (i :: rest) =
      match Heap.slots h tv with
      | some (_, l) =>
        match l[i]? with
        | some ev => if rest = [] then some ev else Heap.readAt h ev rest
        | none => none
      | none => none := by
  cases rest with
  | nil =>
    simp only [Heap.readAt, Heap.slotAt]
    cases hs : Heap.slots h tv with
    | none => rfl
    | some p =>
      obtain ⟨obj, l⟩ := p
      simp only [if_true]
      have hobj : Heap.readSlot h obj i = l[i]? := by
        unfold Heap.slots at hs
        split at hs
        · split at hs
          · rename_i av l2 ho
            cases hs
            simp only [Heap.readSlot, ho]
          · cases hs
        · split at hs
          · rename_i sv fs ho
            cases hs
            simp only [Heap.readSlot, ho]
          · cases hs
        · cases hs
      by_cases hi : i < l.length
      · simp only [if_pos hi, hobj, List.getElem?_eq_getElem hi]
      · simp only [if_neg hi, List.getElem?_eq_none (not_lt.mp hi)]
  | cons j rest2 =>
    simp only [Heap.readAt, Heap.slotAt]
    cases hs : Heap.slots h tv with
    | none => rfl
    | some p =>
      obtain ⟨obj, l⟩ := p
      simp only
      cases hl : l[i]? with
      | none => rfl
      | some ev => simp

theorem slots_mono (h h2 : Heap.Objects) (hp : h <+: h2) (tv : Heap.TypedValue)
    (p : Nat × List Heap.TypedValue) (hs : Heap.slots h tv = some p) :
    Heap.slots h2 tv = some p := by
  unfold Heap.slots at hs ⊢
  split at hs
  · split at hs
    · rename_i av l ho
      cases hs
      simp only [prefix_getElem? h h2 hp _ _ ho]
    · cases hs
  · split at hs
    · rename_i sv fs ho
      cases hs
      simp only [prefix_getElem? h h2 hp _ _ ho]
    · cases hs
  · cases hs

theorem readAt_mono (h h2 : Heap.Objects) (hp : h <+: h2) :
    ∀ (path : List Nat) (tv x : Heap.TypedValue), Heap.readAt h tv path = some x →
      Heap.readAt h2 tv path = some x
  | [], tv, x, hr => by
    simp [Heap.readAt, Heap.slotAt] at hr
  | i :: rest, tv, x, hr => by
    rw [readAt_step] at hr ⊢
    cases hs : Heap.slots h tv with
    | none => rw [hs] at hr; cases hr
    | some p =>
      obtain ⟨obj, l⟩ := p
      rw [hs] at hr
      rw [slots_mono h h2 hp tv _ hs]
      simp only at hr ⊢
      cases hl : l[i]? with
      | none => rw [hl] at hr; cases hr
      | some ev =>
        rw [hl] at hr
        simp only at hr ⊢
        by_cases hrest : rest = []
        · rw [if_pos hrest] at hr ⊢
          exact hr
        · rw [if_neg hrest] at hr ⊢
          exact readAt_mono h h2 hp rest ev x hr

theorem slots_inv (h : Heap.Objects) (tv : Heap.TypedValue) (obj : Nat)
    (l : List Heap.TypedValue) (hs : Heap.slots h tv = some (obj, l)) :
    (tv.V = some (.ArrayValue obj) ∧ h[obj]? = some (.ArrayValue l none)) ∨
    (tv.V = some (.StructValue obj) ∧ h[obj]? = some (.StructValue l)) := by
  unfold Heap.slots at hs
  split at hs
  · split at hs
    · rename_i av hV _ l2 ho
      cases hs
      exact Or.inl ⟨hV, ho⟩
    · cases hs
  · split at hs
    · rename_i sv hV _ fs ho
      cases hs
      exact Or.inr ⟨hV, ho⟩
    · cases hs
  · cases hs

theorem slots_list (h : Heap.Objects) (tv : Heap.TypedValue) (a : Nat)
    (l : List Heap.TypedValue) (hV : tv.V = some (.ArrayValue a))
    (ho : h[a]? = some (.ArrayValue l none)) : Heap.slots h tv = some (a, l) := by
  simp only [Heap.slots, hV, ho]

theorem slots_struct (h : Heap.Objects) (tv : Heap.TypedValue) (a : Nat)
    (fs : List Heap.TypedValue) (hV : tv.V = some (.StructValue a))
    (ho : h[a]? = some (.StructValue fs)) : Heap.slots h tv = some (a, fs) := by
  simp only [Heap.slots, hV, ho]

theorem copy_read : ∀ (n : Nat) (h : Heap.Objects) (tv : Heap.TypedValue) (h2 : Heap.Objects)
    (cp : Heap.TypedValue), Heap.TypedValue.Copy n h tv = .ok (h2, cp) →
    ∀ (path : List Nat) (x : Heap.TypedValue), Heap.readAt h tv path = some x →
      (∀ b, x.V ≠ some (.BigintValue b)) → (∀ b, x.V ≠ some (.ArrayValue b)) →
      (∀ b, x.V ≠ some (.StructValue b)) → Heap.readAt h2 cp path = some x
  | 0, _, _, _, _, hcp, _, _, _, _, _, _ => by cases hcp
  | n + 1, h, tv, h2, cp, hcp, [], x, hr, _, _, _ => by
    simp [Heap.readAt, Heap.slotAt] at hr
  | n + 1, h, tv, h2, cp, hcp, i :: rest, x, hr, hx1, hx2, hx3 => by
    rw [readAt_step] at hr ⊢
    cases hs : Heap.slots h tv with
    | none => rw [hs] at hr; cases hr
    | some p =>
      obtain ⟨obj, l⟩ := p
      rw [hs] at hr
      simp only at hr
      cases hl : l[i]? with
      | none => rw [hl] at hr; cases hr
      | some ev =>
        rw [hl] at hr
        simp only at hr
        rcases slots_inv h tv obj l hs with ⟨hV, ho⟩ | ⟨hV, ho⟩
        · obtain ⟨hcpv, hcase⟩ := copy_array_inv n h h2 tv cp obj hV hcp
          rcases hcase with ⟨l2, ho2, rfl⟩ | ⟨l2, d, ho2, -⟩
          · rw [ho] at ho2
            cases ho2
            rw [slots_list _ cp h.length l (by rw [hcpv]) (getElem?_append_length h _)]
            simp only [hl]
            by_cases hrest : rest = []
            · rw [if_pos hrest] at hr ⊢
              exact hr
            · rw [if_neg hrest] at hr ⊢
              exact readAt_mono h _ (List.prefix_append _ _) rest ev x hr
          · rw [ho] at ho2
            cases ho2
        · obtain ⟨fs, h1, fs2, ho2, hf, rfl, hcpv⟩ := copy_struct_inv n h h2 tv cp obj hV hcp
          rw [ho] at ho2
          cases ho2
          obtain ⟨hp1, hall⟩ := copyFields_extends _ (copy_extends n) l h h1 fs2 hf
          obtain ⟨ev2, hev2, hi, hj, q1, q2, q3, q4⟩ := forall₂_getElem? _ l fs2 i ev hall hl
          rw [slots_struct _ cp h1.length fs2 (by rw [hcpv]) (getElem?_append_length h1 _)]
          simp only [hev2]
          by_cases hrest : rest = []
          · rw [if_pos hrest] at hr ⊢
            cases hr
            cases n with
            | zero => cases q4
            | succ m =>
              rw [copy_other m hi _ hx1 hx2 hx3] at q4
              cases q4
              rfl
          · rw [if_neg hrest] at hr ⊢
            have hr2 := readAt_mono h hi q1 rest ev x hr
            have hr3 := copy_read n hi ev hj ev2 q4 rest x hr2 hx1 hx2 hx3
            exact readAt_mono hj _ (List.IsPrefix.trans q3 (List.prefix_append _ _)) rest ev2 x hr3

theorem copy_type : ∀ (n : Nat) (h : Heap.Objects) (tv : Heap.TypedValue)
    (h2 : Heap.Objects) (cp : Heap.TypedValue),
    Heap.TypedValue.Copy n h tv = .ok (h2, cp) → cp.T = tv.T
  | 0, _, _, _, _, hcp => by cases hcp
  | n + 1, h, tv, h2, cp, hcp => by
    cases hV : tv.V with
    | none =>
      rw [copy_other n h tv (by rw [hV]; intro a hx; cases hx)
        (by rw [hV]; intro a hx; cases hx) (by rw [hV]; intro a hx; cases hx)] at hcp
      cases hcp
      rfl
    | some v =>
      cases v with
      | BigintValue a =>
        obtain ⟨z, -, -, rfl⟩ := copy_bigint_inv n h h2 tv cp a hV hcp
        rfl
      | ArrayValue a =>
        obtain ⟨rfl, -⟩ := copy_array_inv n h h2 tv cp a hV hcp
        rfl
      | StructValue a =>
        obtain ⟨-, -, -, -, -, -, rfl⟩ := copy_struct_inv n h h2 tv cp a hV hcp
        rfl
      | _ =>
        rw [copy_other n h tv (by rw [hV]; intro a hx; cases hx)
          (by rw [hV]; intro a hx; cases hx) (by rw [hV]; intro a hx; cases hx)] at hcp
        cases hcp
        rfl

/-- C11. `StructValue.Copy` of a struct whose fields have a content returns a
new struct object (its address is not an address of the source heap) that
has as many fields as the source, in the same order; field `i` of it is the
result of `TypedValue.Copy` on field `i` of the source, in the heap reached
after the fields before it, and has the content of that field. A field that
holds an array or a struct holds in the copy a new array or struct object; a
field that holds a slice, a map or a pointer is the same slot in the copy,
with the same handle. Every object of the source heap is unchanged. -/
theorem structCopy_copies_each_field (n : Nat) (h : Heap.Objects) (sv : Nat)
    (fs : List Heap.TypedValue) (ts : List Heap.Content)
    (ho : h[sv]? = some (.StructValue fs))
    (hc : Heap.contentAll (Heap.content n h) fs = some ts) :
    ∃ h2 a2 fs2,
      Heap.StructValue.Copy (Heap.TypedValue.Copy n) h sv = .ok (h2, a2) ∧
      h <+: h2 ∧ h.length ≤ a2 ∧ h2[a2]? = some (.StructValue fs2) ∧
      fs2.length = fs.length ∧
      Heap.contentAll (Heap.content n h2) fs2 = some ts ∧
      List.Forall₂ (fun f f2 =>
        (∃ hi hj, h <+: hi ∧ hj <+: h2 ∧ Heap.TypedValue.Copy n hi f = .ok (hj, f2)) ∧
        f2.T = f.T ∧
        (∀ b, f.V = some (.ArrayValue b) →
          ∃ b2 l d, f2.V = some (.ArrayValue b2) ∧ h.length ≤ b2 ∧
            h2[b2]? = some (.ArrayValue l d)) ∧
        (∀ b, f.V = some (.StructValue b) →
          ∃ b2 gs, f2.V = some (.StructValue b2) ∧ h.length ≤ b2 ∧
            h2[b2]? = some (.StructValue gs)) ∧
        (∀ s, f.V = some (.SliceValue s) → f2 = f) ∧
        (∀ m, f.V = some (.MapValue m) → f2 = f) ∧
        (∀ pv, f.V = some (.PointerValue pv) → f2 = f)) fs fs2 := by
  obtain ⟨h1, fs2, hcf, hp1, hc1, -⟩ := copyFields_content n (copy_content n) fs h ts hc
  obtain ⟨-, hall⟩ := copyFields_extends _ (copy_extends n) fs h h1 fs2 hcf
  have hp2 : h1 <+: h1 ++ [Heap.Object.StructValue fs2] := List.prefix_append _ _
  refine ⟨h1 ++ [.StructValue fs2], h1.length, fs2, ?_, List.IsPrefix.trans hp1 hp2,
    hp1.length_le, getElem?_append_length h1 _, hall.length_eq.symm,
    contentAll_mono _ _ (fun x t => content_mono n h1 _ x t hp2) fs2 ts hc1, ?_⟩
  · simp only [Heap.StructValue.Copy, ho, hcf]
  · refine hall.imp ?_
    rintro f f2 ⟨hi, hj, q1, q2, q3, q4⟩
    have hj2 : hj <+: h1 ++ [Heap.Object.StructValue fs2] := List.IsPrefix.trans q3 hp2
    cases n with
    | zero => cases q4
    | succ m =>
      refine ⟨⟨hi, hj, q1, hj2, q4⟩, ?_, ?_, ?_, ?_, ?_, ?_⟩
      · exact copy_type (m + 1) hi f hj f2 q4
      · intro b hV
        obtain ⟨rfl, hcase⟩ := copy_array_inv m hi hj f f2 b hV q4
        rcases hcase with ⟨l, -, rfl⟩ | ⟨l, d, -, rfl⟩
        · exact ⟨hi.length, l, none, rfl, q1.length_le,
            prefix_getElem? _ _ hj2 _ _ (getElem?_append_length hi _)⟩
        · exact ⟨hi.length, [], some d, rfl, q1.length_le,
            prefix_getElem? _ _ hj2 _ _ (getElem?_append_length hi _)⟩
      · intro b hV
        obtain ⟨gs, h3, gs2, -, hg, rfl, rfl⟩ := copy_struct_inv m hi hj f f2 b hV q4
        have hp3 := (copyFields_extends _ (copy_extends m) gs hi h3 gs2 hg).1
        exact ⟨h3.length, gs2, rfl, le_trans q1.length_le hp3.length_le,
          prefix_getElem? _ _ hj2 _ _ (getElem?_append_length h3 _)⟩
      · intro s hV
        rw [copy_other m hi f (by rw [hV]; intro a hx; cases hx)
          (by rw [hV]; intro a hx; cases hx) (by rw [hV]; intro a hx; cases hx)] at q4
        cases q4
        rfl
      · intro s hV
        rw [copy_other m hi f (by rw [hV]; intro a hx; cases hx)
          (by rw [hV]; intro a hx; cases hx) (by rw [hV]; intro a hx; cases hx)] at q4
        cases q4
        rfl
      · intro s hV
        rw [copy_other m hi f (by rw [hV]; intro a hx; cases hx)
          (by rw [hV]; intro a hx; cases hx) (by rw [hV]; intro a hx; cases hx)] at q4
        cases q4
        rfl

/-- The struct, object 4, of the sample heap: its copy is the new object 7
with the fields 9, the new array 5, the same slice 2 and the new struct 6. -/
theorem structCopy_copies_each_field_witness :
    (∃ h2 a2 fs2,
      Heap.StructValue.Copy (Heap.TypedValue.Copy 2) Heap.sampleStructHeap 4 = .ok (h2, a2) ∧
      h2[a2]? = some (.StructValue fs2) ∧ fs2.length = 4) ∧
    Heap.StructValue.Copy (Heap.TypedValue.Copy 2) Heap.sampleStructHeap 4 =
      .ok (Heap.sampleStructHeap ++
        [.ArrayValue [Heap.intSlot 1] none,
         .StructValue [Heap.intSlot 7],
         .StructValue
           [Heap.intSlot 9,
            { T := some (.ArrayType 1 (.PrimitiveType .IntType)), V := some (.ArrayValue 5),
              N := 0 },
            { T := some (.SliceType (.PrimitiveType .IntType)), V := some (.SliceValue 2),
              N := 0 },
            { T := some (.StructType [.mk [120] (.PrimitiveType .IntType)]),
              V := some (.StructValue 6), N := 0 }]], 7) := by
  refine ⟨?_, rfl⟩
  obtain ⟨h2, a2, fs2, q1, -, -, q4, q5, -⟩ :=
    structCopy_copies_each_field 2 Heap.sampleStructHeap 4 _ _ rfl rfl
  exact ⟨h2, a2, fs2, q1, q4, q5⟩

/-- C12. `TypedValue.Copy` of a slot that holds a slice, a map or a pointer
returns the slot itself, with the same handle, and allocates nothing: the
slice object with its base array, the map object and the slot pointed to are
those of the source. In the copy of an array or a struct, every slot that
holds a slice, a map or a pointer and is reached from the source by
array-element and struct-field steps is reached from the copy by the same
steps and is the same slot, and the objects of the source heap are the
objects of the heap after the copy. A write through such a handle of the copy
is therefore a write through the handle of the source. -/
theorem copy_shares_handles (n : Nat) (h : Heap.Objects) (tv : Heap.TypedValue) :
    (∀ s, tv.V = some (.SliceValue s) → Heap.TypedValue.Copy (n + 1) h tv = .ok (h, tv)) ∧
    (∀ m, tv.V = some (.MapValue m) → Heap.TypedValue.Copy (n + 1) h tv = .ok (h, tv)) ∧
    (∀ pv, tv.V = some (.PointerValue pv) →
      Heap.TypedValue.Copy (n + 1) h tv = .ok (h, tv)) ∧
    (∀ (h2 : Heap.Objects) (cp : Heap.TypedValue) (path : List Nat) (x : Heap.TypedValue),
      Heap.TypedValue.Copy n h tv = .ok (h2, cp) → Heap.readAt h tv path = some x →
      ((∃ s, x.V = some (.SliceValue s)) ∨ (∃ m, x.V = some (.MapValue m)) ∨
        (∃ pv, x.V = some (.PointerValue pv))) →
      Heap.readAt h2 cp path = some x ∧ h <+: h2) := by
  refine ⟨?_, ?_, ?_, ?_⟩
  · intro s hV
    exact copy_other n h tv (by rw [hV]; intro a hx; cases hx)
      (by rw [hV]; intro a hx; cases hx) (by rw [hV]; intro a hx; cases hx)
  · intro s hV
    exact copy_other n h tv (by rw [hV]; intro a hx; cases hx)
      (by rw [hV]; intro a hx; cases hx) (by rw [hV]; intro a hx; cases hx)
  · intro s hV
    exact copy_other n h tv (by rw [hV]; intro a hx; cases hx)
      (by rw [hV]; intro a hx; cases hx) (by rw [hV]; intro a hx; cases hx)
  · intro h2 cp path x hcp hr hx
    refine ⟨copy_read n h tv h2 cp hcp path x hr ?_ ?_ ?_, copy_extends n h tv h2 cp hcp⟩
    · rcases hx with ⟨s, hV⟩ | ⟨s, hV⟩ | ⟨s, hV⟩ <;> (rw [hV]; intro a hx; cases hx)
    · rcases hx with ⟨s, hV⟩ | ⟨s, hV⟩ | ⟨s, hV⟩ <;> (rw [hV]; intro a hx; cases hx)
    · rcases hx with ⟨s, hV⟩ | ⟨s, hV⟩ | ⟨s, hV⟩ <;> (rw [hV]; intro a hx; cases hx)

/-- The struct of the sample heap and its copy, object 7: field 2 of both is
the slot of the slice object 2; the value 99 written at index 0 through the
slice of the copy is read at index 0 through the slice of the source. -/
theorem copy_shares_handles_witness :
    Heap.readAt Heap.sampleStructHeap Heap.sampleStruct [2] =
      some { T := some (.SliceType (.PrimitiveType .IntType)), V := some (.SliceValue 2),
             N := 0 } ∧
    (∀ h2 cp, Heap.TypedValue.Copy 3 Heap.sampleStructHeap Heap.sampleStruct = .ok (h2, cp) →
      Heap.readAt h2 cp [2] =
        some { T := some (.SliceType (.PrimitiveType .IntType)), V := some (.SliceValue 2),
               N := 0 }) ∧
    (Heap.TypedValue.Copy 3 Heap.sampleStructHeap Heap.sampleStruct).toOption.map
        (fun r => r.2.V) = some (some (.StructValue 7)) ∧
    ((Heap.TypedValue.Copy 3 Heap.sampleStructHeap Heap.sampleStruct).toOption.bind
        (fun r => (Heap.SliceValue.writeAt Heap.sampleEnv r.1 2 0 (.PrimitiveType .IntType)
          (Heap.intSlot 99)).toOption)).bind
      (fun h3 => (Heap.SliceValue.readAt h3 2 0 (.PrimitiveType .IntType)).toOption) =
      some (Heap.intSlot 99) :=
  ⟨rfl,
    fun h2 cp hcp => ((copy_shares_handles 3 Heap.sampleStructHeap Heap.sampleStruct).2.2.2
      h2 cp [2] _ hcp rfl (Or.inl ⟨2, rfl⟩)).1,
    rfl, rfl⟩

/-- C13. For a slot `v` that has a content (its arrays and structs are
objects of the heap, nested to a finite depth), `Copy(v)` returns a slot
`c1` and `Copy(c1)` returns a slot `c2`; `c2`, `c1` and `v` have the same
content (the same type, the same elements and fields read by value, arrays in
the same representation and of the same length) and the same type, and the
objects of the heap before each copy are unchanged after it, so `v` has the
same content before and after. The copy of an array is a new array object of
the same representation and the same number of elements. -/
theorem copy_keeps_content (n : Nat) (h : Heap.Objects) (tv : Heap.TypedValue)
    (t : Heap.Content) (hc : Heap.content n h tv = some t) :
    ∃ h1 c1 h2 c2,
      Heap.TypedValue.Copy n h tv = .ok (h1, c1) ∧
      Heap.TypedValue.Copy n h1 c1 = .ok (h2, c2) ∧
      Heap.content n h2 c2 = some t ∧ Heap.content n h2 c1 = some t ∧
      Heap.content n h1 c1 = some t ∧ Heap.content n h1 tv = some t ∧
      Heap.content n h2 tv = some t ∧
      c1.T = tv.T ∧ c2.T = tv.T ∧ h <+: h1 ∧ h1 <+: h2 ∧
      (∀ a l d, tv.V = some (.ArrayValue a) → h[a]? = some (.ArrayValue l d) →
        ∃ l2, c1.V = some (.ArrayValue h.length) ∧ h1[h.length]? = some (.ArrayValue l2 d) ∧
          Heap.arrayLen l2 d = Heap.arrayLen l d) := by
  obtain ⟨h1, c1, hcp1, hp1, hc1, hT1⟩ := copy_content n h tv t hc
  obtain ⟨h2, c2, hcp2, hp2, hc2, hT2⟩ := copy_content n h1 c1 t hc1
  refine ⟨h1, c1, h2, c2, hcp1, hcp2, hc2, content_mono n h1 h2 c1 t hp2 hc1, hc1,
    content_mono n h h1 tv t hp1 hc, content_mono n h h2 tv t (List.IsPrefix.trans hp1 hp2) hc,
    hT1, by rw [hT2, hT1], hp1, hp2, ?_⟩
  intro a l d hV ho
  cases n with
  | zero => cases hcp1
  | succ m =>
    obtain ⟨rfl, hcase⟩ := copy_array_inv m h h1 tv c1 a hV hcp1
    rcases hcase with ⟨l2, ho2, rfl⟩ | ⟨l2, d2, ho2, rfl⟩
    · rw [ho] at ho2
      cases ho2
      exact ⟨l, rfl, getElem?_append_length h _, rfl⟩
    · rw [ho] at ho2
      cases ho2
      exact ⟨[], rfl, getElem?_append_length h _, rfl⟩

/-- The struct of the sample heap: its copy and the copy of its copy have its
content. -/
theorem copy_keeps_content_witness :
    ∃ t h1 c1 h2 c2, Heap.content 3 Heap.sampleStructHeap Heap.sampleStruct = some t ∧
      Heap.TypedValue.Copy 3 Heap.sampleStructHeap Heap.sampleStruct = .ok (h1, c1) ∧
      Heap.TypedValue.Copy 3 h1 c1 = .ok (h2, c2) ∧
      Heap.content 3 h2 c2 = some t ∧ Heap.content 3 h1 c1 = some t ∧
      Heap.content 3 h1 Heap.sampleStruct = some t := by
  obtain ⟨h1, c1, h2, c2, q1, q2, q3, -, q5, q6, -⟩ :=
    copy_keeps_content 3 Heap.sampleStructHeap Heap.sampleStruct _ rfl
  exact ⟨_, h1, c1, h2, c2, rfl, q1, q2, q3, q5, q6⟩

/-! ### Reading and writing a slot of the heap -/

theorem writeSlot_some (h : Heap.Objects) (obj i : Nat) (cur v : Heap.TypedValue)
    (hr : Heap.readSlot h obj i = some cur) : ∃ h1, Heap.writeSlot h obj i v = some h1 := by
  unfold Heap.readSlot at hr
  unfold Heap.writeSlot
  split at hr
  · rename_i l ho
    simp only [ho, getElem?_lt _ _ _ hr, if_true]
    exact ⟨_, rfl⟩
  · rename_i fs ho
    simp only [ho, getElem?_lt _ _ _ hr, if_true]
    exact ⟨_, rfl⟩
  · rename_i tv ho
    split_ifs at hr with hi
    simp only [ho, hi, if_true]
    exact ⟨_, rfl⟩
  · rename_i tv ho
    split_ifs at hr with hi
    simp only [ho, hi, if_true]
    exact ⟨_, rfl⟩
  · rename_i vs p bl ho
    simp only [ho, getElem?_lt _ _ _ hr, if_true]
    exact ⟨_, rfl⟩
  · cases hr

theorem writeSlot_length (h h1 : Heap.Objects) (obj i : Nat) (v : Heap.TypedValue)
    (hw : Heap.writeSlot h obj i v = some h1) : h1.length = h.length := by
  unfold Heap.writeSlot at hw
  split at hw <;> first
    | (split_ifs at hw; cases hw; simp)
    | cases hw

theorem writeSlot_other (h h1 : Heap.Objects) (obj i : Nat) (v : Heap.TypedValue)
    (hw : Heap.writeSlot h obj i v = some h1) (c : Nat) (hc : c ≠ obj) : h1[c]? = h[c]? := by
  unfold Heap.writeSlot at hw
  split at hw <;> first
    | (split_ifs at hw; cases hw; exact List.getElem?_set_ne (Ne.symm hc))
    | cases hw

theorem writeSlot_read (h h1 : Heap.Objects) (obj i : Nat) (v : Heap.TypedValue)
    (hw : Heap.writeSlot h obj i v = some h1) : Heap.readSlot h1 obj i = some v := by
  unfold Heap.writeSlot at hw
  split at hw
  · rename_i l ho
    split_ifs at hw with hi
    cases hw
    have hlt := getElem?_lt _ _ _ ho
    simp only [Heap.readSlot, List.getElem?_set_self hlt]
    exact List.getElem?_set_self hi
  · rename_i fs ho
    split_ifs at hw with hi
    cases hw
    have hlt := getElem?_lt _ _ _ ho
    simp only [Heap.readSlot, List.getElem?_set_self hlt]
    exact List.getElem?_set_self hi
  · rename_i tv ho
    split_ifs at hw with hi
    cases hw
    have hlt := getElem?_lt _ _ _ ho
    simp only [Heap.readSlot, List.getElem?_set_self hlt, hi, if_true]
  · rename_i tv ho
    split_ifs at hw with hi
    cases hw
    have hlt := getElem?_lt _ _ _ ho
    simp only [Heap.readSlot, List.getElem?_set_self hlt, hi, if_true]
  · rename_i vs p bl ho
    split_ifs at hw with hi
    cases hw
    have hlt := getElem?_lt _ _ _ ho
    simp only [Heap.readSlot, List.getElem?_set_self hlt]
    exact List.getElem?_set_self hi
  · cases hw

theorem readSlot_congr (h h1 : Heap.Objects) (obj i : Nat) (ho : h1[obj]? = h[obj]?) :
    Heap.readSlot h1 obj i = Heap.readSlot h obj i := by
  unfold Heap.readSlot
  rw [ho]

theorem writeSlot_read_other (h h1 : Heap.Objects) (obj i : Nat) (v : Heap.TypedValue)
    (hw : Heap.writeSlot h obj i v = some h1) (c j : Nat) (hc : c ≠ obj) :
    Heap.readSlot h1 c j = Heap.readSlot h c j :=
  readSlot_congr h h1 c j (writeSlot_other h h1 obj i v hw c hc)
theorem readSlot_obj (h : Heap.Objects) (obj i : Nat) (cur : Heap.TypedValue)
    (hr : Heap.readSlot h obj i = some cur) : ∃ o, h[obj]? = some o := by
  cases ho : h[obj]? with
  | some o => exact ⟨o, rfl⟩
  | none =>
    simp only [Heap.readSlot, ho] at hr
    cases hr

theorem readSlot_extends (h h2 : Heap.Objects) (hp : h <+: h2) (obj i : Nat)
    (cur : Heap.TypedValue) (hr : Heap.readSlot h obj i = some cur) :
    Heap.readSlot h2 obj i = some cur := by
  obtain ⟨o, ho⟩ := readSlot_obj h obj i cur hr
  rw [readSlot_congr h h2 obj i (by rw [prefix_getElem? h h2 hp obj o ho, ho])]
  exact hr

theorem extends_getElem? (h h2 : Heap.Objects) (hp : h <+: h2) (c : Nat)
    (hc : c < h.length) : h2[c]? = h[c]? := by
  obtain ⟨r, rfl⟩ := hp
  exact List.getElem?_append_left hc

/-- When the copy of `tv2` returns and the slot exists, `Assign` returns: the
slot then holds the copy (converted when `cu` is set and its type is
untyped), and no other object that was in the heap is changed. -/
theorem assign_ok (env : Heap.Env) (fuel : Nat) (h hc : Heap.Objects) (obj i : Nat)
    (cur tv2 cp : Heap.TypedValue) (cu : Bool)
    (hr : Heap.readSlot h obj i = some cur)
    (hcp : Heap.TypedValue.Copy fuel h tv2 = .ok (hc, cp)) :
    ∃ h3, Heap.TypedValue.Assign env fuel h (obj, i) tv2 cu = .ok h3 ∧
      Heap.readSlot h3 obj i =
        some (if cu && env.isUntyped cp.T then env.convertUntyped cp else cp) ∧
      ∀ c, c < h.length → c ≠ obj → h3[c]? = h[c]? := by
  have hext := copy_extends fuel h tv2 hc cp hcp
  obtain ⟨h3, hw⟩ := writeSlot_some hc obj i cur
    (if cu && env.isUntyped cp.T then env.convertUntyped cp else cp)
    (readSlot_extends h hc hext obj i cur hr)
  refine ⟨h3, ?_, writeSlot_read _ _ _ _ _ hw, ?_⟩
  · simp only [Heap.TypedValue.Assign, hcp, hw]
  · intro c hlt hne
    rw [writeSlot_other _ _ _ _ _ hw c hne]
    exact extends_getElem? h hc hext c hlt

/-- When the copy of `tv2` returns, `Assign2` through a pointer with no realm
or no base, to a slot whose type is not `DataByteType`, returns the heap of
`Assign` and the realm as it was. -/
theorem assign2_ok (env : Heap.Env) (fuel : Nat) (h hc : Heap.Objects)
    (rlm : Option (List Heap.Update)) (pv : Heap.PointerValue) (obj i : Nat)
    (cur tv2 cp : Heap.TypedValue) (cu : Bool)
    (hp : pv.TV = some (obj, i)) (hr : Heap.readSlot h obj i = some cur)
    (hd : Heap.isDataByteType cur.T = false)
    (hno : rlm = none ∨ pv.Base = none)
    (hcp : Heap.TypedValue.Copy fuel h tv2 = .ok (hc, cp)) :
    ∃ h3, pv.Assign2 env fuel h rlm tv2 cu = .ok (h3, rlm) ∧
      Heap.readSlot h3 obj i =
        some (if cu && env.isUntyped cp.T then env.convertUntyped cp else cp) ∧
      ∀ c, c < h.length → c ≠ obj → h3[c]? = h[c]? := by
  obtain ⟨h3, ha, hread, hfr⟩ := assign_ok env fuel h hc obj i cur tv2 cp cu hr hcp
  refine ⟨h3, ?_, hread, hfr⟩
  unfold Heap.PointerValue.Assign2
  simp only [hp, hr, hd, Bool.false_eq_true, if_false, ha]
  rcases hno with hno | hno
  · subst hno
    rfl
  · rw [hno]
    cases rlm <;> rfl
/-- When the copy of `tv2` returns, `Assign2` through a pointer to a slot
whose type is not `DataByteType` returns the heap of `Assign`. -/
theorem assign2_returns (env : Heap.Env) (fuel : Nat) (h hc : Heap.Objects)
    (rlm : Option (List Heap.Update)) (pv : Heap.PointerValue) (obj i : Nat)
    (cur tv2 cp : Heap.TypedValue) (cu : Bool)
    (hp : pv.TV = some (obj, i)) (hr : Heap.readSlot h obj i = some cur)
    (hd : Heap.isDataByteType cur.T = false)
    (hcp : Heap.TypedValue.Copy fuel h tv2 = .ok (hc, cp)) :
    ∃ h3 rlm3, pv.Assign2 env fuel h rlm tv2 cu = .ok (h3, rlm3) ∧
      Heap.readSlot h3 obj i =
        some (if cu && env.isUntyped cp.T then env.convertUntyped cp else cp) ∧
      ∀ c, c < h.length → c ≠ obj → h3[c]? = h[c]? := by
  obtain ⟨h3, ha, hread, hfr⟩ := assign_ok env fuel h hc obj i cur tv2 cp cu hr hcp
  unfold Heap.PointerValue.Assign2
  simp only [hp, hr, hd, Bool.false_eq_true, if_false, ha, hread]
  split
  · exact ⟨h3, _, rfl, hread, hfr⟩
  · exact ⟨h3, _, rfl, hread, hfr⟩

theorem deref_plain (h : Heap.Objects) (pv : Heap.PointerValue) (obj i : Nat)
    (cur : Heap.TypedValue) (hp : pv.TV = some (obj, i))
    (hr : Heap.readSlot h obj i = some cur) (hc : Heap.isDataByteType cur.T = false) :
    pv.Deref h = .ok cur := by
  simp only [Heap.PointerValue.Deref, hp, hr, hc]
  rfl

theorem assign_read (env : Heap.Env) (fuel : Nat) (h h1 : Heap.Objects) (obj i : Nat)
    (tv2 : Heap.TypedValue) (cu : Bool)
    (ha : Heap.TypedValue.Assign env fuel h (obj, i) tv2 cu = .ok h1) :
    ∃ hc cp, Heap.TypedValue.Copy fuel h tv2 = .ok (hc, cp) ∧
      Heap.writeSlot hc obj i (if cu && env.isUntyped cp.T then env.convertUntyped cp else cp) =
        some h1 ∧
      Heap.readSlot h1 obj i =
        some (if cu && env.isUntyped cp.T then env.convertUntyped cp else cp) := by
  unfold Heap.TypedValue.Assign at ha
  split at ha
  · cases ha
  · rename_i hc cp hcp
    split at ha
    · cases ha
    · rename_i h2 hw
      cases ha
      exact ⟨hc, cp, hcp, hw, writeSlot_read _ _ _ _ _ hw⟩
/-- With a `fillValueTV` that returns the heap as it is, which is the case
when the elements are loaded, `GetPointerAtIndexInt2` with its call of
`fillValueTV` is `GetPointerAtIndexInt2` without it. -/
theorem arrayPointer_fill (fill : Heap.Fill) (h : Heap.Objects) (av : Nat) (ii : Int)
    (et : GType) (hfill : ∀ i, fill h (av, i) = .ok (h, [])) :
    Heap.ArrayValue.GetPointerAtIndexInt2Fill fill h av ii et =
      match Heap.ArrayValue.GetPointerAtIndexInt2 h av ii et with
      | .error e => .error e
      | .ok (h1, pv) => .ok (h1, pv, []) := by
  unfold Heap.ArrayValue.GetPointerAtIndexInt2Fill Heap.ArrayValue.GetPointerAtIndexInt2
  cases ho : h[av]? with
  | none => rfl
  | some o =>
    cases o with
    | ArrayValue l d =>
      cases d with
      | none =>
        simp only []
        cases hc : Heap.indexCheck ii l.length with
        | error e => rfl
        | ok i => simp only [hfill]
      | some d => rfl
    | _ => rfl

/-! ### Classification of a slot -/

/-- C30. With the debug assertions off: `IsUndefined` holds exactly when the
type is nil, or the type is of interface kind and the payload is empty;
`IsDefined` is its negation; `IsNilInterface` holds exactly when the type is
not nil, is of interface kind, and the payload is empty; `HasKind(k)` is false
for a nil type and otherwise holds exactly when the kind of the type is `k`.
The value of `defaultTypedValue` for a type of interface kind is the undefined
slot: nil type, empty payload, zero numeric buffer. -/
theorem slot_classification (tv : TypedValue) (k : Kind) (t : GType) :
    (tv.IsUndefined = true ↔
      (tv.T = none ∨ ∃ t, tv.T = some t ∧ t.Kind = .InterfaceKind ∧ tv.V = none)) ∧
    tv.IsDefined = !tv.IsUndefined ∧
    (tv.IsNilInterface = true ↔ ∃ t, tv.T = some t ∧ t.Kind = .InterfaceKind ∧ tv.V = none) ∧
    (tv.T = none → tv.HasKind k = false) ∧
    (∀ t, tv.T = some t → (tv.HasKind k = true ↔ t.Kind = k)) ∧
    (t.Kind = .InterfaceKind → defaultTypedValue t = TypedValue.mk none none 0) := by
  have hnil : tv.IsNilInterface = true ↔
      ∃ t, tv.T = some t ∧ t.Kind = .InterfaceKind ∧ tv.V = none := by
    obtain ⟨T, V, N⟩ := tv
    cases T with
    | none => simp [TypedValue.IsNilInterface, TypedValue.T]
    | some t0 =>
      by_cases hk : t0.Kind = .InterfaceKind
      · cases V with
        | none => simp [TypedValue.IsNilInterface, TypedValue.T, TypedValue.V, hk]
        | some v => simp [TypedValue.IsNilInterface, TypedValue.T, TypedValue.V, hk]
      · simp [TypedValue.IsNilInterface, TypedValue.T, hk]
  refine ⟨?_, rfl, hnil, ?_, ?_, ?_⟩
  · cases hT : tv.T with
    | none => simp [TypedValue.IsUndefined, hT]
    | some t0 =>
      simp only [TypedValue.IsUndefined, hT, hnil]
      simp
  · intro hT
    simp only [TypedValue.HasKind, hT]
  · intro t0 hT
    simp only [TypedValue.HasKind, hT, decide_eq_true_eq]
  · intro hk
    simp only [defaultTypedValue, hk, if_true]
/-- The slot of type `int` holding 3 is defined and of kind `IntKind`, and
the undefined slot is undefined and of no kind. -/
theorem slot_classification_witness :
    (TypedValue.mk (some (.PrimitiveType .IntType)) none 3).HasKind .IntKind = true ∧
    (TypedValue.mk none none 0).HasKind .IntKind = false ∧
    (TypedValue.mk none none 0).IsUndefined = true :=
  ⟨((slot_classification (TypedValue.mk (some (.PrimitiveType .IntType)) none 3) .IntKind
      (.PrimitiveType .IntType)).2.2.2.2.1 _ rfl).mpr rfl,
    (slot_classification (TypedValue.mk none none 0) .IntKind
      (.PrimitiveType .IntType)).2.2.2.1 rfl,
    (slot_classification (TypedValue.mk none none 0) .IntKind
      (.PrimitiveType .IntType)).1.mpr (Or.inl rfl)⟩

/-! ### Indexing a map -/

theorem undefined_isUndefined : (TypedValue.mk none none 0).IsUndefined = true := rfl

/-- C21. `GetPointerAtIndex` on a slot of map type that holds a map
satisfying the invariant, with a key that has key bytes. When the key bytes
are not indexed, one item holding the key is appended at the tail and indexed
and `Size` grows by 1, the items before it keeping their keys and values; when
they are indexed, the list, the index and `Size` are unchanged. In both cases
the pointer has the index `PointerIndexMap` (-2), the key `k` and the item
indexed under the key bytes as `TV` (its base is the map), the map after the
call satisfies the invariant, and the value of the item is the default value
of the declared value type when it was undefined and that type is not of
interface kind, and is unchanged otherwise (undefined for a new item of a map
with an interface value type). -/
theorem map_index_pointer (ext : Externals) (mv : MapValue) (l : List Nat)
    (t kt vt : GType) (key : TypedValue) (kmk : MapKey)
    (hwf : mv.WF ext l) (hk : key.ComputeMapKey ext false = .ok kmk)
    (ht : baseOf t = .MapType kt vt) :
    ∃ mv3 pv l2,
      TypedValue.GetPointerAtIndexMap ext t (some mv) key = .ok (mv3, pv) ∧
      mv3.WF ext l2 ∧ pv.Index = -2 ∧ pv.Key = key ∧ pv.TV ∈ l2 ∧
      mv3.vmap kmk = some pv.TV ∧
      (mv.vmap kmk = none →
        l2 = l ++ [mv.items.length] ∧ pv.TV = mv.items.length ∧
        mv3.MList.Size = mv.MList.Size + 1 ∧
        (∃ it3 : MapListItem, mv3.items[mv.items.length]? = some it3 ∧ it3.Key = key ∧
          it3.Value = if vt.Kind ≠ .InterfaceKind then defaultTypedValue vt
            else TypedValue.mk none none 0) ∧
        (∀ a ∈ l, ∀ it, mv.items[a]? = some it →
          ∃ it2 : MapListItem, mv3.items[a]? = some it2 ∧ it2.Key = it.Key ∧
            it2.Value = it.Value)) ∧
      (∀ (a : Nat) (it : MapListItem), mv.vmap kmk = some a → mv.items[a]? = some it →
        l2 = l ∧ pv.TV = a ∧ mv3.MList = mv.MList ∧ mv3.vmap = mv.vmap ∧
        (∃ it3 : MapListItem, mv3.items[a]? = some it3 ∧ it3.Key = it.Key ∧
          it3.Value = if it.Value.IsUndefined = true ∧ vt.Kind ≠ .InterfaceKind
            then defaultTypedValue vt else it.Value) ∧
        (∀ c, c ≠ a → mv3.items[c]? = mv.items[c]?)) := by
  cases hv : mv.vmap kmk with
  | some a =>
    have hpk : mv.GetPointerForKey ext key =
        .ok (mv, { TV := a, Key := key, Index := PointerIndexMap }) := by
      simp only [MapValue.GetPointerForKey, hk, hv]
    obtain ⟨hal, it, hit, hkey⟩ := (hwf.1.2.2.2.2.2 kmk a).mp hv
    by_cases hu : it.Value.IsUndefined = true ∧ vt.Kind ≠ .InterfaceKind
    · obtain ⟨it0, hit0, -, hwf2⟩ := wf_assign2 ext mv l
        { TV := a, Key := key, Index := PointerIndexMap } (defaultTypedValue vt) hwf hal
      rw [hit] at hit0
      cases hit0
      have hlt := getElem?_lt _ _ _ hit
      refine ⟨MapValue.mk (mv.items.set a (it.setValue (defaultTypedValue vt))) mv.vmap mv.MList,
        { TV := a, Key := key, Index := PointerIndexMap }, l, ?_, hwf2, rfl, rfl, hal, hv,
        (fun hc => by cases hc), ?_⟩
      · simp only [TypedValue.GetPointerAtIndexMap, ht, hpk, hit, hu.1, hu.2, setItem, if_true,
          ne_eq, not_false_eq_true]
      · intro a2 it2 ha2 hit2
        cases ha2
        rw [hit] at hit2
        cases hit2
        refine ⟨rfl, rfl, rfl, rfl, ⟨it.setValue (defaultTypedValue vt),
          List.getElem?_set_self hlt, rfl, by rw [if_pos hu]; rfl⟩, ?_⟩
        intro c hc
        exact List.getElem?_set_ne (Ne.symm hc)
    · refine ⟨mv, { TV := a, Key := key, Index := PointerIndexMap }, l, ?_, hwf, rfl, rfl,
        hal, hv, (fun hc => by cases hc), ?_⟩
      · simp only [TypedValue.GetPointerAtIndexMap, ht, hpk, hit]
        by_cases h1 : it.Value.IsUndefined = true
        · have h2 : ¬ vt.Kind ≠ .InterfaceKind := fun h2 => hu ⟨h1, h2⟩
          simp only [h1, if_true, h2, if_false]
        · simp only [h1, if_false]
          rfl
      · intro a2 it2 ha2 hit2
        cases ha2
        rw [hit] at hit2
        cases hit2
        exact ⟨rfl, rfl, rfl, rfl, ⟨it, hit, rfl, by rw [if_neg hu]⟩, fun c _ => rfl⟩
  | none =>
    obtain ⟨items, ml, happ, hinv2, hcont, it2, hit2, hk2, hv2⟩ :=
      append_inv ext mv l key kmk hwf.1 hk hv
    obtain ⟨mv2, pv, l2, hpk, hwf2, hmem, hcase⟩ := wf_getPointerForKey ext mv l key kmk hwf hk
    have hpk2 : mv.GetPointerForKey ext key =
        .ok (MapValue.mk items (fun k => if k = kmk then some mv.items.length else mv.vmap k) ml,
          { TV := mv.items.length, Key := key, Index := PointerIndexMap }) := by
      simp only [MapValue.GetPointerForKey, hk, hv, happ]
    rw [hpk2] at hpk
    cases hpk
    rcases hcase with ⟨a, ha, -⟩ | ⟨-, hl2, -, -, -⟩
    · rw [hv] at ha
      cases ha
    subst hl2
    have hsize : ml.Size = mv.MList.Size + 1 := by
      have h1 := hinv2.2.2.2.2.1
      have h2 := hwf.1.2.2.2.2.1
      have h3 : ml.Size = ((l ++ [mv.items.length]).length : Int) := h1
      rw [h3, h2]
      simp
    have hund : it2.Value.IsUndefined = true := by rw [hv2]; rfl
    by_cases hki : vt.Kind ≠ .InterfaceKind
    · obtain ⟨it0, hit0, -, hwf3⟩ := wf_assign2 ext _ _
        { TV := mv.items.length, Key := key, Index := PointerIndexMap } (defaultTypedValue vt)
        hwf2 hmem
      have hit0b : items[mv.items.length]? = some it0 := hit0
      rw [hit2] at hit0b
      cases hit0b
      have hlt := getElem?_lt _ _ _ hit2
      refine ⟨_, { TV := mv.items.length, Key := key, Index := PointerIndexMap },
        l ++ [mv.items.length], ?_, hwf3, rfl, rfl, hmem, by simp, ?_, ?_⟩
      · simp only [TypedValue.GetPointerAtIndexMap, ht, hpk2, hit2, hund, hki, setItem, if_true,
          ne_eq, not_false_eq_true]
      · intro _
        refine ⟨rfl, rfl, hsize, ⟨it2.setValue (defaultTypedValue vt),
          List.getElem?_set_self hlt, hk2, by rw [if_pos hki]; rfl⟩, ?_⟩
        intro a ha it hit
        obtain ⟨it4, hit4, hk4, hv4⟩ := hcont a ha it hit
        have hne : mv.items.length ≠ a := by
          intro he
          have := getElem?_lt _ _ _ hit
          omega
        exact ⟨it4, by
          show (items.set mv.items.length _)[a]? = some it4
          rw [List.getElem?_set_ne hne]; exact hit4, hk4, hv4⟩
      · intro a it ha
        cases ha
    · refine ⟨_, { TV := mv.items.length, Key := key, Index := PointerIndexMap },
        l ++ [mv.items.length], ?_, hwf2, rfl, rfl, hmem, by simp, ?_, ?_⟩
      · simp only [TypedValue.GetPointerAtIndexMap, ht, hpk2, hit2, hund, hki, if_true,
          if_false]
      · intro _
        exact ⟨rfl, rfl, hsize, ⟨it2, hit2, hk2, by rw [if_neg hki]; exact hv2⟩, hcont⟩
      · intro a it ha
        cases ha
/-- On the empty map of type `map[string]int`, indexing by the key "a"
appends the item 0 with the key "a" and the default value of `int`, and the
pointer has the index -2, the key "a" and the item 0. -/
theorem map_index_pointer_witness :
    ∃ mv3 pv l2,
      TypedValue.GetPointerAtIndexMap sampleExt
          (.MapType (.PrimitiveType .StringType) (.PrimitiveType .IntType))
          (some (MapValue.MakeMap 0))
          (TypedValue.mk (some (.PrimitiveType .StringType)) (some (.StringValue [97])) 0) =
        .ok (mv3, pv) ∧
      mv3.WF sampleExt l2 ∧ pv.Index = -2 ∧
      pv.Key = TypedValue.mk (some (.PrimitiveType .StringType)) (some (.StringValue [97])) 0 ∧
      pv.TV = 0 ∧ l2 = [0] ∧ mv3.MList.Size = 1 ∧
      ∃ it3 : MapListItem, mv3.items[0]? = some it3 ∧
        it3.Value = defaultTypedValue (.PrimitiveType .IntType) := by
  obtain ⟨mv3, pv, l2, g1, g2, g3, g4, -, -, g5, -⟩ :=
    map_index_pointer sampleExt (MapValue.MakeMap 0) []
      (.MapType (.PrimitiveType .StringType) (.PrimitiveType .IntType))
      (.PrimitiveType .StringType) (.PrimitiveType .IntType)
      (TypedValue.mk (some (.PrimitiveType .StringType)) (some (.StringValue [97])) 0)
      [115, 116, 114, 105, 110, 103, 58, 97]
      ⟨inv_makeMap sampleExt 0, fun a ha => by simp at ha⟩ rfl rfl
  obtain ⟨k1, k2, k3, ⟨it3, k4, -, k5⟩, -⟩ := g5 rfl
  exact ⟨mv3, pv, l2, g1, g2, g3, g4, k2, k1, k3, it3, k4, k5⟩

/-! ### Resolving the base of a pointer, of a slice and the parent of a block -/

theorem getBase_object (st : Heap.Store) (h : Heap.Objects) (pv : Heap.PointerValue)
    (b : Nat) (o : Heap.Object) (hb : pv.Base = some b) (ho : h[b]? = some o)
    (hio : o.isObject = true) :
    Heap.PointerValue.GetBase st h pv = .ok (pv, some b, []) := by
  cases o <;> first
    | (simp only [Heap.PointerValue.GetBase, hb, ho, Heap.Object.isObject, if_true]; done)
    | cases hio

theorem getBase_again (st : Heap.Store) (h : Heap.Objects) (pv pv1 : Heap.PointerValue)
    (r : Option Nat) (log : List Heap.Lookup)
    (hg : Heap.PointerValue.GetBase st h pv = .ok (pv1, r, log)) :
    Heap.PointerValue.GetBase st h pv1 = .ok (pv1, r, []) := by
  unfold Heap.PointerValue.GetBase at hg
  split at hg
  · rename_i hb
    cases hg
    simp only [Heap.PointerValue.GetBase, hb]
  · rename_i b hb
    split at hg
    · rename_i oid ho
      split at hg
      · cases hg
      · rename_i base hs
        split at hg
        · rename_i o hbase
          split_ifs at hg with hio
          cases hg
          exact getBase_object st h _ base o rfl hbase hio
        · cases hg
    · rename_i o hne ho
      split_ifs at hg with hio
      cases hg
      exact getBase_object st h _ b o hb ho hio
    · cases hg

theorem sliceGetBase_again (st : Heap.Store) (h h1 : Heap.Objects) (sv : Nat)
    (r : Option Nat) (log : List Heap.Lookup)
    (hg : Heap.SliceValue.GetBase st h sv = .ok (h1, r, log)) :
    Heap.SliceValue.GetBase st h1 sv = .ok (h1, r, []) := by
  unfold Heap.SliceValue.GetBase at hg
  split at hg
  · rename_i base offset length maxcap hsv
    split at hg
    · cases hg
      simp only [Heap.SliceValue.GetBase, hsv]
    · rename_i b
      split at hg
      · rename_i oid ho
        split at hg
        · cases hg
        · rename_i a hs
          split at hg
          · rename_i l d ha
            cases hg
            have hlt := getElem?_lt _ _ _ hsv
            have hne : sv ≠ a := by
              intro he
              rw [he] at hsv
              rw [hsv] at ha
              cases ha
            simp only [Heap.SliceValue.GetBase, List.getElem?_set_self hlt,
              List.getElem?_set_ne hne, ha]
          · cases hg
      · rename_i l d ha
        cases hg
        simp only [Heap.SliceValue.GetBase, hsv, ha]
      · cases hg
  · cases hg

theorem getParent_again (st : Heap.Store) (h h1 : Heap.Objects) (b : Nat)
    (r : Option Nat) (log : List Heap.Lookup)
    (hg : Heap.Block.GetParent st h b = .ok (h1, r, log)) :
    Heap.Block.GetParent st h1 b = .ok (h1, r, []) := by
  unfold Heap.Block.GetParent at hg
  split at hg
  · rename_i vs parent blank hb
    split at hg
    · cases hg
      simp only [Heap.Block.GetParent, hb]
    · rename_i p
      split at hg
      · rename_i vs2 p2 bl2 hp
        cases hg
        simp only [Heap.Block.GetParent, hb, hp]
      · rename_i oid ho
        split at hg
        · cases hg
        · rename_i a hs
          split at hg
          · rename_i vs2 p2 bl2 ha
            cases hg
            have hlt := getElem?_lt _ _ _ hb
            by_cases hba : b = a
            · subst hba
              simp only [Heap.Block.GetParent, List.getElem?_set_self hlt]
            · simp only [Heap.Block.GetParent, List.getElem?_set_self hlt,
                List.getElem?_set_ne hba, ha]
          · cases hg
      · cases hg
  · cases hg

/-- C26. `PointerValue.GetBase`: on an empty `Base` it returns nothing, on a
`Base` that holds an object it returns that object, in both cases with the
pointer unchanged and no lookup in the store; on a `Base` that is a
placeholder it returns the object that the store holds for the `ObjectID` of
the placeholder, with one lookup, and stores it in `Base`. A second call on
the pointer after a call that returned gives the same pointer and the same
object with no lookup. `SliceValue.GetBase` stores the array that the store
holds for a placeholder base in the slice, `Block.GetParent` the block that
the store holds for a placeholder parent in the block, and a second call of
either on the heap after a call that returned gives the same heap and the same
object with no lookup. -/
theorem getBase_memoizes (st : Heap.Store) (h : Heap.Objects) :
    (∀ pv : Heap.PointerValue, pv.Base = none →
      Heap.PointerValue.GetBase st h pv = .ok (pv, none, [])) ∧
    (∀ (pv : Heap.PointerValue) (b : Nat) (o : Heap.Object), pv.Base = some b →
      h[b]? = some o → o.isObject = true →
      Heap.PointerValue.GetBase st h pv = .ok (pv, some b, [])) ∧
    (∀ (pv : Heap.PointerValue) (b oid a : Nat) (o : Heap.Object), pv.Base = some b →
      h[b]? = some (.RefValue oid) → st.GetObject oid = some a →
      h[a]? = some o → o.isObject = true →
      Heap.PointerValue.GetBase st h pv =
        .ok ({ pv with Base := some a }, some a, [.object oid])) ∧
    (∀ (pv pv1 : Heap.PointerValue) (r : Option Nat) (log : List Heap.Lookup),
      Heap.PointerValue.GetBase st h pv = .ok (pv1, r, log) →
      Heap.PointerValue.GetBase st h pv1 = .ok (pv1, r, [])) ∧
    (∀ (sv b oid a : Nat) (offset length maxcap : Int) (l : List Heap.TypedValue)
        (d : Option Bytes),
      h[sv]? = some (.SliceValue (some b) offset length maxcap) →
      h[b]? = some (.RefValue oid) → st.GetObject oid = some a →
      h[a]? = some (.ArrayValue l d) →
      Heap.SliceValue.GetBase st h sv =
        .ok (h.set sv (.SliceValue (some a) offset length maxcap), some a, [.object oid])) ∧
    (∀ (sv : Nat) (h1 : Heap.Objects) (r : Option Nat) (log : List Heap.Lookup),
      Heap.SliceValue.GetBase st h sv = .ok (h1, r, log) →
      Heap.SliceValue.GetBase st h1 sv = .ok (h1, r, [])) ∧
    (∀ (b p oid a : Nat) (vs vs2 : List Heap.TypedValue) (blank bl2 : Nat) (p2 : Option Nat),
      h[b]? = some (.Block vs (some p) blank) →
      h[p]? = some (.RefValue oid) → st.GetObject oid = some a →
      h[a]? = some (.Block vs2 p2 bl2) →
      Heap.Block.GetParent st h b =
        .ok (h.set b (.Block vs (some a) blank), some a, [.object oid])) ∧
    (∀ (b : Nat) (h1 : Heap.Objects) (r : Option Nat) (log : List Heap.Lookup),
      Heap.Block.GetParent st h b = .ok (h1, r, log) →
      Heap.Block.GetParent st h1 b = .ok (h1, r, [])) := by
  refine ⟨?_, ?_, ?_, getBase_again st h, ?_, fun sv h1 => sliceGetBase_again st h h1 sv, ?_,
    fun b h1 => getParent_again st h h1 b⟩
  · intro pv hb
    simp only [Heap.PointerValue.GetBase, hb]
  · intro pv b o hb ho hio
    exact getBase_object st h pv b o hb ho hio
  · intro pv b oid a o hb ho hs ha hio
    simp only [Heap.PointerValue.GetBase, hb, ho, hs, ha, hio, if_true]
  · intro sv b oid a offset length maxcap l d hsv hb hs ha
    simp only [Heap.SliceValue.GetBase, hsv, hb, hs, ha]
  · intro b p oid a vs vs2 blank bl2 p2 hb hp hs ha
    simp only [Heap.Block.GetParent, hb, hp, hs, ha]

/-- On the sample heap the pointer with the placeholder of the array as base
is resolved to the array with one lookup, and a second call makes none; the
same for the slice 2 and for the parent of the block 7. -/
theorem getBase_memoizes_witness :
    Heap.PointerValue.GetBase Heap.sampleStore Heap.sampleRefHeap
        { TV := none, Base := some 1, Index := 1 } =
      .ok ({ TV := none, Base := some 0, Index := 1 }, some 0, [.object 7]) ∧
    Heap.PointerValue.GetBase Heap.sampleStore Heap.sampleRefHeap
        { TV := none, Base := some 0, Index := 1 } =
      .ok ({ TV := none, Base := some 0, Index := 1 }, some 0, []) ∧
    Heap.SliceValue.GetBase Heap.sampleStore Heap.sampleRefHeap 2 =
      .ok (Heap.sampleRefHeap.set 2 (.SliceValue (some 0) 0 2 2), some 0, [.object 7]) ∧
    Heap.SliceValue.GetBase Heap.sampleStore
        (Heap.sampleRefHeap.set 2 (.SliceValue (some 0) 0 2 2)) 2 =
      .ok (Heap.sampleRefHeap.set 2 (.SliceValue (some 0) 0 2 2), some 0, []) ∧
    Heap.Block.GetParent Heap.sampleStore Heap.sampleRefHeap 7 =
      .ok (Heap.sampleRefHeap.set 7 (.Block
        [Heap.intSlot 6,
         { T := some (.PointerType (.PrimitiveType .IntType)),
           V := some (.PointerValue { TV := none, Base := some 1, Index := 1 }), N := 0 },
         { T := none, V := some (.RefValue 8 []), N := 0 }] (some 4) 6), some 4, [.object 8]) :=
  have hm := getBase_memoizes Heap.sampleStore Heap.sampleRefHeap
  have h1 := hm.2.2.1 { TV := none, Base := some 1, Index := 1 } 1 7 0 _ rfl rfl rfl rfl rfl
  have h3 := hm.2.2.2.2.1 2 1 7 0 0 2 2 _ _ rfl rfl rfl rfl
  ⟨h1, hm.2.2.2.1 _ _ _ _ h1, h3, hm.2.2.2.2.2.1 2 _ _ _ h3,
    hm.2.2.2.2.2.2.1 7 5 8 4 _ _ 6 3 none rfl rfl rfl rfl⟩

/-! ### Pointers to one byte of a byte buffer -/

/-- C27. On an array held as a byte buffer `data`, with `0 ≤ m < len(data)`:
`GetPointerAtIndexInt2(m, et)` returns a pointer to a new slot of the
pseudo-type `DataByteType`; `Assign2` of `x` through it returns, sets byte `m`
of the buffer to the `uint8` of `x` (the list `data.set m b` differs from
`data` at `m` only), changes no other object, leaves the slot of the pointer
as it was, and returns the realm as it was, whatever the realm and the base;
`Deref` after it returns the slot of type `et` with no payload and with that
byte as number. `Deref` of a pointer to a slot whose type is not
`DataByteType` returns the content of the slot. -/
theorem dataByte_assign_deref (env : Heap.Env) (n : Nat) (h : Heap.Objects) (a : Nat)
    (l : List Heap.TypedValue) (data : Bytes) (m : Int) (et : GType)
    (rlm : Option (List Heap.Update)) (x : Heap.TypedValue) (cu : Bool)
    (ha : h[a]? = some (.ArrayValue l (some data))) (h0 : 0 ≤ m) (h1 : m < data.length) :
    (∃ pv h1 h2,
      Heap.ArrayValue.GetPointerAtIndexInt2 h a m et = .ok (h1, pv) ∧
      pv.TV = some (h.length, 0) ∧
      Heap.readSlot h1 h.length 0 = some (Heap.dataByteSlot a m et) ∧
      pv.Assign2 env n h1 rlm x cu = .ok (h2, rlm) ∧
      h2[a]? = some (.ArrayValue l (some (data.set m.toNat (x.N % 256)))) ∧
      (∀ c, c ≠ a → h2[c]? = h1[c]?) ∧
      Heap.readSlot h2 h.length 0 = some (Heap.dataByteSlot a m et) ∧
      pv.Deref h2 = .ok { T := some et, V := none, N := x.N % 256 }) ∧
    (∀ (h3 : Heap.Objects) (pv : Heap.PointerValue) (obj i : Nat) (cur : Heap.TypedValue),
      pv.TV = some (obj, i) → Heap.readSlot h3 obj i = some cur →
      Heap.isDataByteType cur.T = false → pv.Deref h3 = .ok cur) := by
  refine ⟨?_, deref_plain⟩
  have halt := getElem?_lt_length h a _ ha
  have hk : m.toNat < data.length := by omega
  have hne : a ≠ h.length := by omega
  have hset : List.set (h ++ [Heap.Object.Slot (Heap.dataByteSlot a m et)]) a
        (.ArrayValue l (some (data.set m.toNat (x.N % 256)))) =
      h.set a (.ArrayValue l (some (data.set m.toNat (x.N % 256)))) ++
        [Heap.Object.Slot (Heap.dataByteSlot a m et)] := List.set_append_left _ _ halt
  have hlen : (h.set a (Heap.Object.ArrayValue l
      (some (data.set m.toNat (x.N % 256))))).length = h.length := List.length_set _ _ _
  have ha2 : (h.set a (Heap.Object.ArrayValue l (some (data.set m.toNat (x.N % 256)))))[a]? =
      some (.ArrayValue l (some (data.set m.toNat (x.N % 256)))) :=
    List.getElem?_set_self halt
  refine ⟨{ TV := some (h.length, 0), Base := some a, Index := m }, _, _, ?_, rfl,
    readSlot_new h _, assign2_bytes env n h a l data m et (some a) m rlm x cu ha h0 h1,
    ?_, ?_, ?_, ?_⟩
  · simp only [Heap.ArrayValue.GetPointerAtIndexInt2, ha]
  · rw [List.getElem?_set_self (by rw [List.length_append]; omega)]
  · intro c hc
    exact List.getElem?_set_ne (Ne.symm hc)
  · rw [hset, ← hlen]
    exact readSlot_new _ _
  · rw [hset]
    have hd := deref_bytes _ a l (data.set m.toNat (x.N % 256)) m et (some a) m ha2 h0
      (by rw [List.length_set]; exact h1)
    rw [hlen, List.getElem?_set_self hk] at hd
    exact hd

/-- On the byte array `[3]uint8{1, 2, 3}` of the sample heap, the write of 9
through the pointer to byte 1 gives the buffer `{1, 9, 3}` and `Deref` then
returns the `uint8` 9. -/
theorem dataByte_assign_deref_witness :
    ∃ pv h1 h2,
      Heap.ArrayValue.GetPointerAtIndexInt2 Heap.sampleHeap 1 1 (.PrimitiveType .Uint8Type) =
        .ok (h1, pv) ∧
      pv.Assign2 Heap.sampleEnv 0 h1 (some [])
        { T := some (.PrimitiveType .Uint8Type), V := none, N := 9 } false = .ok (h2, some []) ∧
      h2[1]? = some (.ArrayValue [] (some [1, 9, 3])) ∧
      pv.Deref h2 = .ok { T := some (.PrimitiveType .Uint8Type), V := none, N := 9 } := by
  obtain ⟨pv, h1, h2, g1, -, -, g2, g3, -, -, g4⟩ :=
    (dataByte_assign_deref Heap.sampleEnv 0 Heap.sampleHeap 1 [] [1, 2, 3] 1
      (.PrimitiveType .Uint8Type) (some [])
      { T := some (.PrimitiveType .Uint8Type), V := none, N := 9 } false rfl (by decide)
      (by decide)).1
  exact ⟨pv, h1, h2, g1, g2, g3, g4⟩

/-! ### The notification of the realm by `Assign2` -/

/-- C28. `Assign2` through a pointer to a slot whose type is not
`DataByteType` (the base of the pointer, when there is one, is taken to pass
the assertion `pv.Base.(Object)`). When `Assign` of the same arguments on the
slot fails, `Assign2` fails in the same way. When `Assign` returns the heap `h1`, `Assign2` returns
the same heap, the slot holds the copy of `tv2` (converted when `cu` is set
and its type is untyped), and: with a realm and a base, the realm has one more
call of `DidUpdate`, whose owner is the base, whose old object is the first
object of the slot before the write and whose new object is the first object
of the slot after the write; with no realm or no base, the realm is as it
was. -/
theorem assign2_notifies (env : Heap.Env) (fuel : Nat) (h : Heap.Objects)
    (rlm : Option (List Heap.Update)) (pv : Heap.PointerValue) (tv2 : Heap.TypedValue)
    (cu : Bool) (obj i : Nat) (cur : Heap.TypedValue)
    (hp : pv.TV = some (obj, i)) (hr : Heap.readSlot h obj i = some cur)
    (hc : Heap.isDataByteType cur.T = false) :
    (∀ e, Heap.TypedValue.Assign env fuel h (obj, i) tv2 cu = .error e →
      pv.Assign2 env fuel h rlm tv2 cu = .error e) ∧
    (∀ h1, Heap.TypedValue.Assign env fuel h (obj, i) tv2 cu = .ok h1 →
      ∃ hc cp cur1, Heap.TypedValue.Copy fuel h tv2 = .ok (hc, cp) ∧
        cur1 = (if cu && env.isUntyped cp.T then env.convertUntyped cp else cp) ∧
        Heap.readSlot h1 obj i = some cur1 ∧
        (∀ log base, rlm = some log → pv.Base = some base →
          pv.Assign2 env fuel h rlm tv2 cu =
            .ok (h1, some (log ++
              [{ po := base, xo := env.firstObject h cur, co := env.firstObject h1 cur1 }]))) ∧
        (rlm = none ∨ pv.Base = none → pv.Assign2 env fuel h rlm tv2 cu = .ok (h1, rlm))) := by
  constructor
  · intro e he
    unfold Heap.PointerValue.Assign2
    simp only [hp, hr, hc, Bool.false_eq_true, if_false, he]
    split <;> rfl
  · intro h1 ha
    obtain ⟨hcp, cp, hcopy, -, hread⟩ := assign_read env fuel h h1 obj i tv2 cu ha
    refine ⟨hcp, cp, _, hcopy, rfl, hread, ?_, ?_⟩
    · intro log base hl hbase
      subst hl
      unfold Heap.PointerValue.Assign2
      simp only [hp, hr, hc, hbase, ha, hread, Bool.false_eq_true, if_false]
    · intro hno
      unfold Heap.PointerValue.Assign2
      simp only [hp, hr, hc, Bool.false_eq_true, if_false, ha]
      rcases hno with hno | hno
      · subst hno
        rfl
      · rw [hno]
        cases rlm <;> rfl

/-- On the sample heap, with a realm that has no call yet, the write of the
int 7 to element 1 of the array `A` through the pointer with base `A` makes
one call of `DidUpdate` with the owner `A`; through the pointer with no
base it makes none. -/
theorem assign2_notifies_witness :
    Heap.PointerValue.Assign2 Heap.sampleEnv 1 Heap.sampleHeap (some [])
        { TV := some (0, 1), Base := some 0, Index := 1 } (Heap.intSlot 7) false =
      .ok (Heap.sampleHeap.set 0 (.ArrayValue
          [Heap.intSlot 10, Heap.intSlot 7, Heap.intSlot 30, Heap.intSlot 40, Heap.intSlot 50]
          none),
        some [{ po := 0, xo := none, co := none }]) ∧
    Heap.PointerValue.Assign2 Heap.sampleEnv 1 Heap.sampleHeap (some [])
        { TV := some (0, 1), Base := none, Index := 1 } (Heap.intSlot 7) false =
      .ok (Heap.sampleHeap.set 0 (.ArrayValue
          [Heap.intSlot 10, Heap.intSlot 7, Heap.intSlot 30, Heap.intSlot 40, Heap.intSlot 50]
          none),
        some []) := by
  obtain ⟨hc, cp, cur1, -, -, -, g1, -⟩ :=
    (assign2_notifies Heap.sampleEnv 1 Heap.sampleHeap (some [])
      { TV := some (0, 1), Base := some 0, Index := 1 } (Heap.intSlot 7) false 0 1
      (Heap.intSlot 20) rfl rfl rfl).2 _ rfl
  exact ⟨g1 [] 0 rfl rfl, rfl⟩

/-! ### The pointer to a reference to a field -/

/-- C29. `GetSubrefPointerTo` on a struct with a field `path.Index`, when
`fillValueTV` returns on the field with the heap `h1` and the field then
holds a slot whose type is not `DataByteType`. It returns a pointer with no
base to a new slot, the object `len(h1)`, whose type is the pointer type to
the static type `ft` of the field and whose payload is the inner pointer with
`TV` the field, `Base` the struct and `Index` `path.Index`. For every value
whose copy returns: `Assign2` through the pointer returned returns with the
realm as it was, the new slot holds the copy, and every object of `h1`, the
struct among them, is as it was; `Assign2` through the inner pointer returns
and the field `path.Index` of the struct holds the copy. -/
theorem subref_pointer (st : Heap.Store) (fuel : Nat) (env : Heap.Env) (ft : GType)
    (h h1 : Heap.Objects) (sv : Nat) (path : Heap.ValuePath) (fs : List Heap.TypedValue)
    (log : List Heap.Lookup) (cur : Heap.TypedValue)
    (hs : h[sv]? = some (.StructValue fs)) (hi : path.Index < fs.length)
    (hf : Heap.fillValueTV st fuel h (sv, path.Index) = .ok (h1, log))
    (hr : Heap.readSlot h1 sv path.Index = some cur)
    (hd : Heap.isDataByteType cur.T = false) :
    ∃ h2 pv ipv,
      Heap.StructValue.GetSubrefPointerTo (Heap.fillValueTV st fuel) ft h sv path =
        .ok (h2, pv, log) ∧
      pv = { TV := some (h1.length, 0), Base := none, Index := 0 } ∧
      ipv = { TV := some (sv, path.Index), Base := some sv, Index := path.Index } ∧
      h2 = h1 ++ [.Slot (Heap.subrefSlot ft sv path.Index path.Index)] ∧
      pv.Deref h2 = .ok (Heap.subrefSlot ft sv path.Index path.Index) ∧
      (Heap.subrefSlot ft sv path.Index path.Index).T = some (.PointerType ft) ∧
      (Heap.subrefSlot ft sv path.Index path.Index).V = some (.PointerValue ipv) ∧
      (∀ (n : Nat) (rlm : Option (List Heap.Update)) (x cp : Heap.TypedValue) (cu : Bool)
          (hc : Heap.Objects), Heap.TypedValue.Copy n h2 x = .ok (hc, cp) →
        ∃ h3, pv.Assign2 env n h2 rlm x cu = .ok (h3, rlm) ∧
          Heap.readSlot h3 h1.length 0 =
            some (if cu && env.isUntyped cp.T then env.convertUntyped cp else cp) ∧
          ∀ c, c < h1.length → h3[c]? = h1[c]?) ∧
      (∀ (n : Nat) (rlm : Option (List Heap.Update)) (x cp : Heap.TypedValue) (cu : Bool)
          (hc : Heap.Objects), Heap.TypedValue.Copy n h2 x = .ok (hc, cp) →
        ∃ h3 rlm3, ipv.Assign2 env n h2 rlm x cu = .ok (h3, rlm3) ∧
          Heap.readSlot h3 sv path.Index =
            some (if cu && env.isUntyped cp.T then env.convertUntyped cp else cp)) := by
  have hic : Heap.indexCheck (path.Index : Int) fs.length = .ok path.Index := by
    have := indexCheck_ok (path.Index : Int) fs.length (by omega) (by omega)
    simpa using this
  have hnew : Heap.readSlot
      (h1 ++ [Heap.Object.Slot (Heap.subrefSlot ft sv path.Index path.Index)])
      h1.length 0 = some _ := readSlot_new h1 _
  refine ⟨_, _, _, ?_, rfl, rfl, rfl, ?_, rfl, rfl, ?_, ?_⟩
  · simp only [Heap.StructValue.GetSubrefPointerTo, hs, hic, hf]
  · exact deref_plain _ _ h1.length 0 _ rfl hnew rfl
  · intro n rlm x cp cu hc hcp
    obtain ⟨h3, ha, hread, hfr⟩ := assign2_ok env n _ hc rlm
      { TV := some (h1.length, 0), Base := none, Index := 0 } h1.length 0 _ x cp cu rfl hnew rfl
      (Or.inr rfl) hcp
    refine ⟨h3, ha, hread, ?_⟩
    intro c hlt
    rw [hfr c (by rw [List.length_append]; omega) (by omega)]
    exact List.getElem?_append_left hlt
  · intro n rlm x cp cu hc hcp
    obtain ⟨h3, rlm3, ha, hread, -⟩ := assign2_returns env n _ hc rlm
      { TV := some (sv, path.Index), Base := some sv, Index := path.Index } sv path.Index cur
      x cp cu rfl (readSlot_extends h1 _ (List.prefix_append _ _) sv path.Index cur hr) hd hcp
    exact ⟨h3, rlm3, ha, hread⟩
/-- On the struct, object 4, of the sample heap with a struct, the pointer to
the reference to the field 0 has no base and points to the new object 5, and
the write of the int 8 through the inner pointer changes the field 0. -/
theorem subref_pointer_witness :
    Heap.StructValue.GetSubrefPointerTo (Heap.fillValueTV Heap.sampleStore 1)
        (.PrimitiveType .IntType) Heap.sampleStructHeap 4
        { Typ := .VPSubrefField, Depth := 0, Index := 0, Name := [] } =
      .ok (Heap.sampleStructHeap ++
          [.Slot (Heap.subrefSlot (.PrimitiveType .IntType) 4 0 0)],
        { TV := some (5, 0), Base := none, Index := 0 }, []) ∧
    ∃ h3 rlm3, Heap.PointerValue.Assign2 Heap.sampleEnv 1
        (Heap.sampleStructHeap ++ [.Slot (Heap.subrefSlot (.PrimitiveType .IntType) 4 0 0)])
        none { TV := some (4, 0), Base := some 4, Index := 0 } (Heap.intSlot 8) false =
          .ok (h3, rlm3) ∧
      Heap.readSlot h3 4 0 = some (Heap.intSlot 8) := by
  obtain ⟨h2, pv, ipv, g1, g2, g3, g4, -, -, -, -, g5⟩ :=
    subref_pointer Heap.sampleStore 1 Heap.sampleEnv (.PrimitiveType .IntType)
      Heap.sampleStructHeap Heap.sampleStructHeap 4
      { Typ := .VPSubrefField, Depth := 0, Index := 0, Name := [] } _ [] (Heap.intSlot 9) rfl (by decide)
      rfl rfl rfl
  subst g2 g3 g4
  exact ⟨g1, g5 1 none (Heap.intSlot 8) (Heap.intSlot 8) false _ rfl⟩

/-! ### The pointer to a value of a block -/

theorem parentLoop_follow (st : Heap.Store) (d : Nat) :
    ∀ (f i : Nat) (h : Heap.Objects) (b : Option Nat), d - i ≤ f →
      Heap.Block.parentLoop st d f i h b = Heap.Block.followParent st (d - i) h b
  | 0, i, h, b, hf => by
    have h0 : d - i = 0 := by omega
    rw [h0]
    rfl
  | f + 1, i, h, b, hf => by
    by_cases hi : i < d
    · have hs : d - i = (d - (i + 1)) + 1 := by omega
      rw [hs]
      simp only [Heap.Block.parentLoop, hi, if_true, Heap.Block.followParent]
      cases b with
      | none => rfl
      | some a =>
        simp only []
        cases hg : Heap.Block.GetParent st h a with
        | error e => rfl
        | ok r =>
          obtain ⟨h1, b1, log1⟩ := r
          simp only []
          rw [parentLoop_follow st d f (i + 1) h1 b1 (by omega)]
    · have h0 : d - i = 0 := by omega
      rw [h0]
      simp only [Heap.Block.parentLoop, hi, if_false, Heap.Block.followParent]

theorem blockPointer_ok (fill : Heap.Fill) (h h2 : Heap.Objects) (a : Nat)
    (vs : List Heap.TypedValue) (p : Option Nat) (bl : Nat) (idx : Nat)
    (log : List Heap.Lookup)
    (ha : h[a]? = some (.Block vs p bl)) (hi : idx < vs.length)
    (hf : fill h (a, idx) = .ok (h2, log)) :
    Heap.Block.GetPointerToInt fill h a idx =
      .ok (h2, { TV := some (a, idx), Base := some a, Index := idx }, log) := by
  have hic : Heap.indexCheck (idx : Int) vs.length = .ok idx := by
    have := indexCheck_ok (idx : Int) vs.length (by omega) (by omega)
    simpa using this
  simp only [Heap.Block.GetPointerToInt, ha, hic, hf]

/-- C22. `Block.GetPointerTo`. For the path of the blank identifier it
returns the pointer whose `TV` is the blank slot of the block, whose `Base` is
the block and whose `Index` is -1, with the heap as it was and no lookup. For
every other path it is `GetPointerToInt(path.Index)` on the block reached
by following the `Parent` link `max(Depth, 1) - 1` times from the block, each
time with `GetParent` (`Depth` is a `uint8`, so the counter of the loop does
not wrap); when that block has a value `path.Index` on which `fillValueTV`
returns, the pointer has that value as `TV`, that block as `Base` and
`path.Index` as `Index`. Two paths of depth 0 and of depth 1 with the same
index that are not the path of the blank identifier give the same result, on
the block itself. -/
theorem block_getPointerTo (st : Heap.Store) (fuel : Nat) (isBlank : Heap.ValuePath → Bool)
    (h : Heap.Objects) (b : Nat) (path : Heap.ValuePath) :
    (∀ (vs : List Heap.TypedValue) (parent : Option Nat) (blank : Nat),
      isBlank path = true → h[b]? = some (.Block vs parent blank) →
      Heap.Block.GetPointerTo st fuel isBlank h b path =
        .ok (h, { TV := some (blank, 0), Base := some b, Index := -1 }, [])) ∧
    (isBlank path = false →
      Heap.Block.GetPointerTo st fuel isBlank h b path =
        match Heap.Block.followParent st (max path.Depth 1 - 1) h (some b) with
        | .error e => .error e
        | .ok (_, none, _) => .error (.runtime "nil pointer dereference" [])
        | .ok (h1, some a, log1) =>
          match Heap.Block.GetPointerToInt (Heap.fillValueTV st fuel) h1 a path.Index with
          | .error e => .error e
          | .ok (h2, pv, log2) => .ok (h2, pv, log1 ++ log2)) ∧
    (∀ (h1 h2 : Heap.Objects) (a : Nat) (log1 log2 : List Heap.Lookup)
        (vs : List Heap.TypedValue) (parent : Option Nat) (blank : Nat),
      isBlank path = false →
      Heap.Block.followParent st (max path.Depth 1 - 1) h (some b) = .ok (h1, some a, log1) →
      h1[a]? = some (.Block vs parent blank) → path.Index < vs.length →
      Heap.fillValueTV st fuel h1 (a, path.Index) = .ok (h2, log2) →
      Heap.Block.GetPointerTo st fuel isBlank h b path =
        .ok (h2, { TV := some (a, path.Index), Base := some a, Index := path.Index },
          log1 ++ log2)) ∧
    (∀ path1 : Heap.ValuePath, isBlank path = false → isBlank path1 = false →
      path.Depth = 0 → path1.Depth = 1 → path1.Index = path.Index →
      Heap.Block.GetPointerTo st fuel isBlank h b path =
        Heap.Block.GetPointerTo st fuel isBlank h b path1 ∧
      Heap.Block.GetPointerTo st fuel isBlank h b path =
        Heap.Block.GetPointerToInt (Heap.fillValueTV st fuel) h b path.Index) := by
  have hloop : ∀ p : Heap.ValuePath,
      Heap.Block.parentLoop st p.Depth p.Depth 1 h (some b) =
        Heap.Block.followParent st (max p.Depth 1 - 1) h (some b) := by
    intro p
    rw [parentLoop_follow st p.Depth p.Depth 1 h (some b) (by omega)]
    congr 1
    omega
  have hgen : isBlank path = false →
      Heap.Block.GetPointerTo st fuel isBlank h b path =
        match Heap.Block.followParent st (max path.Depth 1 - 1) h (some b) with
        | .error e => .error e
        | .ok (_, none, _) => .error (.runtime "nil pointer dereference" [])
        | .ok (h1, some a, log1) =>
          match Heap.Block.GetPointerToInt (Heap.fillValueTV st fuel) h1 a path.Index with
          | .error e => .error e
          | .ok (h2, pv, log2) => .ok (h2, pv, log1 ++ log2) := by
    intro hb
    simp only [Heap.Block.GetPointerTo, hb, hloop path, Bool.false_eq_true, if_false]
    cases hfp : Heap.Block.followParent st (max path.Depth 1 - 1) h (some b) with
    | error e => rfl
    | ok r =>
      obtain ⟨h1, b1, log1⟩ := r
      cases b1 <;> rfl
  have hzero : ∀ p : Heap.ValuePath, isBlank p = false → max p.Depth 1 - 1 = 0 →
      Heap.Block.GetPointerTo st fuel isBlank h b p =
        Heap.Block.GetPointerToInt (Heap.fillValueTV st fuel) h b p.Index := by
    intro p hb hd
    simp only [Heap.Block.GetPointerTo, hb, hloop p, hd, Heap.Block.followParent,
      Bool.false_eq_true, if_false, List.nil_append]
    cases Heap.Block.GetPointerToInt (Heap.fillValueTV st fuel) h b p.Index with
    | error e => rfl
    | ok r => rfl
  refine ⟨?_, hgen, ?_, ?_⟩
  · intro vs parent blank hb hblock
    simp only [Heap.Block.GetPointerTo, hb, hblock, if_true]
    rfl
  · intro h1 h2 a log1 log2 vs parent blank hb hfp ha hi hf
    rw [hgen hb, hfp]
    simp only [blockPointer_ok _ h1 h2 a vs parent blank path.Index log2 ha hi hf]
  · intro path1 hb hb1 hd hd1 hidx
    have e0 := hzero path hb (by rw [hd]; rfl)
    have e1 := hzero path1 hb1 (by rw [hd1]; rfl)
    rw [hidx] at e1
    exact ⟨by rw [e0, e1], e0⟩
/-- On the sample heap with placeholders, from the block 7: the path of the
blank identifier gives the blank slot, object 6, of the block; the path of
depth 2 and index 0 loads the parent, the block 4, with one lookup and gives
its value 0. -/
theorem block_getPointerTo_witness :
    Heap.Block.GetPointerTo Heap.sampleStore 1 Heap.sampleIsBlank Heap.sampleRefHeap 7
        { Typ := .VPBlock, Depth := 0, Index := 0, Name := [95] } =
      .ok (Heap.sampleRefHeap, { TV := some (6, 0), Base := some 7, Index := -1 }, []) ∧
    ∃ h2, Heap.Block.GetPointerTo Heap.sampleStore 1 Heap.sampleIsBlank Heap.sampleRefHeap 7
        { Typ := .VPBlock, Depth := 2, Index := 0, Name := [120] } =
      .ok (h2, { TV := some (4, 0), Base := some 4, Index := 0 }, [.object 8]) ∧
      Heap.Block.GetParent Heap.sampleStore h2 7 = .ok (h2, some 4, []) :=
  ⟨(block_getPointerTo Heap.sampleStore 1 Heap.sampleIsBlank Heap.sampleRefHeap 7
      { Typ := .VPBlock, Depth := 0, Index := 0, Name := [95] }).1 _ _ 6 rfl rfl,
    _, (block_getPointerTo Heap.sampleStore 1 Heap.sampleIsBlank Heap.sampleRefHeap 7
      { Typ := .VPBlock, Depth := 2, Index := 0, Name := [120] }).2.2.1 _ _ 4 [.object 8] []
        [Heap.intSlot 5] none 3 rfl rfl rfl (by decide) rfl, rfl⟩

/-! ### The objects kept by the writes to slots -/

theorem keeps_refl (h : Heap.Objects) : Heap.Keeps h h :=
  fun _ o ho => ⟨o, ho, rfl⟩

theorem keeps_trans (h h1 h2 : Heap.Objects) (k1 : Heap.Keeps h h1) (k2 : Heap.Keeps h1 h2) :
    Heap.Keeps h h2 := by
  intro a o ho
  obtain ⟨o1, ho1, e1⟩ := k1 a o ho
  obtain ⟨o2, ho2, e2⟩ := k2 a o1 ho1
  exact ⟨o2, ho2, e2.trans e1⟩

theorem keeps_append (h l : Heap.Objects) : Heap.Keeps h (h ++ l) := by
  intro a o ho
  exact ⟨o, by rw [List.getElem?_append_left (getElem?_lt _ _ _ ho)]; exact ho, rfl⟩

theorem keeps_extends (h h1 : Heap.Objects) (hp : h <+: h1) : Heap.Keeps h h1 := by
  obtain ⟨r, rfl⟩ := hp
  exact keeps_append h r

theorem keeps_set (h : Heap.Objects) (a : Nat) (o o1 : Heap.Object) (ho : h[a]? = some o)
    (he : o1.frame = o.frame) : Heap.Keeps h (h.set a o1) := by
  intro c oc hc
  by_cases hca : a = c
  · subst hca
    rw [ho] at hc
    cases hc
    exact ⟨o1, List.getElem?_set_self (getElem?_lt _ _ _ ho), he⟩
  · exact ⟨oc, by rw [List.getElem?_set_ne hca]; exact hc, rfl⟩

theorem writeSlot_keeps (h h1 : Heap.Objects) (obj i : Nat) (v : Heap.TypedValue)
    (hw : Heap.writeSlot h obj i v = some h1) : Heap.Keeps h h1 := by
  unfold Heap.writeSlot at hw
  split at hw
  · rename_i l ho
    split_ifs at hw
    cases hw
    exact keeps_set h obj _ _ ho (by simp [Heap.Object.frame])
  · rename_i fs ho
    split_ifs at hw
    cases hw
    exact keeps_set h obj _ _ ho (by simp [Heap.Object.frame])
  · rename_i tv ho
    split_ifs at hw
    cases hw
    exact keeps_set h obj _ _ ho (by simp [Heap.Object.frame])
  · rename_i tv ho
    split_ifs at hw
    cases hw
    exact keeps_set h obj _ _ ho (by simp [Heap.Object.frame])
  · rename_i vs p bl ho
    split_ifs at hw
    cases hw
    exact keeps_set h obj _ _ ho (by simp [Heap.Object.frame])
  · cases hw

theorem frame_block (o1 : Heap.Object) (vs : List Heap.TypedValue) (p : Option Nat) (bl : Nat)
    (he : o1.frame = (Heap.Object.Block vs p bl).frame) :
    ∃ vs1, o1 = .Block vs1 p bl ∧ vs1.length = vs.length := by
  cases o1 with
  | ArrayValue l d => cases d <;> simp [Heap.Object.frame] at he
  | Block vs1 p1 bl1 =>
    simp only [Heap.Object.frame, Heap.Object.Block.injEq] at he
    obtain ⟨e1, e2, e3⟩ := he
    subst e2 e3
    have := congrArg List.length e1
    simp only [List.length_replicate] at this
    exact ⟨vs1, rfl, this⟩
  | _ => simp [Heap.Object.frame] at he

theorem frame_struct (o1 : Heap.Object) (fs : List Heap.TypedValue)
    (he : o1.frame = (Heap.Object.StructValue fs).frame) :
    ∃ fs1, o1 = .StructValue fs1 ∧ fs1.length = fs.length := by
  cases o1 with
  | ArrayValue l d => cases d <;> simp [Heap.Object.frame] at he
  | StructValue fs1 =>
    simp only [Heap.Object.frame, Heap.Object.StructValue.injEq] at he
    have := congrArg List.length he
    simp only [List.length_replicate] at this
    exact ⟨fs1, rfl, this⟩
  | _ => simp [Heap.Object.frame] at he

theorem frame_list (o1 : Heap.Object) (l : List Heap.TypedValue)
    (he : o1.frame = (Heap.Object.ArrayValue l none).frame) :
    ∃ l1, o1 = .ArrayValue l1 none ∧ l1.length = l.length := by
  cases o1 with
  | ArrayValue l1 d =>
    cases d with
    | none =>
      simp only [Heap.Object.frame, Heap.Object.ArrayValue.injEq, and_true] at he
      have := congrArg List.length he
      simp only [List.length_replicate] at this
      exact ⟨l1, rfl, this⟩
    | some d => simp [Heap.Object.frame] at he
  | _ => simp [Heap.Object.frame] at he

theorem frame_data (o1 : Heap.Object) (l : List Heap.TypedValue) (d : Bytes)
    (he : o1.frame = (Heap.Object.ArrayValue l (some d)).frame) :
    o1 = .ArrayValue l (some d) := by
  cases o1 with
  | ArrayValue l1 d1 =>
    cases d1 with
    | none => simp [Heap.Object.frame] at he
    | some d1 =>
      simpa [Heap.Object.frame] using he
  | _ => simp [Heap.Object.frame] at he

theorem frame_heapItem (o1 : Heap.Object) (v : Heap.TypedValue)
    (he : o1.frame = (Heap.Object.HeapItemValue v).frame) :
    ∃ v1, o1 = .HeapItemValue v1 := by
  cases o1 with
  | ArrayValue l d => cases d <;> simp [Heap.Object.frame] at he
  | HeapItemValue v1 => exact ⟨v1, rfl⟩
  | _ => simp [Heap.Object.frame] at he

theorem frame_slot (o1 : Heap.Object) (v : Heap.TypedValue)
    (he : o1.frame = (Heap.Object.Slot v).frame) :
    ∃ v1, o1 = .Slot v1 := by
  cases o1 with
  | ArrayValue l d => cases d <;> simp [Heap.Object.frame] at he
  | Slot v1 => exact ⟨v1, rfl⟩
  | _ => simp [Heap.Object.frame] at he

theorem frame_ref (o o1 : Heap.Object) (he : o1.frame = o.frame)
    (hn : ∀ oid, o ≠ .RefValue oid) : ∀ oid, o1 ≠ .RefValue oid := by
  intro oid h1
  subst h1
  cases o with
  | ArrayValue l d => cases d <;> simp [Heap.Object.frame] at he
  | RefValue oid2 => exact hn oid2 rfl
  | _ => simp [Heap.Object.frame] at he

theorem keeps_readSlot (h h1 : Heap.Objects) (k : Heap.Keeps h h1) (obj i : Nat)
    (cur : Heap.TypedValue) (hr : Heap.readSlot h obj i = some cur) :
    ∃ cur1, Heap.readSlot h1 obj i = some cur1 := by
  unfold Heap.readSlot at hr
  split at hr
  · rename_i l ho
    obtain ⟨o1, ho1, he⟩ := k obj _ ho
    obtain ⟨l1, rfl, hl⟩ := frame_list o1 l he
    have hi : i < l1.length := by rw [hl]; exact getElem?_lt _ _ _ hr
    exact ⟨l1[i], by simp only [Heap.readSlot, ho1, List.getElem?_eq_getElem hi]⟩
  · rename_i fs ho
    obtain ⟨o1, ho1, he⟩ := k obj _ ho
    obtain ⟨l1, rfl, hl⟩ := frame_struct o1 fs he
    have hi : i < l1.length := by rw [hl]; exact getElem?_lt _ _ _ hr
    exact ⟨l1[i], by simp only [Heap.readSlot, ho1, List.getElem?_eq_getElem hi]⟩
  · rename_i tv ho
    obtain ⟨o1, ho1, he⟩ := k obj _ ho
    obtain ⟨v1, rfl⟩ := frame_slot o1 tv he
    split_ifs at hr with hi
    exact ⟨v1, by simp only [Heap.readSlot, ho1, hi, if_true]⟩
  · rename_i tv ho
    obtain ⟨o1, ho1, he⟩ := k obj _ ho
    obtain ⟨v1, rfl⟩ := frame_heapItem o1 tv he
    split_ifs at hr with hi
    exact ⟨v1, by simp only [Heap.readSlot, ho1, hi, if_true]⟩
  · rename_i vs p bl ho
    obtain ⟨o1, ho1, he⟩ := k obj _ ho
    obtain ⟨l1, rfl, hl⟩ := frame_block o1 vs p bl he
    have hi : i < l1.length := by rw [hl]; exact getElem?_lt _ _ _ hr
    exact ⟨l1[i], by simp only [Heap.readSlot, ho1, List.getElem?_eq_getElem hi]⟩
  · cases hr

theorem keeps_notRef (h h1 : Heap.Objects) (k : Heap.Keeps h h1) (a : Nat) (o : Heap.Object)
    (ho : h[a]? = some o) (hn : ∀ oid, o ≠ .RefValue oid) :
    ∃ o1, h1[a]? = some o1 ∧ ∀ oid, o1 ≠ .RefValue oid := by
  obtain ⟨o1, ho1, he⟩ := k a o ho
  exact ⟨o1, ho1, frame_ref o o1 he hn⟩

/-! ### The function `fillValueTV` -/

theorem fill_succ (st : Heap.Store) (fuel : Nat) (h : Heap.Objects) (tv : Nat × Nat) :
    Heap.fillValueTV st (fuel + 1) h tv =
      match Heap.readSlot h tv.1 tv.2 with
      | none => .error (.runtime "nil pointer dereference" [])
      | some cur =>
        match cur.V with
        | some (.RefValue oid pkgPath) =>
          if pkgPath ≠ [] then
            match Heap.writeSlot h tv.1 tv.2
                { cur with V := (st.GetPackage pkgPath).map Heap.Value.PackageValue } with
            | none => .error (.runtime "nil pointer dereference" [])
            | some h1 => .ok (h1, [.package pkgPath])
          else
            match st.GetObject oid with
            | none => .error (.fatal "unexpected object with id %s" [])
            | some a =>
              match Heap.objectValue h a with
              | none => .error (.runtime "interface conversion" [])
              | some v =>
                match Heap.writeSlot h tv.1 tv.2 { cur with V := some v } with
                | none => .error (.runtime "nil pointer dereference" [])
                | some h1 => .ok (h1, [.object oid])
        | some (.PointerValue cv) =>
          match cv.Base with
          | none => .ok (h, [])
          | some b =>
            match h[b]? with
            | some (.RefValue oid) =>
              match st.GetObject oid with
              | none => .error (.fatal "unexpected object with id %s" [])
              | some base =>
                match Heap.fillTarget (Heap.fillValueTV st fuel) h cur.T base cv.Index with
                | .error e => .error e
                | .ok (h1, target, log) =>
                  match Heap.writeSlot h1 tv.1 tv.2
                      { cur with V := some (.PointerValue
                          { TV := target, Base := some base, Index := cv.Index }) } with
                  | none => .error (.runtime "nil pointer dereference" [])
                  | some h2 => .ok (h2, Heap.Lookup.object oid :: log)
            | _ => .ok (h, [])
        | _ => .ok (h, []) := rfl

/-- A slot that is loaded is returned as it is by `fillValueTV`, with no
lookup. -/
theorem fill_of_loaded (st : Heap.Store) (fuel : Nat) (h : Heap.Objects) (tv : Nat × Nat)
    (cur : Heap.TypedValue) (hr : Heap.readSlot h tv.1 tv.2 = some cur)
    (hl : cur.isLoaded h = true) :
    Heap.fillValueTV st (fuel + 1) h tv = .ok (h, []) := by
  rw [fill_succ]
  simp only [hr]
  cases hV : cur.V with
  | none => rfl
  | some v =>
    cases v with
    | RefValue oid pkg => simp [Heap.TypedValue.isLoaded, hV] at hl
    | PointerValue cv =>
      cases hb : cv.Base with
      | none => simp only [hb]
      | some b =>
        cases ho : h[b]? with
        | none => simp only [hb, ho]
        | some o =>
          cases o with
          | RefValue oid => simp [Heap.TypedValue.isLoaded, hV, hb, ho] at hl
          | _ => simp only [hb, ho]
    | _ => rfl

/-- The cases of a call of `fillValueTV` that returns. -/
theorem fill_inv (st : Heap.Store) (fuel : Nat) (h h1 : Heap.Objects) (tv : Nat × Nat)
    (log : List Heap.Lookup) (hf : Heap.fillValueTV st (fuel + 1) h tv = .ok (h1, log)) :
    ∃ cur, Heap.readSlot h tv.1 tv.2 = some cur ∧
      ((cur.isLoaded h = true ∧ h1 = h ∧ log = []) ∨
       (∃ oid pkg, cur.V = some (.RefValue oid pkg) ∧ pkg ≠ [] ∧
          Heap.writeSlot h tv.1 tv.2
            { cur with V := (st.GetPackage pkg).map Heap.Value.PackageValue } = some h1 ∧
          log = [.package pkg]) ∨
       (∃ oid a v, cur.V = some (.RefValue oid []) ∧ st.GetObject oid = some a ∧
          Heap.objectValue h a = some v ∧
          Heap.writeSlot h tv.1 tv.2 { cur with V := some v } = some h1 ∧
          log = [.object oid]) ∨
       (∃ cv b oid base hm target log1, cur.V = some (.PointerValue cv) ∧ cv.Base = some b ∧
          h[b]? = some (.RefValue oid) ∧ st.GetObject oid = some base ∧
          Heap.fillTarget (Heap.fillValueTV st fuel) h cur.T base cv.Index =
            .ok (hm, target, log1) ∧
          Heap.writeSlot hm tv.1 tv.2
            { cur with V := some (.PointerValue
                { TV := target, Base := some base, Index := cv.Index }) } = some h1 ∧
          log = Heap.Lookup.object oid :: log1)) := by
  rw [fill_succ] at hf
  cases hr : Heap.readSlot h tv.1 tv.2 with
  | none =>
    simp only [hr] at hf
    cases hf
  | some cur =>
    simp only [hr] at hf
    refine ⟨cur, rfl, ?_⟩
    split at hf
    · rename_i oid pkg hV
      split_ifs at hf with hp
      · split at hf
        · cases hf
        · rename_i h2 hw
          cases hf
          exact Or.inr (Or.inl ⟨oid, pkg, hV, hp, hw, rfl⟩)
      · have hp2 : pkg = [] := by simpa using hp
        subst hp2
        split at hf
        · cases hf
        · rename_i a hs
          split at hf
          · cases hf
          · rename_i v hov
            split at hf
            · cases hf
            · rename_i h2 hw
              cases hf
              exact Or.inr (Or.inr (Or.inl ⟨oid, a, v, hV, hs, hov, hw, rfl⟩))
    · rename_i cv hV
      split at hf
      · rename_i hb
        cases hf
        exact Or.inl ⟨by simp only [Heap.TypedValue.isLoaded, hV, hb], rfl, rfl⟩
      · rename_i b hb
        split at hf
        · rename_i oid ho
          split at hf
          · cases hf
          · rename_i base hs
            split at hf
            · cases hf
            · rename_i hm target log1 hft
              split at hf
              · cases hf
              · rename_i h2 hw
                cases hf
                exact Or.inr (Or.inr (Or.inr
                  ⟨cv, b, oid, base, hm, target, log1, hV, hb, ho, hs, hft, hw, rfl⟩))
        · rename_i hne
          cases hf
          refine Or.inl ⟨?_, rfl, rfl⟩
          unfold Heap.TypedValue.isLoaded
          rw [hV]
          simp only [hb]
    · rename_i hn1 hn2
      cases hf
      refine Or.inl ⟨?_, rfl, rfl⟩
      unfold Heap.TypedValue.isLoaded
      split
      · rename_i oid pkg hV
        exact absurd hV (hn1 oid pkg)
      · rename_i cv hV
        exact absurd hV (hn2 cv)
      · rfl
/-- The cases of a call of `fillTarget` that returns. -/
theorem fillTarget_inv (fill : Heap.Fill) (h hm : Heap.Objects) (T : Option GType)
    (base : Nat) (index : Int) (target : Option (Nat × Nat)) (log : List Heap.Lookup)
    (hf : Heap.fillTarget fill h T base index = .ok (hm, target, log)) :
    (∃ l et i, h[base]? = some (.ArrayValue l none) ∧ T.map baseOf = some (.PointerType et) ∧
        Heap.indexCheck index l.length = .ok i ∧ fill h (base, i) = .ok (hm, log) ∧
        target = some (base, i)) ∨
    (∃ l d et, h[base]? = some (.ArrayValue l (some d)) ∧
        T.map baseOf = some (.PointerType et) ∧
        hm = h ++ [.Slot (Heap.dataByteSlot base index et)] ∧
        target = some (h.length, 0) ∧ log = []) ∨
    (∃ fs i, h[base]? = some (.StructValue fs) ∧
        Heap.indexCheck index fs.length = .ok i ∧ fill h (base, i) = .ok (hm, log) ∧
        target = some (base, i)) ∨
    (∃ vs p bl i, h[base]? = some (.Block vs p bl) ∧
        Heap.indexCheck index vs.length = .ok i ∧ fill h (base, i) = .ok (hm, log) ∧
        target = some (base, i)) ∨
    (∃ v, h[base]? = some (.HeapItemValue v) ∧ hm = h ∧ target = some (base, 0) ∧
        log = []) := by
  unfold Heap.fillTarget at hf
  split at hf
  · rename_i l d ho
    split at hf
    · rename_i et hT
      unfold Heap.ArrayValue.GetPointerAtIndexInt2Fill at hf
      rw [ho] at hf
      cases d with
      | none =>
        simp only [] at hf
        cases hc : Heap.indexCheck index l.length with
        | error e =>
          simp only [hc] at hf
          cases hf
        | ok i =>
          simp only [hc] at hf
          cases hfl : fill h (base, i) with
          | error e =>
            simp only [hfl] at hf
            cases hf
          | ok r =>
            obtain ⟨h1, lg⟩ := r
            simp only [hfl] at hf
            cases hf
            exact Or.inl ⟨l, et, i, ho, hT, hc, hfl, rfl⟩
      | some d =>
        simp only [] at hf
        cases hf
        exact Or.inr (Or.inl ⟨l, d, et, ho, hT, rfl, rfl, rfl⟩)
    · cases hf
  · rename_i fs ho
    unfold Heap.StructValue.GetPointerToInt at hf
    rw [ho] at hf
    simp only [] at hf
    cases hc : Heap.indexCheck index fs.length with
    | error e =>
      simp only [hc] at hf
      cases hf
    | ok i =>
      simp only [hc] at hf
      cases hfl : fill h (base, i) with
      | error e =>
        simp only [hfl] at hf
        cases hf
      | ok r =>
        obtain ⟨h1, lg⟩ := r
        simp only [hfl] at hf
        cases hf
        exact Or.inr (Or.inr (Or.inl ⟨fs, i, ho, hc, hfl, rfl⟩))
  · cases hf
  · cases hf
  · rename_i vs p bl ho
    unfold Heap.Block.GetPointerToInt at hf
    rw [ho] at hf
    simp only [] at hf
    cases hc : Heap.indexCheck index vs.length with
    | error e =>
      simp only [hc] at hf
      cases hf
    | ok i =>
      simp only [hc] at hf
      cases hfl : fill h (base, i) with
      | error e =>
        simp only [hfl] at hf
        cases hf
      | ok r =>
        obtain ⟨h1, lg⟩ := r
        simp only [hfl] at hf
        cases hf
        exact Or.inr (Or.inr (Or.inr (Or.inl ⟨vs, p, bl, i, ho, hc, hfl, rfl⟩)))
  · rename_i v ho
    cases hf
    exact Or.inr (Or.inr (Or.inr (Or.inr ⟨v, ho, rfl, rfl, rfl⟩)))
  · cases hf

theorem fillTarget_keeps (fill : Heap.Fill)
    (hfill : ∀ h tv h1 log, fill h tv = .ok (h1, log) → Heap.Keeps h h1)
    (h hm : Heap.Objects) (T : Option GType)
    (base : Nat) (index : Int) (target : Option (Nat × Nat)) (log : List Heap.Lookup)
    (hf : Heap.fillTarget fill h T base index = .ok (hm, target, log)) :
    Heap.Keeps h hm ∧ ∃ o, h[base]? = some o ∧ ∀ oid, o ≠ .RefValue oid := by
  rcases fillTarget_inv fill h hm T base index target log hf with
    ⟨l, et, i, ho, -, -, hfl, -⟩ | ⟨l, d, et, ho, -, rfl, -, -⟩ | ⟨fs, i, ho, -, hfl, -⟩ |
    ⟨vs, p, bl, i, ho, -, hfl, -⟩ | ⟨v, ho, rfl, -, -⟩
  · exact ⟨hfill _ _ _ _ hfl, _, ho, fun oid he => by cases he⟩
  · exact ⟨keeps_append _ _, _, ho, fun oid he => by cases he⟩
  · exact ⟨hfill _ _ _ _ hfl, _, ho, fun oid he => by cases he⟩
  · exact ⟨hfill _ _ _ _ hfl, _, ho, fun oid he => by cases he⟩
  · exact ⟨keeps_refl _, _, ho, fun oid he => by cases he⟩

/-- A call of `fillValueTV` that returns keeps the objects of the heap. -/
theorem fill_keeps (st : Heap.Store) : ∀ (fuel : Nat) (h : Heap.Objects) (tv : Nat × Nat)
    (h1 : Heap.Objects) (log : List Heap.Lookup),
    Heap.fillValueTV st fuel h tv = .ok (h1, log) → Heap.Keeps h h1
  | 0, _, _, _, _, hf => by cases hf
  | fuel + 1, h, tv, h1, log, hf => by
    obtain ⟨cur, -, hc⟩ := fill_inv st fuel h h1 tv log hf
    rcases hc with ⟨-, rfl, -⟩ | ⟨oid, pkg, -, -, hw, -⟩ | ⟨oid, a, v, -, -, -, hw, -⟩ |
      ⟨cv, b, oid, base, hm, target, log1, -, -, -, -, hft, hw, -⟩
    · exact keeps_refl _
    · exact writeSlot_keeps _ _ _ _ _ hw
    · exact writeSlot_keeps _ _ _ _ _ hw
    · exact keeps_trans _ _ _
        (fillTarget_keeps _ (fill_keeps st fuel) h hm cur.T base cv.Index target log1 hft).1
        (writeSlot_keeps _ _ _ _ _ hw)

theorem objectValue_loaded (h : Heap.Objects) (a : Nat) (v : Heap.Value)
    (cur : Heap.TypedValue) (h1 : Heap.Objects)
    (hv : Heap.objectValue h a = some v) :
    Heap.TypedValue.isLoaded h1 { cur with V := some v } = true := by
  unfold Heap.objectValue at hv
  split at hv <;> first
    | (cases hv; rfl)
    | cases hv

/-- After a call of `fillValueTV` that returns, the slot is loaded. -/
theorem fill_loaded (st : Heap.Store) (fuel : Nat) (h h1 : Heap.Objects) (tv : Nat × Nat)
    (log : List Heap.Lookup) (hf : Heap.fillValueTV st fuel h tv = .ok (h1, log)) :
    ∃ cur1, Heap.readSlot h1 tv.1 tv.2 = some cur1 ∧ cur1.isLoaded h1 = true := by
  cases fuel with
  | zero => cases hf
  | succ fuel =>
    obtain ⟨cur, hr, hc⟩ := fill_inv st fuel h h1 tv log hf
    rcases hc with ⟨hl, rfl, -⟩ | ⟨oid, pkg, -, -, hw, -⟩ | ⟨oid, a, v, -, -, hov, hw, -⟩ |
      ⟨cv, b, oid, base, hm, target, log1, -, -, -, -, hft, hw, -⟩
    · exact ⟨cur, hr, hl⟩
    · refine ⟨_, writeSlot_read _ _ _ _ _ hw, ?_⟩
      cases st.GetPackage pkg <;> rfl
    · exact ⟨_, writeSlot_read _ _ _ _ _ hw, objectValue_loaded h a v cur h1 hov⟩
    · refine ⟨_, writeSlot_read _ _ _ _ _ hw, ?_⟩
      obtain ⟨hk, o, ho, hn⟩ :=
        fillTarget_keeps _ (fill_keeps st fuel) h hm cur.T base cv.Index target log1 hft
      obtain ⟨o1, ho1, hn1⟩ := keeps_notRef h h1
        (keeps_trans _ _ _ hk (writeSlot_keeps _ _ _ _ _ hw)) base o ho hn
      simp only [Heap.TypedValue.isLoaded, ho1]
      split
      · rename_i oid2 he
        cases he
        exact absurd rfl (hn1 oid2)
      · rfl

/-- A second call of `fillValueTV` on the slot, after a call that returned,
returns the heap as it is, with no lookup. -/
theorem fill_again (st : Heap.Store) (fuel fuel2 : Nat) (h h1 : Heap.Objects) (tv : Nat × Nat)
    (log : List Heap.Lookup) (hf : Heap.fillValueTV st fuel h tv = .ok (h1, log)) :
    Heap.fillValueTV st (fuel2 + 1) h1 tv = .ok (h1, []) := by
  obtain ⟨cur1, hr, hl⟩ := fill_loaded st fuel h h1 tv log hf
  exact fill_of_loaded st fuel2 h1 tv cur1 hr hl
/-- The depth of the calls of `fillValueTV` is not bounded on every heap: on
the sample heap with a pointer to itself, the element is the target of its own
pointer, `fillValueTV` on the target is called before the payload is written,
and no bound on the depth is enough. -/
theorem fill_cyclic : ∀ fuel : Nat,
    Heap.fillValueTV Heap.sampleStore fuel Heap.sampleCyclicHeap (0, 0) =
      .error (.runtime "stack overflow" [])
  | 0 => rfl
  | fuel + 1 => by
    rw [fill_succ]
    have hr : Heap.readSlot Heap.sampleCyclicHeap 0 0 = some
        { T := some (.PointerType (.PrimitiveType .IntType)),
          V := some (.PointerValue { TV := none, Base := some 1, Index := 0 }), N := 0 } := rfl
    have ho : Heap.sampleCyclicHeap[1]? = some (.RefValue 7) := rfl
    have hs : Heap.sampleStore.GetObject 7 = some 0 := rfl
    have ht : Heap.fillTarget (Heap.fillValueTV Heap.sampleStore fuel) Heap.sampleCyclicHeap
        (some (.PointerType (.PrimitiveType .IntType))) 0 0 =
        .error (.runtime "stack overflow" []) := by
      have hb : Heap.sampleCyclicHeap[0]? = some (.ArrayValue
          [{ T := some (.PointerType (.PrimitiveType .IntType)),
             V := some (.PointerValue { TV := none, Base := some 1, Index := 0 }), N := 0 }]
          none) := rfl
      have hc : Heap.indexCheck 0 1 = .ok 0 := rfl
      have hT : (some (GType.PointerType (.PrimitiveType .IntType))).map baseOf =
          some (.PointerType (.PrimitiveType .IntType)) := rfl
      simp only [Heap.fillTarget, hb, hT, Heap.ArrayValue.GetPointerAtIndexInt2Fill,
        List.length_singleton, hc, fill_cyclic fuel]
    simp only [hr, ho, hs, ht]

theorem fill_ref_package (st : Heap.Store) (fuel : Nat) (h : Heap.Objects) (tv : Nat × Nat)
    (cur : Heap.TypedValue) (oid : Nat) (pkg : Bytes)
    (hr : Heap.readSlot h tv.1 tv.2 = some cur) (hV : cur.V = some (.RefValue oid pkg))
    (hp : pkg ≠ []) :
    ∃ h1, Heap.fillValueTV st (fuel + 1) h tv = .ok (h1, [.package pkg]) ∧
      Heap.readSlot h1 tv.1 tv.2 =
        some { cur with V := (st.GetPackage pkg).map Heap.Value.PackageValue } ∧
      ∀ c, c ≠ tv.1 → h1[c]? = h[c]? := by
  obtain ⟨h1, hw⟩ := writeSlot_some h tv.1 tv.2 cur
    { cur with V := (st.GetPackage pkg).map Heap.Value.PackageValue } hr
  refine ⟨h1, ?_, writeSlot_read _ _ _ _ _ hw, writeSlot_other _ _ _ _ _ hw⟩
  rw [fill_succ]
  simp only [hr, hV, hp, hw, ne_eq, not_false_eq_true, if_true]

theorem fill_ref_object (st : Heap.Store) (fuel : Nat) (h : Heap.Objects) (tv : Nat × Nat)
    (cur : Heap.TypedValue) (oid a : Nat) (v : Heap.Value)
    (hr : Heap.readSlot h tv.1 tv.2 = some cur) (hV : cur.V = some (.RefValue oid []))
    (hs : st.GetObject oid = some a) (hov : Heap.objectValue h a = some v) :
    ∃ h1, Heap.fillValueTV st (fuel + 1) h tv = .ok (h1, [.object oid]) ∧
      Heap.readSlot h1 tv.1 tv.2 = some { cur with V := some v } ∧
      ∀ c, c ≠ tv.1 → h1[c]? = h[c]? := by
  obtain ⟨h1, hw⟩ := writeSlot_some h tv.1 tv.2 cur { cur with V := some v } hr
  refine ⟨h1, ?_, writeSlot_read _ _ _ _ _ hw, writeSlot_other _ _ _ _ _ hw⟩
  rw [fill_succ]
  simp only [hr, hV, hs, hov, hw, ne_eq, not_true_eq_false, if_false]

/-- C24. `fillValueTV` on a slot of the heap. After a call that returns, the
slot is loaded (its payload is not a placeholder and is not a pointer whose
base is a placeholder), and every further call returns the heap as it is, with
no lookup in the store. On a slot that is loaded the call returns the heap as
it is, with no lookup. On a placeholder with a package path that is not empty
the call returns, with the one lookup `GetPackage(PkgPath)`, and the payload
is what the store returned; on a placeholder with an empty package path, when
the store holds an object for the `ObjectID`, the call returns, with the one
lookup `GetObject(ObjectID)`, and the payload is that object; in both cases no
other object of the heap is changed. The depth of the calls is bounded by the
first argument of `fillValueTV`, which these results hold for from 1 on. -/
theorem fillValueTV_idempotent (st : Heap.Store) (h : Heap.Objects) (tv : Nat × Nat)
    (cur : Heap.TypedValue) (hr : Heap.readSlot h tv.1 tv.2 = some cur) :
    (∀ (fuel : Nat) (h1 : Heap.Objects) (log : List Heap.Lookup),
      Heap.fillValueTV st fuel h tv = .ok (h1, log) →
      (∃ cur1, Heap.readSlot h1 tv.1 tv.2 = some cur1 ∧ cur1.isLoaded h1 = true) ∧
      ∀ fuel2, Heap.fillValueTV st (fuel2 + 1) h1 tv = .ok (h1, [])) ∧
    (cur.isLoaded h = true → ∀ fuel, Heap.fillValueTV st (fuel + 1) h tv = .ok (h, [])) ∧
    (∀ (oid : Nat) (pkg : Bytes), cur.V = some (.RefValue oid pkg) → pkg ≠ [] →
      ∀ fuel, ∃ h1, Heap.fillValueTV st (fuel + 1) h tv = .ok (h1, [.package pkg]) ∧
        Heap.readSlot h1 tv.1 tv.2 =
          some { cur with V := (st.GetPackage pkg).map Heap.Value.PackageValue } ∧
        ∀ c, c ≠ tv.1 → h1[c]? = h[c]?) ∧
    (∀ (oid a : Nat) (v : Heap.Value), cur.V = some (.RefValue oid []) →
      st.GetObject oid = some a → Heap.objectValue h a = some v →
      ∀ fuel, ∃ h1, Heap.fillValueTV st (fuel + 1) h tv = .ok (h1, [.object oid]) ∧
        Heap.readSlot h1 tv.1 tv.2 = some { cur with V := some v } ∧
        ∀ c, c ≠ tv.1 → h1[c]? = h[c]?) := by
  refine ⟨?_, ?_, ?_, ?_⟩
  · intro fuel h1 log hf
    exact ⟨fill_loaded st fuel h h1 tv log hf, fun fuel2 => fill_again st fuel fuel2 h h1 tv log hf⟩
  · intro hl fuel
    exact fill_of_loaded st fuel h tv cur hr hl
  · intro oid pkg hV hp fuel
    exact fill_ref_package st fuel h tv cur oid pkg hr hV hp
  · intro oid a v hV hs hov fuel
    exact fill_ref_object st fuel h tv cur oid a v hr hV hs hov

/-- On the sample heap with placeholders, the value 2 of the block 7 is the
placeholder of the object 8: the call loads the block 4 with one lookup, and
a second call makes none. -/
theorem fillValueTV_idempotent_witness :
    ∃ h1, Heap.fillValueTV Heap.sampleStore 1 Heap.sampleRefHeap (7, 2) =
        .ok (h1, [.object 8]) ∧
      Heap.readSlot h1 7 2 = some { T := none, V := some (.Block 4), N := 0 } ∧
      Heap.fillValueTV Heap.sampleStore 1 h1 (7, 2) = .ok (h1, []) := by
  have hm := fillValueTV_idempotent Heap.sampleStore Heap.sampleRefHeap (7, 2)
    { T := none, V := some (.RefValue 8 []), N := 0 } rfl
  obtain ⟨h1, g1, g2, -⟩ := hm.2.2.2 8 4 (.Block 4) rfl rfl rfl 0
  exact ⟨h1, g1, g2, (hm.1 1 h1 _ g1).2 0⟩

/-- The pointer case of `fillValueTV`, when `fillTarget` returns: the call
returns, and the slot holds the pointer with the resolved base, the target
derived from it and the same index. -/
theorem fill_pointer_step (st : Heap.Store) (fuel : Nat) (h hm : Heap.Objects) (tv : Nat × Nat)
    (cur : Heap.TypedValue) (cv : Heap.PointerValue) (b oid base : Nat)
    (target : Option (Nat × Nat)) (log1 : List Heap.Lookup)
    (hr : Heap.readSlot h tv.1 tv.2 = some cur) (hV : cur.V = some (.PointerValue cv))
    (hb : cv.Base = some b) (ho : h[b]? = some (.RefValue oid))
    (hs : st.GetObject oid = some base) (hk : Heap.Keeps h hm)
    (hft : Heap.fillTarget (Heap.fillValueTV st fuel) h cur.T base cv.Index =
      .ok (hm, target, log1)) :
    ∃ h1, Heap.fillValueTV st (fuel + 1) h tv = .ok (h1, Heap.Lookup.object oid :: log1) ∧
      Heap.readSlot h1 tv.1 tv.2 = some { cur with V := some (.PointerValue
        { TV := target, Base := some base, Index := cv.Index }) } ∧
      ∀ c, c ≠ tv.1 → h1[c]? = hm[c]? := by
  obtain ⟨cur1, hr1⟩ := keeps_readSlot h hm hk tv.1 tv.2 cur hr
  obtain ⟨h1, hw⟩ := writeSlot_some hm tv.1 tv.2 cur1
    { cur with V := some (.PointerValue { TV := target, Base := some base, Index := cv.Index }) }
    hr1
  refine ⟨h1, ?_, writeSlot_read _ _ _ _ _ hw, writeSlot_other _ _ _ _ _ hw⟩
  rw [fill_succ]
  simp only [hr, hV, hb, ho, hs, hft, hw]

theorem fill_pointer_error (st : Heap.Store) (fuel : Nat) (h : Heap.Objects) (tv : Nat × Nat)
    (cur : Heap.TypedValue) (cv : Heap.PointerValue) (b oid base : Nat) (e : Heap.Panic)
    (hr : Heap.readSlot h tv.1 tv.2 = some cur) (hV : cur.V = some (.PointerValue cv))
    (hb : cv.Base = some b) (ho : h[b]? = some (.RefValue oid))
    (hs : st.GetObject oid = some base)
    (hft : Heap.fillTarget (Heap.fillValueTV st fuel) h cur.T base cv.Index = .error e) :
    Heap.fillValueTV st (fuel + 1) h tv = .error e := by
  rw [fill_succ]
  simp only [hr, hV, hb, ho, hs, hft]

/-- C25. `fillValueTV` on a slot whose payload is a pointer with the index
`cv.Index` and a placeholder base, the store holding the object `base` for
the `ObjectID` of the placeholder. When `base` is an array with an element
list, a struct or a block that has a slot `cv.Index` on which `fillValueTV`
returns, the call returns, its lookups are the one of the base and then those
of the slot, and the payload is the pointer with the base `base`, the target
that slot of `base` and the index `cv.Index`; when `base` is an array held as
a byte buffer, the target is a new slot of the pseudo-type `DataByteType` for
the byte `cv.Index`; when `base` is a heap item, the target is its one slot;
for an array the type of the slot is a pointer type, whose element type is
passed on. When `base` is a map or a bound method the call fails with
"should not happen". -/
theorem fillValueTV_pointer (st : Heap.Store) (fuel : Nat) (h : Heap.Objects) (tv : Nat × Nat)
    (cur : Heap.TypedValue) (cv : Heap.PointerValue) (b oid base : Nat)
    (hr : Heap.readSlot h tv.1 tv.2 = some cur) (hV : cur.V = some (.PointerValue cv))
    (hb : cv.Base = some b) (ho : h[b]? = some (.RefValue oid))
    (hs : st.GetObject oid = some base) :
    (∀ (l : List Heap.TypedValue) (et : GType) (hm : Heap.Objects) (log : List Heap.Lookup),
      h[base]? = some (.ArrayValue l none) → cur.T.map baseOf = some (.PointerType et) →
      0 ≤ cv.Index → cv.Index < l.length →
      Heap.fillValueTV st fuel h (base, cv.Index.toNat) = .ok (hm, log) →
      ∃ h1, Heap.fillValueTV st (fuel + 1) h tv = .ok (h1, Heap.Lookup.object oid :: log) ∧
        Heap.readSlot h1 tv.1 tv.2 = some { cur with V := some (.PointerValue
          { TV := some (base, cv.Index.toNat), Base := some base, Index := cv.Index }) }) ∧
    (∀ (l : List Heap.TypedValue) (d : Bytes) (et : GType),
      h[base]? = some (.ArrayValue l (some d)) → cur.T.map baseOf = some (.PointerType et) →
      ∃ h1, Heap.fillValueTV st (fuel + 1) h tv = .ok (h1, [.object oid]) ∧
        Heap.readSlot h1 tv.1 tv.2 = some { cur with V := some (.PointerValue
          { TV := some (h.length, 0), Base := some base, Index := cv.Index }) } ∧
        Heap.readSlot h1 h.length 0 = some (Heap.dataByteSlot base cv.Index et)) ∧
    (∀ (fs : List Heap.TypedValue) (hm : Heap.Objects) (log : List Heap.Lookup),
      h[base]? = some (.StructValue fs) → 0 ≤ cv.Index → cv.Index < fs.length →
      Heap.fillValueTV st fuel h (base, cv.Index.toNat) = .ok (hm, log) →
      ∃ h1, Heap.fillValueTV st (fuel + 1) h tv = .ok (h1, Heap.Lookup.object oid :: log) ∧
        Heap.readSlot h1 tv.1 tv.2 = some { cur with V := some (.PointerValue
          { TV := some (base, cv.Index.toNat), Base := some base, Index := cv.Index }) }) ∧
    (∀ (vs : List Heap.TypedValue) (p : Option Nat) (bl : Nat) (hm : Heap.Objects)
        (log : List Heap.Lookup),
      h[base]? = some (.Block vs p bl) → 0 ≤ cv.Index → cv.Index < vs.length →
      Heap.fillValueTV st fuel h (base, cv.Index.toNat) = .ok (hm, log) →
      ∃ h1, Heap.fillValueTV st (fuel + 1) h tv = .ok (h1, Heap.Lookup.object oid :: log) ∧
        Heap.readSlot h1 tv.1 tv.2 = some { cur with V := some (.PointerValue
          { TV := some (base, cv.Index.toNat), Base := some base, Index := cv.Index }) }) ∧
    (∀ v : Heap.TypedValue, h[base]? = some (.HeapItemValue v) →
      ∃ h1, Heap.fillValueTV st (fuel + 1) h tv = .ok (h1, [.object oid]) ∧
        Heap.readSlot h1 tv.1 tv.2 = some { cur with V := some (.PointerValue
          { TV := some (base, 0), Base := some base, Index := cv.Index }) }) ∧
    (∀ es : List (Heap.TypedValue × Heap.TypedValue), h[base]? = some (.MapValue es) →
      Heap.fillValueTV st (fuel + 1) h tv = .error (.fatal "should not happen" [])) ∧
    (∀ (f : Nat) (r : Heap.TypedValue), h[base]? = some (.BoundMethodValue f r) →
      Heap.fillValueTV st (fuel + 1) h tv = .error (.fatal "should not happen" [])) := by
  refine ⟨?_, ?_, ?_, ?_, ?_, ?_, ?_⟩
  · intro l et hm log hbase hT h0 h1 hf
    obtain ⟨h2, g1, g2, -⟩ := fill_pointer_step st fuel h hm tv cur cv b oid base
      (some (base, cv.Index.toNat)) log hr hV hb ho hs (fill_keeps st fuel h _ hm log hf)
      (by simp only [Heap.fillTarget, hbase, hT, Heap.ArrayValue.GetPointerAtIndexInt2Fill,
            indexCheck_ok cv.Index l.length h0 h1, hf])
    exact ⟨h2, g1, g2⟩
  · intro l d et hbase hT
    obtain ⟨h2, g1, g2, g3⟩ := fill_pointer_step st fuel h
      (h ++ [.Slot (Heap.dataByteSlot base cv.Index et)]) tv cur cv b oid base
      (some (h.length, 0)) [] hr hV hb ho hs (keeps_append _ _)
      (by simp only [Heap.fillTarget, hbase, hT, Heap.ArrayValue.GetPointerAtIndexInt2Fill])
    refine ⟨h2, g1, g2, ?_⟩
    have hne : h.length ≠ tv.1 := by
      obtain ⟨o, hobj⟩ := readSlot_obj h tv.1 tv.2 cur hr
      have := getElem?_lt_length h tv.1 o hobj
      omega
    rw [readSlot_congr _ h2 h.length 0 (g3 h.length hne)]
    exact readSlot_new h _
  · intro fs hm log hbase h0 h1 hf
    obtain ⟨h2, g1, g2, -⟩ := fill_pointer_step st fuel h hm tv cur cv b oid base
      (some (base, cv.Index.toNat)) log hr hV hb ho hs (fill_keeps st fuel h _ hm log hf)
      (by simp only [Heap.fillTarget, hbase, Heap.StructValue.GetPointerToInt,
            indexCheck_ok cv.Index fs.length h0 h1, hf])
    exact ⟨h2, g1, g2⟩
  · intro vs p bl hm log hbase h0 h1 hf
    obtain ⟨h2, g1, g2, -⟩ := fill_pointer_step st fuel h hm tv cur cv b oid base
      (some (base, cv.Index.toNat)) log hr hV hb ho hs (fill_keeps st fuel h _ hm log hf)
      (by simp only [Heap.fillTarget, hbase, Heap.Block.GetPointerToInt,
            indexCheck_ok cv.Index vs.length h0 h1, hf])
    exact ⟨h2, g1, g2⟩
  · intro v hbase
    obtain ⟨h2, g1, g2, -⟩ := fill_pointer_step st fuel h h tv cur cv b oid base
      (some (base, 0)) [] hr hV hb ho hs (keeps_refl _)
      (by simp only [Heap.fillTarget, hbase])
    exact ⟨h2, g1, g2⟩
  · intro es hbase
    exact fill_pointer_error st fuel h tv cur cv b oid base _ hr hV hb ho hs
      (by simp only [Heap.fillTarget, hbase])
  · intro f r hbase
    exact fill_pointer_error st fuel h tv cur cv b oid base _ hr hV hb ho hs
      (by simp only [Heap.fillTarget, hbase])

/-- On the sample heap with placeholders, the value 1 of the block 7 is a
pointer with the index 1 whose base is the placeholder of the array: the call
loads the array with one lookup and the target is the element 1 of the
array. -/
theorem fillValueTV_pointer_witness :
    ∃ h1, Heap.fillValueTV Heap.sampleStore 2 Heap.sampleRefHeap (7, 1) =
        .ok (h1, [.object 7]) ∧
      Heap.readSlot h1 7 1 = some
        { T := some (.PointerType (.PrimitiveType .IntType)),
          V := some (.PointerValue { TV := some (0, 1), Base := some 0, Index := 1 }),
          N := 0 } :=
  (fillValueTV_pointer Heap.sampleStore 1 Heap.sampleRefHeap (7, 1)
    { T := some (.PointerType (.PrimitiveType .IntType)),
      V := some (.PointerValue { TV := none, Base := some 1, Index := 1 }), N := 0 }
    { TV := none, Base := some 1, Index := 1 } 1 7 0 rfl rfl rfl rfl rfl).1
    [Heap.intSlot 1, Heap.intSlot 2] (.PrimitiveType .IntType) Heap.sampleRefHeap [] rfl rfl
    (by decide) (by decide) rfl

/-! ### The parents of a block and the heap items -/

theorem keeps_settled (h h1 : Heap.Objects) (k : Heap.Keeps h h1) (a : Nat) (p : Option Nat)
    (hs : Heap.Settled h a p) : Heap.Settled h1 a p := by
  obtain ⟨⟨vs, bl, ha⟩, hq⟩ := hs
  obtain ⟨o1, ho1, he⟩ := k a _ ha
  obtain ⟨vs1, rfl, -⟩ := frame_block o1 vs p bl he
  refine ⟨⟨vs1, bl, ho1⟩, ?_⟩
  intro q hp
  obtain ⟨vs2, p2, bl2, hq2⟩ := hq q hp
  obtain ⟨o2, ho2, he2⟩ := k q _ hq2
  obtain ⟨vs3, rfl, -⟩ := frame_block o2 vs2 p2 bl2 he2
  exact ⟨vs3, p2, bl2, ho2⟩

theorem getParent_of_settled (st : Heap.Store) (h : Heap.Objects) (a : Nat) (p : Option Nat)
    (hs : Heap.Settled h a p) : Heap.Block.GetParent st h a = .ok (h, p, []) := by
  obtain ⟨⟨vs, bl, ha⟩, hq⟩ := hs
  cases p with
  | none => simp only [Heap.Block.GetParent, ha]
  | some q =>
    obtain ⟨vs2, p2, bl2, hq2⟩ := hq q rfl
    simp only [Heap.Block.GetParent, ha, hq2]

theorem getParent_settles (st : Heap.Store) (h h1 : Heap.Objects) (a : Nat) (p : Option Nat)
    (log : List Heap.Lookup) (hg : Heap.Block.GetParent st h a = .ok (h1, p, log)) :
    Heap.Settled h1 a p ∧ ∀ c q, Heap.Settled h c q → Heap.Settled h1 c q := by
  unfold Heap.Block.GetParent at hg
  split at hg
  · rename_i vs parent blank hb
    split at hg
    · cases hg
      exact ⟨⟨⟨vs, blank, hb⟩, fun q hq => by cases hq⟩, fun c q hs => hs⟩
    · rename_i p0
      split at hg
      · rename_i vs2 p2 bl2 hp
        cases hg
        exact ⟨⟨⟨vs, blank, hb⟩, fun q hq => by cases hq; exact ⟨vs2, p2, bl2, hp⟩⟩,
          fun c q hs => hs⟩
      · rename_i oid ho
        split at hg
        · cases hg
        · rename_i x hs
          split at hg
          · rename_i vs2 p2 bl2 hx
            cases hg
            have hlt := getElem?_lt _ _ _ hb
            have hblock : ∀ (q : Nat) (vs3 : List Heap.TypedValue) (p3 : Option Nat) (bl3 : Nat),
                h[q]? = some (Heap.Object.Block vs3 p3 bl3) →
                ∃ vs4 p4 bl4, (h.set a (Heap.Object.Block vs (some x) blank))[q]? =
                  some (Heap.Object.Block vs4 p4 bl4) := by
              intro q vs3 p3 bl3 hq
              by_cases hqa : a = q
              · subst hqa
                exact ⟨_, _, _, List.getElem?_set_self hlt⟩
              · exact ⟨vs3, p3, bl3, by rw [List.getElem?_set_ne hqa]; exact hq⟩
            refine ⟨⟨⟨vs, blank, List.getElem?_set_self hlt⟩, ?_⟩, ?_⟩
            · intro q hq
              cases hq
              exact hblock x vs2 p2 bl2 hx
            · intro c q hsc
              obtain ⟨⟨vs3, bl3, hc⟩, hq⟩ := hsc
              have hca : a ≠ c := by
                intro he
                subst he
                rw [hb] at hc
                cases hc
                obtain ⟨vs4, p4, bl4, h4⟩ := hq p0 rfl
                rw [ho] at h4
                cases h4
              refine ⟨⟨vs3, bl3, by rw [List.getElem?_set_ne hca]; exact hc⟩, ?_⟩
              intro q2 hq2
              obtain ⟨vs4, p4, bl4, h4⟩ := hq q2 hq2
              exact hblock q2 vs4 p4 bl4 h4
          · cases hg
      · cases hg
  · cases hg

theorem parentLoop_mono (st : Heap.Store) (d : Nat) :
    ∀ (f i : Nat) (h h1 : Heap.Objects) (b b1 : Option Nat) (log : List Heap.Lookup),
      Heap.Block.parentLoop st d f i h b = .ok (h1, b1, log) →
      ∀ c q, Heap.Settled h c q → Heap.Settled h1 c q
  | 0, i, h, h1, b, b1, log, hl => by
    cases hl
    exact fun c q hs => hs
  | f + 1, i, h, h1, b, b1, log, hl => by
    simp only [Heap.Block.parentLoop] at hl
    split_ifs at hl with hi
    · cases b with
      | none => cases hl
      | some a =>
        simp only [] at hl
        cases hg : Heap.Block.GetParent st h a with
        | error e =>
          simp only [hg] at hl
          cases hl
        | ok r =>
          obtain ⟨hA, bA, logA⟩ := r
          simp only [hg] at hl
          cases hr : Heap.Block.parentLoop st d f (i + 1) hA bA with
          | error e =>
            simp only [hr] at hl
            cases hl
          | ok r2 =>
            obtain ⟨hB, bB, logB⟩ := r2
            simp only [hr] at hl
            cases hl
            intro c q hs
            exact parentLoop_mono st d f (i + 1) hA _ bA _ logB hr c q
              ((getParent_settles st h hA a bA logA hg).2 c q hs)
    · cases hl
      exact fun c q hs => hs

theorem parentLoop_stable (st : Heap.Store) (d : Nat) :
    ∀ (f i : Nat) (h h1 : Heap.Objects) (b b1 : Option Nat) (log : List Heap.Lookup),
      Heap.Block.parentLoop st d f i h b = .ok (h1, b1, log) →
      ∀ h2 : Heap.Objects, (∀ c q, Heap.Settled h1 c q → Heap.Settled h2 c q) →
        Heap.Block.parentLoop st d f i h2 b = .ok (h2, b1, [])
  | 0, i, h, h1, b, b1, log, hl => by
    cases hl
    exact fun h2 _ => rfl
  | f + 1, i, h, h1, b, b1, log, hl => by
    simp only [Heap.Block.parentLoop] at hl
    split_ifs at hl with hi
    · cases b with
      | none => cases hl
      | some a =>
        simp only [] at hl
        cases hg : Heap.Block.GetParent st h a with
        | error e =>
          simp only [hg] at hl
          cases hl
        | ok r =>
          obtain ⟨hA, bA, logA⟩ := r
          simp only [hg] at hl
          cases hr : Heap.Block.parentLoop st d f (i + 1) hA bA with
          | error e =>
            simp only [hr] at hl
            cases hl
          | ok r2 =>
            obtain ⟨hB, bB, logB⟩ := r2
            simp only [hr] at hl
            cases hl
            intro h2 hm
            have hsA := (getParent_settles st h hA a bA logA hg).1
            have hs2 := hm a bA (parentLoop_mono st d f (i + 1) hA _ bA _ logB hr a bA hsA)
            simp only [Heap.Block.parentLoop, hi, if_true, getParent_of_settled st h2 a bA hs2,
              parentLoop_stable st d f (i + 1) hA _ bA _ logB hr h2 hm, List.append_nil]
    · cases hl
      intro h2 _
      simp only [Heap.Block.parentLoop, hi, if_false]

theorem blockPointer_inv (fill : Heap.Fill) (h h1 : Heap.Objects) (a : Nat) (index : Int)
    (pv : Heap.PointerValue) (log : List Heap.Lookup)
    (hp : Heap.Block.GetPointerToInt fill h a index = .ok (h1, pv, log)) :
    ∃ vs p bl i, h[a]? = some (.Block vs p bl) ∧ Heap.indexCheck index vs.length = .ok i ∧
      fill h (a, i) = .ok (h1, log) ∧
      pv = { TV := some (a, i), Base := some a, Index := index } := by
  unfold Heap.Block.GetPointerToInt at hp
  split at hp
  · rename_i vs p bl ha
    cases hc : Heap.indexCheck index vs.length with
    | error e =>
      simp only [hc] at hp
      cases hp
    | ok i =>
      simp only [hc] at hp
      cases hf : fill h (a, i) with
      | error e =>
        simp only [hf] at hp
        cases hp
      | ok r =>
        obtain ⟨h2, lg⟩ := r
        simp only [hf] at hp
        cases hp
        exact ⟨vs, p, bl, i, ha, hc, hf, rfl⟩
  · cases hp

/-- A pointer returned by `GetPointerTo` is returned again, with no lookup,
on every heap that keeps the objects of the heap after the call and in which
the slot of the pointer is loaded. -/
theorem getPointerTo_stable (st : Heap.Store) (fuel : Nat) (isBlank : Heap.ValuePath → Bool)
    (h h1 : Heap.Objects) (b : Nat) (path : Heap.ValuePath) (ptr : Heap.PointerValue)
    (log : List Heap.Lookup)
    (hg : Heap.Block.GetPointerTo st fuel isBlank h b path = .ok (h1, ptr, log)) :
    ∃ obj i, ptr.TV = some (obj, i) ∧
      ((∃ vs p, h1 = h ∧ h[b]? = some (.Block vs p obj)) ∨ ∃ o, h1[obj]? = some o) ∧
      ∀ (h2 : Heap.Objects) (cur2 : Heap.TypedValue) (fuel2 : Nat), Heap.Keeps h1 h2 →
        Heap.readSlot h2 obj i = some cur2 → cur2.isLoaded h2 = true →
        Heap.Block.GetPointerTo st (fuel2 + 1) isBlank h2 b path = .ok (h2, ptr, []) := by
  unfold Heap.Block.GetPointerTo at hg
  split_ifs at hg with hbl
  · split at hg
    · rename_i vs p bl hb
      cases hg
      refine ⟨bl, 0, rfl, Or.inl ⟨vs, p, rfl, hb⟩, ?_⟩
      intro h2 cur2 fuel2 hk _ _
      obtain ⟨o1, ho1, he⟩ := hk b _ hb
      obtain ⟨vs1, rfl, -⟩ := frame_block o1 vs p bl he
      simp only [Heap.Block.GetPointerTo, hbl, if_true, ho1]
    · cases hg
  · cases hl : Heap.Block.parentLoop st path.Depth path.Depth 1 h (some b) with
    | error e =>
      simp only [hl] at hg
      cases hg
    | ok r =>
      obtain ⟨hA, bA, logA⟩ := r
      simp only [hl] at hg
      cases bA with
      | none => cases hg
      | some a =>
        simp only [] at hg
        cases hp : Heap.Block.GetPointerToInt (Heap.fillValueTV st fuel) hA a path.Index with
        | error e =>
          simp only [hp] at hg
          cases hg
        | ok r2 =>
          obtain ⟨hB, pB, logB⟩ := r2
          simp only [hp] at hg
          cases hg
          obtain ⟨vs, p, bl, i, ha, hc, hf, rfl⟩ := blockPointer_inv _ hA _ a _ _ _ hp
          have hkA := fill_keeps st fuel hA (a, i) _ logB hf
          obtain ⟨oB, hoB, -⟩ := hkA a _ ha
          refine ⟨a, i, rfl, Or.inr ⟨oB, hoB⟩, ?_⟩
          intro h2 cur2 fuel2 hk hr2 hl2
          have hk2 := keeps_trans _ _ _ hkA hk
          obtain ⟨o2, ho2, he2⟩ := hk2 a _ ha
          obtain ⟨vs2, rfl, hlen⟩ := frame_block o2 vs p bl he2
          have hloop := parentLoop_stable st path.Depth path.Depth 1 h hA (some b)
            (some a) logA hl h2 (fun c q hs => keeps_settled hA h2 hk2 c q hs)
          simp only [Heap.Block.GetPointerTo, hbl, hloop, Heap.Block.GetPointerToInt, ho2,
            hlen, hc, fill_of_loaded st fuel2 h2 (a, i) cur2 hr2 hl2, List.append_nil]
          rfl
theorem assign_keeps (env : Heap.Env) (fuel : Nat) (h h1 : Heap.Objects) (obj i : Nat)
    (tv2 : Heap.TypedValue) (cu : Bool)
    (ha : Heap.TypedValue.Assign env fuel h (obj, i) tv2 cu = .ok h1) : Heap.Keeps h h1 := by
  obtain ⟨hc, cp, hcopy, hw, -⟩ := assign_read env fuel h h1 obj i tv2 cu ha
  exact keeps_trans _ _ _ (keeps_extends _ _ (copy_extends fuel h tv2 hc cp hcopy))
    (writeSlot_keeps _ _ _ _ _ hw)

/-- When the copy of `tv2` returns, `Assign2` through a pointer to a slot
whose type is not `DataByteType` returns; the slot holds the copy, no other
object that was in the heap is changed, and the objects of the heap are
kept. -/
theorem assign2_returns_keeps (env : Heap.Env) (fuel : Nat) (h hc : Heap.Objects)
    (rlm : Option (List Heap.Update)) (pv : Heap.PointerValue) (obj i : Nat)
    (cur tv2 cp : Heap.TypedValue) (cu : Bool)
    (hp : pv.TV = some (obj, i)) (hr : Heap.readSlot h obj i = some cur)
    (hd : Heap.isDataByteType cur.T = false)
    (hcp : Heap.TypedValue.Copy fuel h tv2 = .ok (hc, cp)) :
    ∃ h3 rlm3, pv.Assign2 env fuel h rlm tv2 cu = .ok (h3, rlm3) ∧
      Heap.readSlot h3 obj i =
        some (if cu && env.isUntyped cp.T then env.convertUntyped cp else cp) ∧
      (∀ c, c < h.length → c ≠ obj → h3[c]? = h[c]?) ∧ Heap.Keeps h h3 := by
  obtain ⟨h3, ha, hread, hfr⟩ := assign_ok env fuel h hc obj i cur tv2 cp cu hr hcp
  have hk := assign_keeps env fuel h h3 obj i tv2 cu ha
  unfold Heap.PointerValue.Assign2
  simp only [hp, hr, hd, Bool.false_eq_true, if_false, ha, hread]
  split
  · exact ⟨h3, _, rfl, hread, hfr, hk⟩
  · exact ⟨h3, _, rfl, hread, hfr, hk⟩

theorem sameButItem_keeps (h2 h3 : Heap.Objects) (n : Nat) (e : Heap.TypedValue)
    (hn : h2[n]? = some (.HeapItemValue e)) (hs : Heap.SameButItem h2 h3 n) :
    Heap.Keeps h2 h3 := by
  intro a o ho
  by_cases han : a = n
  · subst han
    rw [hn] at ho
    cases ho
    obtain ⟨v, hv⟩ := hs.2
    exact ⟨_, hv, rfl⟩
  · exact ⟨o, by rw [hs.1 a (getElem?_lt _ _ _ ho) han]; exact ho, rfl⟩

theorem heapUse_error (st : Heap.Store) (fuel : Nat) (isBlank : Heap.ValuePath → Bool)
    (h h1 : Heap.Objects) (b : Nat) (path : Heap.ValuePath) (ptr : Heap.PointerValue)
    (log : List Heap.Lookup) (obj i : Nat) (cur : Heap.TypedValue)
    (hg : Heap.Block.GetPointerTo st fuel isBlank h b path = .ok (h1, ptr, log))
    (hp : ptr.TV = some (obj, i)) (hr : Heap.readSlot h1 obj i = some cur)
    (hno : cur.T ≠ some .heapItemType ∨ ∀ hiv, cur.V ≠ some (.HeapItemValue hiv)) :
    ∃ s, Heap.Block.GetPointerToHeapUse st fuel isBlank h b path = .error (.fatal s []) := by
  unfold Heap.Block.GetPointerToHeapUse
  simp only [hg, hp, hr]
  split
  · rename_i hT
    split
    · rename_i hiv hV
      rcases hno with hno | hno
      · exact absurd hT hno
      · exact absurd hV (hno hiv)
    · exact ⟨_, rfl⟩
  · exact ⟨_, rfl⟩

/-- C23. A call of `GetPointerToHeapDefine(path)` that returns, on a block
whose blank slot is in the heap. The slot addressed by `GetPointerTo(path)`
then holds a new heap item `n` (type `heapItemType`, payload the heap item),
whose value is the undefined slot, and the pointer returned has the one slot
of the heap item as `TV`, the heap item as `Base` and the index 0. On every
heap that differs from the heap after the call at most in the content of the
heap item and in new objects, `GetPointerToHeapUse(path)` on the block
returns that same pointer, with the heap as it is and no lookup; `Assign2`
through the pointer, of a value whose copy returns, the slot of the heap item
not being of type `DataByteType`, returns a heap that again differs at most
in the content of the heap item and in new objects, in which the slot of the
heap item holds the copy: so what is written through the pointer of the
definition or of a use is what every pointer of a use reads. When the slot
addressed by `GetPointerTo(path)` is not of type `heapItemType` or its
payload is not a heap item, `GetPointerToHeapUse(path)` fails. -/
theorem heap_define_use (st : Heap.Store) (fuel : Nat) (isBlank : Heap.ValuePath → Bool)
    (env : Heap.Env) (h h2 : Heap.Objects) (b : Nat) (path : Heap.ValuePath)
    (pv : Heap.PointerValue) (log : List Heap.Lookup)
    (hslot : ∀ vs p bl, h[b]? = some (.Block vs p bl) → ∃ s, h[bl]? = some (.Slot s))
    (hd : Heap.Block.GetPointerToHeapDefine st fuel isBlank h b path = .ok (h2, pv, log)) :
    (∃ n obj i h1 ptr,
      Heap.Block.GetPointerTo st fuel isBlank h b path = .ok (h1, ptr, log) ∧
      ptr.TV = some (obj, i) ∧ n = h1.length ∧
      pv = { TV := some (n, 0), Base := some n, Index := 0 } ∧
      h2[n]? = some (.HeapItemValue { T := none, V := none, N := 0 }) ∧
      Heap.readSlot h2 obj i = some (Heap.heapItemSlot n) ∧
      Heap.SameButItem h2 h2 n ∧
      (∀ (h3 : Heap.Objects) (fuel2 : Nat), Heap.SameButItem h2 h3 n →
        Heap.Block.GetPointerToHeapUse st (fuel2 + 1) isBlank h3 b path = .ok (h3, pv, [])) ∧
      (∀ (h3 hc : Heap.Objects) (k : Nat) (rlm : Option (List Heap.Update))
          (x cp cur0 : Heap.TypedValue) (cu : Bool),
        Heap.SameButItem h2 h3 n → Heap.readSlot h3 n 0 = some cur0 →
        Heap.isDataByteType cur0.T = false → Heap.TypedValue.Copy k h3 x = .ok (hc, cp) →
        ∃ h4 rlm4, pv.Assign2 env k h3 rlm x cu = .ok (h4, rlm4) ∧
          Heap.SameButItem h2 h4 n ∧
          Heap.readSlot h4 n 0 =
            some (if cu && env.isUntyped cp.T then env.convertUntyped cp else cp))) ∧
    (∀ (fuel0 : Nat) (h0 h1 : Heap.Objects) (b0 : Nat) (path0 : Heap.ValuePath)
        (ptr : Heap.PointerValue) (log0 : List Heap.Lookup) (obj i : Nat)
        (cur : Heap.TypedValue),
      Heap.Block.GetPointerTo st fuel0 isBlank h0 b0 path0 = .ok (h1, ptr, log0) →
      ptr.TV = some (obj, i) → Heap.readSlot h1 obj i = some cur →
      (cur.T ≠ some .heapItemType ∨ ∀ hiv, cur.V ≠ some (.HeapItemValue hiv)) →
      ∃ s, Heap.Block.GetPointerToHeapUse st fuel0 isBlank h0 b0 path0 =
        .error (.fatal s [])) := by
  refine ⟨?_, fun fuel0 h0 h1 b0 path0 ptr log0 obj i cur hg hp hr hno =>
    heapUse_error st fuel0 isBlank h0 h1 b0 path0 ptr log0 obj i cur hg hp hr hno⟩
  unfold Heap.Block.GetPointerToHeapDefine at hd
  cases hg : Heap.Block.GetPointerTo st fuel isBlank h b path with
  | error e =>
    simp only [hg] at hd
    cases hd
  | ok r =>
    obtain ⟨h1, ptr, log1⟩ := r
    simp only [hg] at hd
    obtain ⟨obj, i, hTV, hobj, hstable⟩ :=
      getPointerTo_stable st fuel isBlank h h1 b path ptr log1 hg
    simp only [hTV] at hd
    cases hw : Heap.writeSlot
        (h1 ++ [Heap.Object.HeapItemValue { T := none, V := none, N := 0 }]) obj i
        (Heap.heapItemSlot h1.length) with
    | none =>
      simp only [hw] at hd
      cases hd
    | some hx =>
      simp only [hw] at hd
      cases hd
      have hlt : obj < h1.length := by
        rcases hobj with ⟨vs, p, rfl, hb⟩ | ⟨o, ho⟩
        · obtain ⟨s, hs⟩ := hslot vs p obj hb
          exact getElem?_lt _ _ _ hs
        · exact getElem?_lt _ _ _ ho
      have hne : h1.length ≠ obj := by omega
      have hlen : h2.length = h1.length + 1 := by
        rw [writeSlot_length _ _ _ _ _ hw, List.length_append]
        rfl
      have hn : h2[h1.length]? = some (.HeapItemValue { T := none, V := none, N := 0 }) := by
        rw [writeSlot_other _ _ _ _ _ hw h1.length hne]
        exact getElem?_append_length h1 _
      have hread := writeSlot_read _ _ _ _ _ hw
      have hk12 : Heap.Keeps h1 h2 :=
        keeps_trans _ _ _ (keeps_append h1 _) (writeSlot_keeps _ _ _ _ _ hw)
      refine ⟨h1.length, obj, i, h1, ptr, rfl, hTV, rfl, rfl, hn, hread,
        ⟨fun _ _ _ => rfl, _, hn⟩, ?_, ?_⟩
      · intro h3 fuel2 hs
        have hk23 := sameButItem_keeps h2 h3 h1.length _ hn hs
        have hr3 : Heap.readSlot h3 obj i = some (Heap.heapItemSlot h1.length) := by
          rw [readSlot_congr h2 h3 obj i (hs.1 obj (by omega) (by omega))]
          exact hread
        have hgp := hstable h3 _ fuel2 (keeps_trans _ _ _ hk12 hk23) hr3 rfl
        simp only [Heap.Block.GetPointerToHeapUse, hgp, hTV, hr3, Heap.heapItemSlot]
      · intro h3 hc k rlm x cp cur0 cu hs hr0 hdb hcp
        obtain ⟨h4, rlm4, ha, hread4, hfr, hk34⟩ := assign2_returns_keeps env k h3 hc rlm
          { TV := some (h1.length, 0), Base := some h1.length, Index := 0 } h1.length 0 cur0
          x cp cu rfl hr0 hdb hcp
        refine ⟨h4, rlm4, ha, ⟨?_, ?_⟩, hread4⟩
        · intro c hc2 hcn
          have h32 := hs.1 c hc2 hcn
          have hc3 : c < h3.length := by
            obtain ⟨o, ho⟩ : ∃ o, h2[c]? = some o := ⟨_, List.getElem?_eq_getElem hc2⟩
            rw [← h32] at ho
            exact getElem?_lt _ _ _ ho
          rw [hfr c hc3 hcn, h32]
        · obtain ⟨v, hv⟩ := hs.2
          obtain ⟨o4, ho4, he4⟩ := hk34 _ _ hv
          obtain ⟨v4, rfl⟩ := frame_heapItem o4 v he4
          exact ⟨v4, ho4⟩
/-- On the sample heap with placeholders, the definition of the value 0 of
the block 4 as a heap item makes the object 10, and the use of the value then
returns the same pointer, with no lookup. -/
theorem heap_define_use_witness :
    ∃ h2, Heap.Block.GetPointerToHeapDefine Heap.sampleStore 1 Heap.sampleIsBlank
        Heap.sampleRefHeap 4 { Typ := .VPBlock, Depth := 1, Index := 0, Name := [120] } =
        .ok (h2, { TV := some (10, 0), Base := some 10, Index := 0 }, []) ∧
      Heap.readSlot h2 4 0 = some (Heap.heapItemSlot 10) ∧
      Heap.Block.GetPointerToHeapUse Heap.sampleStore 1 Heap.sampleIsBlank h2 4
        { Typ := .VPBlock, Depth := 1, Index := 0, Name := [120] } =
        .ok (h2, { TV := some (10, 0), Base := some 10, Index := 0 }, []) := by
  have hd : Heap.Block.GetPointerToHeapDefine Heap.sampleStore 1 Heap.sampleIsBlank
      Heap.sampleRefHeap 4 { Typ := .VPBlock, Depth := 1, Index := 0, Name := [120] } =
      .ok (_, { TV := some (10, 0), Base := some 10, Index := 0 }, []) := rfl
  obtain ⟨n, obj, i, h1, ptr, g1, g2, g3, g4, -, g5, g6, g7, -⟩ :=
    (heap_define_use Heap.sampleStore 1 Heap.sampleIsBlank Heap.sampleEnv
      Heap.sampleRefHeap _ 4 { Typ := .VPBlock, Depth := 1, Index := 0, Name := [120] } _ []
      (fun vs p bl hb => by
        have hb2 : Heap.Object.Block [Heap.intSlot 5] none 3 = Heap.Object.Block vs p bl :=
          Option.some.inj hb
        cases hb2
        exact ⟨_, rfl⟩) hd).1
  exact ⟨_, hd, rfl, g7 _ 0 g6⟩

/-! ### Setters and getters of the numeric buffer -/

theorem setLow_mod (w n x : Nat) : setLow w n x % 2 ^ w = x % 2 ^ w := by
  unfold setLow
  rw [Nat.add_comm, Nat.add_mul_mod_self_right, Nat.mod_mod]

theorem setLow_div (w n x : Nat) : setLow w n x / 2 ^ w = n / 2 ^ w := by
  unfold setLow
  have hp : 0 < 2 ^ w := Nat.pow_pos (by decide)
  rw [Nat.add_comm, Nat.add_mul_div_right _ _ hp, Nat.div_eq_of_lt (Nat.mod_lt _ hp),
    Nat.zero_add]

theorem toUnsigned_lt (w : Nat) (x : Int) : toUnsigned w x < 2 ^ w := by
  unfold toUnsigned
  have hp : (0 : Int) < 2 ^ w := by positivity
  have h1 := Int.emod_lt_of_pos x hp
  have h0 := Int.emod_nonneg x (ne_of_gt hp)
  have : ((x % 2 ^ w).toNat : Int) < ((2 ^ w : Nat) : Int) := by
    rw [Int.toNat_of_nonneg h0]
    push_cast
    exact h1
  exact_mod_cast this

theorem toSigned_toUnsigned (w : Nat) (hw : 0 < w) (x : Int)
    (h1 : -(2 : Int) ^ (w - 1) ≤ x) (h2 : x < 2 ^ (w - 1)) :
    toSigned w (toUnsigned w x) = x := by
  obtain ⟨k, rfl⟩ : ∃ k, w = k + 1 := ⟨w - 1, by omega⟩
  simp only [Nat.add_sub_cancel] at h1 h2
  have hp : (2 : Int) ^ (k + 1) = 2 * 2 ^ k := by rw [pow_succ]; ring
  have hpk : (0 : Int) < 2 ^ k := by positivity
  have hlt := toUnsigned_lt (k + 1) x
  unfold toSigned
  rw [Nat.mod_eq_of_lt hlt]
  simp only [Nat.add_sub_cancel]
  have hcast : ((toUnsigned (k + 1) x : Nat) : Int) = x % 2 ^ (k + 1) := by
    unfold toUnsigned
    exact Int.toNat_of_nonneg (Int.emod_nonneg x (by positivity))
  by_cases hx : 0 ≤ x
  · have hm : x % 2 ^ (k + 1) = x := Int.emod_eq_of_lt hx (by rw [hp]; omega)
    have hn : toUnsigned (k + 1) x < 2 ^ k := by
      have : ((toUnsigned (k + 1) x : Nat) : Int) < ((2 ^ k : Nat) : Int) := by
        rw [hcast, hm]
        push_cast
        exact h2
      exact_mod_cast this
    rw [if_pos hn, hcast, hm]
  · have hm : x % 2 ^ (k + 1) = x + 2 ^ (k + 1) := by
      have h3 : (x + 2 ^ (k + 1)) % 2 ^ (k + 1) = x + 2 ^ (k + 1) :=
        Int.emod_eq_of_lt (by rw [hp]; omega) (by omega)
      rw [← h3, Int.add_emod_self]
    have hn : ¬ toUnsigned (k + 1) x < 2 ^ k := by
      intro hc
      have : ((toUnsigned (k + 1) x : Nat) : Int) < ((2 ^ k : Nat) : Int) := by exact_mod_cast hc
      rw [hcast, hm, hp] at this
      push_cast at this
      omega
    rw [if_neg hn, hcast, hm]
    ring

theorem toSigned_congr (w u v : Nat) (h : u % 2 ^ w = v % 2 ^ w) : toSigned w u = toSigned w v := by
  unfold toSigned
  rw [h]

/-- A signed value of `w` bits written to the buffer is read back, and the
bits of the buffer above the low `w` stay. -/
theorem setLow_signed (w : Nat) (hw : 0 < w) (n : Nat) (x : Int)
    (h1 : -(2 : Int) ^ (w - 1) ≤ x) (h2 : x < 2 ^ (w - 1)) :
    toSigned w (setLow w n (toUnsigned w x)) = x ∧
      setLow w n (toUnsigned w x) / 2 ^ w = n / 2 ^ w := by
  refine ⟨?_, setLow_div w n _⟩
  rw [toSigned_congr w _ (toUnsigned w x) (by rw [setLow_mod])]
  exact toSigned_toUnsigned w hw x h1 h2

/-- An unsigned value of `w` bits written to the buffer is read back, and the
bits of the buffer above the low `w` stay. -/
theorem setLow_unsigned (w n x : Nat) (hx : x < 2 ^ w) :
    setLow w n x % 2 ^ w = x ∧ setLow w n x / 2 ^ w = n / 2 ^ w :=
  ⟨by rw [setLow_mod, Nat.mod_eq_of_lt hx], setLow_div w n x⟩

/-- C31. For every slot `tv`, whatever its numeric buffer holds: the getter of
each inline scalar kind after the setter of that kind returns the value set
(for a value of the Go type of the setter: a bool, an integer in the range of
the signed type, a natural number below `2 ^ w` for the unsigned types and
the bit patterns of the floats); the setter changes the low `w` bits of the
buffer only, which are its first `w / 8` bytes, and leaves the payload and the
type as they are. `GetString` after `SetString(s)` returns `s`, `SetString`
leaves the buffer and the type as they are, and `GetString` on an empty
payload returns the empty string. -/
theorem scalar_set_get (tv : TypedValue) :
    (∀ b : Bool, (tv.SetBool b).GetBool = b ∧ (tv.SetBool b).N / 2 ^ 8 = tv.N / 2 ^ 8 ∧
      (tv.SetBool b).V = tv.V ∧ (tv.SetBool b).T = tv.T) ∧
    (∀ x : Int, -2 ^ 63 ≤ x → x < 2 ^ 63 →
      (tv.SetInt x).GetInt = x ∧ (tv.SetInt x).N / 2 ^ 64 = tv.N / 2 ^ 64 ∧
      (tv.SetInt x).V = tv.V ∧ (tv.SetInt x).T = tv.T) ∧
    (∀ x : Int, -2 ^ 7 ≤ x → x < 2 ^ 7 →
      (tv.SetInt8 x).GetInt8 = x ∧ (tv.SetInt8 x).N / 2 ^ 8 = tv.N / 2 ^ 8 ∧
      (tv.SetInt8 x).V = tv.V ∧ (tv.SetInt8 x).T = tv.T) ∧
    (∀ x : Int, -2 ^ 15 ≤ x → x < 2 ^ 15 →
      (tv.SetInt16 x).GetInt16 = x ∧ (tv.SetInt16 x).N / 2 ^ 16 = tv.N / 2 ^ 16 ∧
      (tv.SetInt16 x).V = tv.V ∧ (tv.SetInt16 x).T = tv.T) ∧
    (∀ x : Int, -2 ^ 31 ≤ x → x < 2 ^ 31 →
      (tv.SetInt32 x).GetInt32 = x ∧ (tv.SetInt32 x).N / 2 ^ 32 = tv.N / 2 ^ 32 ∧
      (tv.SetInt32 x).V = tv.V ∧ (tv.SetInt32 x).T = tv.T) ∧
    (∀ x : Int, -2 ^ 63 ≤ x → x < 2 ^ 63 →
      (tv.SetInt64 x).GetInt64 = x ∧ (tv.SetInt64 x).N / 2 ^ 64 = tv.N / 2 ^ 64 ∧
      (tv.SetInt64 x).V = tv.V ∧ (tv.SetInt64 x).T = tv.T) ∧
    (∀ x : Nat, x < 2 ^ 64 →
      (tv.SetUint x).GetUint = x ∧ (tv.SetUint x).N / 2 ^ 64 = tv.N / 2 ^ 64 ∧
      (tv.SetUint x).V = tv.V ∧ (tv.SetUint x).T = tv.T) ∧
    (∀ x : Nat, x < 2 ^ 8 →
      (tv.SetUint8 x).GetUint8 = x ∧ (tv.SetUint8 x).N / 2 ^ 8 = tv.N / 2 ^ 8 ∧
      (tv.SetUint8 x).V = tv.V ∧ (tv.SetUint8 x).T = tv.T) ∧
    (∀ x : Nat, x < 2 ^ 16 →
      (tv.SetUint16 x).GetUint16 = x ∧ (tv.SetUint16 x).N / 2 ^ 16 = tv.N / 2 ^ 16 ∧
      (tv.SetUint16 x).V = tv.V ∧ (tv.SetUint16 x).T = tv.T) ∧
    (∀ x : Nat, x < 2 ^ 32 →
      (tv.SetUint32 x).GetUint32 = x ∧ (tv.SetUint32 x).N / 2 ^ 32 = tv.N / 2 ^ 32 ∧
      (tv.SetUint32 x).V = tv.V ∧ (tv.SetUint32 x).T = tv.T) ∧
    (∀ x : Nat, x < 2 ^ 64 →
      (tv.SetUint64 x).GetUint64 = x ∧ (tv.SetUint64 x).N / 2 ^ 64 = tv.N / 2 ^ 64 ∧
      (tv.SetUint64 x).V = tv.V ∧ (tv.SetUint64 x).T = tv.T) ∧
    (∀ x : Nat, x < 2 ^ 32 →
      (tv.SetFloat32 x).GetFloat32 = x ∧ (tv.SetFloat32 x).N / 2 ^ 32 = tv.N / 2 ^ 32 ∧
      (tv.SetFloat32 x).V = tv.V ∧ (tv.SetFloat32 x).T = tv.T) ∧
    (∀ x : Nat, x < 2 ^ 64 →
      (tv.SetFloat64 x).GetFloat64 = x ∧ (tv.SetFloat64 x).N / 2 ^ 64 = tv.N / 2 ^ 64 ∧
      (tv.SetFloat64 x).V = tv.V ∧ (tv.SetFloat64 x).T = tv.T) ∧
    (∀ s : Bytes, (tv.SetString s).GetString = .ok s ∧ (tv.SetString s).N = tv.N ∧
      (tv.SetString s).T = tv.T) ∧
    (tv.V = none → tv.GetString = .ok []) := by
  refine ⟨?_, ?_, ?_, ?_, ?_, ?_, ?_, ?_, ?_, ?_, ?_, ?_, ?_, ?_, ?_⟩
  · intro b
    refine ⟨?_, setLow_div 8 tv.N _, rfl, rfl⟩
    have hm : (tv.SetBool b).N % 256 = (if b then 1 else 0) := by
      have := setLow_mod 8 tv.N (if b then 1 else 0)
      have h2 : (if b then 1 else 0) % 2 ^ 8 = (if b = true then 1 else 0) := by
        cases b <;> rfl
      rw [h2] at this
      exact this
    unfold TypedValue.GetBool
    rw [hm]
    cases b <;> rfl
  · intro x h1 h2
    obtain ⟨g1, g2⟩ := setLow_signed 64 (by decide) tv.N x h1 h2
    exact ⟨g1, g2, rfl, rfl⟩
  · intro x h1 h2
    obtain ⟨g1, g2⟩ := setLow_signed 8 (by decide) tv.N x h1 h2
    exact ⟨g1, g2, rfl, rfl⟩
  · intro x h1 h2
    obtain ⟨g1, g2⟩ := setLow_signed 16 (by decide) tv.N x h1 h2
    exact ⟨g1, g2, rfl, rfl⟩
  · intro x h1 h2
    obtain ⟨g1, g2⟩ := setLow_signed 32 (by decide) tv.N x h1 h2
    exact ⟨g1, g2, rfl, rfl⟩
  · intro x h1 h2
    obtain ⟨g1, g2⟩ := setLow_signed 64 (by decide) tv.N x h1 h2
    exact ⟨g1, g2, rfl, rfl⟩
  · intro x hx
    obtain ⟨g1, g2⟩ := setLow_unsigned 64 tv.N x hx
    exact ⟨g1, g2, rfl, rfl⟩
  · intro x hx
    obtain ⟨g1, g2⟩ := setLow_unsigned 8 tv.N x hx
    exact ⟨g1, g2, rfl, rfl⟩
  · intro x hx
    obtain ⟨g1, g2⟩ := setLow_unsigned 16 tv.N x hx
    exact ⟨g1, g2, rfl, rfl⟩
  · intro x hx
    obtain ⟨g1, g2⟩ := setLow_unsigned 32 tv.N x hx
    exact ⟨g1, g2, rfl, rfl⟩
  · intro x hx
    obtain ⟨g1, g2⟩ := setLow_unsigned 64 tv.N x hx
    exact ⟨g1, g2, rfl, rfl⟩
  · intro x hx
    obtain ⟨g1, g2⟩ := setLow_unsigned 32 tv.N x hx
    exact ⟨g1, g2, rfl, rfl⟩
  · intro x hx
    obtain ⟨g1, g2⟩ := setLow_unsigned 64 tv.N x hx
    exact ⟨g1, g2, rfl, rfl⟩
  · intro s
    exact ⟨rfl, rfl, rfl⟩
  · intro hV
    simp only [TypedValue.GetString, hV]

/-- On a slot of type `int8` whose buffer holds `2 ^ 64 - 1`, the value -2 is
set and read back, and the seven bytes above the first stay `0xff`. -/
theorem scalar_set_get_witness :
    ((TypedValue.mk (some (.PrimitiveType .Int8Type)) none (2 ^ 64 - 1)).SetInt8 (-2)).GetInt8
      = -2 ∧
    ((TypedValue.mk (some (.PrimitiveType .Int8Type)) none (2 ^ 64 - 1)).SetInt8 (-2)).N / 2 ^ 8
      = (2 ^ 64 - 1) / 2 ^ 8 := by
  obtain ⟨g1, g2, -, -⟩ :=
    (scalar_set_get (TypedValue.mk (some (.PrimitiveType .Int8Type)) none (2 ^ 64 - 1))).2.2.1
      (-2) (by decide) (by decide)
  exact ⟨g1, g2⟩

/-! ### The sign of a slot -/

theorem setLow_zero (w x : Nat) : setLow w 0 x = x % 2 ^ w := by
  unfold setLow
  simp

theorem signOfSignedBytes_pos (n : Nat) (h0 : 0 < n) (h1 : n < 2 ^ 63) :
    signOfSignedBytes n = 1 := by
  have hm : n % 2 ^ 64 = n := Nat.mod_eq_of_lt (by omega)
  have hs : toSigned 64 n = (n : Int) := by
    unfold toSigned
    rw [hm, if_pos (by simpa using h1)]
  unfold signOfSignedBytes
  rw [hs, if_neg (by omega), if_neg (by omega)]

theorem toUnsigned_neg (w : Nat) (hw : 0 < w) (x : Int) (h1 : -(2 : Int) ^ (w - 1) ≤ x)
    (h2 : x < 0) : 0 < toUnsigned w x ∧ toUnsigned w x < 2 ^ w := by
  refine ⟨?_, toUnsigned_lt w x⟩
  obtain ⟨k, rfl⟩ : ∃ k, w = k + 1 := ⟨w - 1, by omega⟩
  simp only [Nat.add_sub_cancel] at h1
  have hp : (2 : Int) ^ (k + 1) = 2 * 2 ^ k := by rw [pow_succ]; ring
  have hpk : (0 : Int) < 2 ^ k := by positivity
  have hm : x % 2 ^ (k + 1) = x + 2 ^ (k + 1) := by
    have h3 : (x + 2 ^ (k + 1)) % 2 ^ (k + 1) = x + 2 ^ (k + 1) :=
      Int.emod_eq_of_lt (by rw [hp]; omega) (by omega)
    rw [← h3, Int.add_emod_self]
  unfold toUnsigned
  rw [hm, hp]
  omega

/-- The sign of a narrow negative number stored in a zeroed slot: the setter
writes the low `w` bits and `Sign` reads all 64 bits as an `int64`, which is
then positive. -/
theorem sign_narrow (w : Nat) (hw : 0 < w) (hw2 : w ≤ 32) (x : Int)
    (h1 : -(2 : Int) ^ (w - 1) ≤ x) (h2 : x < 0) :
    signOfSignedBytes (setLow w 0 (toUnsigned w x)) = 1 := by
  obtain ⟨g0, g1⟩ := toUnsigned_neg w hw x h1 h2
  rw [setLow_zero, Nat.mod_eq_of_lt g1]
  have hle : 2 ^ w ≤ 2 ^ 32 := Nat.pow_le_pow_right (by decide) hw2
  exact signOfSignedBytes_pos _ g0 (by omega)

/-- C36 (the code). On a zeroed slot of the type of the setter: after
`SetInt8`, `SetInt16` or `SetInt32` of a negative number, and after
`SetFloat32` of any bit pattern other than zero, that of a negative float
included, `Sign` returns 1 and `AssertNonNegative` returns: the setters write
the low 1, 2 or 4 bytes of the buffer and `signOfSignedBytes` reads the eight
bytes as an `int64`. After `SetInt64` and `SetInt` the sign is that of the
number, and after the setter of an unsigned kind it is 0 for 0 and 1
otherwise. -/
theorem sign_reads_whole_buffer (msg : String) :
    (∀ x : Int, -2 ^ 7 ≤ x → x < 0 →
      ((TypedValue.mk (some (.PrimitiveType .Int8Type)) none 0).SetInt8 x).Sign = .ok 1 ∧
      ((TypedValue.mk (some (.PrimitiveType .Int8Type)) none 0).SetInt8 x).AssertNonNegative
        msg = .ok ()) ∧
    (∀ x : Int, -2 ^ 15 ≤ x → x < 0 →
      ((TypedValue.mk (some (.PrimitiveType .Int16Type)) none 0).SetInt16 x).Sign = .ok 1 ∧
      ((TypedValue.mk (some (.PrimitiveType .Int16Type)) none 0).SetInt16 x).AssertNonNegative
        msg = .ok ()) ∧
    (∀ x : Int, -2 ^ 31 ≤ x → x < 0 →
      ((TypedValue.mk (some (.PrimitiveType .Int32Type)) none 0).SetInt32 x).Sign = .ok 1 ∧
      ((TypedValue.mk (some (.PrimitiveType .Int32Type)) none 0).SetInt32 x).AssertNonNegative
        msg = .ok ()) ∧
    (∀ bits : Nat, 0 < bits → bits < 2 ^ 32 →
      ((TypedValue.mk (some (.PrimitiveType .Float32Type)) none 0).SetFloat32 bits).Sign =
        .ok 1 ∧
      ((TypedValue.mk (some (.PrimitiveType .Float32Type)) none 0).SetFloat32
        bits).AssertNonNegative msg = .ok ()) ∧
    (∀ x : Int, -2 ^ 63 ≤ x → x < 2 ^ 63 →
      ((TypedValue.mk (some (.PrimitiveType .Int64Type)) none 0).SetInt64 x).Sign =
        .ok (Int.sign x) ∧
      ((TypedValue.mk (some (.PrimitiveType .IntType)) none 0).SetInt x).Sign =
        .ok (Int.sign x)) ∧
    (∀ x : Nat, x < 2 ^ 8 →
      ((TypedValue.mk (some (.PrimitiveType .Uint8Type)) none 0).SetUint8 x).Sign =
        .ok (if x = 0 then 0 else 1)) := by
  have hassert : ∀ tv : TypedValue, tv.Sign = .ok 1 → tv.AssertNonNegative msg = .ok () := by
    intro tv hs
    simp only [TypedValue.AssertNonNegative, hs]
    rfl
  have hsign64 : ∀ x : Int, -2 ^ 63 ≤ x → x < 2 ^ 63 →
      signOfSignedBytes (setLow 64 0 (toUnsigned 64 x)) = Int.sign x := by
    intro x h1 h2
    have hs := (setLow_signed 64 (by decide) 0 x h1 h2).1
    unfold signOfSignedBytes
    rw [hs]
    rcases lt_trichotomy x 0 with hx | hx | hx
    · rw [if_neg (by omega), if_pos hx, Int.sign_eq_neg_one_of_neg hx]
    · subst hx
      rfl
    · rw [if_neg (by omega), if_neg (by omega), Int.sign_eq_one_of_pos hx]
  refine ⟨?_, ?_, ?_, ?_, ?_, ?_⟩
  · intro x h1 h2
    have hs : ((TypedValue.mk (some (.PrimitiveType .Int8Type)) none 0).SetInt8 x).Sign =
        .ok 1 := by
      show Except.ok (signOfSignedBytes (setLow 8 0 (toUnsigned 8 x))) = .ok 1
      rw [sign_narrow 8 (by decide) (by decide) x h1 h2]
    exact ⟨hs, hassert _ hs⟩
  · intro x h1 h2
    have hs : ((TypedValue.mk (some (.PrimitiveType .Int16Type)) none 0).SetInt16 x).Sign =
        .ok 1 := by
      show Except.ok (signOfSignedBytes (setLow 16 0 (toUnsigned 16 x))) = .ok 1
      rw [sign_narrow 16 (by decide) (by decide) x h1 h2]
    exact ⟨hs, hassert _ hs⟩
  · intro x h1 h2
    have hs : ((TypedValue.mk (some (.PrimitiveType .Int32Type)) none 0).SetInt32 x).Sign =
        .ok 1 := by
      show Except.ok (signOfSignedBytes (setLow 32 0 (toUnsigned 32 x))) = .ok 1
      rw [sign_narrow 32 (by decide) (by decide) x h1 h2]
    exact ⟨hs, hassert _ hs⟩
  · intro bits h0 h1
    have hs : ((TypedValue.mk (some (.PrimitiveType .Float32Type)) none 0).SetFloat32
        bits).Sign = .ok 1 := by
      show Except.ok (signOfSignedBytes (setLow 32 0 bits)) = .ok 1
      rw [setLow_zero, Nat.mod_eq_of_lt h1, signOfSignedBytes_pos bits h0 (by omega)]
    exact ⟨hs, hassert _ hs⟩
  · intro x h1 h2
    constructor
    · show Except.ok (signOfSignedBytes (setLow 64 0 (toUnsigned 64 x))) = .ok (Int.sign x)
      rw [hsign64 x h1 h2]
    · show Except.ok (signOfSignedBytes (setLow 64 0 (toUnsigned 64 x))) = .ok (Int.sign x)
      rw [hsign64 x h1 h2]
  · intro x hx
    show Except.ok (signOfUnsignedBytes (setLow 8 0 x)) = .ok (if x = 0 then 0 else 1)
    rw [setLow_zero, Nat.mod_eq_of_lt hx]
    unfold signOfUnsignedBytes
    rw [Nat.mod_eq_of_lt (by omega)]

/-- The theorem `sign_reads_whole_buffer` at the `int8`, `int16` and `int32`
value -1 and the `float32` value -1.0 (the bit pattern `0xbf800000`): in a
zeroed slot they have the sign 1, and `AssertNonNegative` returns on the
`int8` value -1. -/
theorem sign_reads_whole_buffer_witness :
    ((TypedValue.mk (some (.PrimitiveType .Int8Type)) none 0).SetInt8 (-1)).Sign = .ok 1 ∧
    ((TypedValue.mk (some (.PrimitiveType .Int16Type)) none 0).SetInt16 (-1)).Sign = .ok 1 ∧
    ((TypedValue.mk (some (.PrimitiveType .Int32Type)) none 0).SetInt32 (-1)).Sign = .ok 1 ∧
    ((TypedValue.mk (some (.PrimitiveType .Float32Type)) none 0).SetFloat32 3212836864).Sign =
      .ok 1 ∧
    ((TypedValue.mk (some (.PrimitiveType .Int8Type)) none 0).SetInt8 (-1)).AssertNonNegative
      "negative" = .ok () :=
  ⟨((sign_reads_whole_buffer "negative").1 (-1) (by decide) (by decide)).1,
    ((sign_reads_whole_buffer "negative").2.1 (-1) (by decide) (by decide)).1,
    ((sign_reads_whole_buffer "negative").2.2.1 (-1) (by decide) (by decide)).1,
    ((sign_reads_whole_buffer "negative").2.2.2.1 3212836864 (by decide) (by decide)).1,
    ((sign_reads_whole_buffer "negative").1 (-1) (by decide) (by decide)).2⟩

/-! ### Assignment to a slot -/

/-- C32. `Assign` to an existing slot, of a value whose copy returns, returns,
whatever the slot held: the copy has the type of the new value; when
`convertUntyped` is false or the type of the new value is not untyped the slot
then holds the copy; when `convertUntyped` is true and the type is untyped the
slot holds the conversion `ConvertUntypedTo(tv, defaultTypeOf(tv.T))` of the
copy, whose type is the default type of the type of the new value for every
`defaultTypeOf` the conversion follows; and every object that was in the heap,
other than the one that holds the slot, is as it was, the objects of the new
value among them. -/
theorem assign_overwrites (env : Heap.Env) (fuel : Nat) (h hc : Heap.Objects) (obj i : Nat)
    (cur tv2 cp : Heap.TypedValue) (cu : Bool)
    (hr : Heap.readSlot h obj i = some cur)
    (hcp : Heap.TypedValue.Copy fuel h tv2 = .ok (hc, cp)) :
    ∃ h3, Heap.TypedValue.Assign env fuel h (obj, i) tv2 cu = .ok h3 ∧
      cp.T = tv2.T ∧
      ((cu = false ∨ env.isUntyped tv2.T = false) → Heap.readSlot h3 obj i = some cp) ∧
      (cu = true → env.isUntyped tv2.T = true →
        Heap.readSlot h3 obj i = some (env.convertUntyped cp) ∧
        ∀ defaultTypeOf : Option GType → Option GType,
          (∀ x : Heap.TypedValue, (env.convertUntyped x).T = defaultTypeOf x.T) →
          ∃ v, Heap.readSlot h3 obj i = some v ∧ v.T = defaultTypeOf tv2.T) ∧
      (∀ c, c < h.length → c ≠ obj → h3[c]? = h[c]?) := by
  obtain ⟨h3, ha, hread, hfr⟩ := assign_ok env fuel h hc obj i cur tv2 cp cu hr hcp
  have hT := copy_type fuel h tv2 hc cp hcp
  refine ⟨h3, ha, hT, ?_, ?_, hfr⟩
  · intro hno
    rw [hread, hT]
    rcases hno with hno | hno
    · rw [hno]
      rfl
    · rw [hno, Bool.and_false]
      rfl
  · intro h1 h2
    have hv : Heap.readSlot h3 obj i = some (env.convertUntyped cp) := by
      rw [hread, hT, h1, h2]
      rfl
    refine ⟨hv, ?_⟩
    intro dt hdt
    exact ⟨_, hv, by rw [hdt, hT]⟩

/-- The theorem `assign_overwrites` at the sample heap: the int 7 is assigned
to element 0 of the array `A`. -/
theorem assign_overwrites_witness :
    ∃ h3, Heap.TypedValue.Assign Heap.sampleEnv 1 Heap.sampleHeap (0, 0) (Heap.intSlot 7) false
        = .ok h3 ∧
      Heap.readSlot h3 0 0 = some (Heap.intSlot 7) ∧
      (∀ c, c < Heap.sampleHeap.length → c ≠ 0 → h3[c]? = Heap.sampleHeap[c]?) := by
  obtain ⟨h3, ha, -, h1, -, h2⟩ := assign_overwrites Heap.sampleEnv 1 Heap.sampleHeap
    Heap.sampleHeap 0 0 (Heap.intSlot 10) (Heap.intSlot 7) (Heap.intSlot 7) false rfl rfl
  exact ⟨h3, ha, h1 (Or.inl rfl), h2⟩

/-! ### The messages of `GetSlice` for a negative index -/

/-- C40 (the code). When `low < 0` the exception of `GetSlice` prints `low`.
When `0 ≤ low` and `high < 0` the exception has the same format and again
prints `low`, which is not negative, and not `high`. -/
theorem getSlice_negative_index_message (h : Heap.Objects) (tv : Heap.TypedValue)
    (low high : Int) :
    (low < 0 → Heap.TypedValue.GetSlice h tv low high =
      .error (.exception "invalid slice index %d (index must be non-negative)" [low])) ∧
    (0 ≤ low → high < 0 → Heap.TypedValue.GetSlice h tv low high =
      .error (.exception "invalid slice index %d (index must be non-negative)" [low])) := by
  constructor
  · intro hl
    simp only [Heap.TypedValue.GetSlice, hl, if_true]
  · intro hl hh
    have hl2 : ¬ low < 0 := by omega
    simp only [Heap.TypedValue.GetSlice, hl2, hh, if_true, if_false]

/-- On the slice `A[1:3]` of the sample heap, `GetSlice(0, -1)` raises the
exception whose message prints the index 0. -/
theorem getSlice_negative_index_message_witness :
    Heap.TypedValue.GetSlice Heap.sampleHeap Heap.sampleSlice 0 (-1) =
      .error (.exception "invalid slice index %d (index must be non-negative)" [0]) :=
  (getSlice_negative_index_message Heap.sampleHeap Heap.sampleSlice 0 (-1)).2
    (by decide) (by decide)

/-! ### Indexing a nil slice, a nil map and a string -/

/-- C34 (the code). `GetPointerAtIndex` on a slot of map type with an empty
payload raises the exception "uninitialized map index". On a slot of slice
type with an empty payload it panics, for every index, with the plain string
"nil slice index (out of bounds)", which is not an exception value. On a
string it raises an exception exactly when the index is negative or at least
the length of the string, and otherwise returns a pointer with no base to a
new slot of type `uint8` that holds the byte at the index. -/
theorem getPointerAtIndex_nil_slice_is_fatal (toInt : Heap.TypedValue → Int)
    (forKey : Heap.Objects → Nat → GType → Heap.TypedValue →
      Except Heap.Panic (Heap.Objects × Heap.PointerValue))
    (h : Heap.Objects) (tv iv : Heap.TypedValue) (t0 : GType) (hT : tv.T = some t0) :
    (∀ kt vt, baseOf t0 = .MapType kt vt → tv.V = none →
      Heap.TypedValue.GetPointerAtIndex toInt forKey h tv iv =
        .error (.exception "uninitialized map index" [])) ∧
    (∀ elt, baseOf t0 = .SliceType elt → tv.V = none →
      Heap.TypedValue.GetPointerAtIndex toInt forKey h tv iv =
        .error (.fatal "nil slice index (out of bounds)" []) ∧
      (Heap.Panic.fatal "nil slice index (out of bounds)" []).isException = false) ∧
    (∀ (bt : PrimitiveType) (s : Bytes), baseOf t0 = .PrimitiveType bt →
      bt = .StringType ∨ bt = .UntypedStringType → tv.GetString = .ok s →
      ((∃ e, Heap.TypedValue.GetPointerAtIndex toInt forKey h tv iv = .error e ∧
          e.isException = true) ↔ (toInt iv < 0 ∨ (s.length : Int) ≤ toInt iv)) ∧
      (0 ≤ toInt iv → toInt iv < s.length →
        Heap.TypedValue.GetPointerAtIndex toInt forKey h tv iv =
          .ok (h ++ [.Slot { T := some (.PrimitiveType .Uint8Type), V := none,
                             N := (s[(toInt iv).toNat]?).getD 0 }],
            { TV := some (h.length, 0), Base := none, Index := 0 }))) := by
  refine ⟨?_, ?_, ?_⟩
  · intro kt vt hb hV
    simp only [Heap.TypedValue.GetPointerAtIndex, hT, hb, hV]
  · intro elt hb hV
    refine ⟨?_, rfl⟩
    simp only [Heap.TypedValue.GetPointerAtIndex, hT, hb, hV]
  · intro bt s hb hbt hs
    have hgen : Heap.TypedValue.GetPointerAtIndex toInt forKey h tv iv =
        if toInt iv ≥ s.length then
          .error (.exception "index out of range [%d] with length %d" [toInt iv, s.length])
        else if toInt iv < 0 then
          .error (.exception "invalid slice index %d (index must be non-negative)"
            [toInt iv])
        else
          .ok (h ++ [.Slot { T := some (.PrimitiveType .Uint8Type), V := none,
                             N := (s[(toInt iv).toNat]?).getD 0 }],
            { TV := some (h.length, 0), Base := none, Index := 0 }) := by
      simp only [Heap.TypedValue.GetPointerAtIndex, hT, hb, hbt, hs, if_true]
    constructor
    · rw [hgen]
      constructor
      · rintro ⟨e, he, -⟩
        by_contra hc
        rw [if_neg (by omega), if_neg (by omega)] at he
        cases he
      · intro hc
        by_cases h1 : toInt iv ≥ s.length
        · exact ⟨.exception "index out of range [%d] with length %d" [toInt iv, s.length],
            by rw [if_pos h1], rfl⟩
        · have h2 : toInt iv < 0 := by omega
          exact ⟨.exception "invalid slice index %d (index must be non-negative)" [toInt iv],
            by rw [if_neg h1, if_pos h2], rfl⟩
    · intro h0 h1
      rw [hgen, if_neg (by omega), if_neg (by omega)]

/-- The nil slice `[]int(nil)` indexed at 0 panics with the plain string, and
the string "ab" indexed at 1 gives a pointer with no base to a new slot that
holds the byte 98. -/
theorem getPointerAtIndex_nil_slice_is_fatal_witness :
    Heap.TypedValue.GetPointerAtIndex (fun iv => (iv.N : Int)) (fun _ _ _ _ => .error (.fatal "no map" []))
        Heap.sampleHeap { T := some (.SliceType (.PrimitiveType .IntType)), V := none, N := 0 }
        (Heap.intSlot 0) =
      .error (.fatal "nil slice index (out of bounds)" []) ∧
    Heap.TypedValue.GetPointerAtIndex (fun iv => (iv.N : Int)) (fun _ _ _ _ => .error (.fatal "no map" []))
        Heap.sampleHeap
        { T := some (.PrimitiveType .StringType), V := some (.StringValue [97, 98]), N := 0 }
        (Heap.intSlot 1) =
      .ok (Heap.sampleHeap ++ [.Slot { T := some (.PrimitiveType .Uint8Type), V := none,
                                       N := 98 }],
        { TV := some (4, 0), Base := none, Index := 0 }) :=
  ⟨((getPointerAtIndex_nil_slice_is_fatal (fun iv => (iv.N : Int)) (fun _ _ _ _ => .error (.fatal "no map" []))
      Heap.sampleHeap { T := some (.SliceType (.PrimitiveType .IntType)), V := none, N := 0 }
      (Heap.intSlot 0) _ rfl).2.1 _ rfl rfl).1,
    ((getPointerAtIndex_nil_slice_is_fatal (fun iv => (iv.N : Int)) (fun _ _ _ _ => .error (.fatal "no map" []))
      Heap.sampleHeap
      { T := some (.PrimitiveType .StringType), V := some (.StringValue [97, 98]), N := 0 }
      (Heap.intSlot 1) _ rfl).2.2 .StringType [97, 98] rfl (Or.inl rfl) rfl).2
      (by decide) (by decide)⟩

/-! ### Selectors on a nil pointer -/

/-- C33 (the code). `GetPointerToFromTV` on a slot with an empty payload, as
a nil pointer has. With the path type `VPDerefField` at depth 2 and with
`VPDerefValMethod` the payload is tested and the exception "nil pointer
dereference" is raised. With `VPDerefField` at the depths 0, 1 and 3, with
`VPSubrefField` at the depths 0 to 3 and with `VPDerefInterface` there is no
test: the type assertion `tv.V.(PointerValue)` fails, which is a panic of the
Go runtime and not an exception value. With `VPDerefPtrMethod` the payload is
not read: for a slot of type pointer to a declared type that has the method,
the call returns a pointer with no base to a new slot that holds the method
bound to the slot, the nil pointer, as receiver. -/
theorem getPointerToFromTV_nil_pointer (penv : Heap.PathEnv) (fill : Heap.Fill)
    (h : Heap.Objects) (tv : Nat × Nat) (path : Heap.ValuePath) (cur : Heap.TypedValue)
    (hr : Heap.readSlot h tv.1 tv.2 = some cur) (hV : cur.V = none) :
    (path.Typ = .VPDerefField → path.Depth = 2 →
      Heap.TypedValue.GetPointerToFromTV penv fill h tv path =
        .error (.exception "nil pointer dereference" [])) ∧
    (path.Typ = .VPDerefValMethod →
      Heap.TypedValue.GetPointerToFromTV penv fill h tv path =
        .error (.exception "nil pointer dereference" [])) ∧
    (path.Typ = .VPDerefField → path.Depth = 0 ∨ path.Depth = 1 ∨ path.Depth = 3 →
      Heap.TypedValue.GetPointerToFromTV penv fill h tv path =
        .error (.runtime "interface conversion" [])) ∧
    (path.Typ = .VPSubrefField → path.Depth ≤ 3 →
      Heap.TypedValue.GetPointerToFromTV penv fill h tv path =
        .error (.runtime "interface conversion" [])) ∧
    (path.Typ = .VPDerefInterface →
      Heap.TypedValue.GetPointerToFromTV penv fill h tv path =
        .error (.runtime "interface conversion" [])) ∧
    (Heap.Panic.runtime "interface conversion" []).isException = false ∧
    (path.Typ = .VPDerefPtrMethod →
      ∀ (name : Bytes) (base bt : GType) (mv : Nat),
        cur.T = some (.PointerType (.DeclaredType name base)) →
        penv.method (.DeclaredType name base) { path with Typ := .VPPtrMethod } =
          .ok (mv, bt) →
        Heap.TypedValue.GetPointerToFromTV penv fill h tv path =
          .ok (h ++ [.BoundMethodValue mv cur, .Slot (Heap.boundMethodSlot bt h.length)],
            { TV := some (h.length + 1, 0), Base := none, Index := 0 }, [])) := by
  have ht : Heap.pointerTarget cur = .error (.runtime "interface conversion" []) := by
    simp only [Heap.pointerTarget, hV]
  refine ⟨?_, ?_, ?_, ?_, ?_, rfl, ?_⟩
  · intro hT hD
    simp only [Heap.TypedValue.GetPointerToFromTV, hr, Heap.pathDispatch, hT, hD, hV]
  · intro hT
    simp only [Heap.TypedValue.GetPointerToFromTV, hr, Heap.pathDispatch, hT, hV]
  · intro hT hD
    rcases hD with hD | hD | hD <;>
      simp only [Heap.TypedValue.GetPointerToFromTV, hr, Heap.pathDispatch, hT, hD, ht]
  · intro hT hD
    have hc : path.Depth = 0 ∨ path.Depth = 1 ∨ path.Depth = 2 ∨ path.Depth = 3 := by omega
    rcases hc with hD | hD | hD | hD <;>
      simp only [Heap.TypedValue.GetPointerToFromTV, hr, Heap.pathDispatch, hT, hD, ht]
  · intro hT
    simp only [Heap.TypedValue.GetPointerToFromTV, hr, Heap.pathDispatch, hT, ht]
  · intro hT name base bt mv hcT hm
    simp only [Heap.TypedValue.GetPointerToFromTV, hr, Heap.pathDispatch, hT, Heap.fillDtv,
      Heap.pathSelect, Heap.ptrMethodCase, hcT, hm, List.append_nil]

/-- On the nil pointer of the sample heap: the field selector through the
pointer at depth 0 ends in the failed type assertion, at depth 2 in the
exception, and the pointer method is bound to the nil pointer. -/
theorem getPointerToFromTV_nil_pointer_witness :
    Heap.TypedValue.GetPointerToFromTV Heap.samplePathEnv
        (Heap.fillValueTV Heap.sampleStore 1) Heap.sampleNilPointerHeap (0, 0)
        { Typ := .VPDerefField, Depth := 0, Index := 0, Name := [120] } =
      .error (.runtime "interface conversion" []) ∧
    Heap.TypedValue.GetPointerToFromTV Heap.samplePathEnv
        (Heap.fillValueTV Heap.sampleStore 1) Heap.sampleNilPointerHeap (0, 0)
        { Typ := .VPDerefField, Depth := 2, Index := 0, Name := [120] } =
      .error (.exception "nil pointer dereference" []) ∧
    Heap.TypedValue.GetPointerToFromTV Heap.samplePathEnv
        (Heap.fillValueTV Heap.sampleStore 1) Heap.sampleNilPointerHeap (0, 0)
        { Typ := .VPDerefPtrMethod, Depth := 0, Index := 0, Name := [109] } =
      .ok (Heap.sampleNilPointerHeap ++
          [.BoundMethodValue 0
             { T := some (.PointerType (.DeclaredType [77] (.StructType []))), V := none,
               N := 0 },
           .Slot (Heap.boundMethodSlot .FuncType 1)],
        { TV := some (2, 0), Base := none, Index := 0 }, []) :=
  ⟨(getPointerToFromTV_nil_pointer Heap.samplePathEnv (Heap.fillValueTV Heap.sampleStore 1)
      Heap.sampleNilPointerHeap (0, 0)
      { Typ := .VPDerefField, Depth := 0, Index := 0, Name := [120] } _ rfl rfl).2.2.1 rfl
      (Or.inl rfl),
    (getPointerToFromTV_nil_pointer Heap.samplePathEnv (Heap.fillValueTV Heap.sampleStore 1)
      Heap.sampleNilPointerHeap (0, 0)
      { Typ := .VPDerefField, Depth := 2, Index := 0, Name := [120] } _ rfl rfl).1 rfl rfl,
    (getPointerToFromTV_nil_pointer Heap.samplePathEnv (Heap.fillValueTV Heap.sampleStore 1)
      Heap.sampleNilPointerHeap (0, 0)
      { Typ := .VPDerefPtrMethod, Depth := 0, Index := 0, Name := [109] } _ rfl
      rfl).2.2.2.2.2.2 rfl [77] (.StructType []) .FuncType 0 rfl rfl⟩

/-! ### The representation of an array -/

theorem defaultArrayValue_eq (n : Nat) (elt : GType) :
    defaultArrayValue n elt =
      if elt.Kind = .Uint8Kind then .ArrayValue [] (some (List.replicate n 0))
      else if elt.Kind ≠ .InterfaceKind then
        .ArrayValue (List.replicate n (.mk (some elt) (defaultValue elt) 0)) none
      else .ArrayValue (List.replicate n (.mk none none 0)) none := by
  rw [defaultArrayValue]

theorem sameShape_refl (h : Heap.Objects) : Heap.SameShape h h :=
  fun _ l d ha => ⟨l, d, ha, rfl, rfl⟩

theorem sameShape_append (h r : Heap.Objects) : Heap.SameShape h (h ++ r) := by
  intro a l d ha
  exact ⟨l, d, by rw [List.getElem?_append_left (getElem?_lt _ _ _ ha)]; exact ha, rfl, rfl⟩

theorem sameShape_of_keeps (h h1 : Heap.Objects) (k : Heap.Keeps h h1) :
    Heap.SameShape h h1 := by
  intro a l d ha
  obtain ⟨o1, ho1, he⟩ := k a _ ha
  cases d with
  | none =>
    obtain ⟨l1, rfl, hl⟩ := frame_list o1 l he
    exact ⟨l1, none, ho1, rfl, hl⟩
  | some d =>
    have := frame_data o1 l d he
    subst this
    exact ⟨l, some d, ho1, rfl, rfl⟩

theorem setByte_sameShape (h h1 : Heap.Objects) (base : Nat) (index : Int) (b : Nat)
    (hs : Heap.DataByteValue.SetByte h base index b = .ok h1) : Heap.SameShape h h1 := by
  unfold Heap.DataByteValue.SetByte at hs
  cases ho : h[base]? with
  | none => simp only [ho] at hs; cases hs
  | some o =>
    cases o with
    | ArrayValue l0 d0 =>
      simp only [ho] at hs
      cases hi : Heap.indexCheck index (d0.getD []).length with
      | error e => simp only [hi] at hs; cases hs
      | ok i =>
        simp only [hi] at hs
        cases hs
        have hlt : i < (d0.getD []).length := by
          unfold Heap.indexCheck at hi
          split_ifs at hi
          cases hi
          omega
        cases d0 with
        | none => simp at hlt
        | some data =>
          intro a l d ha
          by_cases hab : base = a
          · subst hab
            rw [ho] at ha
            cases ha
            refine ⟨l0, some ((data.set i b)), ?_, rfl, ?_⟩
            · exact List.getElem?_set_self (getElem?_lt _ _ _ ho)
            · simp [Heap.arrayLen]
          · exact ⟨l, d, by rw [List.getElem?_set_ne hab]; exact ha, rfl, rfl⟩
    | _ => simp only [ho] at hs; cases hs

theorem assign2_sameShape (env : Heap.Env) (fuel : Nat) (h h2 : Heap.Objects)
    (rlm rlm2 : Option (List Heap.Update)) (pv : Heap.PointerValue) (x : Heap.TypedValue)
    (cu : Bool) (ha : pv.Assign2 env fuel h rlm x cu = .ok (h2, rlm2)) :
    Heap.SameShape h h2 := by
  unfold Heap.PointerValue.Assign2 at ha
  cases hp : pv.TV with
  | none => simp only [hp] at ha; cases ha
  | some p =>
    obtain ⟨obj, i⟩ := p
    simp only [hp] at ha
    cases hr : Heap.readSlot h obj i with
    | none => simp only [hr] at ha; cases ha
    | some cur =>
      simp only [hr] at ha
      cases hd : Heap.isDataByteType cur.T with
      | true =>
        simp only [hd, if_true] at ha
        cases hv : cur.V with
        | none => simp only [hv] at ha; cases ha
        | some v =>
          cases v with
          | DataByteValue base index et =>
            simp only [hv] at ha
            cases hsb : Heap.DataByteValue.SetByte h base index (x.N % 256) with
            | error e => simp only [hsb] at ha; cases ha
            | ok h1 =>
              simp only [hsb] at ha
              cases ha
              exact setByte_sameShape _ _ _ _ _ hsb
          | _ => simp only [hv] at ha; cases ha
      | false =>
        simp only [hd, Bool.false_eq_true, if_false] at ha
        cases has : Heap.TypedValue.Assign env fuel h (obj, i) x cu with
        | error e =>
          simp only [has] at ha
          split at ha <;> cases ha
        | ok h1 =>
          have hk := sameShape_of_keeps _ _ (assign_keeps env fuel h h1 obj i x cu has)
          simp only [has] at ha
          split at ha
          · split at ha
            · cases ha
            · cases ha
              exact hk
          · cases ha
            exact hk

/-- C35. The function `defaultArrayValue` for the length `n` and the element
type `elt` returns a byte buffer of `n` zero bytes and no element list when
the kind of `elt` is `Uint8Kind`, and otherwise no byte buffer and a list of
`n` elements, each of the type `elt` with its default value, or each undefined
when `elt` is of interface kind; `GetLength` and `GetCapacity` return `n` on
it. `ArrayValue.Copy` returns a new array with the byte buffer of the source,
or else with its element list, and the source stays. The element write,
`GetPointerAtIndexInt2` then `Assign2`, returns for every index in range, of
an element list (when the copy of the new value returns) and of a byte
buffer; and after `GetPointerAtIndexInt2`, and after every `Assign2` that
returns, every array of the heap has the representation and the length it
had. -/
theorem array_representation_fixed :
    (∀ (n : Nat) (elt : GType),
      (elt.Kind = .Uint8Kind →
        defaultArrayValue n elt = .ArrayValue [] (some (List.replicate n 0))) ∧
      (elt.Kind ≠ .Uint8Kind →
        defaultArrayValue n elt =
          .ArrayValue (List.replicate n
            (if elt.Kind = .InterfaceKind then TypedValue.mk none none 0
              else TypedValue.mk (some elt) (defaultValue elt) 0)) none) ∧
      ArrayValue.GetLength (defaultArrayValue n elt) = .ok (n : Int) ∧
      ArrayValue.GetCapacity (defaultArrayValue n elt) = .ok (n : Int)) ∧
    (∀ (h : Heap.Objects) (av : Nat) (l : List Heap.TypedValue) (d : Option Bytes),
      h[av]? = some (.ArrayValue l d) →
      ∃ l2, Heap.ArrayValue.Copy h av = .ok (h ++ [.ArrayValue l2 d], h.length) ∧
        Heap.arrayLen l2 d = Heap.arrayLen l d ∧
        (h ++ [Heap.Object.ArrayValue l2 d])[av]? = some (.ArrayValue l d)) ∧
    (∀ (h h1 : Heap.Objects) (av : Nat) (ii : Int) (et : GType) (pv : Heap.PointerValue),
      Heap.ArrayValue.GetPointerAtIndexInt2 h av ii et = .ok (h1, pv) →
      Heap.SameShape h h1) ∧
    (∀ (env : Heap.Env) (fuel : Nat) (h h2 : Heap.Objects)
      (rlm rlm2 : Option (List Heap.Update)) (pv : Heap.PointerValue) (x : Heap.TypedValue)
      (cu : Bool), pv.Assign2 env fuel h rlm x cu = .ok (h2, rlm2) → Heap.SameShape h h2) ∧
    (∀ (env : Heap.Env) (fuel : Nat) (h hc : Heap.Objects) (av : Nat)
      (l : List Heap.TypedValue) (m : Int) (et : GType) (rlm : Option (List Heap.Update))
      (cur x cp : Heap.TypedValue) (cu : Bool),
      h[av]? = some (.ArrayValue l none) → 0 ≤ m → m < l.length →
      l[m.toNat]? = some cur → Heap.isDataByteType cur.T = false →
      Heap.TypedValue.Copy fuel h x = .ok (hc, cp) →
      ∃ pv h2 rlm2, Heap.ArrayValue.GetPointerAtIndexInt2 h av m et = .ok (h, pv) ∧
        pv.Assign2 env fuel h rlm x cu = .ok (h2, rlm2) ∧
        ∃ l2, h2[av]? = some (.ArrayValue l2 none) ∧ l2.length = l.length) ∧
    (∀ (env : Heap.Env) (fuel : Nat) (h : Heap.Objects) (av : Nat)
      (l : List Heap.TypedValue) (data : Bytes) (m : Int) (et : GType)
      (rlm : Option (List Heap.Update)) (x : Heap.TypedValue) (cu : Bool),
      h[av]? = some (.ArrayValue l (some data)) → 0 ≤ m → m < data.length →
      ∃ pv h1 h2 rlm2 data2, Heap.ArrayValue.GetPointerAtIndexInt2 h av m et = .ok (h1, pv) ∧
        pv.Assign2 env fuel h1 rlm x cu = .ok (h2, rlm2) ∧
        h2[av]? = some (.ArrayValue l (some data2)) ∧ data2.length = data.length) := by
  refine ⟨?_, ?_, ?_, ?_, ?_, ?_⟩
  · intro n elt
    refine ⟨?_, ?_, ?_, ?_⟩
    · intro hk
      rw [defaultArrayValue_eq, if_pos hk]
    · intro hk
      rw [defaultArrayValue_eq, if_neg hk]
      by_cases hi : elt.Kind = .InterfaceKind
      · rw [if_neg (not_not.mpr hi), if_pos hi]
      · rw [if_pos hi, if_neg hi]
    · rw [defaultArrayValue_eq]
      split_ifs <;> simp [ArrayValue.GetLength]
    · rw [defaultArrayValue_eq]
      split_ifs <;> simp [ArrayValue.GetCapacity]
  · intro h av l d ha
    have hget : ∀ o : Heap.Object, (h ++ [o])[av]? = some (.ArrayValue l d) := fun o => by
      rw [List.getElem?_append_left (getElem?_lt _ _ _ ha)]
      exact ha
    cases d with
    | none => exact ⟨l, by simp only [Heap.ArrayValue.Copy, ha], rfl, hget _⟩
    | some data =>
      exact ⟨[], by simp only [Heap.ArrayValue.Copy, ha], rfl, hget _⟩
  · intro h h1 av ii et pv hp
    unfold Heap.ArrayValue.GetPointerAtIndexInt2 at hp
    split at hp
    · split at hp
      · cases hp
      · cases hp
        exact sameShape_refl h
    · cases hp
      exact sameShape_append h _
    · cases hp
  · intro env fuel h h2 rlm rlm2 pv x cu ha
    exact assign2_sameShape env fuel h h2 rlm rlm2 pv x cu ha
  · intro env fuel h hc av l m et rlm cur x cp cu ha h0 h1 hk hd hcp
    have hr : Heap.readSlot h av m.toNat = some cur := by
      rw [readSlot_list h av l m.toNat ha]
      exact hk
    obtain ⟨h3, rlm3, has, -, -⟩ := assign2_returns env fuel h hc rlm
      { TV := some (av, m.toNat), Base := some av, Index := m } av m.toNat cur x cp cu rfl hr
      hd hcp
    obtain ⟨l2, d2, hl2, hd2, hlen⟩ := assign2_sameShape env fuel h h3 rlm rlm3 _ x cu has
      av l none ha
    cases d2 with
    | some d => cases hd2
    | none =>
      exact ⟨_, h3, rlm3, arrayPointer_list h av l m et ha h0 h1, has, l2, hl2, hlen⟩
  · intro env fuel h av l data m et rlm x cu ha h0 h1
    refine ⟨{ TV := some (h.length, 0), Base := some av, Index := m },
      h ++ [.Slot (Heap.dataByteSlot av m et)], _, rlm, data.set m.toNat (x.N % 256), ?_,
      assign2_bytes env fuel h av l data m et (some av) m rlm x cu ha h0 h1, ?_, ?_⟩
    · simp only [Heap.ArrayValue.GetPointerAtIndexInt2, ha]
    · exact List.getElem?_set_self (by
        rw [List.length_append]
        have := getElem?_lt _ _ _ ha
        omega)
    · exact List.length_set _ _ _

/-- The theorem `array_representation_fixed` at the sample heap: the write of
the int 7 to element 1 of the array `A`, and of the byte 9 to element 2 of
the byte array, return, and the arrays keep their representation and their
length. -/
theorem array_representation_fixed_witness :
    (∃ pv h2 rlm2, Heap.ArrayValue.GetPointerAtIndexInt2 Heap.sampleHeap 0 1
          (.PrimitiveType .IntType) = .ok (Heap.sampleHeap, pv) ∧
        pv.Assign2 Heap.sampleEnv 1 Heap.sampleHeap none (Heap.intSlot 7) false
          = .ok (h2, rlm2) ∧
        ∃ l2, h2[0]? = some (.ArrayValue l2 none) ∧ l2.length = 5) ∧
    (∃ pv h1 h2 rlm2 data2, Heap.ArrayValue.GetPointerAtIndexInt2 Heap.sampleHeap 1 2
          (.PrimitiveType .Uint8Type) = .ok (h1, pv) ∧
        pv.Assign2 Heap.sampleEnv 1 h1 none (Heap.intSlot 9) false = .ok (h2, rlm2) ∧
        h2[1]? = some (.ArrayValue [] (some data2)) ∧ data2.length = 3) :=
  ⟨array_representation_fixed.2.2.2.2.1 Heap.sampleEnv 1 Heap.sampleHeap Heap.sampleHeap 0
      [Heap.intSlot 10, Heap.intSlot 20, Heap.intSlot 30, Heap.intSlot 40, Heap.intSlot 50] 1
      (.PrimitiveType .IntType) none (Heap.intSlot 20) (Heap.intSlot 7) (Heap.intSlot 7) false
      rfl (by decide) (by decide) rfl rfl rfl,
    array_representation_fixed.2.2.2.2.2 Heap.sampleEnv 1 Heap.sampleHeap 1 [] [1, 2, 3] 2
      (.PrimitiveType .Uint8Type) none (Heap.intSlot 9) false rfl (by decide) (by decide)⟩

/-! ### Slicing keeps slices well formed -/

theorem sliceWF_append (h : Heap.Objects) (o : Heap.Object) (base : Option Nat)
    (offset length maxcap : Int) (w : Heap.SliceWF h base offset length maxcap) :
    Heap.SliceWF (h ++ [o]) base offset length maxcap := by
  obtain ⟨av, l, d, hb, ha, h1, h2, h3, h4⟩ := w
  exact ⟨av, l, d, hb, getElem?_append_one h av _ o ha, h1, h2, h3, h4⟩

/-- The nil-slice branch of `GetSlice` with the message "nil slice index out
of range" is not reached: the capacity of a nil slice is 0, and the check of
`high` against the capacity comes first. -/
theorem getSlice_nil (h : Heap.Objects) (tv : Heap.TypedValue) (t0 elt : GType)
    (low high : Int) (hT : tv.T = some t0) (hb : baseOf t0 = .SliceType elt)
    (hV : tv.V = none) :
    Heap.TypedValue.GetSlice h tv low high =
      if low < 0 then
        .error (.exception "invalid slice index %d (index must be non-negative)" [low])
      else if high < 0 then
        .error (.exception "invalid slice index %d (index must be non-negative)" [low])
      else if low > high then
        .error (.exception "invalid slice index %d > %d" [low, high])
      else if 0 < high then
        .error (.exception "slice bounds out of range [%d:%d] with capacity %d"
          [low, high, 0])
      else .ok (h, { T := tv.T, V := none, N := 0 }) := by
  simp only [Heap.TypedValue.GetSlice, hT, hb, Heap.TypedValue.GetCapacity, hV]
  split_ifs <;> first | rfl | omega

/-- C37. In a heap whose arrays have fewer than `2 ^ 63` elements: every slice
returned by `GetSlice` or `GetSlice2` on a well-formed slice, and on an array,
is well formed, `0 ≤ Offset`, `0 ≤ Length ≤ Maxcap` and `Offset + Maxcap` at
most the number of elements of its base; `SliceValue.GetPointerAtIndexInt2` on
a well-formed slice accepts an index `ii` only when `0 ≤ ii < Length`, and the
pointer it returns then has the index `Offset + ii`, which is that of an
element of the base array; and `GetSlice` on a nil slice returns for
`low = high = 0` and raises another exception otherwise, never the one with
the message "nil slice index out of range". -/
theorem slicing_keeps_wellformed (h : Heap.Objects) (tv : Heap.TypedValue) (t0 elt : GType)
    (hT : tv.T = some t0)
    (hint : ∀ (a : Nat) (l : List Heap.TypedValue) (d : Option Bytes),
      h[a]? = some (.ArrayValue l d) → (Heap.arrayLen l d : Int) < 2 ^ 63) :
    (∀ (sv : Nat) (base : Option Nat) (offset length maxcap : Int),
      baseOf t0 = .SliceType elt → tv.V = some (.SliceValue sv) →
      h[sv]? = some (.SliceValue base offset length maxcap) →
      Heap.SliceWF h base offset length maxcap →
      (∀ (low high : Int) (h1 : Heap.Objects) (r : Heap.TypedValue),
        Heap.TypedValue.GetSlice h tv low high = .ok (h1, r) →
        ∃ s2 o2 l2 m2, r.V = some (.SliceValue s2) ∧
          h1[s2]? = some (.SliceValue base o2 l2 m2) ∧ Heap.SliceWF h1 base o2 l2 m2) ∧
      (∀ (low high max : Int) (h1 : Heap.Objects) (r : Heap.TypedValue),
        Heap.TypedValue.GetSlice2 h tv low high max = .ok (h1, r) →
        ∃ s2 o2 l2 m2, r.V = some (.SliceValue s2) ∧
          h1[s2]? = some (.SliceValue base o2 l2 m2) ∧ Heap.SliceWF h1 base o2 l2 m2) ∧
      (∀ (ii : Int) (et : GType) (h1 : Heap.Objects) (pv : Heap.PointerValue),
        Heap.SliceValue.GetPointerAtIndexInt2 h sv ii et = .ok (h1, pv) →
        0 ≤ ii ∧ ii < length ∧ pv.Base = base ∧ pv.Index = offset + ii ∧
          ∃ av l d, base = some av ∧ h[av]? = some (.ArrayValue l d) ∧
            0 ≤ pv.Index ∧ pv.Index < (Heap.arrayLen l d : Int))) ∧
    (∀ (n av : Nat) (l : List Heap.TypedValue) (d : Option Bytes),
      baseOf t0 = .ArrayType n elt → tv.V = some (.ArrayValue av) →
      h[av]? = some (.ArrayValue l d) →
      (∀ (low high : Int) (h1 : Heap.Objects) (r : Heap.TypedValue),
        Heap.TypedValue.GetSlice h tv low high = .ok (h1, r) →
        ∃ s2 o2 l2 m2, r.V = some (.SliceValue s2) ∧
          h1[s2]? = some (.SliceValue (some av) o2 l2 m2) ∧
          Heap.SliceWF h1 (some av) o2 l2 m2) ∧
      (∀ (low high max : Int) (h1 : Heap.Objects) (r : Heap.TypedValue),
        Heap.TypedValue.GetSlice2 h tv low high max = .ok (h1, r) →
        ∃ s2 o2 l2 m2, r.V = some (.SliceValue s2) ∧
          h1[s2]? = some (.SliceValue (some av) o2 l2 m2) ∧
          Heap.SliceWF h1 (some av) o2 l2 m2)) ∧
    (baseOf t0 = .SliceType elt → tv.V = none →
      Heap.TypedValue.GetSlice h tv 0 0 = .ok (h, { T := tv.T, V := none, N := 0 }) ∧
      ∀ (low high : Int) (e : Heap.Panic),
        Heap.TypedValue.GetSlice h tv low high = .error e →
        e ≠ .exception "nil slice index out of range" []) := by
  refine ⟨?_, ?_, ?_⟩
  · intro sv base offset length maxcap hb hV hs w
    obtain ⟨av, l, d, hbase, ha, w1, w2, w3, w4⟩ := w
    have hl := hint av l d ha
    refine ⟨?_, ?_, ?_⟩
    · intro low high h1 r hg
      rw [getSlice_slice h tv t0 elt sv base offset length maxcap low high hT hb hV hs] at hg
      split_ifs at hg with c1 c2 c3 c4
      cases hg
      refine ⟨h.length, _, _, _, rfl, List.getElem?_concat_length _ _, ?_⟩
      rw [wrapInt_eq _ (by omega) (by omega)]
      exact ⟨av, l, d, hbase, getElem?_append_one h av _ _ ha, by omega, by omega, by omega,
        by omega⟩
    · intro low high max h1 r hg
      rw [getSlice2_slice h tv t0 elt sv base offset length maxcap low high max hT hb hV hs]
        at hg
      split_ifs at hg with c1 c2 c3 c4 c5 c6 c7
      cases hg
      refine ⟨h.length, _, _, _, rfl, List.getElem?_concat_length _ _, ?_⟩
      rw [wrapInt_eq _ (by omega) (by omega)]
      exact ⟨av, l, d, hbase, getElem?_append_one h av _ _ ha, by omega, by omega, by omega,
        by omega⟩
    · intro ii et h1 pv hg
      subst hbase
      simp only [Heap.SliceValue.GetPointerAtIndexInt2, hs] at hg
      split_ifs at hg with c1 c2
      rw [wrapInt_eq _ (by omega) (by omega)] at hg
      have hbi : pv.Base = some av ∧ pv.Index = offset + ii := by
        unfold Heap.ArrayValue.GetPointerAtIndexInt2 at hg
        rw [ha] at hg
        cases d with
        | none =>
          simp only at hg
          split at hg
          · cases hg
          · cases hg
            exact ⟨rfl, rfl⟩
        | some data =>
          simp only at hg
          cases hg
          exact ⟨rfl, rfl⟩
      refine ⟨by omega, by omega, hbi.1, hbi.2, av, l, d, rfl, ha, ?_, ?_⟩
      · rw [hbi.2]
        omega
      · rw [hbi.2]
        omega
  · intro n av l d hb hV ha
    have hl := hint av l d ha
    refine ⟨?_, ?_⟩
    · intro low high h1 r hg
      rw [getSlice_array h tv t0 elt n av l d low high hT hb hV ha] at hg
      split_ifs at hg with c1 c2 c3 c4
      cases hg
      refine ⟨h.length, _, _, _, rfl, List.getElem?_concat_length _ _, ?_⟩
      exact ⟨av, l, d, rfl, getElem?_append_one h av _ _ ha, by omega, by omega, by omega,
        by omega⟩
    · intro low high max h1 r hg
      rw [getSlice2_array h tv t0 elt n av l d low high max hT hb hV ha] at hg
      split_ifs at hg with c1 c2 c3 c4 c5 c6 c7
      cases hg
      refine ⟨h.length, _, _, _, rfl, List.getElem?_concat_length _ _, ?_⟩
      exact ⟨av, l, d, rfl, getElem?_append_one h av _ _ ha, by omega, by omega, by omega,
        by omega⟩
  · intro hb hV
    refine ⟨?_, ?_⟩
    · rw [getSlice_nil h tv t0 elt 0 0 hT hb hV]
      rfl
    · intro low high e hg
      rw [getSlice_nil h tv t0 elt low high hT hb hV] at hg
      split_ifs at hg <;> cases hg <;> simp

/-- The theorem `slicing_keeps_wellformed` at the sample heap: the slice
`A[1:3]` sliced again by `GetSlice(1, 3)` is a well-formed slice of `A`. -/
theorem slicing_keeps_wellformed_witness :
    ∃ s2 o2 l2 m2 h1 r,
      Heap.TypedValue.GetSlice Heap.sampleHeap Heap.sampleSlice 1 3 = .ok (h1, r) ∧
      r.V = some (.SliceValue s2) ∧ h1[s2]? = some (.SliceValue (some 0) o2 l2 m2) ∧
      Heap.SliceWF h1 (some 0) o2 l2 m2 := by
  obtain ⟨s2, o2, l2, m2, h1, h2, h3⟩ :=
    (((slicing_keeps_wellformed Heap.sampleHeap Heap.sampleSlice
      (.SliceType (.PrimitiveType .IntType)) (.PrimitiveType .IntType) rfl
      (by
        intro a l d ha
        have hlt : a < 4 := getElem?_lt _ _ _ ha
        interval_cases a <;> simp [Heap.sampleHeap] at ha <;>
          (obtain ⟨rfl, rfl⟩ := ha; simp [Heap.arrayLen])
        )).1 2 (some 0) 1 2 4 rfl rfl rfl
      ⟨0, _, none, rfl, rfl, by decide, by decide, by decide, by decide⟩).1 1 3 _ _ rfl)
  exact ⟨s2, o2, l2, m2, _, _, rfl, h1, h2, h3⟩

/-! ### Map read after write -/

theorem getValueForKey_eq (ext : Externals) (mv : MapValue) (key : TypedValue) (kmk : MapKey)
    (hk : key.ComputeMapKey ext false = .ok kmk) :
    mv.GetValueForKey ext key =
      match mv.vmap kmk with
      | some mli =>
        match mv.items[mli]? with
        | some it => .ok (it.Value, true)
        | none => .error "nil pointer dereference"
      | none => .ok (TypedValue.mk none none 0, false) := by
  simp only [MapValue.GetValueForKey, hk]

/-- Two maps with the same index entry for the key bytes `kmk`, and the same
value in the item of that entry, give the same `GetValueForKey`. -/
theorem getValueForKey_congr (ext : Externals) (mv mv2 : MapValue) (key : TypedValue)
    (kmk : MapKey) (hk : key.ComputeMapKey ext false = .ok kmk)
    (hv : mv2.vmap kmk = mv.vmap kmk)
    (hc : ∀ b, mv.vmap kmk = some b → ∃ it it2 : MapListItem, mv.items[b]? = some it ∧
      mv2.items[b]? = some it2 ∧ it2.Value = it.Value) :
    mv2.GetValueForKey ext key = mv.GetValueForKey ext key := by
  rw [getValueForKey_eq ext mv2 key kmk hk, getValueForKey_eq ext mv key kmk hk, hv]
  cases hb : mv.vmap kmk with
  | none => rfl
  | some b =>
    obtain ⟨it, it2, h1, h2, h3⟩ := hc b hb
    simp only [h1, h2, h3]

/-- C38. For a map with the invariant and keys `k` and `k'` with different
key bytes: `GetPointerForKey(k)` and the assignment of `v` through its pointer
return, and then `GetValueForKey(k)` returns `(v, true)` and
`GetValueForKey(k')` what it returned before; `DeleteForKey(k)` returns, and
then `GetValueForKey(k)` returns the undefined value and `false`,
`GetValueForKey(k')` what it returned before, `GetLength` is one less when
`k` was present, and the map is as it was when `k` was absent. -/
theorem map_read_after_write (ext : Externals) (mv : MapValue) (l : List Nat)
    (k k2 : TypedValue) (kmk kmk2 : MapKey) (v : TypedValue) (h : mv.WF ext l)
    (hk : k.ComputeMapKey ext false = .ok kmk)
    (hk2 : k2.ComputeMapKey ext false = .ok kmk2) (hne : kmk ≠ kmk2) :
    (∃ mv2 pv mv3, mv.GetPointerForKey ext k = .ok (mv2, pv) ∧ mv2.Assign2 pv v = .ok mv3 ∧
      mv3.GetValueForKey ext k = .ok (v, true) ∧
      mv3.GetValueForKey ext k2 = mv.GetValueForKey ext k2) ∧
    (∃ mv4, mv.DeleteForKey ext k = .ok mv4 ∧
      mv4.GetValueForKey ext k = .ok (TypedValue.mk none none 0, false) ∧
      mv4.GetValueForKey ext k2 = mv.GetValueForKey ext k2 ∧
      (∀ x, mv.GetValueForKey ext k = .ok (x, true) → mv4.GetLength = mv.GetLength - 1) ∧
      (∀ x, mv.GetValueForKey ext k = .ok (x, false) → mv4 = mv)) := by
  obtain ⟨hinv, hkeyed⟩ := h
  have hvm := hinv.2.2.2.2.2
  have hne2 : ¬ kmk2 = kmk := fun e => hne e.symm
  constructor
  · cases hv : mv.vmap kmk with
    | some a =>
      obtain ⟨ha, ita, hita, hka⟩ := (hvm kmk a).mp hv
      obtain ⟨it, hit, hres, -⟩ :=
        assign2_inv ext mv l ⟨a, k, PointerIndexMap⟩ v hinv ha
      have hlt : a < mv.items.length := getElem?_lt _ _ _ hita
      refine ⟨mv, ⟨a, k, PointerIndexMap⟩, _, by simp only [MapValue.GetPointerForKey, hk, hv],
        hres, ?_, ?_⟩
      · rw [getValueForKey_eq ext _ k kmk hk]
        simp only [hv, List.getElem?_set_self hlt]
        rfl
      · refine getValueForKey_congr ext mv _ k2 kmk2 hk2 rfl ?_
        intro b hb
        obtain ⟨-, itb, hitb, hkb⟩ := (hvm kmk2 b).mp hb
        have hab : a ≠ b := by
          intro e
          subst e
          rw [hita] at hitb
          cases hitb
          rw [hka] at hkb
          exact hne (Except.ok.inj hkb)
        exact ⟨itb, itb, hitb, by simp only [List.getElem?_set_ne hab]; exact hitb, rfl⟩
    | none =>
      obtain ⟨items, ml, happ, -, hcont, it2, hit2, -, -⟩ :=
        append_inv ext mv l k kmk hinv hk hv
      have hlt : mv.items.length < items.length := getElem?_lt _ _ _ hit2
      refine ⟨MapValue.mk items (fun q => if q = kmk then some mv.items.length else mv.vmap q) ml,
        ⟨mv.items.length, k, PointerIndexMap⟩,
        MapValue.mk (items.set mv.items.length (it2.setValue v))
          (fun q => if q = kmk then some mv.items.length else mv.vmap q) ml,
        by simp only [MapValue.GetPointerForKey, hk, hv, happ],
        by simp only [MapValue.Assign2, setItem, hit2], ?_, ?_⟩
      · rw [getValueForKey_eq ext _ k kmk hk]
        simp only [if_true, List.getElem?_set_self hlt]
        rfl
      · refine getValueForKey_congr ext mv _ k2 kmk2 hk2 (by simp only [hne2, if_false]) ?_
        intro b hb
        obtain ⟨hbl, itb, hitb, -⟩ := (hvm kmk2 b).mp hb
        obtain ⟨itb2, hitb2, -, hval⟩ := hcont b hbl itb hitb
        have hbn : mv.items.length ≠ b := by
          have := getElem?_lt _ _ _ hitb
          omega
        exact ⟨itb, itb2, hitb, by simp only [List.getElem?_set_ne hbn]; exact hitb2, hval⟩
  · cases hv : mv.vmap kmk with
    | none =>
      have hg : mv.GetValueForKey ext k = .ok (TypedValue.mk none none 0, false) := by
        rw [getValueForKey_eq ext mv k kmk hk, hv]
      refine ⟨mv, by simp only [MapValue.DeleteForKey, hk, hv], hg, rfl, ?_, fun _ _ => rfl⟩
      intro x hx
      rw [hg] at hx
      cases hx
    | some a =>
      obtain ⟨ha, ita, hita, -⟩ := (hvm kmk a).mp hv
      obtain ⟨l1, l3, hl⟩ := List.append_of_mem ha
      subst hl
      obtain ⟨items, ml, hrem, hinv2, hcont⟩ := remove_inv ext mv l1 l3 a kmk hinv hv
      refine ⟨MapValue.mk items (fun q => if q = kmk then none else mv.vmap q) ml,
        by simp only [MapValue.DeleteForKey, hk, hv, hrem], ?_, ?_, ?_, ?_⟩
      · rw [getValueForKey_eq ext _ k kmk hk]
        simp only [if_true]
      · refine getValueForKey_congr ext mv _ k2 kmk2 hk2 (by simp only [hne2, if_false]) ?_
        intro b hb
        obtain ⟨-, itb, hitb, -⟩ := (hvm kmk2 b).mp hb
        obtain ⟨itb2, hitb2, -, hval⟩ := hcont b itb hitb
        exact ⟨itb, itb2, hitb, hitb2, hval⟩
      · intro x _
        have h1 : ml.Size = ((l1 ++ l3).length : Int) := hinv2.2.2.2.2.1
        have h2 : mv.MList.Size = ((l1 ++ a :: l3).length : Int) := hinv.2.2.2.2.1
        simp only [MapValue.GetLength, h1, h2, List.length_append, List.length_cons]
        push_cast
        ring
      · intro x hx
        rw [getValueForKey_eq ext mv k kmk hk, hv] at hx
        simp only [hita] at hx
        cases hx

/-- The theorem `map_read_after_write` at the empty map made by `MakeMap`,
with the keys "a" and "b" and the value 5 of type `int`. -/
theorem map_read_after_write_witness :
    ∃ mv2 pv mv3,
      (MapValue.MakeMap 0).GetPointerForKey sampleExt
        (TypedValue.mk (some (.PrimitiveType .StringType)) (some (.StringValue [97])) 0)
        = .ok (mv2, pv) ∧
      mv2.Assign2 pv (TypedValue.mk (some (.PrimitiveType .IntType)) none 5) = .ok mv3 ∧
      mv3.GetValueForKey sampleExt
        (TypedValue.mk (some (.PrimitiveType .StringType)) (some (.StringValue [97])) 0)
        = .ok (TypedValue.mk (some (.PrimitiveType .IntType)) none 5, true) ∧
      mv3.GetValueForKey sampleExt
        (TypedValue.mk (some (.PrimitiveType .StringType)) (some (.StringValue [98])) 0)
        = (MapValue.MakeMap 0).GetValueForKey sampleExt
          (TypedValue.mk (some (.PrimitiveType .StringType)) (some (.StringValue [98])) 0) :=
  (map_read_after_write sampleExt (MapValue.MakeMap 0) []
    (TypedValue.mk (some (.PrimitiveType .StringType)) (some (.StringValue [97])) 0)
    (TypedValue.mk (some (.PrimitiveType .StringType)) (some (.StringValue [98])) 0)
    [115, 116, 114, 105, 110, 103, 58, 97] [115, 116, 114, 105, 110, 103, 58, 98]
    (TypedValue.mk (some (.PrimitiveType .IntType)) none 5)
    ⟨inv_makeMap sampleExt 0, fun a ha => by simp at ha⟩ rfl rfl (by decide)).1

/-! ### The image of a map list and its decoding -/

/-- One pass of the loop of `UnmarshalAmino`: when the items `p` decoded so
far are linked, with any `Next` in the last of them, the pass for the item `b`
links `b` after them; the `Next` of `b` is not written. -/
theorem unmarshalStep_seg (items : List MapListItem) (ml : MapList) (p : List Nat) (b i : Nat)
    (nx : Option Nat) (itb : MapListItem) (hnd : (p ++ [b]).Nodup)
    (hb : items[b]? = some itb) (hseg : Seg items none p nx)
    (hh : ml.Head = p.head?) (ht : ml.Tail = p.getLast?) (hs : ml.Size = p.length)
    (hi : i = p.length) :
    ∃ items2 ml2, MapList.unmarshalStep items ml i b = .ok (items2, ml2) ∧
      Seg items2 none (p ++ [b]) itb.Next ∧ ml2.Head = (p ++ [b]).head? ∧
      ml2.Tail = (p ++ [b]).getLast? ∧ ml2.Size = ((p ++ [b]).length : Int) ∧
      ∀ (c : Nat) (itc : MapListItem), items[c]? = some itc →
        ∃ it2 : MapListItem, items2[c]? = some it2 ∧ it2.Key = itc.Key ∧
          it2.Value = itc.Value ∧ (c ∉ p ++ [b] → it2 = itc) := by
  have hblt : b < items.length := getElem?_lt _ _ _ hb
  have hbp : b ∉ p := by
    intro hm
    have := List.nodup_append.mp hnd
    exact this.2.2 hm (List.mem_singleton.mpr rfl)
  rcases List.eq_nil_or_concat p with rfl | ⟨p0, t, hp⟩
  · simp only [List.getLast?_nil] at ht
    simp only [List.length_nil] at hi
    subst hi
    refine ⟨items.set b (itb.setPrev none), ⟨some b, some b, ml.Size + 1⟩, ?_, ?_, rfl, rfl, ?_,
      ?_⟩
    · simp only [MapList.unmarshalStep, ht, setItem, hb, if_true]
    · exact ⟨itb.setPrev none, List.getElem?_set_self hblt, rfl, rfl, trivial⟩
    · simp only [hs]
      simp
    · intro c itc hc
      by_cases hbc : b = c
      · subst hbc
        rw [hb] at hc
        cases hc
        exact ⟨_, List.getElem?_set_self hblt, rfl, rfl, fun hn => absurd (by simp) hn⟩
      · exact ⟨itc, by rw [List.getElem?_set_ne hbc]; exact hc, rfl, rfl, fun _ => rfl⟩
  · rw [List.concat_eq_append] at hp
    subst hp
    rw [List.getLast?_concat] at ht
    have htb : t ≠ b := by
      intro e
      exact hbp (by rw [← e]; simp)
    have htp0 : t ∉ p0 := by
      have h1 := (List.nodup_append.mp hnd).1
      have h2 := List.nodup_append.mp h1
      intro hm
      exact h2.2.2 hm (List.mem_singleton.mpr rfl)
    obtain ⟨itt, hitt⟩ := seg_mem _ _ _ _ hseg t (by simp)
    have htlt : t < items.length := getElem?_lt _ _ _ hitt
    have hitt1 : (items.set b (itb.setPrev (some t)))[t]? = some itt := by
      rw [List.getElem?_set_ne (Ne.symm htb)]
      exact hitt
    have hi0 : ¬ i = 0 := by
      rw [hi]
      simp
    refine ⟨(items.set b (itb.setPrev (some t))).set t (itt.setNext (some b)),
      ⟨ml.Head, some b, ml.Size + 1⟩, ?_, ?_, ?_, ?_, ?_, ?_⟩
    · simp only [MapList.unmarshalStep, ht, setItem, hb, hitt1, hi0, if_false]
    · refine (seg_append _ (p0 ++ [t]) [b] none itb.Next).mpr ⟨?_, ?_⟩
      · refine seg_set_next_last _ p0 t none nx (some b) itt hitt1 htp0 ?_
        refine seg_frame items _ (p0 ++ [t]) none nx ?_ hseg
        intro a ha it hit
        have hab : b ≠ a := fun e => hbp (e ▸ ha)
        exact ⟨it, by rw [List.getElem?_set_ne hab]; exact hit, rfl, rfl⟩
      · have hl : lastOr none (p0 ++ [t]) = some t := by
          rw [lastOr_none, List.getLast?_append]
          rfl
        rw [hl]
        refine ⟨itb.setPrev (some t), ?_, rfl, rfl, trivial⟩
        rw [List.getElem?_set_ne htb]
        exact List.getElem?_set_self hblt
    · rw [hh]
      cases p0 <;> rfl
    · simp
    · simp only [hs]
      simp only [List.length_append, List.length_singleton, List.length_nil]
      push_cast
      ring
    · intro c itc hc
      by_cases hbc : b = c
      · subst hbc
        rw [hb] at hc
        cases hc
        refine ⟨itb.setPrev (some t), ?_, rfl, rfl, fun hn => absurd (by simp) hn⟩
        rw [List.getElem?_set_ne htb]
        exact List.getElem?_set_self hblt
      · by_cases htc : t = c
        · subst htc
          rw [hitt] at hc
          cases hc
          refine ⟨itt.setNext (some b), ?_, rfl, rfl, fun hn => absurd (by simp) hn⟩
          exact List.getElem?_set_self (by rw [List.length_set]; exact htlt)
        · refine ⟨itc, ?_, rfl, rfl, fun _ => rfl⟩
          rw [List.getElem?_set_ne htc, List.getElem?_set_ne hbc]
          exact hc

/-- The loop of `UnmarshalAmino` returns on every image of distinct items of
the heap, and links them in the order of the image; the `Next` of the last
item is the one it had. -/
theorem unmarshalLoop_seg : ∀ (s p : List Nat) (i : Nat) (items : List MapListItem)
    (ml : MapList) (nx : Option Nat), (p ++ s).Nodup →
    (∀ a ∈ s, ∃ it, items[a]? = some it) → Seg items none p nx →
    ml.Head = p.head? → ml.Tail = p.getLast? → ml.Size = p.length → i = p.length →
    ∃ items2 ml2 nx2, MapList.unmarshalLoop s i items ml = .ok (items2, ml2) ∧
      Seg items2 none (p ++ s) nx2 ∧ (s = [] → nx2 = nx) ∧
      (∀ (t : Nat) (it : MapListItem), s.getLast? = some t → items[t]? = some it →
        nx2 = it.Next) ∧
      ml2.Head = (p ++ s).head? ∧ ml2.Tail = (p ++ s).getLast? ∧
      ml2.Size = ((p ++ s).length : Int) ∧ items2.length = items.length ∧
      ∀ (c : Nat) (itc : MapListItem), items[c]? = some itc →
        ∃ it2 : MapListItem, items2[c]? = some it2 ∧ it2.Key = itc.Key ∧
          it2.Value = itc.Value ∧ (c ∉ p ++ s → it2 = itc)
  | [], p, i, items, ml, nx, _, _, hseg, hh, ht, hs, _ => by
    refine ⟨items, ml, nx, rfl, ?_, fun _ => rfl, ?_, ?_, ?_, ?_, rfl, ?_⟩
    · rw [List.append_nil]
      exact hseg
    · intro t it hl
      simp at hl
    · rw [List.append_nil]
      exact hh
    · rw [List.append_nil]
      exact ht
    · rw [List.append_nil]
      exact hs
    · intro c itc hc
      exact ⟨itc, hc, rfl, rfl, fun _ => rfl⟩
  | b :: s, p, i, items, ml, nx, hnd, hex, hseg, hh, ht, hs, hi => by
    obtain ⟨itb, hb⟩ := hex b (List.mem_cons_self _ _)
    have hnd1 : ((p ++ [b]) ++ s).Nodup := by
      rw [List.append_assoc]
      exact hnd
    have hnd2 : (p ++ [b]).Nodup := (List.nodup_append.mp hnd1).1
    obtain ⟨items1, ml1, hstep, hseg1, hh1, ht1, hs1, hc1⟩ :=
      unmarshalStep_seg items ml p b i nx itb hnd2 hb hseg hh ht hs hi
    have hex1 : ∀ a ∈ s, ∃ it, items1[a]? = some it := by
      intro a ha
      obtain ⟨it, hit⟩ := hex a (List.mem_cons_of_mem _ ha)
      obtain ⟨it2, hit2, -⟩ := hc1 a it hit
      exact ⟨it2, hit2⟩
    have hlen1 : items1.length = items.length := by
      unfold MapList.unmarshalStep at hstep
      simp only [setItem, hb] at hstep
      split at hstep
      · rename_i t htl
        split at hstep
        · cases hstep
        · rename_i items2 heq
          split at heq
          · cases heq
            cases hstep
            simp
          · cases heq
      · cases hstep
        simp
    obtain ⟨items2, ml2, nx2, hloop, hseg2, hnil2, hlast2, hh2, ht2, hs2, hlen2, hc2⟩ :=
      unmarshalLoop_seg s (p ++ [b]) (i + 1) items1 ml1 itb.Next hnd1 hex1 hseg1 hh1 ht1 hs1
        (by rw [hi]; simp)
    have hassoc : p ++ [b] ++ s = p ++ b :: s := by simp
    refine ⟨items2, ml2, nx2, ?_, ?_, (fun e => by cases e), ?_, ?_, ?_, ?_, ?_, ?_⟩
    · simp only [MapList.unmarshalLoop, hstep]
      exact hloop
    · rw [← hassoc]
      exact hseg2
    · intro t it hl hit
      cases s with
      | nil =>
        simp only [List.getLast?_singleton, Option.some.injEq] at hl
        subst hl
        rw [hb] at hit
        cases hit
        exact hnil2 rfl
      | cons x xs =>
        have hl2 : (x :: xs).getLast? = some t := by
          rw [List.getLast?_cons_cons] at hl
          exact hl
        have htm : t ∈ x :: xs := List.mem_of_mem_getLast? hl2
        have htn : t ∉ p ++ [b] := by
          intro hm
          exact (List.nodup_append.mp hnd1).2.2 hm htm
        obtain ⟨it2, hit2, -, -, heq⟩ := hc1 t it hit
        have := heq htn
        subst this
        exact hlast2 t it2 hl2 hit2
    · rw [← hassoc]
      exact hh2
    · rw [← hassoc]
      exact ht2
    · rw [← hassoc]
      exact hs2
    · rw [hlen2, hlen1]
    · intro c itc hc
      obtain ⟨it1, hit1, hk1, hv1, he1⟩ := hc1 c itc hc
      obtain ⟨it2, hit2, hk2, hv2, he2⟩ := hc2 c it1 hit1
      refine ⟨it2, hit2, hk2.trans hk1, hv2.trans hv1, ?_⟩
      intro hn
      rw [← hassoc] at hn
      have hn1 : c ∉ p ++ [b] := fun hm => hn (List.mem_append_left _ hm)
      rw [he2 hn, he1 hn1]

/-- C39. For a well-formed map list with the items `l` from `Head` to `Tail`:
`MarshalAmino` returns `l`, of length `Size`. `UnmarshalAmino` of the image
`l` into an empty map list, over every heap that holds the items of `l` with
no `Next` in the last of them (the decoded items, and the items of the list
itself), returns a list that is well formed for `l`: the items are linked in
the order of the image, `Next` and `Prev` inverse of each other, `Head` and
`Tail` are the first and the last item, `Size` is the length of the image,
`MarshalAmino` returns `l` again, and the keys and values of the items are
kept. -/
theorem mapList_round_trip (items : List MapListItem) (ml : MapList) (l : List Nat)
    (h : MapList.WF items ml l) :
    MapList.MarshalAmino items ml = some l ∧ ml.Size = (l.length : Int) ∧
    (∀ items1 : List MapListItem, (∀ a ∈ l, ∃ it, items1[a]? = some it) →
      (∀ (t : Nat) (it : MapListItem), l.getLast? = some t → items1[t]? = some it →
        it.Next = none) →
      ∃ items2 ml2,
        MapList.UnmarshalAmino items1 { Head := none, Tail := none, Size := 0 } l =
          .ok (items2, ml2) ∧
        MapList.WF items2 ml2 l ∧ MapList.MarshalAmino items2 ml2 = some l ∧
        ml2.Head = l.head? ∧ ml2.Tail = l.getLast? ∧ ml2.Size = (l.length : Int) ∧
        (∀ a ∈ l, ∀ (it : MapListItem) (b : Nat), items2[a]? = some it → it.Next = some b →
          ∃ itb : MapListItem, items2[b]? = some itb ∧ itb.Prev = some a) ∧
        (∀ a ∈ l, ∀ (it : MapListItem) (b : Nat), items2[a]? = some it → it.Prev = some b →
          ∃ itb : MapListItem, items2[b]? = some itb ∧ itb.Next = some a) ∧
        (∀ (c : Nat) (itc : MapListItem), items1[c]? = some itc →
          ∃ it2 : MapListItem, items2[c]? = some it2 ∧ it2.Key = itc.Key ∧
            it2.Value = itc.Value)) ∧
    (∀ a ∈ l, ∃ it, items[a]? = some it) ∧
    (∀ (t : Nat) (it : MapListItem), l.getLast? = some t → items[t]? = some it →
      it.Next = none) := by
  obtain ⟨hnd, hseg, hh, ht, hs⟩ := h
  have hmem : ∀ a ∈ l, ∃ it, items[a]? = some it := seg_mem _ _ _ _ hseg
  have htrav : ∀ (its : List MapListItem) (m : MapList), Seg its none l none →
      m.Head = l.head? → MapList.MarshalAmino its m = some l := by
    intro its m hsg hhd
    unfold MapList.MarshalAmino
    rw [hhd]
    refine traverseFrom_seg its l none _ hsg (nodup_length_le l _ hnd ?_)
    intro a ha
    obtain ⟨it, hit⟩ := seg_mem _ _ _ _ hsg a ha
    exact getElem?_lt _ _ _ hit
  refine ⟨htrav items ml hseg hh, hs, ?_, hmem, ?_⟩
  · intro items1 hex hlast
    obtain ⟨items2, ml2, nx2, hloop, hseg2, hnil2, hlast2, hh2, ht2, hs2, -, hc2⟩ :=
      unmarshalLoop_seg l [] 0 items1 ⟨none, none, 0⟩ none (by simpa using hnd) hex trivial rfl
        rfl rfl rfl
    simp only [List.nil_append] at hseg2 hh2 ht2 hs2 hc2
    have hnx : nx2 = none := by
      cases hl : l.getLast? with
      | none =>
        have : l = [] := List.getLast?_eq_none_iff.mp hl
        exact hnil2 this
      | some t =>
        obtain ⟨it, hit⟩ := hex t (List.mem_of_mem_getLast? hl)
        rw [hlast2 t it hl hit]
        exact hlast t it hl hit
    subst hnx
    refine ⟨items2, ml2, hloop, ⟨hnd, hseg2, hh2, ht2, hs2⟩, htrav items2 ml2 hseg2 hh2, hh2,
      ht2, hs2, ?_, ?_, ?_⟩
    · intro a ha it b hit hn
      obtain ⟨l1, l2, rfl⟩ := List.append_of_mem ha
      obtain ⟨ita, hita, -, hna, hnext, -⟩ := seg_links items2 l1 l2 a hseg2
      rw [hit] at hita
      cases hita
      rw [hn] at hna
      exact hnext b hna.symm
    · intro a ha it b hit hp
      obtain ⟨l1, l2, rfl⟩ := List.append_of_mem ha
      obtain ⟨ita, hita, hpa, -, -, hprev⟩ := seg_links items2 l1 l2 a hseg2
      rw [hit] at hita
      cases hita
      rw [hp] at hpa
      exact hprev b hpa.symm
    · intro c itc hc
      obtain ⟨it2, h1, h2, h3, -⟩ := hc2 c itc hc
      exact ⟨it2, h1, h2, h3⟩
  · intro t it hl hit
    rcases List.eq_nil_or_concat l with rfl | ⟨l0, p, hp⟩
    · simp at hl
    · rw [List.concat_eq_append] at hp
      subst hp
      rw [List.getLast?_concat] at hl
      cases hl
      obtain ⟨it2, hit2, -, hn, -, -⟩ := seg_links items l0 [] t hseg
      rw [hit] at hit2
      cases hit2
      simpa using hn

/-- The theorem `mapList_round_trip` at the sample list of two items: the
image is `[0, 1]`, and decoding it over the same heap gives a well-formed list
of the two items. -/
theorem mapList_round_trip_witness :
    MapList.MarshalAmino sampleMapItems sampleMapList = some [0, 1] ∧
    ∃ items2 ml2,
      MapList.UnmarshalAmino sampleMapItems { Head := none, Tail := none, Size := 0 } [0, 1] =
        .ok (items2, ml2) ∧
      MapList.WF items2 ml2 [0, 1] ∧ MapList.MarshalAmino items2 ml2 = some [0, 1] := by
  have hwf : MapList.WF sampleMapItems sampleMapList [0, 1] :=
    ⟨by decide, ⟨_, rfl, rfl, rfl, ⟨_, rfl, rfl, rfl, trivial⟩⟩, rfl, rfl, rfl⟩
  obtain ⟨h1, -, h2, h3, h4⟩ := mapList_round_trip sampleMapItems sampleMapList [0, 1] hwf
  obtain ⟨items2, ml2, g1, g2, g3, -⟩ := h2 sampleMapItems h3 h4
  exact ⟨h1, items2, ml2, g1, g2, g3⟩

end Gno
